import Mathlib

/-!
# eXpress: the streaming EM engine of `src/main.cpp`

A shallow embedding of `process_fragment`, of the driver loop of
`threaded_calc_abundances` and of the round logic of `main`, followed by the
properties established for them.

Conventions of the embedding.

* `double` values are an arbitrary carrier `α` with the operations the code
  applies to them (`0`, `+`, `-`, and for the mass update `*`, `1`, the cast
  from an integer and the libm functions `log`, `pow`).  Instantiating `α`
  with `ℝ` gives exact arithmetic, instantiating it with `Dbl` (below) gives
  IEEE-754 binary64 addition and subtraction.
* Calls into collaborators that are not part of `main.cpp` (the mismatch, bias
  and fragment length models, the targets, the mass propagation forest, the
  duplicate filter) are recorded as `Event`s in a trace, in program order.  The
  values they return are the fields of `Env`.
* Pointers that may be `NULL` (`mismatch_table`, `bias_table`) are booleans
  telling whether the object exists.
* A target is identified by a number; the `solvable` flags of all targets are a
  function `Nat → Bool`.
* Counters of fragments (`n`, `num_frags`, `lib.n`) are natural numbers: a
  stream is far shorter than `2^64` fragments.  `remaining_rounds` is a
  `size_t` whose decrement wraps, and is reduced modulo `2^64`.
-/

namespace Express

/-! ## Data model -/

/-- Pair status of a hit (`PairStatus` of `fragments.h`). -/
inductive PairStatus where
  | PAIRED
  | LEFT_ONLY
  | RIGHT_ONLY
  deriving DecidableEq, Repr

/-- One candidate alignment: the fields and accessors of `FragHit` that
`process_fragment` reads (`targ`, `left`, `right`, `pair_status()`, `length()`)
and the field it writes (`probability`). -/
structure FragHit (α : Type) where
  targ : Nat
  left : Int
  right : Int
  pair_status : PairStatus
  length : Nat
  probability : α

/-- A fragment: its name and its ordered hits (`frag[i]`, `frag.num_hits()`). -/
structure Fragment (α : Type) where
  name : String
  hits : List (FragHit α)

/-- Number of hits of a fragment, `frag.num_hits()`. -/
def Fragment.num_hits {α : Type} (frag : Fragment α) : Nat := frag.hits.length

/-- One input stream's state: the counters `n` and `mass_n`, whether the
optional models exist, and `stream`, the fragments that `lib.map_parser` emits
on each pass (the stream is replayed after `reset_reader()`). -/
structure Library (α : Type) where
  n : Nat
  mass_n : α
  mismatch_table : Bool
  bias_table : Bool
  stream : List (Fragment α)

/-- Calls into collaborators, in the order the code makes them. -/
inductive Event (α : Type) where
  /-- Call `(lib.mismatch_table)->log_likelihood(hit)` -/
  | mm_log_likelihood (hit : FragHit α)
  /-- Call `t->get_5_bias(pos)` -/
  | get_5_bias (t : Nat) (pos : Int)
  /-- Call `t->get_3_bias(pos)` -/
  | get_3_bias (t : Nat) (pos : Int)
  /-- Call `(lib.fld)->pmf(len)` -/
  | fld_pmf (len : Nat)
  /-- Call `t->cached_effective_length()` -/
  | cached_effective_length (t : Nat)
  /-- Call `lib.rho_forest->process_fragment(frag)`, with the fragment as passed -/
  | rho_process_fragment (frag : Fragment α)
  /-- Call `t->incr_counts(uniq)` -/
  | incr_counts (t : Nat) (uniq : Bool)
  /-- Call `t->solvable(true)` -/
  | set_solvable (t : Nat)
  /-- Call `(lib.mismatch_table)->update(hit, p, mass)` -/
  | mm_update (hit : FragHit α) (p mass : α)
  /-- Call `(lib.fld)->add_val(len, w)` -/
  | fld_add_val (len : Nat) (w : α)
  /-- Call `(lib.bias_table)->update_observed(hit, w)` -/
  | bias_update_observed (hit : FragHit α) (w : α)
  /-- Start of the `asynch_bias_update` thread -/
  | bias_update_start
  /-- Call `(lib.mismatch_table)->activate()` -/
  | mm_activate
  /-- Call `(lib.mismatch_table)->fix()` -/
  | mm_fix
  /-- Creation `new boost::thread(proc_thread, &pts)` of a worker -/
  | spawn_worker
  /-- Call `frags_seen.test_and_push(name)` with its result -/
  | test_and_push (name : String) (seen : Bool)
  /-- Call `exit(1)` after the sort-order error message -/
  | exit_1
  /-- Call `pts.proc_on.push(frag)`; `none` is the `NULL` stop signal -/
  | proc_on_push (frag : Option (Fragment α))
  /-- Call `pts.proc_out.push(frag)` -/
  | proc_out_push (frag : Fragment α)
  /-- Call `output_results(libs, n, suffix)` -/
  | output_results (n : Nat) (suffix : Nat)
  /-- Call `write_active(last_round)` followed by `reset_reader()` on library `l` -/
  | reset_reader (l : Nat) (last_round : Bool)
  /-- Call `targ_table.round_reset()` -/
  | round_reset

/-- Values returned by the collaborators and by libm. -/
structure Env (α : Type) where
  /-- Value of `MismatchTable::log_likelihood` -/
  log_likelihood : FragHit α → α
  /-- Value of `Target::get_5_bias` of target `t` at a position -/
  get_5_bias : Nat → Int → α
  /-- Value of `Target::get_3_bias` of target `t` at a position -/
  get_3_bias : Nat → Int → α
  /-- Value of `FLD::pmf` -/
  pmf : Nat → α
  /-- Value of `Target::cached_effective_length` of target `t` -/
  cached_effective_length : Nat → α
  /-- The `probability` fields of the hits after
  `RhoForest::process_fragment`, which rewrites nothing else. -/
  rho_process_fragment : Fragment α → List α
  /-- Result of `RobertsFilter::test_and_push`, as a function of the names pushed so far
  into the filter of this pass and of the name tested. -/
  test_and_push : List String → String → Bool
  /-- Function `log` of libm -/
  log : α → α
  /-- Function `pow` of libm -/
  pow : α → α → α

/-- How a run of the code ends. -/
inductive Status where
  /-- Normal completion -/
  | ok
  /-- The check `assert(frag.num_hits())` failed -/
  | assert_failed
  /-- The call `exit(1)` of the sort-order check -/
  | exit_1
  /-- A member function was called through a `NULL` pointer -/
  | null_deref
  deriving DecidableEq, Repr

/-- The options fixed by `parse_options` that the engine reads. -/
structure Options where
  burn_in : Nat
  burn_out : Nat
  edit_detect : Bool
  output_running_reads : Bool
  output_running_rounds : Bool
  num_threads : Nat

/-- The globals "used for multiple rounds of EM", and `ff_param`, which `main`
overwrites between rounds. -/
structure Rounds (α : Type) where
  ff_param : α
  first_round : Bool
  last_round : Bool
  online_additional : Bool
  both : Bool
  remaining_rounds : Nat

/-! ## `process_fragment` (main.cpp, lines 335-400) -/

/-- The log-likelihood `ll` computed for one hit, lines 350-370. -/
def hit_ll {α : Type} [Zero α] [Add α] [Sub α]
    (env : Env α) (lib : Library α) (hit : FragHit α) : α :=
  let ll : α := 0
  let ll := if lib.mismatch_table then ll + env.log_likelihood hit else ll
  let ll :=
    if lib.bias_table then
      let ll := if hit.pair_status ≠ PairStatus.RIGHT_ONLY
        then ll + env.get_5_bias hit.targ hit.left else ll
      if hit.pair_status ≠ PairStatus.LEFT_ONLY
        then ll + env.get_3_bias hit.targ (hit.right - 1) else ll
    else ll
  let ll := if hit.pair_status = PairStatus.PAIRED then ll + env.pmf hit.length else ll
  ll - env.cached_effective_length hit.targ

/-- One iteration of the scoring loop on the hit itself, line 372:
`hit.probability = ll`. -/
def score_hit {α : Type} [Zero α] [Add α] [Sub α]
    (env : Env α) (lib : Library α) (hit : FragHit α) : FragHit α :=
  { hit with probability := hit_ll env lib hit }

/-- The collaborator calls of one iteration of the scoring loop, lines 353-370. -/
def score_events {α : Type} (lib : Library α) (hit : FragHit α) : List (Event α) :=
  (if lib.mismatch_table then [Event.mm_log_likelihood hit] else []) ++
  (if lib.bias_table then
    (if hit.pair_status ≠ PairStatus.RIGHT_ONLY
      then [Event.get_5_bias hit.targ hit.left] else []) ++
    (if hit.pair_status ≠ PairStatus.LEFT_ONLY
      then [Event.get_3_bias hit.targ (hit.right - 1)] else [])
   else []) ++
  (if hit.pair_status = PairStatus.PAIRED then [Event.fld_pmf hit.length] else []) ++
  [Event.cached_effective_length hit.targ]

/-- What the parameter-update loop carries from one hit to the next. -/
structure UpdState (α : Type) where
  solvable : Nat → Bool
  trace : List (Event α)

/-- The collaborator calls of one iteration of the parameter-update loop,
lines 379-398, in program order; `solv` is the value of `t->solvable()` read on
line 384. -/
def update_events {α : Type} [Add α]
    (o : Options) (r : Rounds α) (burned_out : Bool) (lib : Library α)
    (num_hits num_solvable : Nat) (solv : Bool) (hit : FragHit α) : List (Event α) :=
  let p := hit.probability
  let t := hit.targ
  if r.first_round then
    [Event.incr_counts t (num_hits == 1)] ++
    (if !solv && num_solvable == num_hits - 1 then [Event.set_solvable t] else []) ++
    (if (!burned_out || o.edit_detect) && lib.mismatch_table
      then [Event.mm_update hit p lib.mass_n] else []) ++
    (if !burned_out then
      (if hit.pair_status = PairStatus.PAIRED
        then [Event.fld_add_val hit.length (p + lib.mass_n)] else []) ++
      (if lib.bias_table then [Event.bias_update_observed hit (p + lib.mass_n)] else [])
     else [])
  else []

/-- The `solvable` flags after one iteration of the parameter-update loop,
lines 382-386. -/
def update_solvable {α : Type} (r : Rounds α) (num_hits num_solvable : Nat)
    (solvable : Nat → Bool) (hit : FragHit α) : Nat → Bool :=
  let t := hit.targ
  if r.first_round && (!solvable t && num_solvable == num_hits - 1) then
    fun u => if u = t then true else solvable u
  else solvable

/-- One iteration of the parameter-update loop, lines 379-398. -/
def update_hit {α : Type} [Add α]
    (o : Options) (r : Rounds α) (burned_out : Bool) (lib : Library α)
    (num_hits num_solvable : Nat) (s : UpdState α) (hit : FragHit α) : UpdState α :=
  { solvable := update_solvable r num_hits num_solvable s.solvable hit,
    trace := s.trace ++
      update_events o r burned_out lib num_hits num_solvable (s.solvable hit.targ) hit }

/-- The parameter-update loop, lines 378-399. -/
def update_loop {α : Type} [Add α]
    (o : Options) (r : Rounds α) (burned_out : Bool) (lib : Library α)
    (num_hits num_solvable : Nat) : UpdState α → List (FragHit α) → UpdState α
  | s, [] => s
  | s, hit :: hits =>
    update_loop o r burned_out lib num_hits num_solvable
      (update_hit o r burned_out lib num_hits num_solvable s hit) hits

/-- Write the probabilities returned by mass propagation back into the hits. -/
def set_probabilities {α : Type} : List (FragHit α) → List α → List (FragHit α)
  | [], _ => []
  | hit :: hits, [] => hit :: hits
  | hit :: hits, p :: ps => { hit with probability := p } :: set_probabilities hits ps

/-- Result of one call of `process_fragment`. -/
structure PFResult (α : Type) where
  status : Status
  frag : Fragment α
  solvable : Nat → Bool
  trace : List (Event α)

/-- The fragment after the scoring loop, lines 343-374: every hit is scored
when there are several hits, none is touched when there is one. -/
def scored_fragment {α : Type} [Zero α] [Add α] [Sub α]
    (env : Env α) (lib : Library α) (frag : Fragment α) : Fragment α :=
  if frag.num_hits > 1 then { frag with hits := frag.hits.map (score_hit env lib) } else frag

/-- The collaborator calls of the scoring loop, lines 343-374. -/
def scoring_trace {α : Type} (lib : Library α) (frag : Fragment α) : List (Event α) :=
  if frag.num_hits > 1 then frag.hits.flatMap (score_events lib) else []

/-- The value of `num_solvable` after the scoring loop, lines 341-348. -/
def count_solvable {α : Type} (solvable : Nat → Bool) (frag : Fragment α) : Nat :=
  if frag.num_hits > 1 then frag.hits.countP (fun hit => solvable hit.targ) else 0

/-- The fragment after the call of mass propagation, line 375. -/
def propagated_fragment {α : Type} (env : Env α) (frag : Fragment α) : Fragment α :=
  { frag with hits := set_probabilities frag.hits (env.rho_process_fragment frag) }

/-- The function `process_fragment`, lines 335-400.  The assertion of line 339
is compiled in. -/
def process_fragment {α : Type} [Zero α] [Add α] [Sub α]
    (o : Options) (r : Rounds α) (burned_out : Bool) (env : Env α)
    (lib : Library α) (solvable : Nat → Bool) (frag : Fragment α) : PFResult α :=
  -- line 339: assert(frag.num_hits())
  if frag.num_hits = 0 then
    { status := Status.assert_failed, frag := frag, solvable := solvable, trace := [] }
  else
    -- lines 341-374
    let num_solvable := count_solvable solvable frag
    let scored := scored_fragment env lib frag
    let tr := scoring_trace lib frag
    -- line 375
    let tr := tr ++ [Event.rho_process_fragment scored]
    let frag1 := propagated_fragment env scored
    -- lines 378-399
    let u := update_loop o r burned_out lib frag1.num_hits num_solvable
      { solvable := solvable, trace := tr } frag1.hits
    { status := Status.ok, frag := frag1, solvable := u.solvable, trace := u.trace }

/-! ## The driver loop of `threaded_calc_abundances` (main.cpp, lines 428-574)

The driver thread is followed step by step.  A fragment pushed to `proc_on` is
handled by a worker thread running `proc_thread`; the embedding applies the
worker's iteration right after the push (one admissible schedule) and keeps
the worker's calls in a trace of their own, `worker_trace`. -/

/-- The flags of one pass over the libraries, noted when the pass starts
(bookkeeping of the embedding, not a variable of the program). -/
structure PassRecord (α : Type) where
  first_round : Bool
  last_round : Bool
  ff_param : α

/-- The state shared by all passes: the locals `n`, `num_frags`, `i`, `j` of
`threaded_calc_abundances`, the global `burned_out`, the targets, the traces of
the driver thread and of the worker threads, and the list of passes started. -/
structure RunState (α : Type) where
  n : Nat
  num_frags : Nat
  i : Nat
  j : Nat
  burned_out : Bool
  solvable : Nat → Bool
  trace : List (Event α)
  worker_trace : List (Event α)
  passes : List (PassRecord α)

/-- The state of the loop over the fragments of one library: the shared state,
the library, the size of `thread_pool` and the names pushed into
`frags_seen`. -/
structure DriverState (α : Type) extends RunState α where
  lib : Library α
  thread_pool : Nat
  frags_seen : List String

/-- Append events to the trace of the driver thread. -/
def DriverState.emit {α : Type} (s : DriverState α) (es : List (Event α)) : DriverState α :=
  { s with trace := s.trace ++ es }

/-- Lines 459-465: at `lib.n == burn_in` the bias update thread is started and
the mismatch model, when there is one, is activated. -/
def burn_in_step {α : Type} (o : Options) (s : DriverState α) : DriverState α :=
  if s.lib.n = o.burn_in then
    s.emit ([Event.bias_update_start] ++
      (if s.lib.mismatch_table then [Event.mm_activate] else []))
  else s

/-- Lines 466-469: at `lib.n == burn_out` the code calls
`(lib.mismatch_table)->fix()` without testing the pointer and sets
`burned_out`; `none` stands for the call through a `NULL` pointer. -/
def burn_out_step {α : Type} (o : Options) (s : DriverState α) : Option (DriverState α) :=
  if s.lib.n = o.burn_out then
    if s.lib.mismatch_table then
      some { s.emit [Event.mm_fix] with burned_out := true }
    else none
  else some s

/-- Lines 471-476: the worker pool is created once, when burned out and
`num_threads` is not zero. -/
def spawn_step {α : Type} (o : Options) (s : DriverState α) : DriverState α :=
  if s.burned_out && o.num_threads != 0 && s.thread_pool == 0 then
    { s.emit (List.replicate o.num_threads Event.spawn_worker) with
      thread_pool := o.num_threads }
  else s

/-- Lines 459-476, the part of an iteration that precedes the pop. -/
def loop_head {α : Type} (o : Options) (s : DriverState α) : Option (DriverState α) :=
  (burn_out_step o (burn_in_step o s)).map (spawn_step o)

/-- One iteration of `proc_thread` on a fragment, lines 414-415, applied to the
driver state: `process_fragment(frag); pts->proc_out.push(frag)`. -/
def worker_step {α : Type} [Zero α] [Add α] [Sub α]
    (o : Options) (r : Rounds α) (env : Env α)
    (s : DriverState α) (frag : Fragment α) : Status × DriverState α :=
  let res := process_fragment o r s.burned_out env s.lib s.solvable frag
  if res.status = Status.ok then
    (Status.ok, { s with solvable := res.solvable,
                         worker_trace := s.worker_trace ++ res.trace ++
                           [Event.proc_out_push res.frag] })
  else (res.status, { s with worker_trace := s.worker_trace ++ res.trace })

/-- The function `proc_thread`, lines 408-417, on the successive results of
`pts->proc_on.pop()`; `none` is the `NULL` stop signal. -/
def proc_thread {α : Type} [Zero α] [Add α] [Sub α]
    (o : Options) (r : Rounds α) (env : Env α) :
    List (Option (Fragment α)) → DriverState α → Status × DriverState α
  | [], s => (Status.ok, s)
  | none :: _, s => (Status.ok, s)
  | some frag :: queue, s =>
    match worker_step o r env s frag with
    | (Status.ok, s1) => proc_thread o r env queue s1
    | (st, s1) => (st, s1)

/-- Lines 502-510: the fragment is processed by the driver thread and pushed to
`proc_out`. -/
def inline_step {α : Type} [Zero α] [Add α] [Sub α]
    (o : Options) (r : Rounds α) (env : Env α)
    (s : DriverState α) (frag : Fragment α) : Status × DriverState α :=
  let res := process_fragment o r s.burned_out env s.lib s.solvable frag
  if res.status = Status.ok then
    (Status.ok, { s.emit (res.trace ++ [Event.proc_out_push res.frag]) with
                  solvable := res.solvable })
  else (res.status, s.emit res.trace)

/-- Lines 488-511 for a fragment that is not the sentinel. -/
def dispatch {α : Type} [Zero α] [Add α] [Sub α]
    (o : Options) (r : Rounds α) (env : Env α)
    (s : DriverState α) (frag : Fragment α) : Status × DriverState α :=
  if o.num_threads != 0 && s.burned_out then
    worker_step o r env (s.emit [Event.proc_on_push (some frag)]) frag
  else inline_step o r env s frag

/-- The increment of `mass_n`, lines 533-534, for the incremented count `n`:
`ff_param*log((double)lib.n-1) - log(pow(lib.n,ff_param) - 1)`. -/
def mass_increment {α : Type} [One α] [Sub α] [Mul α] [NatCast α]
    (env : Env α) (ff_param : α) (n : Nat) : α :=
  ff_param * env.log ((n : α) - 1) - env.log (env.pow (n : α) ff_param - 1)

/-- Lines 531-534 on the library: `lib.n++` and the update of `lib.mass_n`. -/
def mass_update {α : Type} [One α] [Add α] [Sub α] [Mul α] [NatCast α]
    (env : Env α) (ff_param : α) (lib : Library α) : Library α :=
  { lib with n := lib.n + 1,
             mass_n := lib.mass_n + mass_increment env ff_param (lib.n + 1) }

/-- Lines 513-534, the part of an iteration that follows the dispatch:
intermediate output when `n == i*pow(10.,j)`, then the counters and the mass.
The progress message of lines 525-529 only prints. -/
def bookkeeping {α : Type} [One α] [Add α] [Sub α] [Mul α] [NatCast α]
    (o : Options) (r : Rounds α) (env : Env α) (s : DriverState α) : DriverState α :=
  let s : DriverState α :=
    if o.output_running_reads && s.n == s.i * 10 ^ s.j then
      { s.emit [Event.output_results s.n s.n] with
        i := if s.i = 9 then 1 else s.i + 1,
        j := if s.i = 9 then s.j + 1 else s.j }
    else s
  { s with num_frags := s.num_frags + 1,
           n := s.n + 1,
           lib := mass_update env r.ff_param s.lib }

/-- Line 481 for a fragment that is not the sentinel: the duplicate filter is
consulted only when `first_round` holds, and a name reported as seen ends the
run with `exit(1)`. -/
def duplicate_check {α : Type} (r : Rounds α) (env : Env α)
    (s : DriverState α) (frag : Fragment α) : Status × DriverState α :=
  if r.first_round then
    if env.test_and_push s.frags_seen frag.name then
      (Status.exit_1, s.emit [Event.test_and_push frag.name true, Event.exit_1])
    else
      (Status.ok, { s.emit [Event.test_and_push frag.name false] with
                    frags_seen := s.frags_seen ++ [frag.name] })
  else (Status.ok, s)

/-- One iteration of the loop of lines 458-535 in which `pts.proc_in.pop()`
returns the fragment `frag`. -/
def iteration {α : Type} [Zero α] [One α] [Add α] [Sub α] [Mul α] [NatCast α]
    (o : Options) (r : Rounds α) (env : Env α)
    (s : DriverState α) (frag : Fragment α) : Status × DriverState α :=
  match loop_head o s with
  | none => (Status.null_deref, burn_in_step o s)
  | some s1 =>
    match duplicate_check r env s1 frag with
    | (Status.ok, s2) =>
      match dispatch o r env s2 frag with
      | (Status.ok, s3) => (Status.ok, bookkeeping o r env s3)
      | (st, s3) => (st, s3)
    | (st, s2) => (st, s2)

/-- The iteration in which `pts.proc_in.pop()` returns `NULL`: after the head of
the loop, one stop signal per thread of the pool is pushed to `proc_on` when
multi-threaded and burned out (lines 491-496), and the loop is left. -/
def final_iteration {α : Type} (o : Options) (s : DriverState α) : Status × DriverState α :=
  match loop_head o s with
  | none => (Status.null_deref, burn_in_step o s)
  | some s1 =>
    if o.num_threads != 0 && s1.burned_out then
      (Status.ok, s1.emit (List.replicate s1.thread_pool (Event.proc_on_push none)))
    else (Status.ok, s1)

/-- The loop of lines 458-535 over the fragments the parser emits, the end of
the list being the sentinel. -/
def driver_loop {α : Type} [Zero α] [One α] [Add α] [Sub α] [Mul α] [NatCast α]
    (o : Options) (r : Rounds α) (env : Env α) :
    List (Fragment α) → DriverState α → Status × DriverState α
  | [], s => final_iteration o s
  | frag :: stream, s =>
    match iteration o r env s frag with
    | (Status.ok, s1) => driver_loop o r env stream s1
    | (st, s1) => (st, s1)

/-- The state of the driver loop when the pass over a library starts, lines
445-457: `burned_out = lib.n >= burn_out`, an empty thread pool and a fresh
filter. -/
def lib_pass_start {α : Type} (o : Options) (s : RunState α) (lib : Library α) :
    DriverState α :=
  { toRunState := { s with burned_out := decide (lib.n ≥ o.burn_out) },
    lib := lib, thread_pool := 0, frags_seen := [] }

/-- The body of the loop over the libraries, lines 445-548, for one library:
the loop over the fragments from the starting state.  The joins of lines
537-548 leave the state as it is. -/
def lib_pass {α : Type} [Zero α] [One α] [Add α] [Sub α] [Mul α] [NatCast α]
    (o : Options) (r : Rounds α) (env : Env α)
    (s : RunState α) (lib : Library α) : Status × DriverState α :=
  driver_loop o r env lib.stream (lib_pass_start o s lib)

/-- The loop over the libraries, lines 444-549; returns the libraries as they
are after the pass. -/
def libs_loop {α : Type} [Zero α] [One α] [Add α] [Sub α] [Mul α] [NatCast α]
    (o : Options) (r : Rounds α) (env : Env α) :
    List (Library α) → RunState α → Status × List (Library α) × RunState α
  | [], s => (Status.ok, [], s)
  | lib :: libs, s =>
    match lib_pass o r env s lib with
    | (Status.ok, s1) =>
      match libs_loop o r env libs s1.toRunState with
      | (st, libs1, s2) => (st, s1.lib :: libs1, s2)
    | (st, s1) => (st, s1.lib :: libs, s1.toRunState)

/-- Result of `threaded_calc_abundances`: how it ended, the round globals and
the libraries it leaves, and the shared state, whose `num_frags` is the value
returned. -/
structure TCAResult (α : Type) where
  status : Status
  rounds : Rounds α
  libs : List (Library α)
  state : RunState α

/-- The shared state at the start of a pass over the libraries: the pass and
its flags are noted. -/
def RunState.note_pass {α : Type} (s : RunState α) (first_round last_round : Bool)
    (ff_param : α) : RunState α :=
  { s with passes := s.passes ++
      [{ first_round := first_round, last_round := last_round, ff_param := ff_param }] }

/-- Lines 552-563, between two passes, `remaining` being the decremented
`remaining_rounds` and `last_round` its new value: intermediate output when
asked for, `write_active(last_round)` and `reset_reader()` on every library,
`num_frags = 0`. -/
def next_round {α : Type} (o : Options) (remaining : Nat) (last_round : Bool)
    (libs : List (Library α)) (s : RunState α) : RunState α :=
  { s with
    trace := s.trace ++
      (if o.output_running_rounds then [Event.output_results s.n remaining] else []) ++
      (List.range libs.length).map (fun l => Event.reset_reader l last_round),
    num_frags := 0 }

/-- The loop of lines 442-567.  `remaining` is the value of `remaining_rounds`;
the test `online_additional && remaining_rounds--` of line 551 decrements only
when `online_additional` holds, and the decrement of 0 wraps to `2^64 - 1`.
After the decrement, `first_round = false` and
`last_round = (remaining_rounds==0 && !both)`. -/
def rounds_loop {α : Type} [Zero α] [One α] [Add α] [Sub α] [Mul α] [NatCast α]
    (o : Options) (env : Env α) (ff_param : α) (online_additional both : Bool) :
    (remaining : Nat) → (first_round last_round : Bool) →
    List (Library α) → RunState α → TCAResult α
  | remaining, first_round, last_round, libs, s =>
    match libs_loop o
        { ff_param := ff_param, first_round := first_round, last_round := last_round,
          online_additional := online_additional, both := both,
          remaining_rounds := remaining }
        env libs (s.note_pass first_round last_round ff_param) with
    | (Status.ok, libs1, s1) =>
      if online_additional then
        match remaining with
        | 0 =>
          { status := Status.ok,
            rounds :=
              { ff_param := ff_param, first_round := first_round, last_round := last_round,
                online_additional := online_additional, both := both,
                remaining_rounds := 2 ^ 64 - 1 },
            libs := libs1, state := s1 }
        | remaining1 + 1 =>
          rounds_loop o env ff_param online_additional both remaining1 false
            (remaining1 == 0 && !both) libs1
            (next_round o remaining1 (remaining1 == 0 && !both) libs1 s1)
      else
        { status := Status.ok,
          rounds :=
            { ff_param := ff_param, first_round := first_round, last_round := last_round,
              online_additional := online_additional, both := both,
              remaining_rounds := remaining },
          libs := libs1, state := s1 }
    | (st, libs1, s1) =>
      { status := st,
        rounds :=
          { ff_param := ff_param, first_round := first_round, last_round := last_round,
            online_additional := online_additional, both := both,
            remaining_rounds := remaining },
        libs := libs1, state := s1 }

/-- The function `threaded_calc_abundances`, lines 428-574: the locals `n`,
`num_frags`, `i`, `j` are initialised on lines 432-438, then the loop runs. -/
def threaded_calc_abundances {α : Type} [Zero α] [One α] [Add α] [Sub α] [Mul α] [NatCast α]
    (o : Options) (env : Env α) (r : Rounds α)
    (libs : List (Library α)) (s : RunState α) : TCAResult α :=
  rounds_loop o env r.ff_param r.online_additional r.both r.remaining_rounds
    r.first_round r.last_round libs { s with n := 1, num_frags := 0, i := 1, j := 6 }

/-! ## The rounds of `main` (main.cpp, lines 666-690) -/

/-- The value `parse_options` leaves in `last_round`, lines 266-268: it starts
as `true` (line 89) and is cleared when `remaining_rounds > 0` and an alignment
file is named. -/
def parse_options_last_round (remaining_rounds : Nat) (file_named : Bool) : Bool :=
  if remaining_rounds > 0 && file_named then false else true

/-- The round globals when `parse_options` returns: `first_round` is `true`
(line 88), `online_additional` and `both` tell whether the option was given. -/
def parse_options_rounds {α : Type} (ff_param : α) (online_additional both : Bool)
    (remaining_rounds : Nat) (file_named : Bool) : Rounds α :=
  { ff_param := ff_param, first_round := true,
    last_round := parse_options_last_round remaining_rounds file_named,
    online_additional := online_additional, both := both,
    remaining_rounds := remaining_rounds }

/-- Lines 259-265 of `parse_options`: the value left in `num_threads` for a
requested thread count `p` (option `-p`, a `size_t`), in `size_t` arithmetic,
which is modulo `2^64`:
`if (num_threads < 2) num_threads = 0; num_threads -= 2;`
`if (num_threads > 0) num_threads -= edit_detect;`. -/
def parse_options_num_threads (p : Nat) (edit_detect : Bool) : Nat :=
  let num_threads := if p < 2 then 0 else p
  let num_threads := (num_threads + 2 ^ 64 - 2) % 2 ^ 64
  if num_threads > 0 then (num_threads + 2 ^ 64 - (if edit_detect then 1 else 0)) % 2 ^ 64
  else num_threads

/-- The decrement `remaining_rounds--` of a `size_t`, which wraps at 0. -/
def decrement (n : Nat) : Nat := (n + 2 ^ 64 - 1) % 2 ^ 64

/-- The round globals after lines 680-683 of an iteration of the loop of
`main`: `remaining_rounds--` and `last_round = (remaining_rounds == 0)`. -/
def batch_rounds {α : Type} (r : Rounds α) : Rounds α :=
  { r with remaining_rounds := decrement r.remaining_rounds,
           last_round := decrement r.remaining_rounds == 0 }

/-- The shared state after lines 677-687 of an iteration of the loop of
`main`: intermediate output when asked for (with `tot_counts`, the value the
previous call returned, and `remaining_rounds` before its decrement), then
`write_active(last_round)` and `reset_reader()` on every library. -/
def batch_state {α : Type} (o : Options) (r : Rounds α) (libs : List (Library α))
    (s : RunState α) : RunState α :=
  { s with
    trace := s.trace ++
      (if o.output_running_rounds
        then [Event.output_results s.num_frags r.remaining_rounds] else []) ++
      (List.range libs.length).map
        (fun l => Event.reset_reader l (batch_rounds r).last_round) }

/-- The shared state after `targ_table.round_reset()`, lines 673 and 689. -/
def RunState.round_reset {α : Type} (s : RunState α) : RunState α :=
  { s with trace := s.trace ++ [Event.round_reset] }

/-- The loop `while (!last_round)` of lines 676-690.  Each iteration decrements
`remaining_rounds`, sets `last_round`, rewinds the parsers, calls
`threaded_calc_abundances` and resets the targets.  `fuel` bounds the number of
iterations; the result is `none` when it does not suffice. -/
def batch_loop {α : Type} [Zero α] [One α] [Add α] [Sub α] [Mul α] [NatCast α]
    (o : Options) (env : Env α) :
    Nat → Rounds α → List (Library α) → RunState α → Option (TCAResult α)
  | fuel, r, libs, s =>
    if r.last_round then
      some { status := Status.ok, rounds := r, libs := libs, state := s }
    else
      match fuel with
      | 0 => none
      | fuel1 + 1 =>
        if (threaded_calc_abundances o env (batch_rounds r) libs
            (batch_state o r libs s)).status = Status.ok then
          batch_loop o env fuel1
            (threaded_calc_abundances o env (batch_rounds r) libs
              (batch_state o r libs s)).rounds
            (threaded_calc_abundances o env (batch_rounds r) libs
              (batch_state o r libs s)).libs
            (threaded_calc_abundances o env (batch_rounds r) libs
              (batch_state o r libs s)).state.round_reset
        else
          some (threaded_calc_abundances o env (batch_rounds r) libs (batch_state o r libs s))

/-- The round globals with which `main` enters its loop, lines 668-675:
`remaining_rounds = 1` and `online_additional = false` when `both` is set,
then `ff_param = 1.0` and `first_round = false`. -/
def main_loop_rounds {α : Type} [One α] (r : Rounds α) : Rounds α :=
  { ff_param := 1, first_round := false, last_round := r.last_round,
    online_additional := if r.both then false else r.online_additional,
    both := r.both,
    remaining_rounds := if r.both then 1 else r.remaining_rounds }

/-- The rounds of `main`, lines 666-690: the first call of
`threaded_calc_abundances`, the adjustment for `both`, `round_reset()`,
`ff_param = 1.0`, `first_round = false`, then the loop of additional rounds.
The final `output_results` of line 693 is outside the engine. -/
def main_rounds {α : Type} [Zero α] [One α] [Add α] [Sub α] [Mul α] [NatCast α]
    (o : Options) (env : Env α) (fuel : Nat) (r : Rounds α)
    (libs : List (Library α)) (s : RunState α) : Option (TCAResult α) :=
  if (threaded_calc_abundances o env r libs s).status = Status.ok then
    batch_loop o env fuel
      (main_loop_rounds (threaded_calc_abundances o env r libs s).rounds)
      (threaded_calc_abundances o env r libs s).libs
      (threaded_calc_abundances o env r libs s).state.round_reset
  else some (threaded_calc_abundances o env r libs s)

/-- The shared state when `main` starts: no target is solvable, nothing has
been called. -/
def RunState.init {α : Type} : RunState α :=
  { n := 1, num_frags := 0, i := 1, j := 6, burned_out := false,
    solvable := fun _ => false, trace := [], worker_trace := [], passes := [] }

/-! ## IEEE-754 binary64 addition

Every finite `double` is an integer multiple of `2^(-1074)`, the smallest
subnormal.  A finite value is represented by that integer multiple, so that the
exact sum of two finite values is the sum of two integers, which is then
rounded to nearest, ties to even, as `+` and `-` on `double` do.  The sign of
zero is not represented. -/

/-- A `double`: a finite value `k * 2^(-1074)`, an infinity with its sign, or
a NaN. -/
inductive Dbl where
  | fin (k : Int)
  | inf (negative : Bool)
  | nan
  deriving DecidableEq, Repr

/-- The largest finite `double`, `(2^53 - 1) * 2^971`, in units of `2^(-1074)`. -/
@[irreducible]
def Dbl.max_units : Nat := (2 ^ 53 - 1) * 2 ^ 2045

/-- The least magnitude that rounds to infinity, `2^1024 - 2^970` (half an ulp
above the largest finite value, the tie going to the even neighbour `2^1024`),
in units of `2^(-1074)`. -/
@[irreducible]
def Dbl.overflow_units : Nat := 2 ^ 2098 - 2 ^ 2044

/-- Rounding of a magnitude to 53 significant bits, to nearest, ties to even.
Magnitudes below `2^53` units are subnormal or of the least exponent, hence
exact. -/
def Dbl.nearest53 (a : Nat) : Nat :=
  if a < 2 ^ 53 then a
  else
    let s := Nat.log2 a - 52
    let q := a / 2 ^ s
    let rest := a % 2 ^ s
    let half := 2 ^ (s - 1)
    if rest > half ∨ (rest = half ∧ q % 2 = 1) then (q + 1) * 2 ^ s else q * 2 ^ s

/-- Rounding of an exact result to a `double`. -/
def Dbl.round (x : Int) : Dbl :=
  if Dbl.overflow_units ≤ x.natAbs then Dbl.inf (decide (x < 0))
  else Dbl.fin (Int.sign x * (Dbl.nearest53 x.natAbs : Int))

/-- Addition of `double`s. -/
def Dbl.add : Dbl → Dbl → Dbl
  | Dbl.fin a, Dbl.fin b => Dbl.round (a + b)
  | Dbl.fin _, Dbl.inf s => Dbl.inf s
  | Dbl.inf s, Dbl.fin _ => Dbl.inf s
  | Dbl.inf s, Dbl.inf t => if s = t then Dbl.inf s else Dbl.nan
  | Dbl.nan, _ => Dbl.nan
  | _, Dbl.nan => Dbl.nan

/-- Negation of a `double`. -/
def Dbl.neg : Dbl → Dbl
  | Dbl.fin a => Dbl.fin (-a)
  | Dbl.inf s => Dbl.inf (!s)
  | Dbl.nan => Dbl.nan

/-- Subtraction of `double`s. -/
def Dbl.sub (x y : Dbl) : Dbl := Dbl.add x (Dbl.neg y)

/-- The finite `double`s: neither an infinity nor a NaN (`isfinite`). -/
def Dbl.is_finite : Dbl → Bool
  | Dbl.fin _ => true
  | _ => false

/-- Magnitude of a finite `double` in units of `2^(-1074)`; 0 otherwise. -/
def Dbl.units : Dbl → Nat
  | Dbl.fin k => k.natAbs
  | _ => 0

instance : Zero Dbl := ⟨Dbl.fin 0⟩
instance : Add Dbl := ⟨Dbl.add⟩
instance : Sub Dbl := ⟨Dbl.sub⟩

/-! ## Classification of events -/

/-- The scoring queries: `log_likelihood`, `get_5_bias`, `get_3_bias`, `pmf`
and `cached_effective_length`. -/
def Event.is_scoring {α : Type} : Event α → Bool
  | Event.mm_log_likelihood _ => true
  | Event.get_5_bias _ _ => true
  | Event.get_3_bias _ _ => true
  | Event.fld_pmf _ => true
  | Event.cached_effective_length _ => true
  | _ => false

/-- The call of mass propagation. -/
def Event.is_rho {α : Type} : Event α → Bool
  | Event.rho_process_fragment _ => true
  | _ => false

/-- The calls made by the parameter-update loop of `process_fragment`. -/
def Event.is_update {α : Type} : Event α → Bool
  | Event.incr_counts _ _ => true
  | Event.set_solvable _ => true
  | Event.mm_update _ _ _ => true
  | Event.fld_add_val _ _ => true
  | Event.bias_update_observed _ _ => true
  | _ => false

/-! ## Concrete inputs used to exercise the definitions -/

/-- A collaborator environment over the integers. -/
def ex_env : Env Int where
  log_likelihood := fun hit => -3 - (hit.targ : Int)
  get_5_bias := fun _ pos => -pos
  get_3_bias := fun _ pos => -2 * pos
  pmf := fun len => -(len : Int)
  cached_effective_length := fun t => 7 + (t : Int)
  rho_process_fragment := fun frag => frag.hits.map (fun hit => hit.probability)
  test_and_push := fun seen name => decide (name ∈ seen)
  log := fun x => x
  pow := fun x _ => x

/-- Default options: thresholds of main.cpp, no worker thread. -/
def ex_options : Options where
  burn_in := 100000
  burn_out := 5000000
  edit_detect := false
  output_running_reads := false
  output_running_rounds := false
  num_threads := 0

/-- The round globals as initialised in main.cpp, in the first round. -/
def ex_rounds : Rounds Int where
  ff_param := 1
  first_round := true
  last_round := true
  online_additional := false
  both := false
  remaining_rounds := 0

/-- A library with all three models. -/
def ex_lib : Library Int where
  n := 1
  mass_n := 0
  mismatch_table := true
  bias_table := true
  stream := []

/-- A paired hit on target `t`. -/
def ex_hit (t : Nat) : FragHit Int where
  targ := t
  left := 10
  right := 60
  pair_status := PairStatus.PAIRED
  length := 50
  probability := 0

/-- A fragment with a single hit, on target 0. -/
def ex_frag1 : Fragment Int where
  name := "r1"
  hits := [ex_hit 0]

/-- A fragment with two hits, on targets 0 and 1. -/
def ex_frag2 : Fragment Int where
  name := "r2"
  hits := [ex_hit 0, ex_hit 1]

/-- The contributing terms of a hit's score, as the specification lists them. -/
def spec_terms {α : Type} (env : Env α) (lib : Library α) (hit : FragHit α) : List α :=
  (if lib.mismatch_table then [env.log_likelihood hit] else []) ++
  (if lib.bias_table ∧ hit.pair_status ≠ PairStatus.RIGHT_ONLY
    then [env.get_5_bias hit.targ hit.left] else []) ++
  (if lib.bias_table ∧ hit.pair_status ≠ PairStatus.LEFT_ONLY
    then [env.get_3_bias hit.targ (hit.right - 1)] else []) ++
  (if hit.pair_status = PairStatus.PAIRED then [env.pmf hit.length] else [])

/-- The score of a hit as the specification words it: the contributing terms
added up from 0, minus the cached effective length of the target. -/
def spec_score {α : Type} [Zero α] [Add α] [Sub α]
    (env : Env α) (lib : Library α) (hit : FragHit α) : α :=
  (spec_terms env lib hit).foldl (fun acc t => acc + t) 0 -
    env.cached_effective_length hit.targ

/-- The fragment in which every hit has been assigned its score as the
specification words it, nothing else being changed. -/
def spec_scored {α : Type} [Zero α] [Add α] [Sub α]
    (env : Env α) (lib : Library α) (frag : Fragment α) : Fragment α :=
  { frag with
    hits := frag.hits.map (fun hit => { hit with probability := spec_score env lib hit }) }

/-- A finite `double` of magnitude at most `B` units. -/
def Dbl.bounded (B : Nat) : Dbl → Prop
  | Dbl.fin k => k.natAbs ≤ B
  | _ => False

/-- A magnitude, `2^1016` (`2^2090` units), up to which five terms cannot
overflow when added up. -/
@[irreducible]
def Dbl.safe_units : Nat := 2 ^ 2090

/-- Collaborators returning the largest finite `double` for the mismatch
log-likelihood and for the 5' bias, and zero elsewhere. -/
def ovf_env : Env Dbl where
  log_likelihood := fun _ => Dbl.fin Dbl.max_units
  get_5_bias := fun _ _ => Dbl.fin Dbl.max_units
  get_3_bias := fun _ _ => Dbl.fin 0
  pmf := fun _ => Dbl.fin 0
  cached_effective_length := fun _ => Dbl.fin 0
  rho_process_fragment := fun frag => frag.hits.map (fun hit => hit.probability)
  test_and_push := fun seen name => decide (name ∈ seen)
  log := fun x => x
  pow := fun x _ => x

/-- Collaborators returning small finite `double`s. -/
def dbl_env : Env Dbl where
  log_likelihood := fun _ => Dbl.fin (-3)
  get_5_bias := fun _ _ => Dbl.fin (-5)
  get_3_bias := fun _ _ => Dbl.fin (-7)
  pmf := fun _ => Dbl.fin (-11)
  cached_effective_length := fun _ => Dbl.fin 13
  rho_process_fragment := fun frag => frag.hits.map (fun hit => hit.probability)
  test_and_push := fun seen name => decide (name ∈ seen)
  log := fun x => x
  pow := fun x _ => x

/-- A library with a mismatch model and a bias model, over `double`s. -/
def dbl_lib : Library Dbl where
  n := 1
  mass_n := 0
  mismatch_table := true
  bias_table := true
  stream := []

/-- A paired hit on target `t`, over `double`s. -/
def dbl_hit (t : Nat) : FragHit Dbl where
  targ := t
  left := 10
  right := 60
  pair_status := PairStatus.PAIRED
  length := 50
  probability := 0

/-- A fragment with two hits, on targets 0 and 1, over `double`s. -/
def dbl_frag2 : Fragment Dbl where
  name := "r2"
  hits := [dbl_hit 0, dbl_hit 1]

/-- The round globals of the first round, over `double`s. -/
def dbl_rounds : Rounds Dbl where
  ff_param := 0
  first_round := true
  last_round := true
  online_additional := false
  both := false
  remaining_rounds := 0

/-- What no step of the driver loop changes: the list of passes and, of the
library, which models exist and what the parser emits. -/
def DriverState.same_frame {α : Type} (s s1 : DriverState α) : Prop :=
  s1.passes = s.passes ∧ s1.lib.mismatch_table = s.lib.mismatch_table ∧
  s1.lib.bias_table = s.lib.bias_table ∧ s1.lib.stream = s.lib.stream

/-- The duplicate filter reports no name of the stream as already seen, the
names in `seen` having been pushed before. -/
def guard_passes {α : Type} (env : Env α) : List String → List (Fragment α) → Bool
  | _, [] => true
  | seen, frag :: stream =>
    !env.test_and_push seen frag.name && guard_passes env (seen ++ [frag.name]) stream

/-- Input on which a pass over the library cannot end abnormally: there is a
mismatch model, every fragment has a hit, and the duplicate filter reports no
name of the stream. -/
def Library.well_formed {α : Type} (env : Env α) (lib : Library α) : Prop :=
  lib.mismatch_table = true ∧ (∀ frag ∈ lib.stream, frag.num_hits ≠ 0) ∧
  guard_passes env [] lib.stream = true

/-- The passes expected of the loop of `threaded_calc_abundances` in online
mode without `both`: one pass with the flags on entry, then one pass per
remaining round, with `first_round` false and `last_round` true on the last. -/
def expected_passes {α : Type} (ff_param : α) : Nat → Bool → Bool → List (PassRecord α)
  | 0, first_round, last_round =>
    [{ first_round := first_round, last_round := last_round, ff_param := ff_param }]
  | remaining + 1, first_round, last_round =>
    { first_round := first_round, last_round := last_round, ff_param := ff_param } ::
      expected_passes ff_param remaining false (remaining == 0)

/-- A library with all models whose stream is three single-hit fragments. -/
def ex_lib3 : Library Int :=
  { ex_lib with
    stream := [{ name := "a", hits := [ex_hit 0] }, { name := "b", hits := [ex_hit 1] },
               { name := "c", hits := [ex_hit 0] }] }

/-- Collaborators that all return the same value. -/
def Env.const {α : Type} (x : α) : Env α where
  log_likelihood := fun _ => x
  get_5_bias := fun _ _ => x
  get_3_bias := fun _ _ => x
  pmf := fun _ => x
  cached_effective_length := fun _ => x
  rho_process_fragment := fun frag => frag.hits.map (fun hit => hit.probability)
  test_and_push := fun seen name => decide (name ∈ seen)
  log := fun _ => x
  pow := fun _ _ => x

/-- The same collaborators with the given `log` and `pow`. -/
def Env.with_libm {α : Type} (env : Env α) (log : α → α) (pow : α → α → α) : Env α :=
  { env with log := log, pow := pow }

/-- A library as it is before its first fragment: the count `n` is 1. -/
def Library.start {α : Type} (mass_n : α) (mismatch_table bias_table : Bool)
    (stream : List (Fragment α)) : Library α :=
  { n := 1, mass_n := mass_n, mismatch_table := mismatch_table, bias_table := bias_table,
    stream := stream }

/-- The events of the head of an iteration, lines 459-476, from the state at
the start of the iteration. -/
def head_events {α : Type} (o : Options) (s : DriverState α) : List (Event α) :=
  (if s.lib.n = o.burn_in then
    [Event.bias_update_start] ++ (if s.lib.mismatch_table then [Event.mm_activate] else [])
   else []) ++
  (if s.lib.n = o.burn_out then [Event.mm_fix] else []) ++
  (if (s.burned_out || decide (s.lib.n = o.burn_out)) && o.num_threads != 0 &&
      s.thread_pool == 0
    then List.replicate o.num_threads Event.spawn_worker else [])

/-- The value of `burned_out` after the head of an iteration. -/
def head_burned_out {α : Type} (o : Options) (s : DriverState α) : Bool :=
  s.burned_out || decide (s.lib.n = o.burn_out)

/-- The calls of the driver that concern the filter, the channels and the
intermediate output. -/
def Event.is_plumbing {α : Type} : Event α → Bool
  | Event.test_and_push _ _ => true
  | Event.exit_1 => true
  | Event.proc_on_push _ => true
  | Event.proc_out_push _ => true
  | Event.output_results _ _ => true
  | _ => false

/-- The calls of the whole parameter-update loop, from the `solvable` flags on
entry. -/
def update_loop_events {α : Type} [Add α]
    (o : Options) (r : Rounds α) (burned_out : Bool) (lib : Library α)
    (num_hits num_solvable : Nat) : (Nat → Bool) → List (FragHit α) → List (Event α)
  | _, [] => []
  | solvable, hit :: hits =>
    update_events o r burned_out lib num_hits num_solvable (solvable hit.targ) hit ++
      update_loop_events o r burned_out lib num_hits num_solvable
        (update_solvable r num_hits num_solvable solvable hit) hits

/-- The `solvable` flags after the whole parameter-update loop. -/
def update_loop_solvable {α : Type}
    (r : Rounds α) (num_hits num_solvable : Nat) : (Nat → Bool) → List (FragHit α) → Nat → Bool
  | solvable, [] => solvable
  | solvable, hit :: hits =>
    update_loop_solvable r num_hits num_solvable
      (update_solvable r num_hits num_solvable solvable hit) hits

/-- The mismatch model is updated. -/
def Event.is_mm_update {α : Type} : Event α → Bool
  | Event.mm_update _ _ _ => true
  | _ => false

/-- The mismatch model is fixed. -/
def Event.is_mm_fix {α : Type} : Event α → Bool
  | Event.mm_fix => true
  | _ => false

/-- Some `update` on the mismatch model comes after a `fix()` in the trace. -/
def update_after_fix {α : Type} : List (Event α) → Bool
  | [] => false
  | e :: es => (e.is_mm_fix && es.any Event.is_mm_update) || update_after_fix es

/-- What the driver loop maintains, relative to the traces `base` and `wbase`
on entry, when edit detection is off: no `update` follows a `fix()` on the
driver thread, a `fix()` has set `burned_out`, and no worker calls `update`. -/
def fix_invariant {α : Type} (base wbase : List (Event α)) (s : DriverState α) : Prop :=
  ∃ ext wext, s.trace = base ++ ext ∧ s.worker_trace = wbase ++ wext ∧
    update_after_fix ext = false ∧
    (ext.any Event.is_mm_fix = true → s.burned_out = true) ∧
    (∀ e ∈ wext, e.is_mm_update = false)

/-- Thresholds small enough for a short stream: burn-in at the first fragment,
burn-out at the second; edit detection off, no worker thread. -/
def ex_options_short : Options :=
  { ex_options with burn_in := 1, burn_out := 2 }

/-- The same thresholds with edit detection on. -/
def ex_options_edit : Options :=
  { ex_options with burn_in := 1, burn_out := 2, edit_detect := true }

/-- The size of the thread pool after the head of an iteration. -/
def head_thread_pool {α : Type} (o : Options) (s : DriverState α) : Nat :=
  if head_burned_out o s && o.num_threads != 0 && s.thread_pool == 0
    then o.num_threads else s.thread_pool

/-- The events by which the lifecycle of the mismatch model is placed in the
stream: its activation, its fixing, and the completion of an inline fragment
(the push to `proc_out`). -/
inductive Milestone where
  | activate
  | fix
  | fragment
  deriving DecidableEq, Repr

/-- The milestone an event stands for, if any. -/
def Event.milestone {α : Type} : Event α → Option Milestone
  | Event.mm_activate => some Milestone.activate
  | Event.mm_fix => some Milestone.fix
  | Event.proc_out_push _ => some Milestone.fragment
  | _ => none

/-- The milestones of a trace, in order. -/
def milestones {α : Type} (trace : List (Event α)) : List Milestone :=
  trace.filterMap Event.milestone

/-- The milestones of the head of the iteration that starts with `lib.n = n`,
for a library with a mismatch model and thresholds `burn_in`, `burn_out`. -/
def head_milestones (burn_in burn_out n : Nat) : List Milestone :=
  (if n = burn_in then [Milestone.activate] else []) ++
  (if n = burn_out then [Milestone.fix] else [])

/-- The milestones of an inline pass over `k` fragments that starts with
`lib.n = n`: each iteration contributes those of its head and then its
fragment, the last one only those of its head. -/
def expected_milestones (burn_in burn_out : Nat) : Nat → Nat → List Milestone
  | n, 0 => head_milestones burn_in burn_out n
  | n, k + 1 =>
    head_milestones burn_in burn_out n ++ [Milestone.fragment] ++
      expected_milestones burn_in burn_out (n + 1) k

/-- A library with all models whose stream is six single-hit fragments. -/
def ex_lib6 : Library Int :=
  { ex_lib with
    stream := [{ name := "a", hits := [ex_hit 0] }, { name := "b", hits := [ex_hit 1] },
               { name := "c", hits := [ex_hit 0] }, { name := "d", hits := [ex_hit 2] },
               { name := "e", hits := [ex_hit 1] }, { name := "f", hits := [ex_hit 0] }] }

/-- The thresholds of the scenario: burn-in 2, burn-out 5, no worker thread. -/
def ex_options_2_5 : Options :=
  { ex_options with burn_in := 2, burn_out := 5 }

/-- The events of the head of an iteration: start of the bias update thread,
activation and fixing of the mismatch model, creation of a worker. -/
def Event.is_head {α : Type} : Event α → Bool
  | Event.bias_update_start => true
  | Event.mm_activate => true
  | Event.mm_fix => true
  | Event.spawn_worker => true
  | _ => false

/-- The operations of the auxiliary models (mismatch, bias, fragment length):
queries, observations and lifecycle calls. -/
def Event.is_model_call {α : Type} : Event α → Bool
  | Event.mm_log_likelihood _ => true
  | Event.fld_pmf _ => true
  | Event.mm_update _ _ _ => true
  | Event.fld_add_val _ _ => true
  | Event.bias_update_observed _ _ => true
  | Event.mm_activate => true
  | Event.mm_fix => true
  | _ => false

/-- The target and the argument of a call of `incr_counts`. -/
def Event.incr_counts_args {α : Type} : Event α → Option (Nat × Bool)
  | Event.incr_counts t uniq => some (t, uniq)
  | _ => none

/-- The round globals of a later round. -/
def ex_rounds_later : Rounds Int :=
  { ex_rounds with first_round := false }

/-- A fragment without hits. -/
def ex_frag0 : Fragment Int where
  name := "r0"
  hits := []

/-- The round globals of a batch round: later than the first, not online. -/
def Rounds.batch {α : Type} (ff_param : α) (both last_round : Bool) (remaining : Nat) :
    Rounds α :=
  { ff_param := ff_param, first_round := false, last_round := last_round,
    online_additional := false, both := both, remaining_rounds := remaining }

/-- A fragment with one paired hit, on target `t`. -/
def single_hit_fragment {α : Type} (name : String) (t : Nat) (p : α) : Fragment α :=
  { name := name,
    hits := [{ targ := t, left := 10, right := 60, pair_status := PairStatus.PAIRED,
               length := 50, probability := p }] }

/-- A stream of three single-hit fragments with distinct names. -/
def stream3 {α : Type} (p : α) : List (Fragment α) :=
  [single_hit_fragment "a" 0 p, single_hit_fragment "b" 1 p, single_hit_fragment "c" 0 p]

/-- The name tested and the answer of a call of `test_and_push`. -/
def Event.guard_call {α : Type} : Event α → Option (String × Bool)
  | Event.test_and_push name seen => some (name, seen)
  | _ => none

/-- The calls of `test_and_push` in a trace, in order, each with its answer. -/
def guard_calls {α : Type} (trace : List (Event α)) : List (String × Bool) :=
  trace.filterMap Event.guard_call

/-- The calls expected of the duplicate filter on a stream in the first round,
`seen` being the names pushed before: every fragment is tested in turn against
the names pushed so far, and nothing is tested after a name reported as seen. -/
def guard_log {α : Type} (env : Env α) : List String → List (Fragment α) → List (String × Bool)
  | _, [] => []
  | seen, frag :: stream =>
    if env.test_and_push seen frag.name then [(frag.name, true)]
    else (frag.name, false) :: guard_log env (seen ++ [frag.name]) stream

/-- A library whose stream names the fragment `a` twice, not consecutively. -/
def ex_lib_dup : Library Int :=
  { ex_lib with
    stream := [single_hit_fragment "a" 0 0, single_hit_fragment "b" 1 0,
               single_hit_fragment "a" 0 0] }

/-- The state of a first pass over `ex_lib_dup` in which the names `a` and `b`
have been pushed into the filter. -/
def ex_state_seen : DriverState Int :=
  { lib_pass_start ex_options RunState.init ex_lib_dup with frags_seen := ["a", "b"] }

/-- The steps of the dispatch protocol: creation of a worker, a call of
`process_fragment` (seen through its call of mass propagation), a push of a
fragment to `proc_out` or to `proc_on`, a push of the `NULL` stop signal to
`proc_on`.  Fragments are told apart by their names. -/
inductive Step where
  | spawn
  | process (name : String)
  | to_proc_out (name : String)
  | to_proc_on (name : String)
  | stop
  deriving DecidableEq, Repr

/-- The step of the dispatch protocol an event stands for, if any. -/
def Event.step {α : Type} : Event α → Option Step
  | Event.spawn_worker => some Step.spawn
  | Event.rho_process_fragment frag => some (Step.process frag.name)
  | Event.proc_out_push frag => some (Step.to_proc_out frag.name)
  | Event.proc_on_push (some frag) => some (Step.to_proc_on frag.name)
  | Event.proc_on_push none => some Step.stop
  | _ => none

/-- The steps of the dispatch protocol in a trace, in order. -/
def steps {α : Type} (trace : List (Event α)) : List Step :=
  trace.filterMap Event.step

/-- The steps that handle a fragment: processing and pushes of a fragment. -/
def Step.is_dispatch : Step → Bool
  | Step.process _ => true
  | Step.to_proc_out _ => true
  | Step.to_proc_on _ => true
  | _ => false

/-- The test `num_threads && burned_out` of line 489 in the iteration that
starts with `lib.n = n`, for a pass that started with
`burned_out = lib.n >= burn_out`. -/
def threaded (o : Options) (n : Nat) : Bool :=
  o.num_threads != 0 && decide (o.burn_out ≤ n)

/-- What the driver thread is expected to do with the fragments of the stream,
the first being popped when `lib.n = n`: a push to `proc_on` when
multi-threaded and burned out, otherwise processing and a push to
`proc_out`. -/
def expected_dispatch (o : Options) : Nat → List String → List Step
  | _, [] => []
  | n, name :: names =>
    (if threaded o n then [Step.to_proc_on name]
      else [Step.process name, Step.to_proc_out name]) ++
    expected_dispatch o (n + 1) names

/-- What the worker threads are expected to do: processing and a push to
`proc_out` for every fragment pushed to `proc_on`. -/
def expected_worker (o : Options) : Nat → List String → List Step
  | _, [] => []
  | n, name :: names =>
    (if threaded o n then [Step.process name, Step.to_proc_out name] else []) ++
    expected_worker o (n + 1) names

/-- Every push to `proc_on` of a fragment finds a pool of exactly `nt`
workers, `pool` being the size of the pool before the steps. -/
def pool_ready (nt : Nat) : Nat → List Step → Bool
  | _, [] => true
  | pool, Step.spawn :: ss => pool_ready nt (pool + 1) ss
  | pool, Step.to_proc_on _ :: ss => pool == nt && pool_ready nt pool ss
  | pool, _ :: ss => pool_ready nt pool ss

/-- The size of the pool after the head of the iteration that starts with
`lib.n = n` and a pool of size `pool`. -/
def pool_after (o : Options) (n pool : Nat) : Nat :=
  if threaded o n && pool == 0 then o.num_threads else pool

/-- The workers created by the head of the iteration that starts with
`lib.n = n` and a pool of size `pool`. -/
def spawn_steps (o : Options) (n pool : Nat) : List Step :=
  if threaded o n && pool == 0 then List.replicate o.num_threads Step.spawn else []

/-- The steps expected of the driver thread on a pass: per fragment the
creation of the pool if due, then the dispatch; on the sentinel the creation
of the pool if due, then one stop signal per worker of the pool when
multi-threaded and burned out. -/
def expected_steps (o : Options) : Nat → Nat → List String → List Step
  | n, pool, [] =>
    spawn_steps o n pool ++
      (if threaded o n then List.replicate (pool_after o n pool) Step.stop else [])
  | n, pool, name :: names =>
    spawn_steps o n pool ++
      (if threaded o n then [Step.to_proc_on name]
        else [Step.process name, Step.to_proc_out name]) ++
      expected_steps o (n + 1) (pool_after o n pool) names

/-- Two worker threads, burn-in at the first fragment, burn-out at the
second. -/
def ex_options_threads : Options :=
  { ex_options with burn_in := 1, burn_out := 2, num_threads := 2 }

/-- The operations of the mismatch model: `log_likelihood`, `update`,
`activate` and `fix`. -/
def Event.is_mismatch_call {α : Type} : Event α → Bool
  | Event.mm_log_likelihood _ => true
  | Event.mm_update _ _ _ => true
  | Event.mm_activate => true
  | Event.mm_fix => true
  | _ => false

/-- A library like `ex_lib3` but without mismatch model (`--no-error-model`). -/
def ex_lib3_no_mismatch : Library Int :=
  { ex_lib3 with mismatch_table := false }

/-- The number of additional worker threads as the specification words it:
`max(p - 2, 0)`, reduced by one when edit detection is on and that value is
positive. -/
def spec_num_threads (p : Nat) (edit_detect : Bool) : Nat :=
  if edit_detect ∧ 0 < p - 2 then p - 2 - 1 else p - 2

/-- The arguments of a call of `update` on the mismatch model. -/
def Event.mm_update_args {α : Type} : Event α → Option (FragHit α × α × α)
  | Event.mm_update hit p mass => some (hit, p, mass)
  | _ => none

/-- The arguments of a call of `add_val` on the length model. -/
def Event.add_val_args {α : Type} : Event α → Option (Nat × α)
  | Event.fld_add_val len w => some (len, w)
  | _ => none

/-- The arguments of a call of `update_observed` on the bias model. -/
def Event.update_observed_args {α : Type} : Event α → Option (FragHit α × α)
  | Event.bias_update_observed hit w => some (hit, w)
  | _ => none

/-- What the driver loop does to the models, the weights left out: the fixing
of the mismatch model and the observations forwarded to the mismatch, length
and bias models. -/
inductive Observation where
  | fix
  | update (targ : Nat)
  | add_val (len : Nat)
  | update_observed (targ : Nat)
  deriving DecidableEq, Repr

/-- The observation or fixing an event stands for, if any. -/
def Event.observation {α : Type} : Event α → Option Observation
  | Event.mm_fix => some Observation.fix
  | Event.mm_update hit _ _ => some (Observation.update hit.targ)
  | Event.fld_add_val len _ => some (Observation.add_val len)
  | Event.bias_update_observed hit _ => some (Observation.update_observed hit.targ)
  | _ => none

/-- The observations and fixings of a trace, in order. -/
def observations {α : Type} (trace : List (Event α)) : List Observation :=
  trace.filterMap Event.observation

/-- The observations expected for one hit, as the specification words the
update step: in the first round only; to the mismatch model when there is one
and it is not yet fixed or edit detection is on; to the length model (PAIRED
hits) and to the bias model (when there is one) only before burn-out. -/
def hit_observations (o : Options) (first_round burned_out mismatch bias : Bool)
    (targ : Nat) (pair_status : PairStatus) (len : Nat) : List Observation :=
  if first_round then
    (if (!burned_out || o.edit_detect) && mismatch then [Observation.update targ] else []) ++
    (if !burned_out then
      (if pair_status = PairStatus.PAIRED then [Observation.add_val len] else []) ++
      (if bias then [Observation.update_observed targ] else [])
     else [])
  else []

/-- The observations expected for a fragment: those of its hits, in order. -/
def fragment_observations {α : Type} (o : Options) (first_round burned_out mismatch bias : Bool)
    (frag : Fragment α) : List Observation :=
  frag.hits.flatMap (fun hit =>
    hit_observations o first_round burned_out mismatch bias hit.targ hit.pair_status hit.length)

/-- The observations and fixings expected on the driver thread in a pass, the
first fragment being popped when `lib.n = n`: in the iteration where
`lib.n == burn_out` the fixing comes first; a fragment that is not passed to
the workers contributes its observations, `burned_out` being `n >= burn_out`. -/
def expected_driver_observations {α : Type} (o : Options) (first_round mismatch bias : Bool) :
    Nat → List (Fragment α) → List Observation
  | n, [] => if n = o.burn_out then [Observation.fix] else []
  | n, frag :: stream =>
    (if n = o.burn_out then [Observation.fix] else []) ++
    (if threaded o n then []
      else fragment_observations o first_round (decide (o.burn_out ≤ n)) mismatch bias frag) ++
    expected_driver_observations o first_round mismatch bias (n + 1) stream

/-- The observations expected on the worker threads in a pass: those of the
fragments passed to the workers. -/
def expected_worker_observations {α : Type} (o : Options) (first_round mismatch bias : Bool) :
    Nat → List (Fragment α) → List Observation
  | _, [] => []
  | n, frag :: stream =>
    (if threaded o n
      then fragment_observations o first_round (decide (o.burn_out ≤ n)) mismatch bias frag
      else []) ++
    expected_worker_observations o first_round mismatch bias (n + 1) stream

/-- Rounding of the magnitude `a / 2^e` (in units of `2^(-1074)`) to 53
significant bits, to nearest, ties to even: at least `e` bits are dropped, the
result being a whole number of units, and more when `a / 2^e` has more than 53
bits.  For `e = 0` this is `Dbl.nearest53`. -/
def Dbl.nearest53_scaled (a e : Nat) : Nat :=
  let s := max (Nat.log2 a - 52) e
  if s = 0 then a
  else
    let q := a / 2 ^ s
    let rest := a % 2 ^ s
    let half := 2 ^ (s - 1)
    (if rest > half ∨ (rest = half ∧ q % 2 = 1) then q + 1 else q) * 2 ^ (s - e)

/-- Rounding of an exact result `x / 2^e` to a `double`. -/
def Dbl.round_scaled (x : Int) (e : Nat) : Dbl :=
  if Dbl.overflow_units * 2 ^ e ≤ x.natAbs then Dbl.inf (decide (x < 0))
  else Dbl.fin (Int.sign x * (Dbl.nearest53_scaled x.natAbs e : Int))

/-- Multiplication of `double`s: the exact product of `a` and `b` units is
`a * b / 2^1074` units. -/
def Dbl.mul : Dbl → Dbl → Dbl
  | Dbl.fin a, Dbl.fin b => Dbl.round_scaled (a * b) 1074
  | Dbl.fin a, Dbl.inf s => if a = 0 then Dbl.nan else Dbl.inf (xor (decide (a < 0)) s)
  | Dbl.inf s, Dbl.fin b => if b = 0 then Dbl.nan else Dbl.inf (xor s (decide (b < 0)))
  | Dbl.inf s, Dbl.inf t => Dbl.inf (xor s t)
  | Dbl.nan, _ => Dbl.nan
  | _, Dbl.nan => Dbl.nan

/-- Conversion of an unsigned integer to `double`, `(double)n`. -/
def Dbl.of_nat (n : Nat) : Dbl := Dbl.round ((n : Int) * 2 ^ 1074)

instance : Mul Dbl := ⟨Dbl.mul⟩
instance : One Dbl := ⟨Dbl.fin (2 ^ 1074)⟩
instance : NatCast Dbl := ⟨Dbl.of_nat⟩

/-- The comparison `x < y` of `double`s; it is false when one is a NaN. -/
def Dbl.lt : Dbl → Dbl → Bool
  | Dbl.fin a, Dbl.fin b => decide (a < b)
  | Dbl.fin _, Dbl.inf s => !s
  | Dbl.inf s, Dbl.fin _ => s
  | Dbl.inf s, Dbl.inf t => s && !t
  | _, _ => false

/-- The forgetting factor `0.99999999999999`, the `double`
`9007199254740902 * 2^(-53)`. -/
def libm_ff : Dbl := Dbl.fin (9007199254740902 * 2 ^ 1021)

/-- The values `log` of the C library returns at the two arguments met when
the mass is updated for `lib.n = 1000001` with the forgetting factor
`libm_ff`; they are the correctly rounded values:
`log(1000000.0) = 7777441025097632 * 2^(-49) = 13.815510557964274` and
`log(999999.9999998619...) = 7777441025097555 * 2^(-49) = 13.815510557964137`,
the argument of the latter being `8589934591998814 * 2^(-33)`.  Other arguments
are not met and are given a NaN. -/
def libm_log : Dbl → Dbl
  | Dbl.fin k =>
    if k = 1000000 * 2 ^ 1074 then Dbl.fin (7777441025097632 * 2 ^ 1025)
    else if k = 8589934591998814 * 2 ^ 1041 then Dbl.fin (7777441025097555 * 2 ^ 1025)
    else Dbl.nan
  | _ => Dbl.nan

/-- The value `pow` of the C library returns at the arguments met there, the
correctly rounded value:
`pow(1000001.0, 0.99999999999999) = 8589943181933406 * 2^(-33) =
1000000.9999998619`.  Other arguments are not met and are given a NaN. -/
def libm_pow : Dbl → Dbl → Dbl
  | Dbl.fin x, Dbl.fin y =>
    if x = 1000001 * 2 ^ 1074 ∧ y = 9007199254740902 * 2 ^ 1021
      then Dbl.fin (8589943181933406 * 2 ^ 1041)
    else Dbl.nan
  | _, _ => Dbl.nan

/-- Collaborators over `double`s with the values of the C library for `log`
and `pow`. -/
def libm_env : Env Dbl :=
  (Env.const (0 : Dbl)).with_libm libm_log libm_pow

/-- A library that has counted a million fragments, with mass 0. -/
def libm_lib : Library Dbl :=
  { n := 1000000, mass_n := 0, mismatch_table := true, bias_table := true, stream := [] }

/-! ## Properties -/

/-- Every event of one iteration of the update loop is an update event. -/
theorem update_events_is_update {α : Type} [Add α]
    (o : Options) (r : Rounds α) (burned_out : Bool) (lib : Library α)
    (k ns : Nat) (solv : Bool) (hit : FragHit α) :
    ∀ e ∈ update_events o r burned_out lib k ns solv hit, e.is_update = true := by
  intro e he
  unfold update_events at he
  split at he
  · simp only [List.mem_append, List.mem_singleton] at he
    rcases he with ((h | h) | h) | h
    · subst h; rfl
    · split at h <;> simp at h; subst h; rfl
    · split at h <;> simp at h; subst h; rfl
    · split at h
      · simp only [List.mem_append] at h
        rcases h with h | h
        · split at h <;> simp at h; subst h; rfl
        · split at h <;> simp at h; subst h; rfl
      · simp at h
  · simp at he

/-- The update loop only appends update events to the trace. -/
theorem update_loop_trace {α : Type} [Add α]
    (o : Options) (r : Rounds α) (burned_out : Bool) (lib : Library α)
    (k ns : Nat) (hits : List (FragHit α)) (s : UpdState α) :
    ∃ ext, (update_loop o r burned_out lib k ns s hits).trace = s.trace ++ ext ∧
      ∀ e ∈ ext, e.is_update = true := by
  induction hits generalizing s with
  | nil => exact ⟨[], by simp [update_loop]⟩
  | cons hit hits ih =>
    obtain ⟨e2, h2, p2⟩ := ih (update_hit o r burned_out lib k ns s hit)
    refine ⟨update_events o r burned_out lib k ns (s.solvable hit.targ) hit ++ e2, ?_, ?_⟩
    · rw [update_loop, h2]
      simp [update_hit, List.append_assoc]
    · intro e he
      rcases List.mem_append.mp he with h | h
      · exact update_events_is_update o r burned_out lib k ns _ hit e h
      · exact p2 e h

/-- An update event is neither a scoring query nor the mass-propagation call. -/
theorem is_update_not_scoring {α : Type} (e : Event α) (h : e.is_update = true) :
    e.is_scoring = false ∧ e.is_rho = false := by
  cases e <;> simp_all [Event.is_update, Event.is_scoring, Event.is_rho]

/-- Shape of the trace of a call that passes the assertion: the scoring
queries of every hit (only when there are several hits), then one call of mass
propagation, then update events. -/
theorem process_fragment_trace {α : Type} [Zero α] [Add α] [Sub α]
    (o : Options) (r : Rounds α) (burned_out : Bool) (env : Env α)
    (lib : Library α) (solvable : Nat → Bool) (frag : Fragment α)
    (h : frag.num_hits ≠ 0) :
    ∃ ext, (process_fragment o r burned_out env lib solvable frag).trace =
        scoring_trace lib frag ++
          [Event.rho_process_fragment (scored_fragment env lib frag)] ++ ext ∧
      ∀ e ∈ ext, e.is_update = true := by
  unfold process_fragment
  simp only [h, if_false]
  exact update_loop_trace o r burned_out lib _ _ _ _

/-- C1: for a fragment with exactly one hit, whatever models are present and
whatever `first_round` and `burned_out` are, `process_fragment` makes no scoring
query (`log_likelihood` of the mismatch model, `get_5_bias`, `get_3_bias`, `pmf`
of the length model, `cached_effective_length`) and calls mass propagation
exactly once. -/
theorem C1_single_hit_no_scoring {α : Type} [Zero α] [Add α] [Sub α]
    (o : Options) (r : Rounds α) (burned_out : Bool) (env : Env α)
    (lib : Library α) (solvable : Nat → Bool) (frag : Fragment α)
    (h1 : frag.num_hits = 1) :
    (∀ e ∈ (process_fragment o r burned_out env lib solvable frag).trace,
        e.is_scoring = false) ∧
    (process_fragment o r burned_out env lib solvable frag).trace.countP Event.is_rho = 1 ∧
    (process_fragment o r burned_out env lib solvable frag).status = Status.ok := by
  have h0 : frag.num_hits ≠ 0 := by omega
  obtain ⟨ext, ht, hu⟩ := process_fragment_trace o r burned_out env lib solvable frag h0
  have hn : ¬ frag.num_hits > 1 := by omega
  simp only [scoring_trace, hn, if_false, List.nil_append] at ht
  refine ⟨?_, ?_, ?_⟩
  · intro e he
    rw [ht] at he
    rcases List.mem_append.mp he with h | h
    · simp at h; subst h; rfl
    · exact (is_update_not_scoring e (hu e h)).1
  · rw [ht, List.countP_append]
    have : ext.countP Event.is_rho = 0 := by
      rw [List.countP_eq_zero]
      intro e he
      simp [(is_update_not_scoring e (hu e he)).2]
    simp [this, Event.is_rho]
  · simp [process_fragment, h0]

/-- C1 at a concrete single-hit fragment of a library with all models, in the
first round before burn-out. -/
theorem C1_single_hit_no_scoring_witness :
    ex_frag1.num_hits = 1 ∧
    (∀ e ∈ (process_fragment ex_options ex_rounds false ex_env ex_lib
        (fun _ => false) ex_frag1).trace, e.is_scoring = false) ∧
    (process_fragment ex_options ex_rounds false ex_env ex_lib
        (fun _ => false) ex_frag1).trace.countP Event.is_rho = 1 ∧
    (process_fragment ex_options ex_rounds false ex_env ex_lib
        (fun _ => false) ex_frag1).status = Status.ok :=
  ⟨rfl, C1_single_hit_no_scoring ex_options ex_rounds false ex_env ex_lib
    (fun _ => false) ex_frag1 rfl⟩

/-- The score computed by lines 350-370 is the score as the specification words it. -/
theorem hit_ll_eq_spec_score {α : Type} [Zero α] [Add α] [Sub α]
    (env : Env α) (lib : Library α) (hit : FragHit α) :
    hit_ll env lib hit = spec_score env lib hit := by
  unfold hit_ll spec_score spec_terms
  cases lib.mismatch_table <;> cases lib.bias_table <;> cases hit.pair_status <;>
    simp [List.foldl]

/-- Rounding to 53 bits at most doubles a magnitude. -/
theorem Dbl.nearest53_le (a : Nat) : Dbl.nearest53 a ≤ 2 * a := by
  unfold Dbl.nearest53
  split
  · omega
  · rename_i h
    have ha : a ≠ 0 := by
      intro h0; subst h0; simp at h
    have h1 : 2 ^ (Nat.log2 a - 52) ≤ a :=
      le_trans (Nat.pow_le_pow_right (by norm_num) (Nat.sub_le _ _)) (Nat.log2_self_le ha)
    have h2 : a / 2 ^ (Nat.log2 a - 52) * 2 ^ (Nat.log2 a - 52) ≤ a := Nat.div_mul_le_self _ _
    simp only
    split
    · rw [Nat.add_mul]; omega
    · omega

/-- Below the overflow threshold rounding gives a finite value, of at most
twice the magnitude. -/
theorem Dbl.round_fin (x : Int) (h : x.natAbs < Dbl.overflow_units) :
    ∃ k, Dbl.round x = Dbl.fin k ∧ k.natAbs ≤ 2 * x.natAbs := by
  unfold Dbl.round
  rw [if_neg (by omega)]
  refine ⟨_, rfl, ?_⟩
  rw [Int.natAbs_mul, Int.natAbs_ofNat]
  have h1 : (Int.sign x).natAbs ≤ 1 := by
    rcases Int.lt_trichotomy x 0 with h | h | h
    · simp [Int.sign_eq_neg_one_of_neg h]
    · simp [h]
    · simp [Int.sign_eq_one_of_pos h]
  calc (Int.sign x).natAbs * Dbl.nearest53 x.natAbs
      ≤ 1 * Dbl.nearest53 x.natAbs := Nat.mul_le_mul_right _ h1
    _ ≤ 2 * x.natAbs := by simpa using Dbl.nearest53_le x.natAbs

/-- The sum of two finite values is their rounded exact sum. -/
theorem Dbl.fin_add_fin (a b : Int) : (Dbl.fin a + Dbl.fin b : Dbl) = Dbl.round (a + b) := rfl

/-- Subtracting a finite value is adding its negation. -/
theorem Dbl.fin_sub_fin (a b : Int) :
    (Dbl.fin a - Dbl.fin b : Dbl) = (Dbl.fin a + Dbl.fin (-b) : Dbl) := rfl

/-- A sum that stays below the overflow threshold is finite. -/
theorem Dbl.add_fin (a b : Int) (h : a.natAbs + b.natAbs < Dbl.overflow_units) :
    ∃ k, (Dbl.fin a + Dbl.fin b : Dbl) = Dbl.fin k ∧ k.natAbs ≤ 2 * (a.natAbs + b.natAbs) := by
  have h1 : (a + b).natAbs ≤ a.natAbs + b.natAbs := Int.natAbs_add_le a b
  obtain ⟨k, hk, hb⟩ := Dbl.round_fin (a + b) (Nat.lt_of_le_of_lt h1 h)
  refine ⟨k, ?_, le_trans hb (Nat.mul_le_mul_left 2 h1)⟩
  rw [Dbl.fin_add_fin]
  exact hk

/-- A difference that stays below the overflow threshold is finite. -/
theorem Dbl.sub_fin (a b : Int) (h : a.natAbs + b.natAbs < Dbl.overflow_units) :
    ∃ k, (Dbl.fin a - Dbl.fin b : Dbl) = Dbl.fin k ∧ k.natAbs ≤ 2 * (a.natAbs + b.natAbs) := by
  have h2 : a.natAbs + (-b).natAbs < Dbl.overflow_units := by
    rw [Int.natAbs_neg]; exact h
  obtain ⟨k, hk, hb⟩ := Dbl.add_fin a (-b) h2
  rw [Int.natAbs_neg] at hb
  refine ⟨k, ?_, hb⟩
  rw [Dbl.fin_sub_fin]
  exact hk

/-- Adding up terms of magnitude at most `B` from a finite accumulator: while
the bound `2 ^ length * N` stays below the overflow threshold, the sum is
finite and `2 * B` below that bound. -/
theorem Dbl.foldl_add_fin (B : Nat) (terms : List Dbl) :
    ∀ (k : Int) (N : Nat), (∀ t ∈ terms, Dbl.bounded B t) →
      k.natAbs + 2 * B ≤ N → 2 ^ terms.length * N < Dbl.overflow_units →
      ∃ k1 : Int, terms.foldl (fun acc t => acc + t) (Dbl.fin k) = Dbl.fin k1 ∧
        k1.natAbs + 2 * B ≤ 2 ^ terms.length * N := by
  induction terms with
  | nil => intro k N _ hk _; exact ⟨k, rfl, by simpa using hk⟩
  | cons t ts ih =>
    intro k N ht hk hN
    have htB := ht t (List.mem_cons_self _ _)
    cases t with
    | fin b =>
      have hb : b.natAbs ≤ B := htB
      have hpos : 1 ≤ 2 ^ ts.length := Nat.one_le_two_pow
      have hlen : 2 ^ ts.length * (2 * N) = 2 ^ (List.length (Dbl.fin b :: ts)) * N := by
        rw [List.length_cons, pow_succ]; ring
      have hN2 : 2 ^ ts.length * (2 * N) < Dbl.overflow_units := by rw [hlen]; exact hN
      have hsum : k.natAbs + b.natAbs < Dbl.overflow_units := by
        have : k.natAbs + b.natAbs ≤ 2 ^ ts.length * (2 * N) := by nlinarith
        exact Nat.lt_of_le_of_lt this hN2
      obtain ⟨k2, hk2, hb2⟩ := Dbl.add_fin k b hsum
      obtain ⟨k1, hk1, hb1⟩ := ih k2 (2 * N) (fun u hu => ht u (List.mem_cons_of_mem _ hu))
        (by omega) hN2
      refine ⟨k1, ?_, ?_⟩
      · rw [List.foldl_cons, hk2, hk1]
      · rw [← hlen]; exact hb1
    | inf s => exact absurd htB (by simp [Dbl.bounded])
    | nan => exact absurd htB (by simp [Dbl.bounded])

/-- Thirty-two times the safe magnitude is below the overflow threshold. -/
theorem Dbl.safe_lt_overflow : 32 * Dbl.safe_units < Dbl.overflow_units := by
  unfold Dbl.safe_units Dbl.overflow_units
  norm_num

/-- The largest finite value has 2098 bits. -/
theorem Dbl.log2_max_units : Nat.log2 Dbl.max_units = 2097 := by
  have h0 : Dbl.max_units ≠ 0 := by unfold Dbl.max_units; norm_num
  apply le_antisymm
  · rw [← Nat.lt_succ_iff, Nat.log2_lt h0]
    unfold Dbl.max_units; norm_num
  · rw [Nat.le_log2 h0]
    unfold Dbl.max_units; norm_num

/-- The largest finite value is representable: rounding leaves it unchanged. -/
theorem Dbl.nearest53_max_units : Dbl.nearest53 Dbl.max_units = Dbl.max_units := by
  unfold Dbl.nearest53
  rw [Dbl.log2_max_units]
  unfold Dbl.max_units
  norm_num

/-- Adding the largest finite value to zero is exact. -/
theorem Dbl.zero_add_max : ((0 : Dbl) + Dbl.fin Dbl.max_units) = Dbl.fin Dbl.max_units := by
  show Dbl.fin 0 + Dbl.fin (Dbl.max_units : Int) = _
  rw [Dbl.fin_add_fin]
  unfold Dbl.round
  have h1 : ((0 : Int) + (Dbl.max_units : Int)).natAbs = Dbl.max_units := by simp
  have h2 : ¬ Dbl.overflow_units ≤ Dbl.max_units := by
    unfold Dbl.overflow_units Dbl.max_units; norm_num
  have h3 : (0 : Int) < (Dbl.max_units : Int) := by
    unfold Dbl.max_units; norm_num
  rw [h1, if_neg h2, Dbl.nearest53_max_units]
  simp [Int.sign_eq_one_of_pos h3]

/-- Twice the largest finite value overflows to `+inf`. -/
theorem Dbl.max_add_max :
    (Dbl.fin Dbl.max_units + Dbl.fin Dbl.max_units : Dbl) = Dbl.inf false := by
  rw [Dbl.fin_add_fin]
  unfold Dbl.round
  have h1 : ((Dbl.max_units : Int) + (Dbl.max_units : Int)).natAbs
      = Dbl.max_units + Dbl.max_units := by
    rw [← Int.natCast_add, Int.natAbs_ofNat]
  have h2 : Dbl.overflow_units ≤ Dbl.max_units + Dbl.max_units := by
    unfold Dbl.overflow_units Dbl.max_units; norm_num
  have h3 : ¬ ((Dbl.max_units : Int) + (Dbl.max_units : Int) < 0) := by
    have : (0 : Int) ≤ (Dbl.max_units : Int) := Int.natCast_nonneg _
    omega
  rw [h1, if_pos h2]
  simp [h3]

/-- The contributing terms of a hit under `ovf_env`. -/
theorem ovf_spec_terms (t : Nat) :
    spec_terms ovf_env dbl_lib (dbl_hit t) =
      [Dbl.fin Dbl.max_units, Dbl.fin Dbl.max_units, Dbl.fin 0, Dbl.fin 0] := by
  simp [spec_terms, ovf_env, dbl_lib, dbl_hit]

/-- A left fold over four elements, written out. -/
theorem foldl_four {α β : Type} (f : β → α → β) (z : β) (a b c d : α) :
    [a, b, c, d].foldl f z = f (f (f (f z a) b) c) d := rfl

/-- Under `ovf_env` the score of a hit overflows to `+inf`. -/
theorem ovf_hit_ll (t : Nat) : hit_ll ovf_env dbl_lib (dbl_hit t) = Dbl.inf false := by
  rw [hit_ll_eq_spec_score, spec_score, ovf_spec_terms, foldl_four,
    Dbl.zero_add_max, Dbl.max_add_max]
  rfl

/-- With several hits the scoring loop assigns every hit its score as the
specification words it. -/
theorem scored_fragment_eq {α : Type} [Zero α] [Add α] [Sub α]
    (env : Env α) (lib : Library α) (frag : Fragment α) (hk : 1 < frag.num_hits) :
    scored_fragment env lib frag =
      spec_scored env lib frag := by
  unfold scored_fragment spec_scored
  rw [if_pos hk]
  congr 1
  apply List.map_congr_left
  intro hit _
  simp [score_hit, hit_ll_eq_spec_score]

/-- A score has at most four contributing terms. -/
theorem spec_terms_length_le {α : Type} (env : Env α) (lib : Library α) (hit : FragHit α) :
    (spec_terms env lib hit).length ≤ 4 := by
  unfold spec_terms
  simp only [List.length_append]
  split <;> split <;> split <;> split <;> simp

/-- A score whose terms are finite and of safe magnitude is finite. -/
theorem spec_score_finite (env : Env Dbl) (lib : Library Dbl) (hit : FragHit Dbl)
    (ht : ∀ t ∈ spec_terms env lib hit, Dbl.bounded Dbl.safe_units t)
    (hc : Dbl.bounded Dbl.safe_units (env.cached_effective_length hit.targ)) :
    (spec_score env lib hit).is_finite = true := by
  have hlen := spec_terms_length_le env lib hit
  have hpow : 2 ^ (spec_terms env lib hit).length ≤ 2 ^ 4 :=
    Nat.pow_le_pow_right (by norm_num) hlen
  have hsafe := Dbl.safe_lt_overflow
  have hN : 2 ^ (spec_terms env lib hit).length * (2 * Dbl.safe_units) ≤ 32 * Dbl.safe_units := by
    calc 2 ^ (spec_terms env lib hit).length * (2 * Dbl.safe_units)
        ≤ 2 ^ 4 * (2 * Dbl.safe_units) := Nat.mul_le_mul_right _ hpow
      _ = 32 * Dbl.safe_units := by ring
  obtain ⟨k1, hk1, hb1⟩ := Dbl.foldl_add_fin Dbl.safe_units (spec_terms env lib hit) 0
    (2 * Dbl.safe_units) ht (by simp) (Nat.lt_of_le_of_lt hN hsafe)
  unfold spec_score
  have h0 : (0 : Dbl) = Dbl.fin 0 := rfl
  rw [h0, hk1]
  cases hce : env.cached_effective_length hit.targ with
  | fin c =>
    rw [hce] at hc
    have hcb : c.natAbs ≤ Dbl.safe_units := hc
    obtain ⟨k2, hk2, _⟩ := Dbl.sub_fin k1 c (by omega)
    rw [hk2]
    rfl
  | inf s => rw [hce] at hc; exact absurd hc (by simp [Dbl.bounded])
  | nan => rw [hce] at hc; exact absurd hc (by simp [Dbl.bounded])

/-- C2 (amended): for a fragment with more than one hit, `process_fragment`
first makes the scoring queries, then calls mass propagation exactly once, and
the fragment it passes has every hit's `probability` set to the sum, in
`double` arithmetic and from 0, of the mismatch log-likelihood (if a mismatch
model exists), `get_5_bias(left)` (bias model and not RIGHT_ONLY),
`get_3_bias(right-1)` (bias model and not LEFT_ONLY) and `pmf(length)` (PAIRED),
minus the cached effective length; that value is finite whenever every
contributing term is finite with magnitude at most `2^1016`. -/
theorem C2_scores_before_mass_propagation
    (o : Options) (r : Rounds Dbl) (burned_out : Bool) (env : Env Dbl)
    (lib : Library Dbl) (solvable : Nat → Bool) (frag : Fragment Dbl)
    (hk : 1 < frag.num_hits) :
    (∃ ext, (process_fragment o r burned_out env lib solvable frag).trace =
        scoring_trace lib frag ++
        [Event.rho_process_fragment (spec_scored env lib frag)] ++ ext ∧
        (∀ e ∈ scoring_trace lib frag, e.is_rho = false) ∧
        (∀ e ∈ ext, e.is_rho = false)) ∧
    (∀ hit ∈ frag.hits,
      (∀ t ∈ spec_terms env lib hit, Dbl.bounded Dbl.safe_units t) →
      Dbl.bounded Dbl.safe_units (env.cached_effective_length hit.targ) →
      (spec_score env lib hit).is_finite = true) := by
  refine ⟨?_, fun hit _ ht hc => spec_score_finite env lib hit ht hc⟩
  obtain ⟨ext, h1, h2⟩ := process_fragment_trace o r burned_out env lib solvable frag
    (by omega)
  rw [scored_fragment_eq env lib frag hk] at h1
  refine ⟨ext, h1, ?_, fun e he => (is_update_not_scoring e (h2 e he)).2⟩
  intro e he
  unfold scoring_trace at he
  rw [if_pos hk] at he
  simp only [List.mem_flatMap] at he
  obtain ⟨hit, _, hmem⟩ := he
  unfold score_events at hmem
  simp only [List.mem_append, List.mem_singleton] at hmem
  rcases hmem with ((h | h) | h) | h
  · split at h <;> simp at h; subst h; rfl
  · split at h
    · simp only [List.mem_append] at h
      rcases h with h | h
      · split at h <;> simp at h; subst h; rfl
      · split at h <;> simp at h; subst h; rfl
    · simp at h
  · split at h <;> simp at h; subst h; rfl
  · subst h; rfl

/-- Values of at most 13 units are of safe magnitude. -/
theorem Dbl.small_bounded (k : Int) (h : k.natAbs ≤ 13) :
    Dbl.bounded Dbl.safe_units (Dbl.fin k) := by
  have : 13 ≤ Dbl.safe_units := by unfold Dbl.safe_units; norm_num
  exact le_trans h this

/-- Under `dbl_env` every contributing term is of safe magnitude. -/
theorem dbl_env_terms_bounded (hit : FragHit Dbl) :
    (∀ t ∈ spec_terms dbl_env dbl_lib hit, Dbl.bounded Dbl.safe_units t) ∧
    Dbl.bounded Dbl.safe_units (dbl_env.cached_effective_length hit.targ) := by
  constructor
  · intro t ht
    unfold spec_terms at ht
    simp only [List.mem_append] at ht
    rcases ht with ((h | h) | h) | h
    · split at h <;> simp [dbl_env] at h; subst h; exact Dbl.small_bounded _ (by decide)
    · split at h <;> simp [dbl_env] at h; subst h; exact Dbl.small_bounded _ (by decide)
    · split at h <;> simp [dbl_env] at h; subst h; exact Dbl.small_bounded _ (by decide)
    · split at h <;> simp [dbl_env] at h; subst h; exact Dbl.small_bounded _ (by decide)
  · exact Dbl.small_bounded _ (by decide)

/-- C2 (amended) at a two-hit fragment of a library with all models and small
finite collaborator values. -/
theorem C2_scores_before_mass_propagation_witness :
    1 < dbl_frag2.num_hits ∧
    (∃ ext, (process_fragment ex_options dbl_rounds false dbl_env dbl_lib
          (fun _ => false) dbl_frag2).trace =
        scoring_trace dbl_lib dbl_frag2 ++
        [Event.rho_process_fragment (spec_scored dbl_env dbl_lib dbl_frag2)] ++ ext ∧
        (∀ e ∈ scoring_trace dbl_lib dbl_frag2, e.is_rho = false) ∧
        (∀ e ∈ ext, e.is_rho = false)) ∧
    (∀ hit ∈ dbl_frag2.hits, (spec_score dbl_env dbl_lib hit).is_finite = true) :=
  ⟨by decide,
   (C2_scores_before_mass_propagation ex_options dbl_rounds false dbl_env dbl_lib
      (fun _ => false) dbl_frag2 (by decide)).1,
   fun hit hm =>
    (C2_scores_before_mass_propagation ex_options dbl_rounds false dbl_env dbl_lib
      (fun _ => false) dbl_frag2 (by decide)).2 hit hm
      (dbl_env_terms_bounded hit).1 (dbl_env_terms_bounded hit).2⟩

/-- The scored fragment under `ovf_env`: both hits get `+inf`. -/
theorem ovf_scored :
    scored_fragment ovf_env dbl_lib dbl_frag2 =
      { name := "r2",
        hits := [{ dbl_hit 0 with probability := Dbl.inf false },
                 { dbl_hit 1 with probability := Dbl.inf false }] } := by
  unfold scored_fragment
  rw [if_pos (by decide)]
  simp only [dbl_frag2, List.map_cons, List.map_nil, score_hit, ovf_hit_ll]

/-- C2 as stated fails: with a mismatch model and a bias model that both
return the largest finite `double`, every contributing term of both hits is
finite, yet the value stored in `probability` and handed to mass propagation
is `+inf`. -/
theorem C2_overflow_counterexample :
    1 < dbl_frag2.num_hits ∧
    (∀ hit ∈ dbl_frag2.hits,
      (∀ t ∈ spec_terms ovf_env dbl_lib hit, t.is_finite = true) ∧
      (ovf_env.cached_effective_length hit.targ).is_finite = true) ∧
    Event.rho_process_fragment
      { name := "r2",
        hits := [{ dbl_hit 0 with probability := Dbl.inf false },
                 { dbl_hit 1 with probability := Dbl.inf false }] } ∈
      (process_fragment ex_options dbl_rounds false ovf_env dbl_lib
        (fun _ => false) dbl_frag2).trace ∧
    (Dbl.inf false).is_finite = false := by
  refine ⟨by decide, ?_, ?_, rfl⟩
  · intro hit hm
    have hh : hit = dbl_hit 0 ∨ hit = dbl_hit 1 := by simpa [dbl_frag2] using hm
    constructor
    · intro t ht
      rcases hh with h | h <;> subst h <;> rw [ovf_spec_terms] at ht <;>
        simp at ht <;> rcases ht with h | h <;> subst h <;> rfl
    · rfl
  · obtain ⟨ext, h1, _⟩ := process_fragment_trace ex_options dbl_rounds false ovf_env dbl_lib
      (fun _ => false) dbl_frag2 (by decide)
    rw [h1, ovf_scored]
    simp

/-- A state is in the frame of itself. -/
theorem same_frame_refl {α : Type} (s : DriverState α) : s.same_frame s :=
  ⟨rfl, rfl, rfl, rfl⟩

/-- Frames compose. -/
theorem same_frame_trans {α : Type} {s s1 s2 : DriverState α}
    (h1 : s.same_frame s1) (h2 : s1.same_frame s2) : s.same_frame s2 :=
  ⟨h2.1.trans h1.1, h2.2.1.trans h1.2.1, h2.2.2.1.trans h1.2.2.1, h2.2.2.2.trans h1.2.2.2⟩

/-- Lines 459-465 keep the frame. -/
theorem burn_in_step_frame {α : Type} (o : Options) (s : DriverState α) :
    s.same_frame (burn_in_step o s) := by
  unfold burn_in_step DriverState.emit
  split <;> exact ⟨rfl, rfl, rfl, rfl⟩

/-- Lines 466-469 keep the frame. -/
theorem burn_out_step_frame {α : Type} (o : Options) (s s1 : DriverState α)
    (h : burn_out_step o s = some s1) : s.same_frame s1 := by
  unfold burn_out_step DriverState.emit at h
  split at h
  · split at h
    · cases h; exact ⟨rfl, rfl, rfl, rfl⟩
    · cases h
  · cases h; exact ⟨rfl, rfl, rfl, rfl⟩

/-- Lines 471-476 keep the frame. -/
theorem spawn_step_frame {α : Type} (o : Options) (s : DriverState α) :
    s.same_frame (spawn_step o s) := by
  unfold spawn_step DriverState.emit
  split <;> exact ⟨rfl, rfl, rfl, rfl⟩

/-- The head of an iteration keeps the frame. -/
theorem loop_head_frame {α : Type} (o : Options) (s s1 : DriverState α)
    (h : loop_head o s = some s1) : s.same_frame s1 := by
  unfold loop_head at h
  cases h2 : burn_out_step o (burn_in_step o s) with
  | none => rw [h2] at h; cases h
  | some s2 =>
    rw [h2] at h
    cases h
    exact same_frame_trans (same_frame_trans (burn_in_step_frame o s)
      (burn_out_step_frame o _ _ h2)) (spawn_step_frame o s2)

/-- The duplicate check keeps the frame. -/
theorem duplicate_check_frame {α : Type} (r : Rounds α) (env : Env α)
    (s : DriverState α) (frag : Fragment α) :
    s.same_frame (duplicate_check r env s frag).2 := by
  unfold duplicate_check DriverState.emit
  split
  · split <;> exact ⟨rfl, rfl, rfl, rfl⟩
  · exact ⟨rfl, rfl, rfl, rfl⟩

/-- An iteration of a worker keeps the frame. -/
theorem worker_step_frame {α : Type} [Zero α] [Add α] [Sub α]
    (o : Options) (r : Rounds α) (env : Env α) (s : DriverState α) (frag : Fragment α) :
    s.same_frame (worker_step o r env s frag).2 := by
  unfold worker_step
  simp only
  split <;> exact ⟨rfl, rfl, rfl, rfl⟩

/-- An inline processing keeps the frame. -/
theorem inline_step_frame {α : Type} [Zero α] [Add α] [Sub α]
    (o : Options) (r : Rounds α) (env : Env α) (s : DriverState α) (frag : Fragment α) :
    s.same_frame (inline_step o r env s frag).2 := by
  unfold inline_step DriverState.emit
  simp only
  split <;> exact ⟨rfl, rfl, rfl, rfl⟩

/-- A dispatch keeps the frame. -/
theorem dispatch_frame {α : Type} [Zero α] [Add α] [Sub α]
    (o : Options) (r : Rounds α) (env : Env α) (s : DriverState α) (frag : Fragment α) :
    s.same_frame (dispatch o r env s frag).2 := by
  unfold dispatch
  split
  · exact same_frame_trans (show s.same_frame (s.emit _) from ⟨rfl, rfl, rfl, rfl⟩)
      (worker_step_frame o r env _ frag)
  · exact inline_step_frame o r env s frag

/-- The bookkeeping keeps the frame. -/
theorem bookkeeping_frame {α : Type} [One α] [Add α] [Sub α] [Mul α] [NatCast α]
    (o : Options) (r : Rounds α) (env : Env α) (s : DriverState α) :
    s.same_frame (bookkeeping o r env s) := by
  unfold bookkeeping DriverState.emit mass_update
  simp only
  split <;> exact ⟨rfl, rfl, rfl, rfl⟩

/-- The four ways an iteration on a fragment can go. -/
theorem iteration_cases {α : Type} [Zero α] [One α] [Add α] [Sub α] [Mul α] [NatCast α]
    (o : Options) (r : Rounds α) (env : Env α) (s : DriverState α) (frag : Fragment α) :
    (loop_head o s = none ∧
      iteration o r env s frag = (Status.null_deref, burn_in_step o s)) ∨
    (∃ s1 st s2, loop_head o s = some s1 ∧ duplicate_check r env s1 frag = (st, s2) ∧
      st ≠ Status.ok ∧ iteration o r env s frag = (st, s2)) ∨
    (∃ s1 s2 st s3, loop_head o s = some s1 ∧
      duplicate_check r env s1 frag = (Status.ok, s2) ∧
      dispatch o r env s2 frag = (st, s3) ∧ st ≠ Status.ok ∧
      iteration o r env s frag = (st, s3)) ∨
    (∃ s1 s2 s3, loop_head o s = some s1 ∧
      duplicate_check r env s1 frag = (Status.ok, s2) ∧
      dispatch o r env s2 frag = (Status.ok, s3) ∧
      iteration o r env s frag = (Status.ok, bookkeeping o r env s3)) := by
  unfold iteration
  cases h1 : loop_head o s with
  | none => exact Or.inl ⟨rfl, rfl⟩
  | some s1 =>
    rcases h2 : duplicate_check r env s1 frag with ⟨st2, s2⟩
    by_cases e2 : st2 = Status.ok
    · subst e2
      rcases h3 : dispatch o r env s2 frag with ⟨st3, s3⟩
      by_cases e3 : st3 = Status.ok
      · subst e3
        exact Or.inr (Or.inr (Or.inr ⟨s1, s2, s3, rfl, h2, h3, by simp [h2, h3]⟩))
      · refine Or.inr (Or.inr (Or.inl ⟨s1, s2, st3, s3, rfl, h2, h3, e3, ?_⟩))
        cases st3 <;> simp_all
    · refine Or.inr (Or.inl ⟨s1, st2, s2, rfl, h2, e2, ?_⟩)
      cases st2 <;> simp_all

/-- An iteration keeps the frame, however it ends. -/
theorem iteration_frame {α : Type} [Zero α] [One α] [Add α] [Sub α] [Mul α] [NatCast α]
    (o : Options) (r : Rounds α) (env : Env α) (s : DriverState α) (frag : Fragment α) :
    s.same_frame (iteration o r env s frag).2 := by
  rcases iteration_cases o r env s frag with ⟨_, h⟩ | ⟨s1, st, s2, h1, h2, _, h⟩ |
    ⟨s1, s2, st, s3, h1, h2, h3, _, h⟩ | ⟨s1, s2, s3, h1, h2, h3, h⟩
  · rw [h]; exact burn_in_step_frame o s
  · rw [h]
    have f2 := duplicate_check_frame r env s1 frag
    rw [h2] at f2
    exact same_frame_trans (loop_head_frame o s s1 h1) f2
  · rw [h]
    have f2 := duplicate_check_frame r env s1 frag
    rw [h2] at f2
    have f3 := dispatch_frame o r env s2 frag
    rw [h3] at f3
    exact same_frame_trans (same_frame_trans (loop_head_frame o s s1 h1) f2) f3
  · rw [h]
    have f2 := duplicate_check_frame r env s1 frag
    rw [h2] at f2
    have f3 := dispatch_frame o r env s2 frag
    rw [h3] at f3
    exact same_frame_trans (same_frame_trans (same_frame_trans (loop_head_frame o s s1 h1) f2) f3)
      (bookkeeping_frame o r env s3)

/-- The last iteration keeps the frame. -/
theorem final_iteration_frame {α : Type} (o : Options) (s : DriverState α) :
    s.same_frame (final_iteration o s).2 := by
  unfold final_iteration
  cases h1 : loop_head o s with
  | none => exact burn_in_step_frame o s
  | some s1 =>
    have f1 := loop_head_frame o s s1 h1
    simp only
    split
    · exact same_frame_trans f1 ⟨rfl, rfl, rfl, rfl⟩
    · exact f1

/-- The loop continues after an iteration that ends normally. -/
theorem driver_loop_cons_ok {α : Type} [Zero α] [One α] [Add α] [Sub α] [Mul α] [NatCast α]
    (o : Options) (r : Rounds α) (env : Env α) (frag : Fragment α)
    (stream : List (Fragment α)) (s s1 : DriverState α)
    (h : iteration o r env s frag = (Status.ok, s1)) :
    driver_loop o r env (frag :: stream) s = driver_loop o r env stream s1 := by
  rw [driver_loop, h]

/-- The loop stops at an iteration that ends abnormally. -/
theorem driver_loop_cons_fail {α : Type} [Zero α] [One α] [Add α] [Sub α] [Mul α] [NatCast α]
    (o : Options) (r : Rounds α) (env : Env α) (frag : Fragment α)
    (stream : List (Fragment α)) (s s1 : DriverState α) (st : Status)
    (h : iteration o r env s frag = (st, s1)) (hst : st ≠ Status.ok) :
    driver_loop o r env (frag :: stream) s = (st, s1) := by
  rw [driver_loop, h]
  cases st <;> simp_all

/-- The loop over the fragments keeps the frame, however it ends. -/
theorem driver_loop_frame {α : Type} [Zero α] [One α] [Add α] [Sub α] [Mul α] [NatCast α]
    (o : Options) (r : Rounds α) (env : Env α) (stream : List (Fragment α)) :
    ∀ s : DriverState α, s.same_frame (driver_loop o r env stream s).2 := by
  induction stream with
  | nil => intro s; exact final_iteration_frame o s
  | cons frag stream ih =>
    intro s
    have f1 := iteration_frame o r env s frag
    rcases h : iteration o r env s frag with ⟨st, s1⟩
    rw [h] at f1
    by_cases hst : st = Status.ok
    · subst hst
      rw [driver_loop_cons_ok o r env frag stream s s1 h]
      exact same_frame_trans f1 (ih s1)
    · rw [driver_loop_cons_fail o r env frag stream s s1 st h hst]
      exact f1

/-- Lines 459-465 leave the library as it is. -/
theorem burn_in_step_lib {α : Type} (o : Options) (s : DriverState α) :
    (burn_in_step o s).lib = s.lib := by
  unfold burn_in_step DriverState.emit
  try dsimp only
  repeat' split
  all_goals rfl

/-- Lines 459-465 leave `burned_out` as it is. -/
theorem burn_in_step_burned_out {α : Type} (o : Options) (s : DriverState α) :
    (burn_in_step o s).burned_out = s.burned_out := by
  unfold burn_in_step DriverState.emit
  try dsimp only
  repeat' split
  all_goals rfl

/-- Lines 459-465 leave the names pushed into the filter as it is. -/
theorem burn_in_step_frags_seen {α : Type} (o : Options) (s : DriverState α) :
    (burn_in_step o s).frags_seen = s.frags_seen := by
  unfold burn_in_step DriverState.emit
  try dsimp only
  repeat' split
  all_goals rfl

/-- Lines 459-465 leave the thread pool as it is. -/
theorem burn_in_step_thread_pool {α : Type} (o : Options) (s : DriverState α) :
    (burn_in_step o s).thread_pool = s.thread_pool := by
  unfold burn_in_step DriverState.emit
  try dsimp only
  repeat' split
  all_goals rfl

/-- Lines 459-465 leave the `solvable` flags as it is. -/
theorem burn_in_step_solvable {α : Type} (o : Options) (s : DriverState α) :
    (burn_in_step o s).solvable = s.solvable := by
  unfold burn_in_step DriverState.emit
  try dsimp only
  repeat' split
  all_goals rfl

/-- Lines 459-465 leave the local `n` as it is. -/
theorem burn_in_step_n {α : Type} (o : Options) (s : DriverState α) :
    (burn_in_step o s).n = s.n := by
  unfold burn_in_step DriverState.emit
  try dsimp only
  repeat' split
  all_goals rfl

/-- Lines 459-465 leave `num_frags` as it is. -/
theorem burn_in_step_num_frags {α : Type} (o : Options) (s : DriverState α) :
    (burn_in_step o s).num_frags = s.num_frags := by
  unfold burn_in_step DriverState.emit
  try dsimp only
  repeat' split
  all_goals rfl

/-- Lines 466-469 leave the library as it is. -/
theorem burn_out_step_lib {α : Type} (o : Options) (s : DriverState α) (s1 : DriverState α)
    (h : burn_out_step o s = some s1) : s1.lib = s.lib := by
  unfold burn_out_step DriverState.emit at h
  repeat' split at h
  all_goals first | (cases h; rfl) | cases h

/-- Lines 466-469 leave the names pushed into the filter as it is. -/
theorem burn_out_step_frags_seen {α : Type} (o : Options) (s : DriverState α) (s1 : DriverState α)
    (h : burn_out_step o s = some s1) : s1.frags_seen = s.frags_seen := by
  unfold burn_out_step DriverState.emit at h
  repeat' split at h
  all_goals first | (cases h; rfl) | cases h

/-- Lines 466-469 leave the thread pool as it is. -/
theorem burn_out_step_thread_pool {α : Type} (o : Options) (s : DriverState α) (s1 : DriverState α)
    (h : burn_out_step o s = some s1) : s1.thread_pool = s.thread_pool := by
  unfold burn_out_step DriverState.emit at h
  repeat' split at h
  all_goals first | (cases h; rfl) | cases h

/-- Lines 466-469 leave the `solvable` flags as it is. -/
theorem burn_out_step_solvable {α : Type} (o : Options) (s : DriverState α) (s1 : DriverState α)
    (h : burn_out_step o s = some s1) : s1.solvable = s.solvable := by
  unfold burn_out_step DriverState.emit at h
  repeat' split at h
  all_goals first | (cases h; rfl) | cases h

/-- Lines 466-469 leave the local `n` as it is. -/
theorem burn_out_step_n {α : Type} (o : Options) (s : DriverState α) (s1 : DriverState α)
    (h : burn_out_step o s = some s1) : s1.n = s.n := by
  unfold burn_out_step DriverState.emit at h
  repeat' split at h
  all_goals first | (cases h; rfl) | cases h

/-- Lines 466-469 leave `num_frags` as it is. -/
theorem burn_out_step_num_frags {α : Type} (o : Options) (s : DriverState α) (s1 : DriverState α)
    (h : burn_out_step o s = some s1) : s1.num_frags = s.num_frags := by
  unfold burn_out_step DriverState.emit at h
  repeat' split at h
  all_goals first | (cases h; rfl) | cases h

/-- Lines 471-476 leave the library as it is. -/
theorem spawn_step_lib {α : Type} (o : Options) (s : DriverState α) :
    (spawn_step o s).lib = s.lib := by
  unfold spawn_step DriverState.emit
  try dsimp only
  repeat' split
  all_goals rfl

/-- Lines 471-476 leave `burned_out` as it is. -/
theorem spawn_step_burned_out {α : Type} (o : Options) (s : DriverState α) :
    (spawn_step o s).burned_out = s.burned_out := by
  unfold spawn_step DriverState.emit
  try dsimp only
  repeat' split
  all_goals rfl

/-- Lines 471-476 leave the names pushed into the filter as it is. -/
theorem spawn_step_frags_seen {α : Type} (o : Options) (s : DriverState α) :
    (spawn_step o s).frags_seen = s.frags_seen := by
  unfold spawn_step DriverState.emit
  try dsimp only
  repeat' split
  all_goals rfl

/-- Lines 471-476 leave the `solvable` flags as it is. -/
theorem spawn_step_solvable {α : Type} (o : Options) (s : DriverState α) :
    (spawn_step o s).solvable = s.solvable := by
  unfold spawn_step DriverState.emit
  try dsimp only
  repeat' split
  all_goals rfl

/-- Lines 471-476 leave the local `n` as it is. -/
theorem spawn_step_n {α : Type} (o : Options) (s : DriverState α) :
    (spawn_step o s).n = s.n := by
  unfold spawn_step DriverState.emit
  try dsimp only
  repeat' split
  all_goals rfl

/-- Lines 471-476 leave `num_frags` as it is. -/
theorem spawn_step_num_frags {α : Type} (o : Options) (s : DriverState α) :
    (spawn_step o s).num_frags = s.num_frags := by
  unfold spawn_step DriverState.emit
  try dsimp only
  repeat' split
  all_goals rfl

/-- The duplicate check leaves the library as it is. -/
theorem duplicate_check_lib {α : Type} (r : Rounds α) (env : Env α) (s : DriverState α) (frag : Fragment α) :
    (duplicate_check r env s frag).2.lib = s.lib := by
  unfold duplicate_check DriverState.emit
  try dsimp only
  repeat' split
  all_goals rfl

/-- The duplicate check leaves `burned_out` as it is. -/
theorem duplicate_check_burned_out {α : Type} (r : Rounds α) (env : Env α) (s : DriverState α) (frag : Fragment α) :
    (duplicate_check r env s frag).2.burned_out = s.burned_out := by
  unfold duplicate_check DriverState.emit
  try dsimp only
  repeat' split
  all_goals rfl

/-- The duplicate check leaves the thread pool as it is. -/
theorem duplicate_check_thread_pool {α : Type} (r : Rounds α) (env : Env α) (s : DriverState α) (frag : Fragment α) :
    (duplicate_check r env s frag).2.thread_pool = s.thread_pool := by
  unfold duplicate_check DriverState.emit
  try dsimp only
  repeat' split
  all_goals rfl

/-- The duplicate check leaves the `solvable` flags as it is. -/
theorem duplicate_check_solvable {α : Type} (r : Rounds α) (env : Env α) (s : DriverState α) (frag : Fragment α) :
    (duplicate_check r env s frag).2.solvable = s.solvable := by
  unfold duplicate_check DriverState.emit
  try dsimp only
  repeat' split
  all_goals rfl

/-- The duplicate check leaves the local `n` as it is. -/
theorem duplicate_check_n {α : Type} (r : Rounds α) (env : Env α) (s : DriverState α) (frag : Fragment α) :
    (duplicate_check r env s frag).2.n = s.n := by
  unfold duplicate_check DriverState.emit
  try dsimp only
  repeat' split
  all_goals rfl

/-- The duplicate check leaves `num_frags` as it is. -/
theorem duplicate_check_num_frags {α : Type} (r : Rounds α) (env : Env α) (s : DriverState α) (frag : Fragment α) :
    (duplicate_check r env s frag).2.num_frags = s.num_frags := by
  unfold duplicate_check DriverState.emit
  try dsimp only
  repeat' split
  all_goals rfl

/-- An iteration of a worker leaves the library as it is. -/
theorem worker_step_lib {α : Type} [Zero α] [Add α] [Sub α] (o : Options) (r : Rounds α) (env : Env α) (s : DriverState α) (frag : Fragment α) :
    (worker_step o r env s frag).2.lib = s.lib := by
  unfold worker_step
  try dsimp only
  repeat' split
  all_goals rfl

/-- An iteration of a worker leaves `burned_out` as it is. -/
theorem worker_step_burned_out {α : Type} [Zero α] [Add α] [Sub α] (o : Options) (r : Rounds α) (env : Env α) (s : DriverState α) (frag : Fragment α) :
    (worker_step o r env s frag).2.burned_out = s.burned_out := by
  unfold worker_step
  try dsimp only
  repeat' split
  all_goals rfl

/-- An iteration of a worker leaves the thread pool as it is. -/
theorem worker_step_thread_pool {α : Type} [Zero α] [Add α] [Sub α] (o : Options) (r : Rounds α) (env : Env α) (s : DriverState α) (frag : Fragment α) :
    (worker_step o r env s frag).2.thread_pool = s.thread_pool := by
  unfold worker_step
  try dsimp only
  repeat' split
  all_goals rfl

/-- An iteration of a worker leaves the names pushed into the filter as it is. -/
theorem worker_step_frags_seen {α : Type} [Zero α] [Add α] [Sub α] (o : Options) (r : Rounds α) (env : Env α) (s : DriverState α) (frag : Fragment α) :
    (worker_step o r env s frag).2.frags_seen = s.frags_seen := by
  unfold worker_step
  try dsimp only
  repeat' split
  all_goals rfl

/-- An iteration of a worker leaves the trace of the driver thread as it is. -/
theorem worker_step_trace {α : Type} [Zero α] [Add α] [Sub α] (o : Options) (r : Rounds α) (env : Env α) (s : DriverState α) (frag : Fragment α) :
    (worker_step o r env s frag).2.trace = s.trace := by
  unfold worker_step
  try dsimp only
  repeat' split
  all_goals rfl

/-- An iteration of a worker leaves the local `n` as it is. -/
theorem worker_step_n {α : Type} [Zero α] [Add α] [Sub α] (o : Options) (r : Rounds α) (env : Env α) (s : DriverState α) (frag : Fragment α) :
    (worker_step o r env s frag).2.n = s.n := by
  unfold worker_step
  try dsimp only
  repeat' split
  all_goals rfl

/-- An iteration of a worker leaves `num_frags` as it is. -/
theorem worker_step_num_frags {α : Type} [Zero α] [Add α] [Sub α] (o : Options) (r : Rounds α) (env : Env α) (s : DriverState α) (frag : Fragment α) :
    (worker_step o r env s frag).2.num_frags = s.num_frags := by
  unfold worker_step
  try dsimp only
  repeat' split
  all_goals rfl

/-- An inline processing leaves the library as it is. -/
theorem inline_step_lib {α : Type} [Zero α] [Add α] [Sub α] (o : Options) (r : Rounds α) (env : Env α) (s : DriverState α) (frag : Fragment α) :
    (inline_step o r env s frag).2.lib = s.lib := by
  unfold inline_step DriverState.emit
  try dsimp only
  repeat' split
  all_goals rfl

/-- An inline processing leaves `burned_out` as it is. -/
theorem inline_step_burned_out {α : Type} [Zero α] [Add α] [Sub α] (o : Options) (r : Rounds α) (env : Env α) (s : DriverState α) (frag : Fragment α) :
    (inline_step o r env s frag).2.burned_out = s.burned_out := by
  unfold inline_step DriverState.emit
  try dsimp only
  repeat' split
  all_goals rfl

/-- An inline processing leaves the thread pool as it is. -/
theorem inline_step_thread_pool {α : Type} [Zero α] [Add α] [Sub α] (o : Options) (r : Rounds α) (env : Env α) (s : DriverState α) (frag : Fragment α) :
    (inline_step o r env s frag).2.thread_pool = s.thread_pool := by
  unfold inline_step DriverState.emit
  try dsimp only
  repeat' split
  all_goals rfl

/-- An inline processing leaves the names pushed into the filter as it is. -/
theorem inline_step_frags_seen {α : Type} [Zero α] [Add α] [Sub α] (o : Options) (r : Rounds α) (env : Env α) (s : DriverState α) (frag : Fragment α) :
    (inline_step o r env s frag).2.frags_seen = s.frags_seen := by
  unfold inline_step DriverState.emit
  try dsimp only
  repeat' split
  all_goals rfl

/-- An inline processing leaves the trace of the workers as it is. -/
theorem inline_step_worker_trace {α : Type} [Zero α] [Add α] [Sub α] (o : Options) (r : Rounds α) (env : Env α) (s : DriverState α) (frag : Fragment α) :
    (inline_step o r env s frag).2.worker_trace = s.worker_trace := by
  unfold inline_step DriverState.emit
  try dsimp only
  repeat' split
  all_goals rfl

/-- An inline processing leaves the local `n` as it is. -/
theorem inline_step_n {α : Type} [Zero α] [Add α] [Sub α] (o : Options) (r : Rounds α) (env : Env α) (s : DriverState α) (frag : Fragment α) :
    (inline_step o r env s frag).2.n = s.n := by
  unfold inline_step DriverState.emit
  try dsimp only
  repeat' split
  all_goals rfl

/-- An inline processing leaves `num_frags` as it is. -/
theorem inline_step_num_frags {α : Type} [Zero α] [Add α] [Sub α] (o : Options) (r : Rounds α) (env : Env α) (s : DriverState α) (frag : Fragment α) :
    (inline_step o r env s frag).2.num_frags = s.num_frags := by
  unfold inline_step DriverState.emit
  try dsimp only
  repeat' split
  all_goals rfl

/-- A dispatch leaves the library as it is. -/
theorem dispatch_lib {α : Type} [Zero α] [Add α] [Sub α] (o : Options) (r : Rounds α) (env : Env α) (s : DriverState α) (frag : Fragment α) :
    (dispatch o r env s frag).2.lib = s.lib := by
  unfold dispatch worker_step inline_step DriverState.emit
  try dsimp only
  repeat' split
  all_goals rfl

/-- A dispatch leaves `burned_out` as it is. -/
theorem dispatch_burned_out {α : Type} [Zero α] [Add α] [Sub α] (o : Options) (r : Rounds α) (env : Env α) (s : DriverState α) (frag : Fragment α) :
    (dispatch o r env s frag).2.burned_out = s.burned_out := by
  unfold dispatch worker_step inline_step DriverState.emit
  try dsimp only
  repeat' split
  all_goals rfl

/-- A dispatch leaves the thread pool as it is. -/
theorem dispatch_thread_pool {α : Type} [Zero α] [Add α] [Sub α] (o : Options) (r : Rounds α) (env : Env α) (s : DriverState α) (frag : Fragment α) :
    (dispatch o r env s frag).2.thread_pool = s.thread_pool := by
  unfold dispatch worker_step inline_step DriverState.emit
  try dsimp only
  repeat' split
  all_goals rfl

/-- A dispatch leaves the names pushed into the filter as it is. -/
theorem dispatch_frags_seen {α : Type} [Zero α] [Add α] [Sub α] (o : Options) (r : Rounds α) (env : Env α) (s : DriverState α) (frag : Fragment α) :
    (dispatch o r env s frag).2.frags_seen = s.frags_seen := by
  unfold dispatch worker_step inline_step DriverState.emit
  try dsimp only
  repeat' split
  all_goals rfl

/-- A dispatch leaves the local `n` as it is. -/
theorem dispatch_n {α : Type} [Zero α] [Add α] [Sub α] (o : Options) (r : Rounds α) (env : Env α) (s : DriverState α) (frag : Fragment α) :
    (dispatch o r env s frag).2.n = s.n := by
  unfold dispatch worker_step inline_step DriverState.emit
  try dsimp only
  repeat' split
  all_goals rfl

/-- A dispatch leaves `num_frags` as it is. -/
theorem dispatch_num_frags {α : Type} [Zero α] [Add α] [Sub α] (o : Options) (r : Rounds α) (env : Env α) (s : DriverState α) (frag : Fragment α) :
    (dispatch o r env s frag).2.num_frags = s.num_frags := by
  unfold dispatch worker_step inline_step DriverState.emit
  try dsimp only
  repeat' split
  all_goals rfl

/-- The bookkeeping leaves `burned_out` as it is. -/
theorem bookkeeping_burned_out {α : Type} [One α] [Add α] [Sub α] [Mul α] [NatCast α] (o : Options) (r : Rounds α) (env : Env α) (s : DriverState α) :
    (bookkeeping o r env s).burned_out = s.burned_out := by
  unfold bookkeeping DriverState.emit
  try dsimp only
  repeat' split
  all_goals rfl

/-- The bookkeeping leaves the thread pool as it is. -/
theorem bookkeeping_thread_pool {α : Type} [One α] [Add α] [Sub α] [Mul α] [NatCast α] (o : Options) (r : Rounds α) (env : Env α) (s : DriverState α) :
    (bookkeeping o r env s).thread_pool = s.thread_pool := by
  unfold bookkeeping DriverState.emit
  try dsimp only
  repeat' split
  all_goals rfl

/-- The bookkeeping leaves the names pushed into the filter as it is. -/
theorem bookkeeping_frags_seen {α : Type} [One α] [Add α] [Sub α] [Mul α] [NatCast α] (o : Options) (r : Rounds α) (env : Env α) (s : DriverState α) :
    (bookkeeping o r env s).frags_seen = s.frags_seen := by
  unfold bookkeeping DriverState.emit
  try dsimp only
  repeat' split
  all_goals rfl

/-- The bookkeeping leaves the `solvable` flags as it is. -/
theorem bookkeeping_solvable {α : Type} [One α] [Add α] [Sub α] [Mul α] [NatCast α] (o : Options) (r : Rounds α) (env : Env α) (s : DriverState α) :
    (bookkeeping o r env s).solvable = s.solvable := by
  unfold bookkeeping DriverState.emit
  try dsimp only
  repeat' split
  all_goals rfl

/-- The bookkeeping leaves the trace of the workers as it is. -/
theorem bookkeeping_worker_trace {α : Type} [One α] [Add α] [Sub α] [Mul α] [NatCast α] (o : Options) (r : Rounds α) (env : Env α) (s : DriverState α) :
    (bookkeeping o r env s).worker_trace = s.worker_trace := by
  unfold bookkeeping DriverState.emit
  try dsimp only
  repeat' split
  all_goals rfl

/-- The head of an iteration leaves the library as it is. -/
theorem loop_head_lib {α : Type} (o : Options) (s s1 : DriverState α)
    (h : loop_head o s = some s1) : s1.lib = s.lib := by
  unfold loop_head at h
  cases h2 : burn_out_step o (burn_in_step o s) with
  | none => rw [h2] at h; cases h
  | some s2 =>
    rw [h2] at h
    cases h
    rw [spawn_step_lib, burn_out_step_lib o _ s2 h2, burn_in_step_lib]

/-- The head of an iteration leaves the names pushed into the filter as it is. -/
theorem loop_head_frags_seen {α : Type} (o : Options) (s s1 : DriverState α)
    (h : loop_head o s = some s1) : s1.frags_seen = s.frags_seen := by
  unfold loop_head at h
  cases h2 : burn_out_step o (burn_in_step o s) with
  | none => rw [h2] at h; cases h
  | some s2 =>
    rw [h2] at h
    cases h
    rw [spawn_step_frags_seen, burn_out_step_frags_seen o _ s2 h2, burn_in_step_frags_seen]

/-- With a mismatch model the head of the loop never goes through `NULL`. -/
theorem loop_head_some {α : Type} (o : Options) (s : DriverState α)
    (hm : s.lib.mismatch_table = true) : ∃ s1, loop_head o s = some s1 := by
  have hm1 : (burn_in_step o s).lib.mismatch_table = true := by
    rw [burn_in_step_lib]; exact hm
  unfold loop_head burn_out_step
  simp only [hm1, if_true]
  split
  · exact ⟨_, rfl⟩
  · exact ⟨_, rfl⟩

/-- The duplicate check lets a fragment through when the filter does not
report its name, and then records the name in the first round. -/
theorem duplicate_check_ok {α : Type} (r : Rounds α) (env : Env α)
    (s : DriverState α) (frag : Fragment α)
    (h : r.first_round = true → env.test_and_push s.frags_seen frag.name = false) :
    ∃ s2, duplicate_check r env s frag = (Status.ok, s2) ∧
      s2.frags_seen = if r.first_round then s.frags_seen ++ [frag.name] else s.frags_seen := by
  unfold duplicate_check
  by_cases hf : r.first_round = true
  · rw [if_pos hf, if_pos hf, if_neg (by simp [h hf])]
    exact ⟨_, rfl, rfl⟩
  · rw [if_neg hf, if_neg hf]
    exact ⟨_, rfl, rfl⟩

/-- The assertion of `process_fragment` holds exactly for fragments with a hit. -/
theorem process_fragment_status {α : Type} [Zero α] [Add α] [Sub α]
    (o : Options) (r : Rounds α) (burned_out : Bool) (env : Env α)
    (lib : Library α) (solvable : Nat → Bool) (frag : Fragment α) :
    (process_fragment o r burned_out env lib solvable frag).status =
      if frag.num_hits = 0 then Status.assert_failed else Status.ok := by
  unfold process_fragment
  split <;> rfl

/-- A fragment with a hit is dispatched without error. -/
theorem dispatch_ok {α : Type} [Zero α] [Add α] [Sub α]
    (o : Options) (r : Rounds α) (env : Env α) (s : DriverState α) (frag : Fragment α)
    (h : frag.num_hits ≠ 0) : (dispatch o r env s frag).1 = Status.ok := by
  unfold dispatch worker_step inline_step
  simp only [process_fragment_status, h, if_false]
  split <;> rfl

/-- An iteration on well-formed input ends normally. -/
theorem iteration_ok {α : Type} [Zero α] [One α] [Add α] [Sub α] [Mul α] [NatCast α]
    (o : Options) (r : Rounds α) (env : Env α) (s : DriverState α) (frag : Fragment α)
    (hm : s.lib.mismatch_table = true) (hh : frag.num_hits ≠ 0)
    (hg : r.first_round = true → env.test_and_push s.frags_seen frag.name = false) :
    ∃ s1, iteration o r env s frag = (Status.ok, s1) ∧
      s1.frags_seen = if r.first_round then s.frags_seen ++ [frag.name] else s.frags_seen := by
  obtain ⟨t1, ht1⟩ := loop_head_some o s hm
  have hfs := loop_head_frags_seen o s t1 ht1
  obtain ⟨t2, ht2, hfs2⟩ := duplicate_check_ok r env t1 frag (by rw [hfs]; exact hg)
  have hd := dispatch_ok o r env t2 frag hh
  rcases iteration_cases o r env s frag with ⟨h1, _⟩ | ⟨s1, st, s2, h1, h2, hne, _⟩ |
    ⟨s1, s2, st, s3, h1, h2, h3, hne, _⟩ | ⟨s1, s2, s3, h1, h2, h3, h⟩
  · rw [ht1] at h1; cases h1
  · rw [ht1] at h1; cases h1
    rw [ht2] at h2; cases h2
    exact absurd rfl hne
  · rw [ht1] at h1; cases h1
    rw [ht2] at h2; cases h2
    rw [h3] at hd
    exact absurd hd hne
  · rw [ht1] at h1; cases h1
    rw [ht2] at h2; cases h2
    refine ⟨_, h, ?_⟩
    have h4 := dispatch_frags_seen o r env t2 frag
    rw [h3] at h4
    rw [bookkeeping_frags_seen, h4, hfs2, hfs]

/-- The last iteration ends normally when there is a mismatch model. -/
theorem final_iteration_ok {α : Type} (o : Options) (s : DriverState α)
    (hm : s.lib.mismatch_table = true) : (final_iteration o s).1 = Status.ok := by
  obtain ⟨t1, ht1⟩ := loop_head_some o s hm
  unfold final_iteration
  rw [ht1]
  dsimp only
  split <;> rfl

/-- The loop over a well-formed stream ends normally. -/
theorem driver_loop_ok {α : Type} [Zero α] [One α] [Add α] [Sub α] [Mul α] [NatCast α]
    (o : Options) (r : Rounds α) (env : Env α) (stream : List (Fragment α)) :
    ∀ s : DriverState α, s.lib.mismatch_table = true →
      (∀ frag ∈ stream, frag.num_hits ≠ 0) →
      (r.first_round = true → guard_passes env s.frags_seen stream = true) →
      (driver_loop o r env stream s).1 = Status.ok := by
  induction stream with
  | nil => intro s hm _ _; exact final_iteration_ok o s hm
  | cons frag stream ih =>
    intro s hm hh hg
    have hg1 : r.first_round = true → env.test_and_push s.frags_seen frag.name = false := by
      intro hf
      have := hg hf
      simp only [guard_passes, Bool.and_eq_true, Bool.not_eq_true'] at this
      exact this.1
    obtain ⟨s1, h1, hfs⟩ := iteration_ok o r env s frag hm
      (hh frag (List.mem_cons_self _ _)) hg1
    rw [driver_loop_cons_ok o r env frag stream s s1 h1]
    have hf := iteration_frame o r env s frag
    rw [h1] at hf
    apply ih s1 (by rw [hf.2.1]; exact hm) (fun f hf => hh f (List.mem_cons_of_mem _ hf))
    intro hfr
    have := hg hfr
    simp only [guard_passes, Bool.and_eq_true, Bool.not_eq_true'] at this
    rw [hfs, if_pos hfr]
    exact this.2

/-- Well-formedness only depends on the mismatch model and on the stream. -/
theorem well_formed_of_same {α : Type} (env : Env α) (lib lib1 : Library α)
    (hm : lib1.mismatch_table = lib.mismatch_table) (hs : lib1.stream = lib.stream)
    (h : lib.well_formed env) : lib1.well_formed env := by
  unfold Library.well_formed at *
  rw [hm, hs]
  exact h

/-- A pass over a library keeps the list of passes, the mismatch model and the stream. -/
theorem lib_pass_frame {α : Type} [Zero α] [One α] [Add α] [Sub α] [Mul α] [NatCast α]
    (o : Options) (r : Rounds α) (env : Env α) (s : RunState α) (lib : Library α) :
    (lib_pass o r env s lib).2.passes = s.passes ∧
    (lib_pass o r env s lib).2.lib.mismatch_table = lib.mismatch_table ∧
    (lib_pass o r env s lib).2.lib.stream = lib.stream := by
  unfold lib_pass
  have h := driver_loop_frame o r env lib.stream (lib_pass_start o s lib)
  exact ⟨h.1, h.2.1, h.2.2.2⟩

/-- A pass over a well-formed library ends normally. -/
theorem lib_pass_ok {α : Type} [Zero α] [One α] [Add α] [Sub α] [Mul α] [NatCast α]
    (o : Options) (r : Rounds α) (env : Env α) (s : RunState α) (lib : Library α)
    (h : lib.well_formed env) : (lib_pass o r env s lib).1 = Status.ok := by
  unfold lib_pass
  exact driver_loop_ok o r env lib.stream _ h.1 h.2.1 (fun _ => h.2.2)

/-- The loop over the libraries keeps the list of passes. -/
theorem libs_loop_passes {α : Type} [Zero α] [One α] [Add α] [Sub α] [Mul α] [NatCast α]
    (o : Options) (r : Rounds α) (env : Env α) (libs : List (Library α)) :
    ∀ s : RunState α, (libs_loop o r env libs s).2.2.passes = s.passes := by
  induction libs with
  | nil => intro s; rfl
  | cons lib libs ih =>
    intro s
    have hf := lib_pass_frame o r env s lib
    unfold libs_loop
    rcases h : lib_pass o r env s lib with ⟨st, s1⟩
    rw [h] at hf
    by_cases hst : st = Status.ok
    · subst hst
      dsimp only
      rw [ih s1.toRunState]
      exact hf.1
    · cases st
      · exact absurd rfl hst
      all_goals exact hf.1

/-- The loop over well-formed libraries ends normally and leaves them well formed. -/
theorem libs_loop_ok {α : Type} [Zero α] [One α] [Add α] [Sub α] [Mul α] [NatCast α]
    (o : Options) (r : Rounds α) (env : Env α) (libs : List (Library α)) :
    ∀ s : RunState α, (∀ lib ∈ libs, lib.well_formed env) →
      (libs_loop o r env libs s).1 = Status.ok ∧
      (∀ lib ∈ (libs_loop o r env libs s).2.1, lib.well_formed env) ∧
      (libs_loop o r env libs s).2.1.length = libs.length := by
  induction libs with
  | nil => intro s _; exact ⟨rfl, by simp [libs_loop], rfl⟩
  | cons lib libs ih =>
    intro s hw
    have hf := lib_pass_frame o r env s lib
    have hok := lib_pass_ok o r env s lib (hw lib (List.mem_cons_self _ _))
    unfold libs_loop
    rcases h : lib_pass o r env s lib with ⟨st, s1⟩
    rw [h] at hf hok
    dsimp only at hok
    subst hok
    dsimp only
    obtain ⟨i1, i2, i3⟩ := ih s1.toRunState (fun l hl => hw l (List.mem_cons_of_mem _ hl))
    refine ⟨i1, ?_, by simp [i3]⟩
    intro l hl
    rcases List.mem_cons.mp hl with h1 | h1
    · subst h1
      exact well_formed_of_same env lib _ hf.2.1 hf.2.2 (hw lib (List.mem_cons_self _ _))
    · exact i2 l h1

/-- A pass that ends abnormally ends the loop. -/
theorem rounds_loop_fail {α : Type} [Zero α] [One α] [Add α] [Sub α] [Mul α] [NatCast α]
    (o : Options) (env : Env α) (ff : α) (online both : Bool) (R : Nat) (fr lr : Bool)
    (libs : List (Library α)) (s : RunState α)
    (h : (libs_loop o
      { ff_param := ff, first_round := fr, last_round := lr, online_additional := online,
        both := both, remaining_rounds := R } env libs (s.note_pass fr lr ff)).1 ≠ Status.ok) :
    (rounds_loop o env ff online both R fr lr libs s).status ≠ Status.ok ∧
    (rounds_loop o env ff online both R fr lr libs s).state.passes =
      s.passes ++ [{ first_round := fr, last_round := lr, ff_param := ff }] := by
  have hp := libs_loop_passes o
      { ff_param := ff, first_round := fr, last_round := lr, online_additional := online,
        both := both, remaining_rounds := R } env libs (s.note_pass fr lr ff)
  rw [rounds_loop]
  rcases hl : libs_loop o
      { ff_param := ff, first_round := fr, last_round := lr, online_additional := online,
        both := both, remaining_rounds := R } env libs (s.note_pass fr lr ff) with ⟨st, libs1, s1⟩
  rw [hl] at h hp
  dsimp only at h hp
  cases st
  · exact absurd rfl h
  all_goals exact ⟨by simp, hp⟩

/-- In online mode a pass that ends normally with no round remaining ends the
loop. -/
theorem rounds_loop_zero {α : Type} [Zero α] [One α] [Add α] [Sub α] [Mul α] [NatCast α]
    (o : Options) (env : Env α) (ff : α) (both : Bool) (fr lr : Bool)
    (libs libs1 : List (Library α)) (s s1 : RunState α)
    (h : libs_loop o
      { ff_param := ff, first_round := fr, last_round := lr, online_additional := true,
        both := both, remaining_rounds := 0 } env libs (s.note_pass fr lr ff)
        = (Status.ok, libs1, s1)) :
    rounds_loop o env ff true both 0 fr lr libs s =
      { status := Status.ok,
        rounds := { ff_param := ff, first_round := fr, last_round := lr,
                    online_additional := true, both := both,
                    remaining_rounds := 2 ^ 64 - 1 },
        libs := libs1, state := s1 } := by
  rw [rounds_loop, h]
  rfl

/-- In online mode a pass that ends normally with rounds remaining is followed
by another pass, with `first_round` false. -/
theorem rounds_loop_succ {α : Type} [Zero α] [One α] [Add α] [Sub α] [Mul α] [NatCast α]
    (o : Options) (env : Env α) (ff : α) (both : Bool) (R : Nat) (fr lr : Bool)
    (libs libs1 : List (Library α)) (s s1 : RunState α)
    (h : libs_loop o
      { ff_param := ff, first_round := fr, last_round := lr, online_additional := true,
        both := both, remaining_rounds := R + 1 } env libs (s.note_pass fr lr ff)
        = (Status.ok, libs1, s1)) :
    rounds_loop o env ff true both (R + 1) fr lr libs s =
      rounds_loop o env ff true both R false (R == 0 && !both) libs1
        (next_round o R (R == 0 && !both) libs1 s1) := by
  rw [rounds_loop, h]
  rfl

/-- Without `online_additional` the loop makes one pass. -/
theorem rounds_loop_single {α : Type} [Zero α] [One α] [Add α] [Sub α] [Mul α] [NatCast α]
    (o : Options) (env : Env α) (ff : α) (both : Bool) (R : Nat) (fr lr : Bool)
    (libs libs1 : List (Library α)) (s s1 : RunState α)
    (h : libs_loop o
      { ff_param := ff, first_round := fr, last_round := lr, online_additional := false,
        both := both, remaining_rounds := R } env libs (s.note_pass fr lr ff)
        = (Status.ok, libs1, s1)) :
    rounds_loop o env ff false both R fr lr libs s =
      { status := Status.ok,
        rounds := { ff_param := ff, first_round := fr, last_round := lr,
                    online_additional := false, both := both, remaining_rounds := R },
        libs := libs1, state := s1 } := by
  rw [rounds_loop, h]
  rfl

/-- The passes of the loop in online mode without `both`: when the loop ends
normally they are the expected ones; on well-formed libraries it does end
normally. -/
theorem rounds_loop_online {α : Type} [Zero α] [One α] [Add α] [Sub α] [Mul α] [NatCast α]
    (o : Options) (env : Env α) (ff : α) (R : Nat) :
    ∀ (fr lr : Bool) (libs : List (Library α)) (s : RunState α),
      ((rounds_loop o env ff true false R fr lr libs s).status = Status.ok →
        (rounds_loop o env ff true false R fr lr libs s).state.passes =
          s.passes ++ expected_passes ff R fr lr) ∧
      ((∀ lib ∈ libs, lib.well_formed env) →
        (rounds_loop o env ff true false R fr lr libs s).status = Status.ok) := by
  induction R with
  | zero =>
    intro fr lr libs s
    have hp := libs_loop_passes o
      { ff_param := ff, first_round := fr, last_round := lr, online_additional := true,
        both := false, remaining_rounds := 0 } env libs (s.note_pass fr lr ff)
    by_cases hst : (libs_loop o
      { ff_param := ff, first_round := fr, last_round := lr, online_additional := true,
        both := false, remaining_rounds := 0 } env libs (s.note_pass fr lr ff)).1 = Status.ok
    · rcases hl : libs_loop o
        { ff_param := ff, first_round := fr, last_round := lr, online_additional := true,
          both := false, remaining_rounds := 0 } env libs (s.note_pass fr lr ff)
        with ⟨st, libs1, s1⟩
      rw [hl] at hst hp
      dsimp only at hst hp
      subst hst
      rw [rounds_loop_zero o env ff false fr lr libs libs1 s s1 hl]
      exact ⟨fun _ => hp, fun _ => rfl⟩
    · have hf := rounds_loop_fail o env ff true false 0 fr lr libs s hst
      refine ⟨fun h => absurd h hf.1, fun hw => ?_⟩
      exact absurd (libs_loop_ok o _ env libs _ hw).1 hst
  | succ R ih =>
    intro fr lr libs s
    have hp := libs_loop_passes o
      { ff_param := ff, first_round := fr, last_round := lr, online_additional := true,
        both := false, remaining_rounds := R + 1 } env libs (s.note_pass fr lr ff)
    by_cases hst : (libs_loop o
      { ff_param := ff, first_round := fr, last_round := lr, online_additional := true,
        both := false, remaining_rounds := R + 1 } env libs (s.note_pass fr lr ff)).1 = Status.ok
    · have hwf := libs_loop_ok o
        { ff_param := ff, first_round := fr, last_round := lr, online_additional := true,
          both := false, remaining_rounds := R + 1 } env libs (s.note_pass fr lr ff)
      rcases hl : libs_loop o
        { ff_param := ff, first_round := fr, last_round := lr, online_additional := true,
          both := false, remaining_rounds := R + 1 } env libs (s.note_pass fr lr ff)
        with ⟨st, libs1, s1⟩
      rw [hl] at hst hp hwf
      dsimp only at hst hp hwf
      subst hst
      rw [rounds_loop_succ o env ff false R fr lr libs libs1 s s1 hl]
      obtain ⟨i1, i2⟩ := ih false (R == 0 && !false) libs1
        (next_round o R (R == 0 && !false) libs1 s1)
      refine ⟨fun h => ?_, fun hw => i2 (hwf hw).2.1⟩
      rw [i1 h]
      have : (next_round o R (R == 0 && !false) libs1 s1).passes = s1.passes := rfl
      rw [this, hp]
      simp [RunState.note_pass, expected_passes]
    · have hf := rounds_loop_fail o env ff true false (R + 1) fr lr libs s hst
      refine ⟨fun h => absurd h hf.1, fun hw => ?_⟩
      exact absurd (libs_loop_ok o _ env libs _ hw).1 hst

/-- The flags of the expected passes, from `first_round` true and `last_round`
false with at least one round remaining. -/
theorem expected_passes_flags {α : Type} (ff : α) (R : Nat) :
    (expected_passes ff (R + 1) true false).map (fun p => (p.first_round, p.last_round)) =
      (true, false) :: (List.replicate R (false, false) ++ [(false, true)]) := by
  have key : ∀ (R : Nat),
      (expected_passes ff R false (R == 0)).map (fun p => (p.first_round, p.last_round)) =
        List.replicate R (false, false) ++ [(false, true)] := by
    intro R
    induction R with
    | zero => rfl
    | succ R ih =>
      simp only [expected_passes, List.map_cons, ih, List.replicate_succ, List.cons_append]
      simp
  simp only [expected_passes, List.map_cons, key]

/-- The library `ex_lib3` is well formed for the filter of `ex_env`. -/
theorem ex_lib3_well_formed : ex_lib3.well_formed ex_env := by
  refine ⟨rfl, ?_, by decide⟩
  intro frag hf
  simp only [ex_lib3, List.mem_cons, List.mem_singleton, List.not_mem_nil, or_false] at hf
  rcases hf with h | h | h <;> subst h <;> decide

/-- C3: started in the state `parse_options` leaves for `--additional-online R`
with `R >= 1` and a named alignment file (`first_round` true, `last_round`
false, `online_additional` true, `both` false, `remaining_rounds = R`),
`threaded_calc_abundances`, when it ends normally, has made exactly `R + 1`
passes over the libraries: `first_round` is true during the first and false
during the others, `last_round` is true during the last and false during the
others.  On well-formed libraries it does end normally. -/
theorem C3_online_round_controller {α : Type}
    [Zero α] [One α] [Add α] [Sub α] [Mul α] [NatCast α]
    (R : Nat) (hR : 1 ≤ R) (o : Options) (env : Env α) (ff : α)
    (libs : List (Library α)) (s : RunState α) :
    ((threaded_calc_abundances o env (parse_options_rounds ff true false R true)
        libs s).status = Status.ok →
      (threaded_calc_abundances o env (parse_options_rounds ff true false R true)
        libs s).state.passes.map (fun p => (p.first_round, p.last_round)) =
      s.passes.map (fun p => (p.first_round, p.last_round)) ++
        (true, false) :: (List.replicate (R - 1) (false, false) ++ [(false, true)])) ∧
    ((∀ lib ∈ libs, lib.well_formed env) →
      (threaded_calc_abundances o env (parse_options_rounds ff true false R true)
        libs s).status = Status.ok) := by
  obtain ⟨R1, rfl⟩ : ∃ R1, R = R1 + 1 := ⟨R - 1, by omega⟩
  have hpo : (parse_options_rounds ff true false (R1 + 1) true : Rounds α) =
      { ff_param := ff, first_round := true, last_round := false, online_additional := true,
        both := false, remaining_rounds := R1 + 1 } := by
    simp [parse_options_rounds, parse_options_last_round]
  rw [hpo]
  unfold threaded_calc_abundances
  obtain ⟨h1, h2⟩ := rounds_loop_online o env ff (R1 + 1) true false libs
    { s with n := 1, num_frags := 0, i := 1, j := 6 }
  refine ⟨fun h => ?_, h2⟩
  rw [h1 h, List.map_append, expected_passes_flags]
  simp

/-- C3 at `R = 2`, one well-formed library of three fragments: three passes. -/
theorem C3_online_round_controller_witness :
    1 ≤ 2 ∧ (∀ lib ∈ [ex_lib3], lib.well_formed ex_env) ∧
    (threaded_calc_abundances ex_options ex_env (parse_options_rounds 1 true false 2 true)
        [ex_lib3] RunState.init).status = Status.ok ∧
    (threaded_calc_abundances ex_options ex_env (parse_options_rounds 1 true false 2 true)
        [ex_lib3] RunState.init).state.passes.map (fun p => (p.first_round, p.last_round)) =
      [(true, false), (false, false), (false, true)] :=
  have hw : ∀ lib ∈ [ex_lib3], lib.well_formed ex_env := by
    intro lib hl
    rw [List.mem_singleton] at hl
    subst hl
    exact ex_lib3_well_formed
  have h := C3_online_round_controller 2 (by decide) ex_options ex_env 1 [ex_lib3]
    RunState.init
  ⟨by decide, hw, h.2 hw, h.1 (h.2 hw)⟩

/-- For a real `m >= 1` and `0 < ff < 1`: `(m + 1)^ff < m^ff + 1`. -/
theorem rpow_succ_lt (m ff : ℝ) (hm : 1 ≤ m) (h0 : 0 < ff) (h1 : ff < 1) :
    (m + 1) ^ ff < m ^ ff + 1 := by
  have hm0 : 0 < m := lt_of_lt_of_le one_pos hm
  have hinv : (0 : ℝ) < 1 / m := by positivity
  have hB : (1 + 1 / m) ^ ff < 1 + ff * (1 / m) :=
    rpow_one_add_lt_one_add_mul_self (by linarith) (ne_of_gt hinv) h0 h1
  have hsplit : m + 1 = m * (1 + 1 / m) := by field_simp
  have hmff : 0 < m ^ ff := Real.rpow_pos_of_pos hm0 ff
  have hle : m ^ ff ≤ m := by
    calc m ^ ff ≤ m ^ (1 : ℝ) := Real.rpow_le_rpow_of_exponent_le hm (le_of_lt h1)
      _ = m := Real.rpow_one m
  have hdiv : m ^ ff * (1 / m) ≤ 1 := by
    rw [mul_one_div, div_le_one hm0]
    exact hle
  calc (m + 1) ^ ff = m ^ ff * (1 + 1 / m) ^ ff := by
        rw [hsplit, Real.mul_rpow (le_of_lt hm0) (by positivity)]
    _ < m ^ ff * (1 + ff * (1 / m)) := by
        exact mul_lt_mul_of_pos_left hB hmff
    _ = m ^ ff + ff * (m ^ ff * (1 / m)) := by ring
    _ ≤ m ^ ff + ff * 1 := by
        have := mul_le_mul_of_nonneg_left hdiv (le_of_lt h0)
        linarith
    _ < m ^ ff + 1 := by linarith

/-- The increment of `mass_n` over the reals is positive from `n = 2` on. -/
theorem mass_increment_pos (env : Env ℝ) (ff : ℝ) (h0 : 0 < ff) (h1 : ff < 1)
    (n : Nat) (hn : 2 ≤ n) :
    0 < (n : ℝ) - 1 ∧ 0 < (n : ℝ) ^ ff - 1 ∧
    0 < mass_increment (env.with_libm Real.log (fun x y => x ^ y)) ff n := by
  have hn2 : (2 : ℝ) ≤ (n : ℝ) := by exact_mod_cast hn
  have hm : (1 : ℝ) ≤ (n : ℝ) - 1 := by linarith
  have hm0 : (0 : ℝ) < (n : ℝ) - 1 := by linarith
  have hpow : 1 < (n : ℝ) ^ ff := Real.one_lt_rpow (by linarith) h0
  have hkey := rpow_succ_lt ((n : ℝ) - 1) ff hm h0 h1
  rw [sub_add_cancel] at hkey
  refine ⟨hm0, by linarith, ?_⟩
  show 0 < ff * Real.log ((n : ℝ) - 1) - Real.log ((n : ℝ) ^ ff - 1)
  rw [← Real.log_rpow hm0 ff]
  have := Real.log_lt_log (by linarith : (0 : ℝ) < (n : ℝ) ^ ff - 1)
    (by linarith : (n : ℝ) ^ ff - 1 < ((n : ℝ) - 1) ^ ff)
  linarith

/-- Lines 459-465 leave the trace of the workers as it is. -/
theorem burn_in_step_worker_trace {α : Type} (o : Options) (s : DriverState α) :
    (burn_in_step o s).worker_trace = s.worker_trace := by
  unfold burn_in_step DriverState.emit
  try dsimp only
  repeat' split
  all_goals rfl

/-- Lines 466-469 leave the trace of the workers as it is. -/
theorem burn_out_step_worker_trace {α : Type} (o : Options) (s : DriverState α) (s1 : DriverState α)
    (h : burn_out_step o s = some s1) : s1.worker_trace = s.worker_trace := by
  unfold burn_out_step DriverState.emit at h
  repeat' split at h
  all_goals first | (cases h; rfl) | cases h

/-- Lines 471-476 leave the trace of the workers as it is. -/
theorem spawn_step_worker_trace {α : Type} (o : Options) (s : DriverState α) :
    (spawn_step o s).worker_trace = s.worker_trace := by
  unfold spawn_step DriverState.emit
  try dsimp only
  repeat' split
  all_goals rfl

/-- The duplicate check leaves the trace of the workers as it is. -/
theorem duplicate_check_worker_trace {α : Type} (r : Rounds α) (env : Env α) (s : DriverState α) (frag : Fragment α) :
    (duplicate_check r env s frag).2.worker_trace = s.worker_trace := by
  unfold duplicate_check DriverState.emit
  try dsimp only
  repeat' split
  all_goals rfl

/-- The events of lines 459-465. -/
theorem burn_in_step_trace {α : Type} (o : Options) (s : DriverState α) :
    (burn_in_step o s).trace = s.trace ++
      (if s.lib.n = o.burn_in then
        [Event.bias_update_start] ++ (if s.lib.mismatch_table then [Event.mm_activate] else [])
       else []) := by
  unfold burn_in_step DriverState.emit
  split <;> simp

/-- The effect of lines 466-469 when they do not go through `NULL`. -/
theorem burn_out_step_spec {α : Type} (o : Options) (s s1 : DriverState α)
    (h : burn_out_step o s = some s1) :
    s1.trace = s.trace ++ (if s.lib.n = o.burn_out then [Event.mm_fix] else []) ∧
    s1.burned_out = (s.burned_out || decide (s.lib.n = o.burn_out)) ∧
    (s.lib.n = o.burn_out → s.lib.mismatch_table = true) := by
  unfold burn_out_step DriverState.emit at h
  by_cases hout : s.lib.n = o.burn_out
  · rw [if_pos hout] at h
    by_cases hm : s.lib.mismatch_table = true
    · rw [if_pos hm] at h
      cases h
      simp [hout, hm]
    · rw [if_neg hm] at h
      cases h
  · rw [if_neg hout] at h
    cases h
    simp [hout]

/-- The events of lines 471-476. -/
theorem spawn_step_trace {α : Type} (o : Options) (s : DriverState α) :
    (spawn_step o s).trace = s.trace ++
      (if s.burned_out && o.num_threads != 0 && s.thread_pool == 0
        then List.replicate o.num_threads Event.spawn_worker else []) := by
  unfold spawn_step DriverState.emit
  split <;> simp

/-- The head of an iteration, when it does not go through `NULL`, appends
`head_events` and sets `burned_out` when `lib.n == burn_out`. -/
theorem loop_head_spec {α : Type} (o : Options) (s s1 : DriverState α)
    (h : loop_head o s = some s1) :
    s1.trace = s.trace ++ head_events o s ∧ s1.burned_out = head_burned_out o s ∧
    s1.lib = s.lib ∧ s1.solvable = s.solvable ∧ s1.worker_trace = s.worker_trace ∧
    (s.lib.n = o.burn_out → s.lib.mismatch_table = true) := by
  unfold loop_head at h
  cases h2 : burn_out_step o (burn_in_step o s) with
  | none => rw [h2] at h; cases h
  | some s2 =>
    rw [h2] at h
    cases h
    obtain ⟨t2, b2, m2⟩ := burn_out_step_spec o _ s2 h2
    rw [burn_in_step_lib] at t2 b2 m2
    rw [burn_in_step_burned_out] at b2
    have hl : s2.lib = s.lib := by rw [burn_out_step_lib o _ s2 h2, burn_in_step_lib]
    have hp : s2.thread_pool = s.thread_pool := by
      rw [burn_out_step_thread_pool o _ s2 h2, burn_in_step_thread_pool]
    refine ⟨?_, ?_, ?_, ?_, ?_, m2⟩
    · rw [spawn_step_trace, t2, burn_in_step_trace, b2, hp]
      unfold head_events
      simp only [List.append_assoc]
    · rw [spawn_step_burned_out, b2]; rfl
    · rw [spawn_step_lib, hl]
    · rw [spawn_step_solvable, burn_out_step_solvable o _ s2 h2, burn_in_step_solvable]
    · rw [spawn_step_worker_trace, burn_out_step_worker_trace o _ s2 h2,
        burn_in_step_worker_trace]

/-- The duplicate check only appends plumbing events. -/
theorem duplicate_check_trace {α : Type} (r : Rounds α) (env : Env α)
    (s : DriverState α) (frag : Fragment α) :
    ∃ ext, (duplicate_check r env s frag).2.trace = s.trace ++ ext ∧
      ∀ e ∈ ext, e.is_plumbing = true := by
  unfold duplicate_check DriverState.emit
  split
  · split
    · exact ⟨_, rfl, by simp [Event.is_plumbing]⟩
    · exact ⟨_, rfl, by simp [Event.is_plumbing]⟩
  · exact ⟨[], by simp, by simp⟩

/-- The bookkeeping only appends plumbing events. -/
theorem bookkeeping_trace {α : Type} [One α] [Add α] [Sub α] [Mul α] [NatCast α]
    (o : Options) (r : Rounds α) (env : Env α) (s : DriverState α) :
    ∃ ext, (bookkeeping o r env s).trace = s.trace ++ ext ∧
      ∀ e ∈ ext, e.is_plumbing = true := by
  unfold bookkeeping DriverState.emit
  dsimp only
  split
  · exact ⟨_, rfl, by simp [Event.is_plumbing]⟩
  · exact ⟨[], by simp, by simp⟩

/-- The events of a dispatch: on the driver thread, a push to `proc_on` when
multi-threaded and burned out, otherwise the calls of `process_fragment` and a
push to `proc_out`; on a worker thread, the calls of `process_fragment` and a
push to `proc_out`, only when multi-threaded and burned out. -/
theorem dispatch_trace {α : Type} [Zero α] [Add α] [Sub α]
    (o : Options) (r : Rounds α) (env : Env α) (s : DriverState α) (frag : Fragment α) :
    ∃ ext wext, (dispatch o r env s frag).2.trace = s.trace ++ ext ∧
      (dispatch o r env s frag).2.worker_trace = s.worker_trace ++ wext ∧
      (∀ e ∈ ext, e.is_plumbing = true ∨
        ((o.num_threads = 0 ∨ s.burned_out = false) ∧
          e ∈ (process_fragment o r s.burned_out env s.lib s.solvable frag).trace)) ∧
      (∀ e ∈ wext, (o.num_threads ≠ 0 ∧ s.burned_out = true) ∧
        (e.is_plumbing = true ∨
          e ∈ (process_fragment o r s.burned_out env s.lib s.solvable frag).trace)) := by
  unfold dispatch
  by_cases hc : (o.num_threads != 0 && s.burned_out) = true
  · rw [if_pos hc]
    have hc2 : o.num_threads ≠ 0 ∧ s.burned_out = true := by simpa using hc
    unfold worker_step DriverState.emit
    dsimp only
    split
    · refine ⟨[Event.proc_on_push (some frag)],
        (process_fragment o r s.burned_out env s.lib s.solvable frag).trace ++
          [Event.proc_out_push (process_fragment o r s.burned_out env s.lib s.solvable frag).frag],
        rfl, by simp [List.append_assoc], ?_, ?_⟩
      · intro e he; left; simp at he; subst he; rfl
      · intro e he
        refine ⟨hc2, ?_⟩
        rcases List.mem_append.mp he with h | h
        · right; exact h
        · left; simp at h; subst h; rfl
    · refine ⟨[Event.proc_on_push (some frag)], _, rfl, rfl, ?_, ?_⟩
      · intro e he; left; simp at he; subst he; rfl
      · intro e he; exact ⟨hc2, Or.inr he⟩
  · rw [if_neg hc]
    have hc2 : o.num_threads = 0 ∨ s.burned_out = false := by
      by_cases h0 : o.num_threads = 0
      · exact Or.inl h0
      · right; simpa [h0] using hc
    unfold inline_step DriverState.emit
    dsimp only
    split
    · refine ⟨_, [], rfl, by simp, ?_, by simp⟩
      intro e he
      rcases List.mem_append.mp he with h | h
      · right; exact ⟨hc2, h⟩
      · left; simp at h; subst h; rfl
    · refine ⟨_, [], rfl, by simp, ?_, by simp⟩
      intro e he
      right; exact ⟨hc2, he⟩

/-- The bookkeeping increments `lib.n` and leaves the models and the stream of
the library as they are. -/
theorem bookkeeping_lib_n {α : Type} [One α] [Add α] [Sub α] [Mul α] [NatCast α]
    (o : Options) (r : Rounds α) (env : Env α) (s : DriverState α) :
    (bookkeeping o r env s).lib.n = s.lib.n + 1 := by
  unfold bookkeeping DriverState.emit mass_update
  dsimp only
  split <;> rfl

/-- What an iteration on a fragment adds to the traces, unless the head of the
loop goes through `NULL`: on the driver thread the events of the head, then
plumbing events and, when the fragment is processed inline, the calls of
`process_fragment`; on a worker thread plumbing events and the calls of
`process_fragment`, when the fragment is passed to the workers. -/
theorem iteration_trace {α : Type} [Zero α] [One α] [Add α] [Sub α] [Mul α] [NatCast α]
    (o : Options) (r : Rounds α) (env : Env α) (s : DriverState α) (frag : Fragment α) :
    (loop_head o s = none ∧
      iteration o r env s frag = (Status.null_deref, burn_in_step o s)) ∨
    (∃ ext wext,
      (iteration o r env s frag).2.trace = s.trace ++ head_events o s ++ ext ∧
      (iteration o r env s frag).2.worker_trace = s.worker_trace ++ wext ∧
      (∀ e ∈ ext, e.is_plumbing = true ∨
        ((o.num_threads = 0 ∨ head_burned_out o s = false) ∧
          e ∈ (process_fragment o r (head_burned_out o s) env s.lib s.solvable frag).trace)) ∧
      (∀ e ∈ wext, (o.num_threads ≠ 0 ∧ head_burned_out o s = true) ∧
        (e.is_plumbing = true ∨
          e ∈ (process_fragment o r (head_burned_out o s) env s.lib s.solvable frag).trace)) ∧
      (s.lib.n = o.burn_out → s.lib.mismatch_table = true) ∧
      (iteration o r env s frag).2.burned_out = head_burned_out o s ∧
      ((iteration o r env s frag).1 = Status.ok →
        (iteration o r env s frag).2.lib.n = s.lib.n + 1)) := by
  rcases iteration_cases o r env s frag with ⟨h1, h⟩ | ⟨s1, st, s2, h1, h2, hne, h⟩ |
    ⟨s1, s2, st, s3, h1, h2, h3, hne, h⟩ | ⟨s1, s2, s3, h1, h2, h3, h⟩
  · exact Or.inl ⟨h1, h⟩
  · right
    obtain ⟨ht, hb, hl, hs, hw, hm⟩ := loop_head_spec o s s1 h1
    obtain ⟨dext, hd, hdp⟩ := duplicate_check_trace r env s1 frag
    have hdw := duplicate_check_worker_trace r env s1 frag
    have hdb := duplicate_check_burned_out r env s1 frag
    rw [h2] at hd hdw hdb
    refine ⟨dext, [], ?_, ?_, fun e he => Or.inl (hdp e he), by simp, hm, ?_, ?_⟩
    · rw [h]; dsimp only at hd ⊢; rw [hd, ht]
    · rw [h]; dsimp only at hdw ⊢; rw [hdw, hw]; simp
    · rw [h]; dsimp only at hdb ⊢; rw [hdb, hb]
    · rw [h]; intro hc; exact absurd hc hne
  · right
    obtain ⟨ht, hb, hl, hs, hw, hm⟩ := loop_head_spec o s s1 h1
    obtain ⟨dext, hd, hdp⟩ := duplicate_check_trace r env s1 frag
    have hdw := duplicate_check_worker_trace r env s1 frag
    have hdb := duplicate_check_burned_out r env s1 frag
    have hdl := duplicate_check_lib r env s1 frag
    have hds := duplicate_check_solvable r env s1 frag
    rw [h2] at hd hdw hdb hdl hds
    dsimp only at hd hdw hdb hdl hds
    obtain ⟨ext, wext, he, hwe, hep, hwp⟩ := dispatch_trace o r env s2 frag
    have h3b := dispatch_burned_out o r env s2 frag
    rw [h3] at he hwe h3b
    dsimp only at he hwe h3b
    rw [hdb, hdl, hds, hb, hl, hs] at hep hwp
    refine ⟨dext ++ ext, wext, ?_, ?_, ?_, hwp, hm, ?_, ?_⟩
    · rw [h]; dsimp only; rw [he, hd, ht]; simp [List.append_assoc]
    · rw [h]; dsimp only; rw [hwe, hdw, hw]
    · intro e hmem
      rcases List.mem_append.mp hmem with h5 | h5
      · exact Or.inl (hdp e h5)
      · exact hep e h5
    · rw [h]; dsimp only; rw [h3b, hdb, hb]
    · rw [h]; intro hc; exact absurd hc hne
  · right
    obtain ⟨ht, hb, hl, hs, hw, hm⟩ := loop_head_spec o s s1 h1
    obtain ⟨dext, hd, hdp⟩ := duplicate_check_trace r env s1 frag
    have hdw := duplicate_check_worker_trace r env s1 frag
    have hdb := duplicate_check_burned_out r env s1 frag
    have hdl := duplicate_check_lib r env s1 frag
    have hds := duplicate_check_solvable r env s1 frag
    rw [h2] at hd hdw hdb hdl hds
    dsimp only at hd hdw hdb hdl hds
    obtain ⟨ext, wext, he, hwe, hep, hwp⟩ := dispatch_trace o r env s2 frag
    have h3b := dispatch_burned_out o r env s2 frag
    have h3l := dispatch_lib o r env s2 frag
    rw [h3] at he hwe h3b h3l
    dsimp only at he hwe h3b h3l
    rw [hdb, hdl, hds, hb, hl, hs] at hep hwp
    obtain ⟨bext, hbe, hbp⟩ := bookkeeping_trace o r env s3
    refine ⟨dext ++ ext ++ bext, wext, ?_, ?_, ?_, hwp, hm, ?_, ?_⟩
    · rw [h]; dsimp only; rw [hbe, he, hd, ht]; simp [List.append_assoc]
    · rw [h]; dsimp only; rw [bookkeeping_worker_trace, hwe, hdw, hw]
    · intro e hmem
      rcases List.mem_append.mp hmem with h5 | h5
      · rcases List.mem_append.mp h5 with h6 | h6
        · exact Or.inl (hdp e h6)
        · exact hep e h6
      · exact Or.inl (hbp e h5)
    · rw [h]; dsimp only; rw [bookkeeping_burned_out, h3b, hdb, hb]
    · rw [h]; intro _; dsimp only; rw [bookkeeping_lib_n, h3l, hdl, hl]

/-- The update loop appends exactly `update_loop_events` and leaves the flags
`update_loop_solvable`. -/
theorem update_loop_eq {α : Type} [Add α]
    (o : Options) (r : Rounds α) (burned_out : Bool) (lib : Library α)
    (k ns : Nat) (hits : List (FragHit α)) :
    ∀ s : UpdState α,
      (update_loop o r burned_out lib k ns s hits).trace =
        s.trace ++ update_loop_events o r burned_out lib k ns s.solvable hits ∧
      (update_loop o r burned_out lib k ns s hits).solvable =
        update_loop_solvable r k ns s.solvable hits := by
  induction hits with
  | nil => intro s; simp [update_loop, update_loop_events, update_loop_solvable]
  | cons hit hits ih =>
    intro s
    obtain ⟨h1, h2⟩ := ih (update_hit o r burned_out lib k ns s hit)
    rw [update_loop, h1, h2]
    simp [update_hit, update_loop_events, update_loop_solvable, List.append_assoc]

/-- Every call of the update loop is a call of one of its iterations. -/
theorem mem_update_loop_events {α : Type} [Add α]
    (o : Options) (r : Rounds α) (burned_out : Bool) (lib : Library α)
    (k ns : Nat) (e : Event α) (hits : List (FragHit α)) :
    ∀ solvable : Nat → Bool,
      e ∈ update_loop_events o r burned_out lib k ns solvable hits →
      ∃ hit ∈ hits, ∃ solv, e ∈ update_events o r burned_out lib k ns solv hit := by
  induction hits with
  | nil => intro solvable h; simp [update_loop_events] at h
  | cons hit hits ih =>
    intro solvable h
    rw [update_loop_events] at h
    rcases List.mem_append.mp h with h1 | h1
    · exact ⟨hit, List.mem_cons_self _ _, _, h1⟩
    · obtain ⟨hit1, hm, sv, he⟩ := ih _ h1
      exact ⟨hit1, List.mem_cons_of_mem _ hm, sv, he⟩

/-- Where the calls of one iteration of the update loop come from: all need
`first_round`; `update` on the mismatch model needs a model and
`!burned_out || edit_detect`; `add_val` needs a PAIRED hit and `!burned_out`;
`update_observed` needs a bias model and `!burned_out`. -/
theorem update_events_conditions {α : Type} [Add α]
    (o : Options) (r : Rounds α) (burned_out : Bool) (lib : Library α)
    (k ns : Nat) (solv : Bool) (hit : FragHit α) (e : Event α)
    (he : e ∈ update_events o r burned_out lib k ns solv hit) :
    r.first_round = true ∧
    (e = Event.incr_counts hit.targ (k == 1) ∨
     (e = Event.set_solvable hit.targ ∧ solv = false ∧ ns = k - 1) ∨
     (e = Event.mm_update hit hit.probability lib.mass_n ∧
        (burned_out = false ∨ o.edit_detect = true) ∧ lib.mismatch_table = true) ∨
     (e = Event.fld_add_val hit.length (hit.probability + lib.mass_n) ∧
        burned_out = false ∧ hit.pair_status = PairStatus.PAIRED) ∨
     (e = Event.bias_update_observed hit (hit.probability + lib.mass_n) ∧
        burned_out = false ∧ lib.bias_table = true)) := by
  unfold update_events at he
  dsimp only at he
  split at he
  · rename_i hfr
    refine ⟨hfr, ?_⟩
    simp only [List.mem_append, List.mem_singleton] at he
    rcases he with ((h | h) | h) | h
    · exact Or.inl h
    · split at h
      · rename_i hc
        simp at h
        simp only [Bool.and_eq_true, Bool.not_eq_true', beq_iff_eq] at hc
        exact Or.inr (Or.inl ⟨h, hc.1, hc.2⟩)
      · simp at h
    · split at h
      · rename_i hc
        simp at h
        simp only [Bool.and_eq_true, Bool.or_eq_true, Bool.not_eq_true'] at hc
        exact Or.inr (Or.inr (Or.inl ⟨h, hc.1, hc.2⟩))
      · simp at h
    · split at h
      · rename_i hb
        simp only [Bool.not_eq_true'] at hb
        simp only [List.mem_append] at h
        rcases h with h | h
        · split at h
          · rename_i hp
            simp at h
            exact Or.inr (Or.inr (Or.inr (Or.inl ⟨h, hb, hp⟩)))
          · simp at h
        · split at h
          · rename_i hbt
            simp at h
            exact Or.inr (Or.inr (Or.inr (Or.inr ⟨h, hb, hbt⟩)))
          · simp at h
      · simp at h
  · simp at he

/-- Every call of the scoring loop is a scoring query. -/
theorem scoring_trace_is_scoring {α : Type} (lib : Library α) (frag : Fragment α) :
    ∀ e ∈ scoring_trace lib frag, e.is_scoring = true := by
  intro e he
  unfold scoring_trace at he
  split at he
  · simp only [List.mem_flatMap] at he
    obtain ⟨hit, _, hmem⟩ := he
    unfold score_events at hmem
    simp only [List.mem_append, List.mem_singleton] at hmem
    rcases hmem with ((h | h) | h) | h
    · split at h <;> simp at h; subst h; rfl
    · split at h
      · simp only [List.mem_append] at h
        rcases h with h | h
        · split at h <;> simp at h; subst h; rfl
        · split at h <;> simp at h; subst h; rfl
      · simp at h
    · split at h <;> simp at h; subst h; rfl
    · subst h; rfl
  · simp at he

/-- The trace of `process_fragment`, exactly: nothing when the assertion fails;
otherwise the scoring queries, the call of mass propagation, and the calls of
the update loop on the fragment as mass propagation leaves it. -/
theorem process_fragment_trace_eq {α : Type} [Zero α] [Add α] [Sub α]
    (o : Options) (r : Rounds α) (burned_out : Bool) (env : Env α)
    (lib : Library α) (solvable : Nat → Bool) (frag : Fragment α) :
    (process_fragment o r burned_out env lib solvable frag).trace =
      if frag.num_hits = 0 then []
      else
        scoring_trace lib frag ++
          [Event.rho_process_fragment (scored_fragment env lib frag)] ++
          update_loop_events o r burned_out lib
            (propagated_fragment env (scored_fragment env lib frag)).num_hits
            (count_solvable solvable frag) solvable
            (propagated_fragment env (scored_fragment env lib frag)).hits := by
  unfold process_fragment
  split
  · rfl
  · dsimp only
    rw [(update_loop_eq o r burned_out lib _ _ _ _).1]

/-- A call of `update` on the mismatch model by `process_fragment` happens in
the first round, with a mismatch model, and before burn-out unless edit
detection is on. -/
theorem process_fragment_mm_update {α : Type} [Zero α] [Add α] [Sub α]
    (o : Options) (r : Rounds α) (burned_out : Bool) (env : Env α)
    (lib : Library α) (solvable : Nat → Bool) (frag : Fragment α) (e : Event α)
    (he : e ∈ (process_fragment o r burned_out env lib solvable frag).trace)
    (hu : e.is_mm_update = true) :
    r.first_round = true ∧ (burned_out = false ∨ o.edit_detect = true) ∧
      lib.mismatch_table = true := by
  rw [process_fragment_trace_eq] at he
  split at he
  · simp at he
  · simp only [List.mem_append, List.mem_singleton] at he
    rcases he with (h | h) | h
    · have := scoring_trace_is_scoring lib frag e h
      cases e <;> simp_all [Event.is_scoring, Event.is_mm_update]
    · subst h; simp [Event.is_mm_update] at hu
    · obtain ⟨hit, _, sv, hmem⟩ := mem_update_loop_events o r burned_out lib _ _ e _ _ h
      obtain ⟨hfr, hc⟩ := update_events_conditions o r burned_out lib _ _ sv hit e hmem
      rcases hc with h1 | ⟨h1, _⟩ | ⟨_, h2, h3⟩ | ⟨h1, _⟩ | ⟨h1, _⟩
      · subst h1; simp [Event.is_mm_update] at hu
      · subst h1; simp [Event.is_mm_update] at hu
      · exact ⟨hfr, h2, h3⟩
      · subst h1; simp [Event.is_mm_update] at hu
      · subst h1; simp [Event.is_mm_update] at hu

/-- No call of `process_fragment` fixes the mismatch model. -/
theorem process_fragment_no_fix {α : Type} [Zero α] [Add α] [Sub α]
    (o : Options) (r : Rounds α) (burned_out : Bool) (env : Env α)
    (lib : Library α) (solvable : Nat → Bool) (frag : Fragment α) (e : Event α)
    (he : e ∈ (process_fragment o r burned_out env lib solvable frag).trace) :
    e.is_mm_fix = false := by
  by_cases h0 : frag.num_hits = 0
  · simp [process_fragment, h0] at he
  · obtain ⟨ext, h1, h2⟩ := process_fragment_trace o r burned_out env lib solvable frag h0
    rw [h1] at he
    simp only [List.mem_append, List.mem_singleton] at he
    rcases he with (h | h) | h
    · have := scoring_trace_is_scoring lib frag e h
      cases e <;> simp_all [Event.is_scoring, Event.is_mm_fix]
    · subst h; rfl
    · have := h2 e h
      cases e <;> simp_all [Event.is_update, Event.is_mm_fix]

/-- An `update` follows a `fix()` in a concatenation when it does in a part, or
when the first part has a `fix()` and the second an `update`. -/
theorem update_after_fix_append {α : Type} (xs ys : List (Event α)) :
    update_after_fix (xs ++ ys) =
      (update_after_fix xs || (xs.any Event.is_mm_fix && ys.any Event.is_mm_update) ||
        update_after_fix ys) := by
  induction xs with
  | nil => simp [update_after_fix]
  | cons x xs ih =>
    rw [List.cons_append, update_after_fix, ih, update_after_fix]
    simp only [List.any_append, List.any_cons]
    generalize x.is_mm_fix = a
    generalize List.any xs Event.is_mm_update = b
    generalize List.any ys Event.is_mm_update = c
    generalize update_after_fix xs = d
    generalize List.any xs Event.is_mm_fix = e
    generalize update_after_fix ys = f
    cases a <;> cases b <;> cases c <;> cases d <;> cases e <;> cases f <;> rfl

/-- Without a `fix()` no `update` follows one. -/
theorem update_after_fix_of_no_fix {α : Type} (xs : List (Event α))
    (h : ∀ e ∈ xs, e.is_mm_fix = false) : update_after_fix xs = false := by
  induction xs with
  | nil => rfl
  | cons x xs ih =>
    simp only [update_after_fix, h x (List.mem_cons_self _ _), Bool.false_and, Bool.false_or]
    exact ih (fun e he => h e (List.mem_cons_of_mem _ he))

/-- Without an `update` none follows a `fix()`. -/
theorem update_after_fix_of_no_update {α : Type} (xs : List (Event α))
    (h : ∀ e ∈ xs, e.is_mm_update = false) : update_after_fix xs = false := by
  induction xs with
  | nil => rfl
  | cons x xs ih =>
    have h1 : xs.any Event.is_mm_update = false := by
      rw [List.any_eq_false]
      intro e he
      simp [h e (List.mem_cons_of_mem _ he)]
    simp only [update_after_fix, h1, Bool.and_false, Bool.false_or]
    exact ih (fun e he => h e (List.mem_cons_of_mem _ he))

/-- A plumbing event is neither a `fix()` nor an `update`. -/
theorem plumbing_not_mm {α : Type} (e : Event α) (h : e.is_plumbing = true) :
    e.is_mm_fix = false ∧ e.is_mm_update = false := by
  cases e <;> simp_all [Event.is_plumbing, Event.is_mm_fix, Event.is_mm_update]

/-- The head of an iteration makes no `update`. -/
theorem head_events_no_update {α : Type} (o : Options) (s : DriverState α) :
    ∀ e ∈ head_events o s, e.is_mm_update = false := by
  intro e he
  unfold head_events at he
  simp only [List.mem_append] at he
  rcases he with (h | h) | h
  · split at h
    · simp only [List.mem_append, List.mem_singleton] at h
      rcases h with h | h
      · subst h; rfl
      · split at h <;> simp at h; subst h; rfl
    · simp at h
  · split at h <;> simp at h; subst h; rfl
  · split at h
    · rw [List.mem_replicate] at h; rw [h.2]; rfl
    · simp at h

/-- When the head of an iteration calls `fix()`, it sets `burned_out`. -/
theorem head_events_fix {α : Type} (o : Options) (s : DriverState α) (e : Event α)
    (he : e ∈ head_events o s) (hf : e.is_mm_fix = true) : head_burned_out o s = true := by
  unfold head_events at he
  simp only [List.mem_append] at he
  rcases he with (h | h) | h
  · split at h
    · simp only [List.mem_append, List.mem_singleton] at h
      rcases h with h | h
      · subst h; simp [Event.is_mm_fix] at hf
      · split at h <;> simp at h; subst h; simp [Event.is_mm_fix] at hf
    · simp at h
  · split at h
    · rename_i hn
      simp [head_burned_out, hn]
    · simp at h
  · split at h
    · rw [List.mem_replicate] at h; rw [h.2] at hf; simp [Event.is_mm_fix] at hf
    · simp at h

/-- A list on which `any` holds has an element on which the test holds. -/
theorem any_eq_true_of_mem {α : Type} (p : Event α → Bool) (xs : List (Event α))
    (h : xs.any p = true) : ∃ e ∈ xs, p e = true := by
  simpa [List.any_eq_true] using h

/-- The invariant survives a step that appends to the traces, provided the
step keeps `burned_out` once set, sets it when it appends a `fix()`, appends
no `update` after a `fix()` of its own, and appends an `update` only when
`burned_out` was not set. -/
theorem fix_invariant_extend {α : Type} (base wbase : List (Event α))
    (s s1 : DriverState α) (xs ws : List (Event α))
    (h : fix_invariant base wbase s)
    (ht : s1.trace = s.trace ++ xs) (hw : s1.worker_trace = s.worker_trace ++ ws)
    (hws : ∀ e ∈ ws, e.is_mm_update = false)
    (hb : s.burned_out = true → s1.burned_out = true)
    (hfix : ∀ e ∈ xs, e.is_mm_fix = true → s1.burned_out = true)
    (hupd : update_after_fix xs = false)
    (hcross : ∀ e ∈ xs, e.is_mm_update = true → s.burned_out = false) :
    fix_invariant base wbase s1 := by
  obtain ⟨ext, wext, h1, h2, h3, h4, h5⟩ := h
  refine ⟨ext ++ xs, wext ++ ws, ?_, ?_, ?_, ?_, ?_⟩
  · rw [ht, h1, List.append_assoc]
  · rw [hw, h2, List.append_assoc]
  · rw [update_after_fix_append, h3, hupd]
    cases hf : ext.any Event.is_mm_fix with
    | false => rfl
    | true =>
      cases hu : xs.any Event.is_mm_update with
      | false => rfl
      | true =>
        obtain ⟨e, he, hue⟩ := any_eq_true_of_mem _ _ hu
        have := hcross e he hue
        rw [h4 hf] at this
        cases this
  · intro hf
    rw [List.any_append, Bool.or_eq_true] at hf
    rcases hf with hf | hf
    · exact hb (h4 hf)
    · obtain ⟨e, he, hfe⟩ := any_eq_true_of_mem _ _ hf
      exact hfix e he hfe
  · intro e he
    rcases List.mem_append.mp he with h6 | h6
    · exact h5 e h6
    · exact hws e h6

/-- Lines 459-465 call neither `fix()` nor `update`. -/
theorem burn_in_step_no_mm {α : Type} (o : Options) (s : DriverState α) :
    ∀ e ∈ (if s.lib.n = o.burn_in then
        [Event.bias_update_start] ++ (if s.lib.mismatch_table then [Event.mm_activate] else [])
       else [] : List (Event α)), e.is_mm_fix = false ∧ e.is_mm_update = false := by
  intro e he
  split at he
  · simp only [List.mem_append, List.mem_singleton] at he
    rcases he with h | h
    · subst h; exact ⟨rfl, rfl⟩
    · split at h <;> simp at h; subst h; exact ⟨rfl, rfl⟩
  · simp at he

/-- With edit detection off, an iteration on a fragment maintains the
invariant. -/
theorem iteration_invariant {α : Type} [Zero α] [One α] [Add α] [Sub α] [Mul α] [NatCast α]
    (o : Options) (hed : o.edit_detect = false) (r : Rounds α) (env : Env α)
    (base wbase : List (Event α)) (s : DriverState α) (frag : Fragment α)
    (h : fix_invariant base wbase s) :
    fix_invariant base wbase (iteration o r env s frag).2 := by
  rcases iteration_trace o r env s frag with ⟨_, h1⟩ | ⟨ext, wext, ht, hw, hep, hwp, _, hb, _⟩
  · rw [h1]
    have hno := burn_in_step_no_mm o s
    refine fix_invariant_extend base wbase s _ _ [] h (burn_in_step_trace o s)
      (by rw [burn_in_step_worker_trace]; simp) (by simp)
      (by rw [burn_in_step_burned_out]; exact id)
      (fun e he hf => by rw [(hno e he).1] at hf; cases hf)
      (update_after_fix_of_no_fix _ (fun e he => (hno e he).1))
      (fun e he hu => by rw [(hno e he).2] at hu; cases hu)
  · have hext_fix : ∀ e ∈ ext, e.is_mm_fix = false := by
      intro e he
      rcases hep e he with h1 | ⟨_, h1⟩
      · exact (plumbing_not_mm e h1).1
      · exact process_fragment_no_fix o r _ env _ _ frag e h1
    have hext_upd : ∀ e ∈ ext, e.is_mm_update = true → head_burned_out o s = false := by
      intro e he hu
      rcases hep e he with h1 | ⟨_, h1⟩
      · rw [(plumbing_not_mm e h1).2] at hu; cases hu
      · rcases (process_fragment_mm_update o r _ env _ _ frag e h1 hu).2.1 with h2 | h2
        · exact h2
        · rw [hed] at h2; cases h2
    refine fix_invariant_extend base wbase s _ (head_events o s ++ ext) wext h
      (by rw [ht, List.append_assoc]) hw ?_ ?_ ?_ ?_ ?_
    · intro e he
      obtain ⟨⟨_, hbt⟩, h1 | h1⟩ := hwp e he
      · exact (plumbing_not_mm e h1).2
      · cases hu : e.is_mm_update with
        | false => rfl
        | true =>
          rcases (process_fragment_mm_update o r _ env _ _ frag e h1 hu).2.1 with h2 | h2
          · rw [hbt] at h2; cases h2
          · rw [hed] at h2; cases h2
    · intro hs
      rw [hb]
      simp [head_burned_out, hs]
    · intro e he hf
      rw [hb]
      rcases List.mem_append.mp he with h1 | h1
      · exact head_events_fix o s e h1 hf
      · rw [hext_fix e h1] at hf; cases hf
    · rw [update_after_fix_append, update_after_fix_of_no_update _ (head_events_no_update o s),
        update_after_fix_of_no_fix _ hext_fix]
      cases hf : (head_events o s).any Event.is_mm_fix with
      | false => rfl
      | true =>
        cases hu : ext.any Event.is_mm_update with
        | false => rfl
        | true =>
          obtain ⟨e, he, hfe⟩ := any_eq_true_of_mem _ _ hf
          obtain ⟨e2, he2, hue⟩ := any_eq_true_of_mem _ _ hu
          have h1 := head_events_fix o s e he hfe
          rw [hext_upd e2 he2 hue] at h1
          cases h1
    · intro e he hu
      rcases List.mem_append.mp he with h1 | h1
      · rw [head_events_no_update o s e h1] at hu; cases hu
      · have := hext_upd e h1 hu
        simp only [head_burned_out, Bool.or_eq_false_iff] at this
        exact this.1

/-- The size of the thread pool after lines 471-476. -/
theorem spawn_step_thread_pool {α : Type} (o : Options) (s : DriverState α) :
    (spawn_step o s).thread_pool =
      if s.burned_out && o.num_threads != 0 && s.thread_pool == 0
        then o.num_threads else s.thread_pool := by
  unfold spawn_step DriverState.emit
  split <;> rfl

/-- The size of the thread pool after the head of an iteration. -/
theorem loop_head_thread_pool {α : Type} (o : Options) (s s1 : DriverState α)
    (h : loop_head o s = some s1) : s1.thread_pool = head_thread_pool o s := by
  unfold loop_head at h
  cases h2 : burn_out_step o (burn_in_step o s) with
  | none => rw [h2] at h; cases h
  | some s2 =>
    rw [h2] at h
    cases h
    obtain ⟨_, b2, _⟩ := burn_out_step_spec o _ s2 h2
    rw [burn_in_step_lib, burn_in_step_burned_out] at b2
    rw [spawn_step_thread_pool, b2, burn_out_step_thread_pool o _ s2 h2,
      burn_in_step_thread_pool]
    rfl

/-- The last iteration, unless the head of the loop goes through `NULL`:
the events of the head, then one stop signal per thread of the pool when
multi-threaded and burned out. -/
theorem final_iteration_trace {α : Type} (o : Options) (s : DriverState α) :
    (loop_head o s = none ∧ final_iteration o s = (Status.null_deref, burn_in_step o s)) ∨
    ((final_iteration o s).1 = Status.ok ∧
      (final_iteration o s).2.trace = s.trace ++ head_events o s ++
        (if o.num_threads != 0 && head_burned_out o s
          then List.replicate (head_thread_pool o s) (Event.proc_on_push none) else []) ∧
      (final_iteration o s).2.worker_trace = s.worker_trace ∧
      (final_iteration o s).2.burned_out = head_burned_out o s ∧
      (final_iteration o s).2.lib = s.lib ∧
      (s.lib.n = o.burn_out → s.lib.mismatch_table = true)) := by
  unfold final_iteration
  cases h1 : loop_head o s with
  | none => exact Or.inl ⟨rfl, rfl⟩
  | some s1 =>
    right
    obtain ⟨ht, hb, hl, _, hw, hm⟩ := loop_head_spec o s s1 h1
    have hp := loop_head_thread_pool o s s1 h1
    dsimp only
    rw [hb, hp]
    split
    · exact ⟨rfl, by simp [DriverState.emit, ht], hw, hb, hl, hm⟩
    · exact ⟨rfl, by simp [ht], hw, hb, hl, hm⟩

/-- With edit detection off, the last iteration maintains the invariant. -/
theorem final_iteration_invariant {α : Type} (o : Options) (base wbase : List (Event α))
    (s : DriverState α) (h : fix_invariant base wbase s) :
    fix_invariant base wbase (final_iteration o s).2 := by
  rcases final_iteration_trace o s with ⟨_, h1⟩ | ⟨_, ht, hw, hb, _, _⟩
  · rw [h1]
    have hno := burn_in_step_no_mm o s
    refine fix_invariant_extend base wbase s _ _ [] h (burn_in_step_trace o s)
      (by rw [burn_in_step_worker_trace]; simp) (by simp)
      (by rw [burn_in_step_burned_out]; exact id)
      (fun e he hf => by rw [(hno e he).1] at hf; cases hf)
      (update_after_fix_of_no_fix _ (fun e he => (hno e he).1))
      (fun e he hu => by rw [(hno e he).2] at hu; cases hu)
  · have hs : ∀ e ∈ (if o.num_threads != 0 && head_burned_out o s
          then List.replicate (head_thread_pool o s) (Event.proc_on_push none) else []
          : List (Event α)), e.is_mm_fix = false ∧ e.is_mm_update = false := by
      intro e he
      split at he
      · rw [List.mem_replicate] at he; rw [he.2]; exact ⟨rfl, rfl⟩
      · simp at he
    refine fix_invariant_extend base wbase s _ (head_events o s ++ _) [] h
      (by rw [ht, List.append_assoc]) (by rw [hw]; simp) (by simp) ?_ ?_ ?_ ?_
    · intro hs1
      rw [hb]
      simp [head_burned_out, hs1]
    · intro e he hf
      rw [hb]
      rcases List.mem_append.mp he with h1 | h1
      · exact head_events_fix o s e h1 hf
      · rw [(hs e h1).1] at hf; cases hf
    · apply update_after_fix_of_no_update
      intro e he
      rcases List.mem_append.mp he with h1 | h1
      · exact head_events_no_update o s e h1
      · exact (hs e h1).2
    · intro e he hu
      rcases List.mem_append.mp he with h1 | h1
      · rw [head_events_no_update o s e h1] at hu; cases hu
      · rw [(hs e h1).2] at hu; cases hu

/-- With edit detection off, the loop over the fragments maintains the
invariant. -/
theorem driver_loop_invariant {α : Type} [Zero α] [One α] [Add α] [Sub α] [Mul α] [NatCast α]
    (o : Options) (hed : o.edit_detect = false) (r : Rounds α) (env : Env α)
    (base wbase : List (Event α)) (stream : List (Fragment α)) :
    ∀ s : DriverState α, fix_invariant base wbase s →
      fix_invariant base wbase (driver_loop o r env stream s).2 := by
  induction stream with
  | nil => intro s h; exact final_iteration_invariant o base wbase s h
  | cons frag stream ih =>
    intro s h
    have h1 := iteration_invariant o hed r env base wbase s frag h
    rcases hi : iteration o r env s frag with ⟨st, s1⟩
    rw [hi] at h1
    by_cases hst : st = Status.ok
    · subst hst
      rw [driver_loop_cons_ok o r env frag stream s s1 hi]
      exact ih s1 h1
    · rw [driver_loop_cons_fail o r env frag stream s s1 st hi hst]
      exact h1

/-- C5 as stated fails with edit detection on: at thresholds 1 and 2 on a
stream of three single-hit fragments in the first round, the driver calls
`fix()` before the second fragment and `process_fragment` still calls `update`
on the mismatch model for the second and third fragments. -/
theorem C5_edit_detect_counterexample :
    ex_options_edit.edit_detect = true ∧
    update_after_fix
      (lib_pass ex_options_edit ex_rounds ex_env RunState.init ex_lib3).2.trace = true ∧
    (process_fragment ex_options_edit ex_rounds true ex_env ex_lib (fun _ => false)
      ex_frag1).trace.any Event.is_mm_update = true := by
  refine ⟨rfl, by decide, by decide⟩

/-- The duplicate check, when it lets the fragment through, only appends calls
of `test_and_push`. -/
theorem duplicate_check_ok_trace {α : Type} (r : Rounds α) (env : Env α)
    (s s2 : DriverState α) (frag : Fragment α)
    (h : duplicate_check r env s frag = (Status.ok, s2)) :
    ∃ ext, s2.trace = s.trace ++ ext ∧
      ∀ e ∈ ext, e = Event.test_and_push frag.name false := by
  unfold duplicate_check DriverState.emit at h
  split at h
  · split at h
    · cases h
    · cases h; exact ⟨_, rfl, by simp⟩
  · cases h; exact ⟨[], by simp, by simp⟩

/-- The bookkeeping only appends calls of `output_results`. -/
theorem bookkeeping_output {α : Type} [One α] [Add α] [Sub α] [Mul α] [NatCast α]
    (o : Options) (r : Rounds α) (env : Env α) (s : DriverState α) :
    ∃ ext, (bookkeeping o r env s).trace = s.trace ++ ext ∧
      ∀ e ∈ ext, e = Event.output_results s.n s.n := by
  unfold bookkeeping DriverState.emit
  dsimp only
  split
  · exact ⟨_, rfl, by simp⟩
  · exact ⟨[], by simp, by simp⟩

/-- An inline dispatch that ends normally appends the calls of
`process_fragment` and one push to `proc_out`. -/
theorem dispatch_inline_ok {α : Type} [Zero α] [Add α] [Sub α]
    (o : Options) (r : Rounds α) (env : Env α) (s s3 : DriverState α) (frag : Fragment α)
    (h0 : o.num_threads = 0 ∨ s.burned_out = false)
    (h : dispatch o r env s frag = (Status.ok, s3)) :
    s3.trace = s.trace ++
        (process_fragment o r s.burned_out env s.lib s.solvable frag).trace ++
        [Event.proc_out_push (process_fragment o r s.burned_out env s.lib s.solvable frag).frag] ∧
    s3.worker_trace = s.worker_trace ∧
    s3.solvable = (process_fragment o r s.burned_out env s.lib s.solvable frag).solvable ∧
    frag.num_hits ≠ 0 := by
  have hc : ¬ ((o.num_threads != 0 && s.burned_out) = true) := by
    rcases h0 with h0 | h0
    · simp [h0]
    · simp [h0]
  unfold dispatch at h
  rw [if_neg hc] at h
  unfold inline_step DriverState.emit at h
  dsimp only at h
  have hst := process_fragment_status o r s.burned_out env s.lib s.solvable frag
  split at h
  · rename_i hok
    cases h
    refine ⟨by simp [List.append_assoc], rfl, rfl, ?_⟩
    intro h00
    rw [hok, if_pos h00] at hst
    cases hst
  · rename_i hne
    have := congrArg Prod.fst h
    exact absurd this hne

/-- An iteration that processes its fragment inline and ends normally: the
events of the head of the loop, calls of `test_and_push`, the calls of
`process_fragment`, one push to `proc_out`, calls of `output_results`. -/
theorem iteration_inline_ok {α : Type} [Zero α] [One α] [Add α] [Sub α] [Mul α] [NatCast α]
    (o : Options) (r : Rounds α) (env : Env α) (s s1 : DriverState α) (frag : Fragment α)
    (h0 : o.num_threads = 0 ∨ head_burned_out o s = false)
    (hi : iteration o r env s frag = (Status.ok, s1)) :
    ∃ dext bext,
      s1.trace = s.trace ++ head_events o s ++ dext ++
        (process_fragment o r (head_burned_out o s) env s.lib s.solvable frag).trace ++
        [Event.proc_out_push
          (process_fragment o r (head_burned_out o s) env s.lib s.solvable frag).frag] ++
        bext ∧
      (∀ e ∈ dext, e = Event.test_and_push frag.name false) ∧
      (∀ e ∈ bext, e = Event.output_results s.n s.n) ∧
      s1.worker_trace = s.worker_trace ∧
      s1.lib.n = s.lib.n + 1 ∧
      s1.burned_out = head_burned_out o s ∧
      (s.lib.n = o.burn_out → s.lib.mismatch_table = true) ∧
      frag.num_hits ≠ 0 := by
  rcases iteration_cases o r env s frag with ⟨_, h⟩ | ⟨t1, st, t2, h1, h2, hne, h⟩ |
    ⟨t1, t2, st, t3, h1, h2, h3, hne, h⟩ | ⟨t1, t2, t3, h1, h2, h3, h⟩
  · rw [h] at hi; cases hi
  · rw [h] at hi; cases hi; exact absurd rfl hne
  · rw [h] at hi; cases hi; exact absurd rfl hne
  · rw [h] at hi
    cases hi
    obtain ⟨ht, hb, hl, hs, hw, hm⟩ := loop_head_spec o s t1 h1
    obtain ⟨dext, hd, hdp⟩ := duplicate_check_ok_trace r env t1 t2 frag h2
    have hdw := duplicate_check_worker_trace r env t1 frag
    have hdb := duplicate_check_burned_out r env t1 frag
    have hdl := duplicate_check_lib r env t1 frag
    have hds := duplicate_check_solvable r env t1 frag
    have hdn := duplicate_check_n r env t1 frag
    rw [h2] at hdw hdb hdl hds hdn
    dsimp only at hdw hdb hdl hds hdn
    have h0' : o.num_threads = 0 ∨ t2.burned_out = false := by
      rw [hdb, hb]; exact h0
    obtain ⟨h3t, h3w, _, hh⟩ := dispatch_inline_ok o r env t2 t3 frag h0' h3
    rw [hdb, hdl, hds, hb, hl, hs] at h3t
    have h3l := dispatch_lib o r env t2 frag
    have h3b := dispatch_burned_out o r env t2 frag
    have h3n := dispatch_n o r env t2 frag
    rw [h3] at h3l h3b h3n
    dsimp only at h3l h3b h3n
    obtain ⟨bext, hbe, hbp⟩ := bookkeeping_output o r env t3
    have hn1 : t1.n = s.n := by
      unfold loop_head at h1
      cases h2' : burn_out_step o (burn_in_step o s) with
      | none => rw [h2'] at h1; cases h1
      | some u =>
        rw [h2'] at h1
        cases h1
        rw [spawn_step_n, burn_out_step_n o _ u h2', burn_in_step_n]
    refine ⟨dext, bext, ?_, hdp, ?_, ?_, ?_, ?_, hm, hh⟩
    · rw [hbe, h3t, hd, ht]
    · intro e he
      rw [hbp e he, h3n, hdn, hn1]
    · rw [bookkeeping_worker_trace, h3w, hdw, hw]
    · rw [bookkeeping_lib_n, h3l, hdl, hl]
    · rw [bookkeeping_burned_out, h3b, hdb, hb]

/-- The milestones of a concatenation. -/
theorem milestones_append {α : Type} (xs ys : List (Event α)) :
    milestones (xs ++ ys) = milestones xs ++ milestones ys := by
  simp [milestones, List.filterMap_append]

/-- A trace without milestone events has no milestone. -/
theorem milestones_nil_of {α : Type} (xs : List (Event α))
    (h : ∀ e ∈ xs, e.milestone = none) : milestones xs = [] := by
  induction xs with
  | nil => rfl
  | cons x xs ih =>
    simp only [milestones, List.filterMap_cons, h x (List.mem_cons_self _ _)]
    exact ih (fun e he => h e (List.mem_cons_of_mem _ he))

/-- The milestones of the head of an iteration, for a library with a mismatch
model. -/
theorem head_events_milestones {α : Type} (o : Options) (s : DriverState α)
    (hm : s.lib.mismatch_table = true) :
    milestones (head_events o s) = head_milestones o.burn_in o.burn_out s.lib.n := by
  unfold head_events head_milestones
  rw [milestones_append, milestones_append]
  have h3 : milestones (if (s.burned_out || decide (s.lib.n = o.burn_out)) &&
      o.num_threads != 0 && s.thread_pool == 0
      then List.replicate o.num_threads Event.spawn_worker else [] : List (Event α)) = [] := by
    apply milestones_nil_of
    intro e he
    split at he
    · rw [List.mem_replicate] at he; rw [he.2]; rfl
    · simp at he
  rw [h3, List.append_nil, hm]
  by_cases h1 : s.lib.n = o.burn_in
  · by_cases h2 : s.lib.n = o.burn_out
    · rw [if_pos h1, if_pos h2, if_pos h1, if_pos h2]; rfl
    · rw [if_pos h1, if_neg h2, if_pos h1, if_neg h2]; rfl
  · by_cases h2 : s.lib.n = o.burn_out
    · rw [if_neg h1, if_pos h2, if_neg h1, if_pos h2]; rfl
    · rw [if_neg h1, if_neg h2, if_neg h1, if_neg h2]; rfl

/-- No call of `process_fragment` is a milestone. -/
theorem process_fragment_milestones {α : Type} [Zero α] [Add α] [Sub α]
    (o : Options) (r : Rounds α) (burned_out : Bool) (env : Env α)
    (lib : Library α) (solvable : Nat → Bool) (frag : Fragment α) :
    milestones (process_fragment o r burned_out env lib solvable frag).trace = [] := by
  apply milestones_nil_of
  intro e he
  by_cases h0 : frag.num_hits = 0
  · simp [process_fragment, h0] at he
  · obtain ⟨ext, h1, h2⟩ := process_fragment_trace o r burned_out env lib solvable frag h0
    rw [h1] at he
    simp only [List.mem_append, List.mem_singleton] at he
    rcases he with (h | h) | h
    · have := scoring_trace_is_scoring lib frag e h
      cases e <;> simp_all [Event.is_scoring, Event.milestone]
    · subst h; rfl
    · have := h2 e h
      cases e <;> simp_all [Event.is_update, Event.milestone]

/-- The milestones of an inline pass that ends normally, for a library with a
mismatch model. -/
theorem driver_loop_milestones {α : Type} [Zero α] [One α] [Add α] [Sub α] [Mul α] [NatCast α]
    (o : Options) (r : Rounds α) (env : Env α) (h0 : o.num_threads = 0)
    (stream : List (Fragment α)) :
    ∀ s : DriverState α, s.lib.mismatch_table = true →
      (driver_loop o r env stream s).1 = Status.ok →
      ∃ ext, (driver_loop o r env stream s).2.trace = s.trace ++ ext ∧
        milestones ext = expected_milestones o.burn_in o.burn_out s.lib.n stream.length := by
  induction stream with
  | nil =>
    intro s hm hok
    rcases final_iteration_trace o s with ⟨_, h1⟩ | ⟨_, ht, _, _, _, _⟩
    · rw [driver_loop, h1] at hok; cases hok
    · refine ⟨_, by rw [driver_loop, ht, List.append_assoc], ?_⟩
      rw [milestones_append, head_events_milestones o s hm]
      simp [h0, expected_milestones, milestones]
  | cons frag stream ih =>
    intro s hm hok
    rcases hi : iteration o r env s frag with ⟨st, s1⟩
    by_cases hst : st = Status.ok
    · subst hst
      rw [driver_loop_cons_ok o r env frag stream s s1 hi] at hok ⊢
      obtain ⟨dext, bext, ht, hd, hb, _, hn, _, _, _⟩ :=
        iteration_inline_ok o r env s s1 frag (Or.inl h0) hi
      have hf := iteration_frame o r env s frag
      rw [hi] at hf
      obtain ⟨ext, he, hms⟩ := ih s1 (by rw [hf.2.1]; exact hm) hok
      refine ⟨head_events o s ++ dext ++
        (process_fragment o r (head_burned_out o s) env s.lib s.solvable frag).trace ++
        [Event.proc_out_push
          (process_fragment o r (head_burned_out o s) env s.lib s.solvable frag).frag] ++
        bext ++ ext, by rw [he, ht]; simp only [List.append_assoc], ?_⟩
      simp only [milestones_append, head_events_milestones o s hm, hms,
        process_fragment_milestones, hn, List.length_cons, expected_milestones]
      have h1 : milestones dext = [] :=
        milestones_nil_of _ (fun e he => by rw [hd e he]; rfl)
      have h2 : milestones bext = [] :=
        milestones_nil_of _ (fun e he => by rw [hb e he]; rfl)
      rw [h1, h2]
      simp [milestones, Event.milestone]
    · rw [driver_loop_cons_fail o r env frag stream s s1 st hi hst] at hok
      exact absurd hok hst

/-- Past both thresholds only fragments remain. -/
theorem expected_milestones_after (bi bo k : Nat) :
    ∀ n, bi < n → bo < n →
      expected_milestones bi bo n k = List.replicate k Milestone.fragment := by
  induction k with
  | zero =>
    intro n h1 h2
    simp [expected_milestones, head_milestones, Nat.ne_of_gt h1, Nat.ne_of_gt h2]
  | succ k ih =>
    intro n h1 h2
    rw [expected_milestones, ih (n + 1) (by omega) (by omega)]
    simp [head_milestones, Nat.ne_of_gt h1, Nat.ne_of_gt h2, List.replicate_succ]

/-- Between the thresholds: `d` fragments, `fix()`, the remaining fragments. -/
theorem expected_milestones_between (bi bo d : Nat) :
    ∀ n k, bi < n → n + d = bo → d ≤ k →
      expected_milestones bi bo n k =
        List.replicate d Milestone.fragment ++ [Milestone.fix] ++
          List.replicate (k - d) Milestone.fragment := by
  induction d with
  | zero =>
    intro n k h1 h2 _
    have hn : n = bo := by omega
    subst hn
    cases k with
    | zero => simp [expected_milestones, head_milestones, Nat.ne_of_gt h1]
    | succ k =>
      rw [expected_milestones, expected_milestones_after bi n k (n + 1) (by omega) (by omega)]
      simp [head_milestones, Nat.ne_of_gt h1, List.replicate_succ]
  | succ d ih =>
    intro n k h1 h2 h3
    obtain ⟨k1, rfl⟩ : ∃ k1, k = k1 + 1 := ⟨k - 1, by omega⟩
    have hne : n ≠ bo := by omega
    rw [expected_milestones, ih (n + 1) k1 (by omega) (by omega) (by omega)]
    simp [head_milestones, Nat.ne_of_gt h1, hne, List.replicate_succ]

/-- Up to burn-in: `c` fragments, `activate()`, the fragments up to burn-out,
`fix()`, the remaining fragments. -/
theorem expected_milestones_before (bi bo : Nat) (hio : bi ≤ bo) (c : Nat) :
    ∀ n k, n + c = bi → bo - n ≤ k →
      expected_milestones bi bo n k =
        List.replicate c Milestone.fragment ++ [Milestone.activate] ++
          List.replicate (bo - bi) Milestone.fragment ++ [Milestone.fix] ++
          List.replicate (k - (bo - n)) Milestone.fragment := by
  induction c with
  | zero =>
    intro n k h1 h2
    have hn : n = bi := by omega
    subst hn
    by_cases heq : n = bo
    · subst heq
      cases k with
      | zero =>
        simp [expected_milestones, head_milestones]
      | succ k =>
        rw [expected_milestones, expected_milestones_after n n k (n + 1) (by omega) (by omega)]
        simp [head_milestones, List.replicate_succ]
    · have hlt : n < bo := by omega
      obtain ⟨k1, rfl⟩ : ∃ k1, k = k1 + 1 := ⟨k - 1, by omega⟩
      rw [expected_milestones,
        expected_milestones_between n bo (bo - n - 1) (n + 1) k1 (by omega)
          (by omega) (by omega)]
      have e1 : bo - n = (bo - n - 1) + 1 := by omega
      have e2 : k1 + 1 - (bo - n) = k1 - (bo - n - 1) := by omega
      rw [e2]
      conv_rhs => rw [e1]
      simp [head_milestones, heq, List.replicate_succ]
  | succ c ih =>
    intro n k h1 h2
    obtain ⟨k1, rfl⟩ : ∃ k1, k = k1 + 1 := ⟨k - 1, by omega⟩
    have hne1 : n ≠ bi := by omega
    have hne2 : n ≠ bo := by omega
    rw [expected_milestones, ih (n + 1) k1 (by omega) (by omega)]
    have e2 : k1 + 1 - (bo - n) = k1 - (bo - (n + 1)) := by omega
    rw [e2]
    simp [head_milestones, hne1, hne2, List.replicate_succ]

/-- The library `ex_lib6` is well formed for the filter of `ex_env`. -/
theorem ex_lib6_well_formed : ex_lib6.well_formed ex_env := by
  refine ⟨rfl, ?_, by decide⟩
  intro frag hf
  simp only [ex_lib6, List.mem_cons, List.mem_singleton, List.not_mem_nil, or_false] at hf
  rcases hf with h | h | h | h | h | h <;> subst h <;> decide

/-- C6: in one inline pass (no worker thread) over a library with a mismatch
model whose count starts at 1, with `2 <= burn_in <= burn_out` and a stream of
`F >= burn_out - 1` fragments, a pass that ends normally has these milestones,
in this order: `burn_in - 1` fragments, `activate()`, `burn_out - burn_in`
fragments, `fix()`, the remaining `F + 1 - burn_out` fragments.  So
`activate()` is called once, in the iteration where `n == burn_in`, `fix()`
once, in the iteration where `n == burn_out`, and `activate()` comes first.
On a well-formed library the pass does end normally. -/
theorem C6_activate_then_fix {α : Type} [Zero α] [One α] [Add α] [Sub α] [Mul α] [NatCast α]
    (o : Options) (r : Rounds α) (env : Env α) (s : RunState α) (lib : Library α)
    (h0 : o.num_threads = 0) (hm : lib.mismatch_table = true) (hn : lib.n = 1)
    (h2 : 2 ≤ o.burn_in) (hio : o.burn_in ≤ o.burn_out)
    (hF : o.burn_out - 1 ≤ lib.stream.length) :
    ((lib_pass o r env s lib).1 = Status.ok →
      ∃ ext, (lib_pass o r env s lib).2.trace = s.trace ++ ext ∧
        milestones ext =
          List.replicate (o.burn_in - 1) Milestone.fragment ++ [Milestone.activate] ++
          List.replicate (o.burn_out - o.burn_in) Milestone.fragment ++ [Milestone.fix] ++
          List.replicate (lib.stream.length + 1 - o.burn_out) Milestone.fragment) ∧
    (lib.well_formed env → (lib_pass o r env s lib).1 = Status.ok) := by
  refine ⟨fun hok => ?_, fun hw => lib_pass_ok o r env s lib hw⟩
  unfold lib_pass at hok ⊢
  obtain ⟨ext, h1, h3⟩ := driver_loop_milestones o r env h0 lib.stream
    (lib_pass_start o s lib) hm hok
  refine ⟨ext, h1, ?_⟩
  rw [h3]
  have hn1 : (lib_pass_start o s lib).lib.n = 1 := hn
  rw [hn1, expected_milestones_before o.burn_in o.burn_out hio (o.burn_in - 1) 1
    lib.stream.length (by omega) (by omega)]
  have e : lib.stream.length - (o.burn_out - 1) = lib.stream.length + 1 - o.burn_out := by
    omega
  rw [e]

/-- C6 at burn-in 2, burn-out 5 and six fragments processed inline:
`activate()` after the first fragment, `fix()` after the fourth. -/
theorem C6_activate_then_fix_witness :
    ex_options_2_5.num_threads = 0 ∧ ex_lib6.mismatch_table = true ∧ ex_lib6.n = 1 ∧
    2 ≤ ex_options_2_5.burn_in ∧ ex_options_2_5.burn_in ≤ ex_options_2_5.burn_out ∧
    ex_options_2_5.burn_out - 1 ≤ ex_lib6.stream.length ∧
    (lib_pass ex_options_2_5 ex_rounds ex_env RunState.init ex_lib6).1 = Status.ok ∧
    ∃ ext, (lib_pass ex_options_2_5 ex_rounds ex_env RunState.init ex_lib6).2.trace =
        RunState.init.trace ++ ext ∧
      milestones ext =
        [Milestone.fragment, Milestone.activate, Milestone.fragment, Milestone.fragment,
         Milestone.fragment, Milestone.fix, Milestone.fragment, Milestone.fragment] :=
  have h := C6_activate_then_fix ex_options_2_5 ex_rounds ex_env RunState.init ex_lib6
    rfl rfl rfl (by decide) (by decide) (by decide)
  ⟨rfl, rfl, rfl, by decide, by decide, by decide, h.2 ex_lib6_well_formed,
    h.1 (h.2 ex_lib6_well_formed)⟩

/-- The events of the head of an iteration are head events. -/
theorem head_events_is_head {α : Type} (o : Options) (s : DriverState α) :
    ∀ e ∈ head_events o s, e.is_head = true := by
  intro e he
  unfold head_events at he
  simp only [List.mem_append] at he
  rcases he with (h | h) | h
  · split at h
    · simp only [List.mem_append, List.mem_singleton] at h
      rcases h with h | h
      · subst h; rfl
      · split at h <;> simp at h; subst h; rfl
    · simp at h
  · split at h <;> simp at h; subst h; rfl
  · split at h
    · rw [List.mem_replicate] at h; rw [h.2]; rfl
    · simp at h

/-- The events of lines 459-465 are head events. -/
theorem burn_in_events_is_head {α : Type} (o : Options) (s : DriverState α) :
    ∀ e ∈ (if s.lib.n = o.burn_in then
        [Event.bias_update_start] ++ (if s.lib.mismatch_table then [Event.mm_activate] else [])
       else [] : List (Event α)), e.is_head = true := by
  intro e he
  split at he
  · simp only [List.mem_append, List.mem_singleton] at he
    rcases he with h | h
    · subst h; rfl
    · split at h <;> simp at h; subst h; rfl
  · simp at he

/-- A property of events that holds of the events of the head of the loop, of
the plumbing events and of the calls `process_fragment` makes on the fragments
of the stream holds of everything the loop appends to the trace of the driver
thread. -/
theorem driver_loop_trace_forall {α : Type} [Zero α] [One α] [Add α] [Sub α] [Mul α]
    [NatCast α] (o : Options) (r : Rounds α) (env : Env α) (P : Event α → Prop)
    (hhead : ∀ e : Event α, e.is_head = true → P e)
    (hpl : ∀ e : Event α, e.is_plumbing = true → P e)
    (stream : List (Fragment α)) :
    (∀ frag ∈ stream, ∀ (b : Bool) (lib : Library α) (solvable : Nat → Bool),
      ∀ e ∈ (process_fragment o r b env lib solvable frag).trace, P e) →
    ∀ s : DriverState α, ∃ ext, (driver_loop o r env stream s).2.trace = s.trace ++ ext ∧
      ∀ e ∈ ext, P e := by
  induction stream with
  | nil =>
    intro _ s
    rcases final_iteration_trace o s with ⟨_, h1⟩ | ⟨_, ht, _, _, _, _⟩
    · refine ⟨_, by rw [driver_loop, h1]; exact burn_in_step_trace o s, ?_⟩
      exact fun e he => hhead e (burn_in_events_is_head o s e he)
    · refine ⟨_, by rw [driver_loop, ht, List.append_assoc], ?_⟩
      intro e he
      rcases List.mem_append.mp he with h | h
      · exact hhead e (head_events_is_head o s e h)
      · split at h
        · rw [List.mem_replicate] at h; rw [h.2]; exact hpl _ rfl
        · simp at h
  | cons frag stream ih =>
    intro hpf s
    have hstep : ∃ ext, (iteration o r env s frag).2.trace = s.trace ++ ext ∧
        ∀ e ∈ ext, P e := by
      rcases iteration_trace o r env s frag with ⟨_, h1⟩ | ⟨ext, _, ht, _, hep, _, _, _, _⟩
      · refine ⟨_, by rw [h1]; exact burn_in_step_trace o s, ?_⟩
        exact fun e he => hhead e (burn_in_events_is_head o s e he)
      · refine ⟨head_events o s ++ ext, by rw [ht, List.append_assoc], ?_⟩
        intro e he
        rcases List.mem_append.mp he with h | h
        · exact hhead e (head_events_is_head o s e h)
        · rcases hep e h with h2 | ⟨_, h2⟩
          · exact hpl e h2
          · exact hpf frag (List.mem_cons_self _ _) _ _ _ e h2
    obtain ⟨ext1, ht1, hp1⟩ := hstep
    rcases hi : iteration o r env s frag with ⟨st, s1⟩
    rw [hi] at ht1
    by_cases hst : st = Status.ok
    · subst hst
      rw [driver_loop_cons_ok o r env frag stream s s1 hi]
      obtain ⟨ext2, ht2, hp2⟩ := ih (fun f hf => hpf f (List.mem_cons_of_mem _ hf)) s1
      refine ⟨ext1 ++ ext2, by rw [ht2, ht1, List.append_assoc], ?_⟩
      intro e he
      rcases List.mem_append.mp he with h | h
      · exact hp1 e h
      · exact hp2 e h
    · rw [driver_loop_cons_fail o r env frag stream s s1 st hi hst]
      exact ⟨ext1, ht1, hp1⟩

/-- A call of `process_fragment` on a fragment with one hit makes no scoring
query. -/
theorem single_hit_trace_no_scoring {α : Type} [Zero α] [Add α] [Sub α]
    (o : Options) (r : Rounds α) (burned_out : Bool) (env : Env α)
    (lib : Library α) (solvable : Nat → Bool) (frag : Fragment α)
    (h1 : frag.num_hits = 1) :
    ∀ e ∈ (process_fragment o r burned_out env lib solvable frag).trace,
      e.is_scoring = false := by
  intro e he
  rw [process_fragment_trace_eq] at he
  rw [if_neg (by omega)] at he
  have hs : scoring_trace lib frag = [] := by
    unfold scoring_trace
    rw [if_neg (by omega)]
  rw [hs] at he
  simp only [List.nil_append, List.mem_append, List.mem_singleton] at he
  rcases he with h | h
  · subst h; rfl
  · obtain ⟨hit, _, sv, hmem⟩ := mem_update_loop_events o r burned_out lib _ _ e _ _ h
    exact (is_update_not_scoring e
      (update_events_is_update o r burned_out lib _ _ sv hit e hmem)).1

/-- Without worker threads the loop leaves the trace of the workers as it is. -/
theorem driver_loop_worker_trace {α : Type} [Zero α] [One α] [Add α] [Sub α] [Mul α]
    [NatCast α] (o : Options) (r : Rounds α) (env : Env α) (h0 : o.num_threads = 0)
    (stream : List (Fragment α)) :
    ∀ s : DriverState α, (driver_loop o r env stream s).2.worker_trace = s.worker_trace := by
  induction stream with
  | nil =>
    intro s
    rcases final_iteration_trace o s with ⟨_, h1⟩ | ⟨_, _, hw, _, _, _⟩
    · rw [driver_loop, h1]; exact burn_in_step_worker_trace o s
    · rw [driver_loop, hw]
  | cons frag stream ih =>
    intro s
    have hstep : (iteration o r env s frag).2.worker_trace = s.worker_trace := by
      rcases iteration_trace o r env s frag with ⟨_, h1⟩ | ⟨_, wext, _, hw, _, hwp, _, _, _⟩
      · rw [h1]; exact burn_in_step_worker_trace o s
      · cases wext with
        | nil => rw [hw, List.append_nil]
        | cons e es => exact absurd h0 (hwp e (List.mem_cons_self _ _)).1.1
    rcases hi : iteration o r env s frag with ⟨st, s1⟩
    rw [hi] at hstep
    by_cases hst : st = Status.ok
    · subst hst
      rw [driver_loop_cons_ok o r env frag stream s s1 hi, ih s1]
      exact hstep
    · rw [driver_loop_cons_fail o r env frag stream s s1 st hi hst]
      exact hstep

/-- The library `ex_lib3` has single-hit fragments only. -/
theorem ex_lib3_single_hits : ∀ frag ∈ ex_lib3.stream, frag.num_hits = 1 := by
  intro frag hf
  simp only [ex_lib3, List.mem_cons, List.mem_singleton, List.not_mem_nil, or_false] at hf
  rcases hf with h | h | h <;> subst h <;> rfl

/-- C7 as stated fails: in the first round, single-threaded, on three
fragments with one hit each and a library with all models, the pass ends
normally with three fragments counted and `process_fragment` has called
`update` on the mismatch model, `add_val` on the length model and
`update_observed` on the bias model once per fragment. -/
theorem C7_model_calls_counterexample :
    ex_rounds.first_round = true ∧ ex_options.num_threads = 0 ∧
    (∀ frag ∈ ex_lib3.stream, frag.num_hits = 1) ∧
    (lib_pass ex_options ex_rounds ex_env RunState.init ex_lib3).1 = Status.ok ∧
    (lib_pass ex_options ex_rounds ex_env RunState.init ex_lib3).2.num_frags = 3 ∧
    ((lib_pass ex_options ex_rounds ex_env RunState.init ex_lib3).2.trace.filter
      Event.is_model_call).length = 9 ∧
    ((lib_pass ex_options ex_rounds ex_env RunState.init ex_lib3).2.trace.filter
      Event.is_mm_update).length = 3 := by
  refine ⟨rfl, rfl, ex_lib3_single_hits, by decide, by decide, by decide, by decide⟩

/-- Writing probabilities back keeps the targets of the hits. -/
theorem set_probabilities_targ {α : Type} (hits : List (FragHit α)) :
    ∀ ps : List α, (set_probabilities hits ps).map (fun hit => hit.targ) =
      hits.map (fun hit => hit.targ) := by
  induction hits with
  | nil => intro ps; rfl
  | cons hit hits ih =>
    intro ps
    cases ps with
    | nil => rfl
    | cons p ps => simp [set_probabilities, ih ps]

/-- Writing probabilities back keeps the number of hits. -/
theorem set_probabilities_length {α : Type} (hits : List (FragHit α)) :
    ∀ ps : List α, (set_probabilities hits ps).length = hits.length := by
  induction hits with
  | nil => intro ps; rfl
  | cons hit hits ih =>
    intro ps
    cases ps with
    | nil => rfl
    | cons p ps => simp [set_probabilities, ih ps]

/-- Scoring and mass propagation keep the hits of a fragment in place: same
number, same targets. -/
theorem propagated_scored_targets {α : Type} [Zero α] [Add α] [Sub α]
    (env : Env α) (lib : Library α) (frag : Fragment α) :
    (propagated_fragment env (scored_fragment env lib frag)).num_hits = frag.num_hits ∧
    (propagated_fragment env (scored_fragment env lib frag)).hits.map (fun hit => hit.targ) =
      frag.hits.map (fun hit => hit.targ) := by
  have h1 : (scored_fragment env lib frag).hits.map (fun hit => hit.targ) =
      frag.hits.map (fun hit => hit.targ) := by
    unfold scored_fragment
    split
    · simp [score_hit, List.map_map, Function.comp_def]
    · rfl
  have h2 : (scored_fragment env lib frag).hits.length = frag.hits.length := by
    have := congrArg List.length h1
    simpa using this
  constructor
  · unfold propagated_fragment Fragment.num_hits
    rw [set_probabilities_length, h2]
  · unfold propagated_fragment
    rw [set_probabilities_targ, h1]

/-- In the first round the update loop calls `incr_counts` once per hit, in
order, with the argument `num_hits == 1`. -/
theorem update_loop_events_incr {α : Type} [Add α]
    (o : Options) (r : Rounds α) (burned_out : Bool) (lib : Library α)
    (k ns : Nat) (hfr : r.first_round = true) (hits : List (FragHit α)) :
    ∀ solvable : Nat → Bool,
      (update_loop_events o r burned_out lib k ns solvable hits).filterMap
          Event.incr_counts_args =
        hits.map (fun hit => (hit.targ, k == 1)) := by
  induction hits with
  | nil => intro solvable; rfl
  | cons hit hits ih =>
    intro solvable
    rw [update_loop_events, List.filterMap_append, ih]
    have h1 : (update_events o r burned_out lib k ns (solvable hit.targ) hit).filterMap
        Event.incr_counts_args = [(hit.targ, k == 1)] := by
      unfold update_events
      dsimp only
      rw [if_pos hfr]
      simp only [List.filterMap_append]
      repeat' split
      all_goals simp [Event.incr_counts_args]
    rw [h1]
    rfl

/-- Outside the first round the update loop leaves the `solvable` flags as
they are. -/
theorem update_loop_solvable_later {α : Type}
    (r : Rounds α) (k ns : Nat) (hfr : r.first_round = false) (hits : List (FragHit α)) :
    ∀ solvable : Nat → Bool, update_loop_solvable r k ns solvable hits = solvable := by
  induction hits with
  | nil => intro solvable; rfl
  | cons hit hits ih =>
    intro solvable
    rw [update_loop_solvable]
    have : update_solvable r k ns solvable hit = solvable := by
      unfold update_solvable
      simp [hfr]
    rw [this, ih]

/-- The `solvable` flags `process_fragment` leaves. -/
theorem process_fragment_solvable_eq {α : Type} [Zero α] [Add α] [Sub α]
    (o : Options) (r : Rounds α) (burned_out : Bool) (env : Env α)
    (lib : Library α) (solvable : Nat → Bool) (frag : Fragment α) :
    (process_fragment o r burned_out env lib solvable frag).solvable =
      if frag.num_hits = 0 then solvable
      else update_loop_solvable r
        (propagated_fragment env (scored_fragment env lib frag)).num_hits
        (count_solvable solvable frag) solvable
        (propagated_fragment env (scored_fragment env lib frag)).hits := by
  unfold process_fragment
  split
  · rfl
  · dsimp only
    rw [(update_loop_eq o r burned_out lib _ _ _ _).2]

/-- C8: when `first_round` is false, `process_fragment` makes none of the
calls of the update loop (no `incr_counts`, no `solvable(true)`, no
observation forwarded to the mismatch, length or bias model) and leaves every
`solvable` flag as it is; when `first_round` is true it calls `incr_counts`
once per hit, in order, with argument true exactly when the fragment has one
hit; and every `add_val` on the length model is for a PAIRED hit with
`burned_out` false, every `update_observed` on the bias model is with
`burned_out` false. -/
theorem C8_first_round_only_accounting {α : Type} [Zero α] [Add α] [Sub α]
    (o : Options) (r : Rounds α) (burned_out : Bool) (env : Env α)
    (lib : Library α) (solvable : Nat → Bool) (frag : Fragment α) :
    (r.first_round = false →
      (∀ e ∈ (process_fragment o r burned_out env lib solvable frag).trace,
        e.is_update = false) ∧
      (process_fragment o r burned_out env lib solvable frag).solvable = solvable) ∧
    (r.first_round = true →
      (process_fragment o r burned_out env lib solvable frag).trace.filterMap
          Event.incr_counts_args =
        frag.hits.map (fun hit => (hit.targ, decide (frag.num_hits = 1)))) ∧
    (∀ (len : Nat) (w : α),
      Event.fld_add_val len w ∈
          (process_fragment o r burned_out env lib solvable frag).trace →
        burned_out = false ∧ r.first_round = true ∧
        ∃ hit ∈ (process_fragment o r burned_out env lib solvable frag).frag.hits,
          hit.pair_status = PairStatus.PAIRED ∧ hit.length = len) ∧
    (∀ (hit : FragHit α) (w : α),
      Event.bias_update_observed hit w ∈
          (process_fragment o r burned_out env lib solvable frag).trace →
        burned_out = false ∧ r.first_round = true ∧ lib.bias_table = true) := by
  have hfrag : (process_fragment o r burned_out env lib solvable frag).frag =
      if frag.num_hits = 0 then frag
      else propagated_fragment env (scored_fragment env lib frag) := by
    unfold process_fragment
    split <;> rfl
  have hscore : ∀ e ∈ scoring_trace lib frag, e.is_scoring = true :=
    scoring_trace_is_scoring lib frag
  refine ⟨?_, ?_, ?_, ?_⟩
  · intro hfr
    constructor
    · intro e he
      rw [process_fragment_trace_eq] at he
      split at he
      · simp at he
      · simp only [List.mem_append, List.mem_singleton] at he
        rcases he with (h | h) | h
        · have := hscore e h
          cases e <;> simp_all [Event.is_scoring, Event.is_update]
        · subst h; rfl
        · obtain ⟨hit, _, sv, hmem⟩ := mem_update_loop_events o r burned_out lib _ _ e _ _ h
          have := (update_events_conditions o r burned_out lib _ _ sv hit e hmem).1
          rw [hfr] at this
          cases this
    · rw [process_fragment_solvable_eq]
      split
      · rfl
      · exact update_loop_solvable_later r _ _ hfr _ _
  · intro hfr
    rw [process_fragment_trace_eq]
    split
    · rename_i h0
      have : frag.hits = [] := List.length_eq_zero.mp h0
      simp [this]
    · obtain ⟨hk, ht⟩ := propagated_scored_targets env lib frag
      rw [List.filterMap_append, List.filterMap_append,
        update_loop_events_incr o r burned_out lib _ _ hfr]
      have e1 : (scoring_trace lib frag).filterMap Event.incr_counts_args = [] := by
        rw [List.filterMap_eq_nil_iff]
        intro e he
        have := hscore e he
        cases e <;> simp_all [Event.is_scoring, Event.incr_counts_args]
      rw [e1, hk]
      simp only [List.filterMap_cons, List.filterMap_nil, Event.incr_counts_args,
        List.nil_append]
      have e2 : ∀ (l : List (FragHit α)) (b : Bool),
          l.map (fun hit => (hit.targ, b)) = (l.map (fun hit => hit.targ)).map (fun t => (t, b)) := by
        intro l b; simp [List.map_map, Function.comp_def]
      rw [e2, ht, ← e2]
      apply List.map_congr_left
      intro hit _
      by_cases h1 : frag.num_hits = 1 <;> simp [h1]
  · intro len w he
    rw [process_fragment_trace_eq] at he
    rw [hfrag]
    split at he
    · simp at he
    · rename_i h0
      rw [if_neg h0]
      simp only [List.mem_append, List.mem_singleton] at he
      rcases he with (h | h) | h
      · have := hscore _ h
        simp [Event.is_scoring] at this
      · cases h
      · obtain ⟨hit, hm, sv, hmem⟩ := mem_update_loop_events o r burned_out lib _ _ _ _ _ h
        obtain ⟨hfr, hc⟩ := update_events_conditions o r burned_out lib _ _ sv hit _ hmem
        rcases hc with h1 | ⟨h1, _⟩ | ⟨h1, _⟩ | ⟨h1, hb, hp⟩ | ⟨h1, _⟩
        · cases h1
        · cases h1
        · cases h1
        · cases h1
          exact ⟨hb, hfr, hit, hm, hp, rfl⟩
        · cases h1
  · intro hit0 w he
    rw [process_fragment_trace_eq] at he
    split at he
    · simp at he
    · simp only [List.mem_append, List.mem_singleton] at he
      rcases he with (h | h) | h
      · have := hscore _ h
        simp [Event.is_scoring] at this
      · cases h
      · obtain ⟨hit, hm, sv, hmem⟩ := mem_update_loop_events o r burned_out lib _ _ _ _ _ h
        obtain ⟨hfr, hc⟩ := update_events_conditions o r burned_out lib _ _ sv hit _ hmem
        rcases hc with h1 | ⟨h1, _⟩ | ⟨h1, _⟩ | ⟨h1, _⟩ | ⟨h1, hb, hbt⟩
        · cases h1
        · cases h1
        · cases h1
        · cases h1
        · exact ⟨hb, hfr, hbt⟩

/-- C8 at a two-hit fragment: outside the first round no call of the update
loop is made; in the first round `incr_counts(false)` is called on targets 0
and 1. -/
theorem C8_first_round_only_accounting_witness :
    ex_rounds_later.first_round = false ∧ ex_rounds.first_round = true ∧
    (∀ e ∈ (process_fragment ex_options ex_rounds_later false ex_env ex_lib
        (fun _ => false) ex_frag2).trace, e.is_update = false) ∧
    (process_fragment ex_options ex_rounds false ex_env ex_lib
        (fun _ => false) ex_frag2).trace.filterMap Event.incr_counts_args =
      [(0, false), (1, false)] :=
  ⟨rfl, rfl,
    ((C8_first_round_only_accounting ex_options ex_rounds_later false ex_env ex_lib
      (fun _ => false) ex_frag2).1 rfl).1,
    (C8_first_round_only_accounting ex_options ex_rounds false ex_env ex_lib
      (fun _ => false) ex_frag2).2.1 rfl⟩

/-- C10: `process_fragment` fails, on the assertion of line 339, exactly when
the fragment has no hit, and then nothing has happened: no call has been made
(in particular none of mass propagation, of a target or of a model), the
fragment and its `probability` fields are as they were, and so are the
`solvable` flags. -/
theorem C10_zero_hits_abort {α : Type} [Zero α] [Add α] [Sub α]
    (o : Options) (r : Rounds α) (burned_out : Bool) (env : Env α)
    (lib : Library α) (solvable : Nat → Bool) (frag : Fragment α) :
    ((process_fragment o r burned_out env lib solvable frag).status ≠ Status.ok ↔
      frag.num_hits = 0) ∧
    ((process_fragment o r burned_out env lib solvable frag).status = Status.assert_failed ↔
      frag.num_hits = 0) ∧
    (frag.num_hits = 0 →
      (process_fragment o r burned_out env lib solvable frag).trace = [] ∧
      (process_fragment o r burned_out env lib solvable frag).frag = frag ∧
      (process_fragment o r burned_out env lib solvable frag).solvable = solvable) := by
  have hst := process_fragment_status o r burned_out env lib solvable frag
  refine ⟨?_, ?_, ?_⟩
  · rw [hst]
    by_cases h : frag.num_hits = 0
    · simp [h]
    · simp [h]
  · rw [hst]
    by_cases h : frag.num_hits = 0
    · simp [h]
    · simp [h]
  · intro h
    unfold process_fragment
    rw [if_pos h]
    exact ⟨rfl, rfl, rfl⟩

/-- C10 at a fragment without hits and at a fragment with one hit. -/
theorem C10_zero_hits_abort_witness :
    ex_frag0.num_hits = 0 ∧
    (process_fragment ex_options ex_rounds false ex_env ex_lib (fun _ => false)
      ex_frag0).status = Status.assert_failed ∧
    (process_fragment ex_options ex_rounds false ex_env ex_lib (fun _ => false)
      ex_frag0).trace = [] ∧
    (process_fragment ex_options ex_rounds false ex_env ex_lib (fun _ => false)
      ex_frag0).frag = ex_frag0 ∧
    ¬ ((process_fragment ex_options ex_rounds false ex_env ex_lib (fun _ => false)
      ex_frag1).status ≠ Status.ok) :=
  have h0 := C10_zero_hits_abort ex_options ex_rounds false ex_env ex_lib (fun _ => false)
    ex_frag0
  have h1 := C10_zero_hits_abort ex_options ex_rounds false ex_env ex_lib (fun _ => false)
    ex_frag1
  ⟨rfl, h0.2.1.mpr rfl, (h0.2.2 rfl).1, (h0.2.2 rfl).2.1,
    fun h => absurd (h1.1.mp h) (by decide)⟩

/-- A call of `threaded_calc_abundances` without `online_additional`: one pass,
noted with the flags on entry; the round globals are left as they are; on
well-formed libraries it ends normally and leaves them well formed. -/
theorem tca_offline {α : Type} [Zero α] [One α] [Add α] [Sub α] [Mul α] [NatCast α]
    (o : Options) (env : Env α) (r : Rounds α) (hoff : r.online_additional = false)
    (libs : List (Library α)) (s : RunState α) :
    (threaded_calc_abundances o env r libs s).state.passes =
      s.passes ++ [{ first_round := r.first_round, last_round := r.last_round,
                     ff_param := r.ff_param }] ∧
    (threaded_calc_abundances o env r libs s).rounds = r ∧
    ((∀ lib ∈ libs, lib.well_formed env) →
      (threaded_calc_abundances o env r libs s).status = Status.ok ∧
      ∀ lib ∈ (threaded_calc_abundances o env r libs s).libs, lib.well_formed env) := by
  obtain ⟨ff, fr, lr, online, both, R⟩ := r
  dsimp only at hoff
  subst hoff
  unfold threaded_calc_abundances
  dsimp only
  have hp := libs_loop_passes o
      { ff_param := ff, first_round := fr, last_round := lr, online_additional := false,
        both := both, remaining_rounds := R } env libs
      (RunState.note_pass { s with n := 1, num_frags := 0, i := 1, j := 6 } fr lr ff)
  have hw := libs_loop_ok o
      { ff_param := ff, first_round := fr, last_round := lr, online_additional := false,
        both := both, remaining_rounds := R } env libs
      (RunState.note_pass { s with n := 1, num_frags := 0, i := 1, j := 6 } fr lr ff)
  rw [rounds_loop]
  rcases hl : libs_loop o
      { ff_param := ff, first_round := fr, last_round := lr, online_additional := false,
        both := both, remaining_rounds := R } env libs
      (RunState.note_pass { s with n := 1, num_frags := 0, i := 1, j := 6 } fr lr ff)
      with ⟨st, libs1, s1⟩
  rw [hl] at hp hw
  dsimp only at hp hw
  cases st
  · exact ⟨hp, rfl, fun h => ⟨rfl, (hw h).2.1⟩⟩
  · exact ⟨hp, rfl, fun h => absurd (hw h).1 (by simp)⟩
  · exact ⟨hp, rfl, fun h => absurd (hw h).1 (by simp)⟩
  · exact ⟨hp, rfl, fun h => absurd (hw h).1 (by simp)⟩

/-- The decrement of a positive `size_t`. -/
theorem decrement_succ (R : Nat) (h : R + 1 < 2 ^ 64) : decrement (R + 1) = R := by
  unfold decrement
  omega

/-- The round globals after the decrement of `R + 1` remaining rounds. -/
theorem batch_rounds_succ {α : Type} (ff : α) (both : Bool) (R : Nat) (h : R + 1 < 2 ^ 64) :
    batch_rounds (Rounds.batch ff both false (R + 1)) = Rounds.batch ff both (R == 0) R := by
  simp [batch_rounds, Rounds.batch, decrement_succ R h]

/-- The passes of the loop of `main` in batch mode, from `R + 1` remaining
rounds and `last_round` false: `R` passes with `last_round` false and one with
`last_round` true, all with the `ff_param` on entry. -/
theorem batch_loop_passes {α : Type} [Zero α] [One α] [Add α] [Sub α] [Mul α] [NatCast α]
    (o : Options) (env : Env α) (ff : α) (both : Bool) (R : Nat) :
    ∀ (fuel : Nat) (libs : List (Library α)) (s : RunState α),
      R + 1 ≤ fuel → R + 1 < 2 ^ 64 →
      ∃ res, batch_loop o env fuel (Rounds.batch ff both false (R + 1)) libs s = some res ∧
        (res.status = Status.ok →
          res.state.passes = s.passes ++
            (List.replicate R { first_round := false, last_round := false, ff_param := ff } ++
              [{ first_round := false, last_round := true, ff_param := ff }])) ∧
        ((∀ lib ∈ libs, lib.well_formed env) → res.status = Status.ok) := by
  induction R with
  | zero =>
    intro fuel libs s hf h64
    obtain ⟨fuel1, rfl⟩ : ∃ f, fuel = f + 1 := ⟨fuel - 1, by omega⟩
    obtain ⟨hp, hrr, hw⟩ := tca_offline o env (Rounds.batch ff both ((0 : Nat) == 0) 0) rfl libs
      (batch_state o (Rounds.batch ff both false (0 + 1)) libs s)
    rw [batch_loop]
    have hl : (Rounds.batch ff both false (0 + 1)).last_round = false := rfl
    simp only [hl, Bool.false_eq_true, if_false, batch_rounds_succ ff both 0 h64]
    split
    · rename_i hok
      rw [batch_loop.eq_def, hrr]
      have hl2 : (Rounds.batch ff both ((0 : Nat) == 0) 0).last_round = true := rfl
      simp only [hl2, if_true]
      refine ⟨_, rfl, fun _ => ?_, fun _ => rfl⟩
      have hpass : ∀ t : RunState α, t.round_reset.passes = t.passes := fun _ => rfl
      dsimp only
      rw [hpass, hp]
      simp [batch_state, Rounds.batch]
    · rename_i hne
      exact ⟨_, rfl, fun h => absurd h hne, fun h => (hw h).1⟩
  | succ R ih =>
    intro fuel libs s hf h64
    obtain ⟨fuel1, rfl⟩ : ∃ f, fuel = f + 1 := ⟨fuel - 1, by omega⟩
    have hb : ((R + 1 : Nat) == 0) = false := by simp
    obtain ⟨hp, hrr, hw⟩ := tca_offline o env (Rounds.batch ff both false (R + 1)) rfl libs
      (batch_state o (Rounds.batch ff both false (R + 1 + 1)) libs s)
    rw [batch_loop]
    have hl : (Rounds.batch ff both false (R + 1 + 1)).last_round = false := rfl
    simp only [hl, Bool.false_eq_true, if_false, batch_rounds_succ ff both (R + 1) h64, hb]
    split
    · rename_i hok
      rw [hrr]
      obtain ⟨res, h1, h2, h3⟩ := ih fuel1
        (threaded_calc_abundances o env (Rounds.batch ff both false (R + 1)) libs
          (batch_state o (Rounds.batch ff both false (R + 1 + 1)) libs s)).libs
        (threaded_calc_abundances o env (Rounds.batch ff both false (R + 1)) libs
          (batch_state o (Rounds.batch ff both false (R + 1 + 1)) libs s)).state.round_reset
        (by omega) (by omega)
      refine ⟨res, h1, fun h => ?_, fun h => h3 (hw h).2⟩
      have hpass : ∀ t : RunState α, t.round_reset.passes = t.passes := fun _ => rfl
      rw [h2 h, hpass, hp]
      simp [batch_state, Rounds.batch, List.replicate_succ]
    · rename_i hne
      exact ⟨_, rfl, fun h => absurd h hne, fun h => (hw h).1⟩

/-- In online mode without `both`, a loop that ends normally leaves
`last_round` true as soon as one additional round was asked for. -/
theorem rounds_loop_online_last {α : Type} [Zero α] [One α] [Add α] [Sub α] [Mul α]
    [NatCast α] (o : Options) (env : Env α) (ff : α) (R : Nat) :
    ∀ (fr lr : Bool) (libs : List (Library α)) (s : RunState α),
      (rounds_loop o env ff true false R fr lr libs s).status = Status.ok →
      (rounds_loop o env ff true false R fr lr libs s).rounds.last_round =
        (if R = 0 then lr else true) := by
  induction R with
  | zero =>
    intro fr lr libs s hok
    by_cases hst : (libs_loop o
      { ff_param := ff, first_round := fr, last_round := lr, online_additional := true,
        both := false, remaining_rounds := 0 } env libs (s.note_pass fr lr ff)).1 = Status.ok
    · rcases hl : libs_loop o
        { ff_param := ff, first_round := fr, last_round := lr, online_additional := true,
          both := false, remaining_rounds := 0 } env libs (s.note_pass fr lr ff)
        with ⟨st, libs1, s1⟩
      rw [hl] at hst
      dsimp only at hst
      subst hst
      rw [rounds_loop_zero o env ff false fr lr libs libs1 s s1 hl]
      rfl
    · exact absurd hok (rounds_loop_fail o env ff true false 0 fr lr libs s hst).1
  | succ R ih =>
    intro fr lr libs s hok
    by_cases hst : (libs_loop o
      { ff_param := ff, first_round := fr, last_round := lr, online_additional := true,
        both := false, remaining_rounds := R + 1 } env libs (s.note_pass fr lr ff)).1 = Status.ok
    · rcases hl : libs_loop o
        { ff_param := ff, first_round := fr, last_round := lr, online_additional := true,
          both := false, remaining_rounds := R + 1 } env libs (s.note_pass fr lr ff)
        with ⟨st, libs1, s1⟩
      rw [hl] at hst
      dsimp only at hst
      subst hst
      rw [rounds_loop_succ o env ff false R fr lr libs libs1 s s1 hl] at hok ⊢
      rw [ih _ _ _ _ hok]
      by_cases h0 : R = 0
      · simp [h0]
      · simp [h0]
    · exact absurd hok (rounds_loop_fail o env ff true false (R + 1) fr lr libs s hst).1

/-- The expected passes in online mode, written out. -/
theorem expected_passes_eq {α : Type} (ff : α) (R : Nat) :
    expected_passes ff (R + 1) true false =
      { first_round := true, last_round := false, ff_param := ff } ::
        (List.replicate R { first_round := false, last_round := false, ff_param := ff } ++
          [{ first_round := false, last_round := true, ff_param := ff }]) := by
  have key : ∀ (R : Nat), expected_passes ff R false (R == 0) =
      List.replicate R { first_round := false, last_round := false, ff_param := ff } ++
        [{ first_round := false, last_round := true, ff_param := ff }] := by
    intro R
    induction R with
    | zero => rfl
    | succ R ih =>
      rw [expected_passes, ih, List.replicate_succ]
      simp
  rw [expected_passes, key]

/-- The passes of `main` in batch mode with `R + 1` additional rounds: the
first with the configured `ff_param`, the `R + 1` additional ones with
`ff_param = 1`. -/
theorem main_rounds_batch {α : Type} [Zero α] [One α] [Add α] [Sub α] [Mul α] [NatCast α]
    (o : Options) (env : Env α) (ff : α) (R fuel : Nat) (hf : R + 1 ≤ fuel)
    (h64 : R + 1 < 2 ^ 64) (libs : List (Library α)) (s : RunState α) :
    ∃ res, main_rounds o env fuel (parse_options_rounds ff false false (R + 1) true) libs s
        = some res ∧
      (res.status = Status.ok →
        res.state.passes = s.passes ++
          { first_round := true, last_round := false, ff_param := ff } ::
            (List.replicate R { first_round := false, last_round := false, ff_param := 1 } ++
              [{ first_round := false, last_round := true, ff_param := 1 }])) ∧
      ((∀ lib ∈ libs, lib.well_formed env) → res.status = Status.ok) := by
  have hpo : (parse_options_rounds ff false false (R + 1) true : Rounds α) =
      { ff_param := ff, first_round := true, last_round := false, online_additional := false,
        both := false, remaining_rounds := R + 1 } := by
    simp [parse_options_rounds, parse_options_last_round]
  obtain ⟨hp, hrr, hw⟩ := tca_offline o env
    (parse_options_rounds ff false false (R + 1) true) (by rw [hpo]) libs s
  unfold main_rounds
  split
  · rename_i hok
    rw [hrr]
    have hm : main_loop_rounds (parse_options_rounds ff false false (R + 1) true : Rounds α) =
        Rounds.batch 1 false false (R + 1) := by
      rw [hpo]; simp [main_loop_rounds, Rounds.batch]
    rw [hm]
    obtain ⟨res, h1, h2, h3⟩ := batch_loop_passes o env (1 : α) false R fuel
      (threaded_calc_abundances o env (parse_options_rounds ff false false (R + 1) true)
        libs s).libs
      (threaded_calc_abundances o env (parse_options_rounds ff false false (R + 1) true)
        libs s).state.round_reset hf h64
    refine ⟨res, h1, fun h => ?_, fun h => h3 (hw h).2⟩
    have hpass : ∀ t : RunState α, t.round_reset.passes = t.passes := fun _ => rfl
    rw [h2 h, hpass, hp, hpo]
    simp
  · rename_i hne
    exact ⟨_, rfl, fun h => absurd h hne, fun h => (hw h).1⟩

/-- The passes of `main` in online mode with `R + 1` additional rounds: all
`R + 2` passes run with the configured `ff_param`, and the loop of `main` adds
none. -/
theorem main_rounds_online {α : Type} [Zero α] [One α] [Add α] [Sub α] [Mul α] [NatCast α]
    (o : Options) (env : Env α) (ff : α) (R fuel : Nat)
    (libs : List (Library α)) (s : RunState α) :
    ∃ res, main_rounds o env fuel (parse_options_rounds ff true false (R + 1) true) libs s
        = some res ∧
      (res.status = Status.ok →
        res.state.passes = s.passes ++
          { first_round := true, last_round := false, ff_param := ff } ::
            (List.replicate R { first_round := false, last_round := false, ff_param := ff } ++
              [{ first_round := false, last_round := true, ff_param := ff }])) ∧
      ((∀ lib ∈ libs, lib.well_formed env) → res.status = Status.ok) := by
  have hpo : (parse_options_rounds ff true false (R + 1) true : Rounds α) =
      { ff_param := ff, first_round := true, last_round := false, online_additional := true,
        both := false, remaining_rounds := R + 1 } := by
    simp [parse_options_rounds, parse_options_last_round]
  have htca : threaded_calc_abundances o env
      (parse_options_rounds ff true false (R + 1) true) libs s =
      rounds_loop o env ff true false (R + 1) true false libs
        { s with n := 1, num_frags := 0, i := 1, j := 6 } := by
    rw [hpo]; rfl
  obtain ⟨h1, h2⟩ := rounds_loop_online o env ff (R + 1) true false libs
    { s with n := 1, num_frags := 0, i := 1, j := 6 }
  unfold main_rounds
  rw [htca]
  split
  · rename_i hok
    have hlast := rounds_loop_online_last o env ff (R + 1) true false libs
      { s with n := 1, num_frags := 0, i := 1, j := 6 } hok
    rw [batch_loop.eq_def]
    have hl : (main_loop_rounds (rounds_loop o env ff true false (R + 1) true false libs
        { s with n := 1, num_frags := 0, i := 1, j := 6 }).rounds).last_round = true := by
      simp [main_loop_rounds, hlast]
    simp only [hl, if_true]
    refine ⟨_, rfl, fun _ => ?_, fun _ => rfl⟩
    have hpass : ∀ t : RunState α, t.round_reset.passes = t.passes := fun _ => rfl
    dsimp only
    rw [hpass, h1 hok, expected_passes_eq]
  · rename_i hne
    exact ⟨_, rfl, fun h => absurd h hne, fun h => h2 h⟩

/-- A fresh library over `stream3` is well formed for constant collaborators. -/
theorem stream3_well_formed {α : Type} (x p m : α) (log : α → α) (pow : α → α → α) :
    (Library.start m true true (stream3 p)).well_formed ((Env.const x).with_libm log pow) := by
  refine ⟨rfl, ?_, ?_⟩
  · intro frag hf
    simp only [Library.start, stream3, List.mem_cons, List.mem_singleton, List.not_mem_nil,
      or_false] at hf
    rcases hf with h | h | h <;> subst h <;>
      simp [single_hit_fragment, Fragment.num_hits]
  · simp [guard_passes, Library.start, stream3, single_hit_fragment, Env.with_libm, Env.const]

/-- C9 (amended): the forgetting-factor parameter is 1.0 during every pass of
the loop of `main`, that is during each of the `R` additional passes of
additional-batch mode; in additional-online mode the `R` additional passes are
made inside the first call of `threaded_calc_abundances` and run with the
configured `ff_param`, which `main` sets to 1.0 only after that call.  In both
modes a run that ends normally has made `R + 1` passes. -/
theorem C9_ff_param_by_mode {α : Type} [Zero α] [One α] [Add α] [Sub α] [Mul α] [NatCast α]
    (R : Nat) (hR : 1 ≤ R) (h64 : R < 2 ^ 64) (o : Options) (env : Env α) (ff : α)
    (fuel : Nat) (hf : R ≤ fuel) (libs : List (Library α)) (s : RunState α) :
    (∃ res, main_rounds o env fuel (parse_options_rounds ff false false R true) libs s
        = some res ∧
      (res.status = Status.ok →
        res.state.passes = s.passes ++
          { first_round := true, last_round := false, ff_param := ff } ::
            (List.replicate (R - 1)
                { first_round := false, last_round := false, ff_param := 1 } ++
              [{ first_round := false, last_round := true, ff_param := 1 }])) ∧
      ((∀ lib ∈ libs, lib.well_formed env) → res.status = Status.ok)) ∧
    (∃ res, main_rounds o env fuel (parse_options_rounds ff true false R true) libs s
        = some res ∧
      (res.status = Status.ok →
        res.state.passes = s.passes ++
          { first_round := true, last_round := false, ff_param := ff } ::
            (List.replicate (R - 1)
                { first_round := false, last_round := false, ff_param := ff } ++
              [{ first_round := false, last_round := true, ff_param := ff }])) ∧
      ((∀ lib ∈ libs, lib.well_formed env) → res.status = Status.ok)) := by
  obtain ⟨R1, rfl⟩ : ∃ R1, R = R1 + 1 := ⟨R - 1, by omega⟩
  rw [Nat.add_sub_cancel]
  exact ⟨main_rounds_batch o env ff R1 fuel hf h64 libs s,
    main_rounds_online o env ff R1 fuel libs s⟩

/-- C9 (amended) over the reals at `R = 1`, `ff_param = 0.85` and a library of
three fragments: the additional batch pass runs with `ff_param = 1`. -/
theorem C9_ff_param_by_mode_witness :
    1 ≤ 1 ∧ 1 < 2 ^ 64 ∧
    (∀ lib ∈ [Library.start (0 : ℝ) true true (stream3 0)],
      lib.well_formed ((Env.const (0 : ℝ)).with_libm Real.log (fun x y => x ^ y))) ∧
    ∃ res, main_rounds ex_options
        ((Env.const (0 : ℝ)).with_libm Real.log (fun x y => x ^ y)) 1
        (parse_options_rounds (17 / 20) false false 1 true)
        [Library.start (0 : ℝ) true true (stream3 0)] RunState.init = some res ∧
      res.status = Status.ok ∧
      res.state.passes =
        [{ first_round := true, last_round := false, ff_param := 17 / 20 },
         { first_round := false, last_round := true, ff_param := 1 }] :=
  have hw : ∀ lib ∈ [Library.start (0 : ℝ) true true (stream3 0)],
      lib.well_formed ((Env.const (0 : ℝ)).with_libm Real.log (fun x y => x ^ y)) := by
    intro lib hl
    rw [List.mem_singleton] at hl
    subst hl
    exact stream3_well_formed 0 0 0 _ _
  have h := (C9_ff_param_by_mode 1 (le_refl 1) (by norm_num) ex_options
    ((Env.const (0 : ℝ)).with_libm Real.log (fun x y => x ^ y)) (17 / 20) 1 (le_refl 1)
    [Library.start (0 : ℝ) true true (stream3 0)] RunState.init).1
  ⟨le_refl 1, by norm_num, hw,
    h.elim fun res hres => ⟨res, hres.1, hres.2.2 hw, hres.2.1 (hres.2.2 hw)⟩⟩

/-- C9 as stated fails in additional-online mode: over the reals, with
`--additional-online 1` and the default `ff_param = 0.85`, the run ends
normally after two passes and the additional pass has run with
`ff_param = 0.85`, not 1.0. -/
theorem C9_online_counterexample :
    ∃ res, main_rounds ex_options
        ((Env.const (0 : ℝ)).with_libm Real.log (fun x y => x ^ y)) 1
        (parse_options_rounds (17 / 20) true false 1 true)
        [Library.start (0 : ℝ) true true (stream3 0)] RunState.init = some res ∧
      res.status = Status.ok ∧
      res.state.passes =
        [{ first_round := true, last_round := false, ff_param := 17 / 20 },
         { first_round := false, last_round := true, ff_param := 17 / 20 }] ∧
      (17 / 20 : ℝ) ≠ 1 := by
  have hw : ∀ lib ∈ [Library.start (0 : ℝ) true true (stream3 0)],
      lib.well_formed ((Env.const (0 : ℝ)).with_libm Real.log (fun x y => x ^ y)) := by
    intro lib hl
    rw [List.mem_singleton] at hl
    subst hl
    exact stream3_well_formed 0 0 0 _ _
  obtain ⟨res, h1, h2, h3⟩ := main_rounds_online ex_options
    ((Env.const (0 : ℝ)).with_libm Real.log (fun x y => x ^ y)) (17 / 20) 0 1
    [Library.start (0 : ℝ) true true (stream3 0)] RunState.init
  exact ⟨res, h1, h3 hw, h2 (h3 hw), by norm_num⟩

/-- The calls of `test_and_push` in a concatenation. -/
theorem guard_calls_append {α : Type} (xs ys : List (Event α)) :
    guard_calls (xs ++ ys) = guard_calls xs ++ guard_calls ys := by
  simp [guard_calls, List.filterMap_append]

/-- A trace without call of `test_and_push`. -/
theorem guard_calls_nil_of {α : Type} (xs : List (Event α))
    (h : ∀ e ∈ xs, e.guard_call = none) : guard_calls xs = [] := by
  induction xs with
  | nil => rfl
  | cons x xs ih =>
    simp only [guard_calls, List.filterMap_cons, h x (List.mem_cons_self _ _)]
    exact ih (fun e he => h e (List.mem_cons_of_mem _ he))

/-- Every call of `process_fragment` is a scoring query, the call of mass
propagation or a call of the update loop. -/
theorem process_fragment_event_kind {α : Type} [Zero α] [Add α] [Sub α]
    (o : Options) (r : Rounds α) (burned_out : Bool) (env : Env α)
    (lib : Library α) (solvable : Nat → Bool) (frag : Fragment α) :
    ∀ e ∈ (process_fragment o r burned_out env lib solvable frag).trace,
      e.is_scoring = true ∨ e.is_rho = true ∨ e.is_update = true := by
  intro e he
  by_cases h0 : frag.num_hits = 0
  · simp [process_fragment, h0] at he
  · obtain ⟨ext, h1, h2⟩ := process_fragment_trace o r burned_out env lib solvable frag h0
    rw [h1] at he
    simp only [List.mem_append, List.mem_singleton] at he
    rcases he with (h | h) | h
    · exact Or.inl (scoring_trace_is_scoring lib frag e h)
    · subst h; exact Or.inr (Or.inl rfl)
    · exact Or.inr (Or.inr (h2 e h))

/-- A property of events that holds of the pushes to the channels and of the
calls of `process_fragment` holds of everything a dispatch appends to the
traces. -/
theorem dispatch_trace_forall {α : Type} [Zero α] [Add α] [Sub α]
    (o : Options) (r : Rounds α) (env : Env α) (s : DriverState α) (frag : Fragment α)
    (P : Event α → Prop)
    (hon : ∀ f, P (Event.proc_on_push f)) (hout : ∀ f, P (Event.proc_out_push f))
    (hpf : ∀ e ∈ (process_fragment o r s.burned_out env s.lib s.solvable frag).trace, P e) :
    ∃ ext wext, (dispatch o r env s frag).2.trace = s.trace ++ ext ∧
      (dispatch o r env s frag).2.worker_trace = s.worker_trace ++ wext ∧
      (∀ e ∈ ext, P e) ∧ (∀ e ∈ wext, P e) := by
  unfold dispatch
  by_cases hc : (o.num_threads != 0 && s.burned_out) = true
  · rw [if_pos hc]
    unfold worker_step DriverState.emit
    dsimp only
    split
    · refine ⟨[Event.proc_on_push (some frag)],
        (process_fragment o r s.burned_out env s.lib s.solvable frag).trace ++
          [Event.proc_out_push (process_fragment o r s.burned_out env s.lib s.solvable frag).frag],
        rfl, by simp [List.append_assoc], ?_, ?_⟩
      · intro e he; simp at he; subst he; exact hon _
      · intro e he
        rcases List.mem_append.mp he with h | h
        · exact hpf e h
        · simp at h; subst h; exact hout _
    · refine ⟨[Event.proc_on_push (some frag)], _, rfl, rfl, ?_, hpf⟩
      intro e he; simp at he; subst he; exact hon _
  · rw [if_neg hc]
    unfold inline_step DriverState.emit
    dsimp only
    split
    · refine ⟨_, [], rfl, by simp, ?_, by simp⟩
      intro e he
      rcases List.mem_append.mp he with h | h
      · exact hpf e h
      · simp at h; subst h; exact hout _
    · exact ⟨_, [], rfl, by simp, hpf, by simp⟩

/-- The head of an iteration makes no call of `test_and_push`. -/
theorem head_events_guard_calls {α : Type} (o : Options) (s : DriverState α) :
    guard_calls (head_events o s) = [] := by
  apply guard_calls_nil_of
  intro e he
  have := head_events_is_head o s e he
  cases e <;> simp_all [Event.is_head, Event.guard_call]

/-- A dispatch makes no call of `test_and_push`, on either thread, and does not
end with `exit(1)`. -/
theorem dispatch_guard_calls {α : Type} [Zero α] [Add α] [Sub α]
    (o : Options) (r : Rounds α) (env : Env α) (s : DriverState α) (frag : Fragment α) :
    ∃ ext wext, (dispatch o r env s frag).2.trace = s.trace ++ ext ∧
      (dispatch o r env s frag).2.worker_trace = s.worker_trace ++ wext ∧
      guard_calls ext = [] ∧ guard_calls wext = [] ∧
      (dispatch o r env s frag).1 ≠ Status.exit_1 := by
  obtain ⟨ext, wext, ht, hw, h1, h2⟩ := dispatch_trace_forall o r env s frag
    (fun e => e.guard_call = none) (fun _ => rfl) (fun _ => rfl)
    (fun e he => by
      have := process_fragment_event_kind o r s.burned_out env s.lib s.solvable frag e he
      cases e <;> simp_all [Event.is_scoring, Event.is_rho, Event.is_update, Event.guard_call])
  refine ⟨ext, wext, ht, hw, guard_calls_nil_of _ h1, guard_calls_nil_of _ h2, ?_⟩
  unfold dispatch worker_step inline_step
  simp only [process_fragment_status]
  by_cases h0 : frag.num_hits = 0 <;> simp [h0] <;> split <;> simp

/-- The bookkeeping makes no call of `test_and_push`. -/
theorem bookkeeping_guard_calls {α : Type} [One α] [Add α] [Sub α] [Mul α] [NatCast α]
    (o : Options) (r : Rounds α) (env : Env α) (s : DriverState α) :
    ∃ ext, (bookkeeping o r env s).trace = s.trace ++ ext ∧ guard_calls ext = [] := by
  obtain ⟨ext, ht, h⟩ := bookkeeping_output o r env s
  exact ⟨ext, ht, guard_calls_nil_of _ (fun e he => by rw [h e he]; rfl)⟩

/-- The iteration in which the filter reports the name of the fragment: the
call of `test_and_push`, then `exit(1)`, and nothing else after the head of the
loop. -/
theorem iteration_exit {α : Type} [Zero α] [One α] [Add α] [Sub α] [Mul α] [NatCast α]
    (o : Options) (r : Rounds α) (env : Env α) (s s1 : DriverState α) (frag : Fragment α)
    (h1 : loop_head o s = some s1) (hf : r.first_round = true)
    (hs : env.test_and_push s.frags_seen frag.name = true) :
    iteration o r env s frag =
      (Status.exit_1, s1.emit [Event.test_and_push frag.name true, Event.exit_1]) := by
  have hfs := loop_head_frags_seen o s s1 h1
  unfold iteration
  rw [h1]
  dsimp only
  unfold duplicate_check
  rw [if_pos hf, hfs, if_pos hs]

/-- The iteration in which the filter is not consulted or does not report the
name: the check appends its call, if any, and records the name; the dispatch
and the bookkeeping follow. -/
theorem iteration_pass {α : Type} [Zero α] [One α] [Add α] [Sub α] [Mul α] [NatCast α]
    (o : Options) (r : Rounds α) (env : Env α) (s s1 : DriverState α) (frag : Fragment α)
    (h1 : loop_head o s = some s1)
    (hs : r.first_round = true → env.test_and_push s.frags_seen frag.name = false) :
    ∃ s2, duplicate_check r env s1 frag = (Status.ok, s2) ∧
      s2.trace = s1.trace ++
        (if r.first_round then [Event.test_and_push frag.name false] else []) ∧
      s2.frags_seen = (if r.first_round then s.frags_seen ++ [frag.name] else s.frags_seen) ∧
      s2.worker_trace = s.worker_trace ∧
      iteration o r env s frag =
        if (dispatch o r env s2 frag).1 = Status.ok
          then (Status.ok, bookkeeping o r env (dispatch o r env s2 frag).2)
          else dispatch o r env s2 frag := by
  have hfs := loop_head_frags_seen o s s1 h1
  obtain ⟨_, _, _, _, hw, _⟩ := loop_head_spec o s s1 h1
  have hiter : ∀ s2, duplicate_check r env s1 frag = (Status.ok, s2) →
      iteration o r env s frag =
        if (dispatch o r env s2 frag).1 = Status.ok
          then (Status.ok, bookkeeping o r env (dispatch o r env s2 frag).2)
          else dispatch o r env s2 frag := by
    intro s2 h2
    unfold iteration
    rw [h1]
    dsimp only
    rw [h2]
    dsimp only
    rcases h3 : dispatch o r env s2 frag with ⟨st, s3⟩
    cases st <;> simp
  unfold duplicate_check at hiter ⊢
  by_cases hf : r.first_round = true
  · have hs1 : ¬ (env.test_and_push s1.frags_seen frag.name = true) := by
      rw [hfs, hs hf]; simp
    rw [if_pos hf, if_neg hs1] at hiter ⊢
    refine ⟨_, rfl, ?_, ?_, ?_, hiter _ rfl⟩
    · simp [DriverState.emit, hf]
    · simp [hf, hfs]
    · simpa [DriverState.emit] using hw
  · rw [if_neg hf] at hiter ⊢
    refine ⟨_, rfl, ?_, ?_, hw, hiter _ rfl⟩
    · simp [hf]
    · simp [hf, hfs]

/-- The calls of `test_and_push` of the iteration in which `pop()` returns a
fragment, after the head of the loop: one call in the first round, with the
names pushed before in this pass, none in later rounds; no call on a worker
thread; `exit(1)` exactly when the first-round call reports the name. -/
theorem iteration_guard_some {α : Type} [Zero α] [One α] [Add α] [Sub α] [Mul α] [NatCast α]
    (o : Options) (r : Rounds α) (env : Env α) (s s1 : DriverState α) (frag : Fragment α)
    (h1 : loop_head o s = some s1) :
    ∃ ext wext, (iteration o r env s frag).2.trace = s1.trace ++ ext ∧
      (iteration o r env s frag).2.worker_trace = s.worker_trace ++ wext ∧
      guard_calls wext = [] ∧
      guard_calls ext =
        (if r.first_round then [(frag.name, env.test_and_push s.frags_seen frag.name)]
          else []) ∧
      ((iteration o r env s frag).1 = Status.exit_1 ↔
        (r.first_round = true ∧ env.test_and_push s.frags_seen frag.name = true)) ∧
      ((iteration o r env s frag).1 = Status.ok →
        (iteration o r env s frag).2.frags_seen =
          if r.first_round then s.frags_seen ++ [frag.name] else s.frags_seen) := by
  by_cases hc : r.first_round = true ∧ env.test_and_push s.frags_seen frag.name = true
  · obtain ⟨hf, hs⟩ := hc
    obtain ⟨_, _, _, _, hw, _⟩ := loop_head_spec o s s1 h1
    rw [iteration_exit o r env s s1 frag h1 hf hs]
    refine ⟨[Event.test_and_push frag.name true, Event.exit_1], [], rfl, ?_, rfl, ?_, ?_, ?_⟩
    · simpa [DriverState.emit] using hw
    · simp [guard_calls, Event.guard_call, hf, hs]
    · simp [hf, hs]
    · intro h; cases h
  · have hs : r.first_round = true → env.test_and_push s.frags_seen frag.name = false := by
      intro hf
      cases h : env.test_and_push s.frags_seen frag.name
      · rfl
      · exact absurd ⟨hf, h⟩ hc
    obtain ⟨s2, h2, ht2, hfs2, hw2, hit⟩ := iteration_pass o r env s s1 frag h1 hs
    obtain ⟨dext, dwext, hdt, hdw, hdg, hdwg, hde⟩ := dispatch_guard_calls o r env s2 frag
    have hdf := dispatch_frags_seen o r env s2 frag
    have hg2 : guard_calls (if r.first_round = true
        then [Event.test_and_push frag.name false] else [] : List (Event α)) =
        (if r.first_round then [(frag.name, env.test_and_push s.frags_seen frag.name)]
          else []) := by
      by_cases hf : r.first_round = true
      · simp [hf, hs hf, guard_calls, Event.guard_call]
      · simp [hf, guard_calls]
    rw [hit]
    by_cases hok : (dispatch o r env s2 frag).1 = Status.ok
    · rw [if_pos hok]
      obtain ⟨bext, hbt, hbg⟩ := bookkeeping_guard_calls o r env (dispatch o r env s2 frag).2
      refine ⟨(if r.first_round = true then [Event.test_and_push frag.name false] else []) ++
        dext ++ bext, dwext, ?_, ?_, hdwg, ?_, ?_, ?_⟩
      · dsimp only; rw [hbt, hdt, ht2]; simp only [List.append_assoc]
      · dsimp only; rw [bookkeeping_worker_trace, hdw, hw2]
      · rw [guard_calls_append, guard_calls_append, hdg, hbg, hg2]; simp
      · constructor
        · intro h; cases h
        · intro h; exact absurd h hc
      · intro _; dsimp only; rw [bookkeeping_frags_seen, hdf, hfs2]
    · rw [if_neg hok]
      refine ⟨(if r.first_round = true then [Event.test_and_push frag.name false] else []) ++
        dext, dwext, ?_, ?_, hdwg, ?_, ?_, ?_⟩
      · rw [hdt, ht2]; simp only [List.append_assoc]
      · rw [hdw, hw2]
      · rw [guard_calls_append, hdg, hg2]; simp
      · constructor
        · intro h; exact absurd h hde
        · intro h; exact absurd h hc
      · intro h; exact absurd h hok

/-- The iteration in which `pop()` returns `NULL` makes no call of
`test_and_push` and does not end with `exit(1)`. -/
theorem final_iteration_guard {α : Type} (o : Options) (s : DriverState α) :
    ∃ ext, (final_iteration o s).2.trace = s.trace ++ ext ∧ guard_calls ext = [] ∧
      (final_iteration o s).2.worker_trace = s.worker_trace ∧
      (final_iteration o s).1 ≠ Status.exit_1 := by
  rcases final_iteration_trace o s with ⟨_, h1⟩ | ⟨hok, ht, hw, _, _, _⟩
  · rw [h1]
    refine ⟨_, burn_in_step_trace o s, ?_, burn_in_step_worker_trace o s, by simp⟩
    apply guard_calls_nil_of
    intro e he
    have := burn_in_events_is_head o s e he
    cases e <;> simp_all [Event.is_head, Event.guard_call]
  · refine ⟨_, by rw [ht, List.append_assoc], ?_, hw, by rw [hok]; simp⟩
    rw [guard_calls_append, head_events_guard_calls]
    apply guard_calls_nil_of
    intro e he
    split at he
    · rw [List.mem_replicate] at he; rw [he.2]; rfl
    · simp at he

/-- The calls of `test_and_push` of an iteration on a fragment, from its
start: none when the head of the loop goes through `NULL`, otherwise those
made after the head. -/
theorem iteration_guard {α : Type} [Zero α] [One α] [Add α] [Sub α] [Mul α] [NatCast α]
    (o : Options) (r : Rounds α) (env : Env α) (s : DriverState α) (frag : Fragment α) :
    ∃ ext wext, (iteration o r env s frag).2.trace = s.trace ++ ext ∧
      (iteration o r env s frag).2.worker_trace = s.worker_trace ++ wext ∧
      guard_calls wext = [] ∧
      (((iteration o r env s frag).1 = Status.null_deref ∧ guard_calls ext = []) ∨
       (guard_calls ext =
          (if r.first_round then [(frag.name, env.test_and_push s.frags_seen frag.name)]
            else []) ∧
        ((iteration o r env s frag).1 = Status.exit_1 ↔
          (r.first_round = true ∧ env.test_and_push s.frags_seen frag.name = true)) ∧
        ((iteration o r env s frag).1 = Status.ok →
          (iteration o r env s frag).2.frags_seen =
            if r.first_round then s.frags_seen ++ [frag.name] else s.frags_seen))) := by
  cases h1 : loop_head o s with
  | none =>
    have hit : iteration o r env s frag = (Status.null_deref, burn_in_step o s) := by
      unfold iteration; rw [h1]
    rw [hit]
    refine ⟨_, [], burn_in_step_trace o s, ?_, rfl, Or.inl ⟨rfl, ?_⟩⟩
    · simpa using burn_in_step_worker_trace o s
    · apply guard_calls_nil_of
      intro e he
      have := burn_in_events_is_head o s e he
      cases e <;> simp_all [Event.is_head, Event.guard_call]
  | some s1 =>
    obtain ⟨ext, wext, ht, hw, hwg, hg, hex, hfs⟩ := iteration_guard_some o r env s s1 frag h1
    obtain ⟨hts, _, _, _, _, _⟩ := loop_head_spec o s s1 h1
    refine ⟨head_events o s ++ ext, wext, ?_, hw, hwg, Or.inr ⟨?_, hex, hfs⟩⟩
    · rw [ht, hts, List.append_assoc]
    · rw [guard_calls_append, head_events_guard_calls, List.nil_append, hg]

/-- The calls of `test_and_push` of the loop over a stream, `s.frags_seen`
being the names pushed before.  In a later round there is none and the loop
does not end with `exit(1)`.  In the first round they are an initial part of
`guard_log`; when the loop ends normally every fragment has been tested once,
in order, and none was reported; and the loop ends with `exit(1)` exactly when
a call reported a name. -/
theorem driver_loop_guard {α : Type} [Zero α] [One α] [Add α] [Sub α] [Mul α] [NatCast α]
    (o : Options) (r : Rounds α) (env : Env α) (stream : List (Fragment α)) :
    ∀ s : DriverState α, ∃ ext wext,
      (driver_loop o r env stream s).2.trace = s.trace ++ ext ∧
      (driver_loop o r env stream s).2.worker_trace = s.worker_trace ++ wext ∧
      guard_calls wext = [] ∧
      (r.first_round = false →
        guard_calls ext = [] ∧ (driver_loop o r env stream s).1 ≠ Status.exit_1) ∧
      (r.first_round = true →
        guard_calls ext <+: guard_log env s.frags_seen stream ∧
        ((driver_loop o r env stream s).1 = Status.ok →
          guard_calls ext = stream.map (fun frag => (frag.name, false))) ∧
        ((driver_loop o r env stream s).1 = Status.exit_1 ↔
          ∃ name, (name, true) ∈ guard_calls ext)) := by
  induction stream with
  | nil =>
    intro s
    obtain ⟨ext, ht, hg, hw, hne⟩ := final_iteration_guard o s
    refine ⟨ext, [], by rw [driver_loop, ht], by rw [driver_loop, hw]; simp, rfl, ?_, ?_⟩
    · intro _; exact ⟨hg, by rw [driver_loop]; exact hne⟩
    · intro _
      rw [hg]
      refine ⟨List.nil_prefix, fun _ => rfl, ?_⟩
      rw [driver_loop]
      exact ⟨fun h => absurd h hne, fun ⟨_, h⟩ => by simp at h⟩
  | cons frag stream ih =>
    intro s
    obtain ⟨ext1, wext1, ht1, hw1, hwg1, hcase⟩ := iteration_guard o r env s frag
    rcases hi : iteration o r env s frag with ⟨st, s1⟩
    rw [hi] at ht1 hw1 hcase
    dsimp only at ht1 hw1 hcase
    by_cases hst : st = Status.ok
    · subst hst
      rw [driver_loop_cons_ok o r env frag stream s s1 hi]
      obtain ⟨ext2, wext2, ht2, hw2, hwg2, hlater, hfirst⟩ := ih s1
      rcases hcase with ⟨hnull, _⟩ | ⟨hg1, hex1, hfs1⟩
      · cases hnull
      · refine ⟨ext1 ++ ext2, wext1 ++ wext2, by rw [ht2, ht1, List.append_assoc],
          by rw [hw2, hw1, List.append_assoc],
          by rw [guard_calls_append, hwg1, hwg2]; rfl, ?_, ?_⟩
        · intro hf
          obtain ⟨h2, h3⟩ := hlater hf
          refine ⟨?_, h3⟩
          rw [guard_calls_append, hg1, h2, hf]; rfl
        · intro hf
          obtain ⟨h2, h3, h4⟩ := hfirst hf
          have hns : env.test_and_push s.frags_seen frag.name = false := by
            cases h : env.test_and_push s.frags_seen frag.name
            · rfl
            · have := hex1.mpr ⟨hf, h⟩
              cases this
          rw [hfs1 rfl, if_pos hf] at h2
          rw [guard_calls_append, hg1, if_pos hf, hns]
          refine ⟨?_, ?_, ?_⟩
          · rw [guard_log]
            simp only [hns, Bool.false_eq_true, if_false, List.singleton_append]
            exact (List.prefix_cons_inj _).mpr h2
          · intro hok
            rw [h3 hok]; rfl
          · rw [h4]
            constructor
            · rintro ⟨name, hm⟩
              exact ⟨name, by simp [hm]⟩
            · rintro ⟨name, hm⟩
              simp only [List.singleton_append, List.mem_cons, Prod.mk.injEq,
                Bool.true_eq_false, and_false, false_or] at hm
              exact ⟨name, hm⟩
    · rw [driver_loop_cons_fail o r env frag stream s s1 st hi hst]
      refine ⟨ext1, wext1, ht1, hw1, hwg1, ?_, ?_⟩
      · intro hf
        rcases hcase with ⟨hnull, hg⟩ | ⟨hg1, hex1, _⟩
        · exact ⟨hg, by dsimp only; rw [hnull]; simp⟩
        · refine ⟨by rw [hg1, hf]; rfl, ?_⟩
          dsimp only
          intro h
          have := (hex1.mp h).1
          rw [hf] at this
          cases this
      · intro hf
        dsimp only
        rcases hcase with ⟨hnull, hg⟩ | ⟨hg1, hex1, _⟩
        · rw [hg]
          refine ⟨List.nil_prefix, fun h => absurd h hst, ?_⟩
          rw [hnull]
          exact ⟨fun h => (by cases h), fun ⟨_, h⟩ => by simp at h⟩
        · rw [hg1, if_pos hf]
          refine ⟨?_, fun h => absurd h hst, ?_⟩
          · rw [guard_log]
            cases hseen : env.test_and_push s.frags_seen frag.name
            · simp only [Bool.false_eq_true, if_false]
              exact (List.prefix_cons_inj _).mpr List.nil_prefix
            · simp
          · rw [hex1]
            constructor
            · rintro ⟨_, h⟩
              exact ⟨frag.name, by simp [h]⟩
            · rintro ⟨name, hm⟩
              simp only [List.mem_singleton, Prod.mk.injEq] at hm
              exact ⟨hf, hm.2.symm⟩

/-- C11: the duplicate-name check of the driver, line 481.  For the iteration
in which `pop()` returns the fragment `frag` (the head of the loop having led
to the state `s1`): in the first round the driver calls `test_and_push` exactly
once, on the name of the fragment and with the names pushed before in this
pass, and no worker does; in a later round nobody calls it.  When that call
reports the name as seen, the iteration is the call, `exit(1)` and nothing
else: the fragment is not processed and not pushed to a channel.  The
iteration ends with `exit(1)` only in that case, and otherwise records the
name in the first round.  The iteration in which `pop()` returns `NULL` makes
no call of `test_and_push`.  For a whole pass over a library: the filter
starts empty; in a later round it is never consulted and the pass does not end
with `exit(1)`; in the first round the calls are an initial part of
`guard_log`, they are one call per fragment, none reported, when the pass ends
normally, and the pass ends with `exit(1)` exactly when a call reported a
name. -/
theorem C11_duplicate_guard {α : Type} [Zero α] [One α] [Add α] [Sub α] [Mul α] [NatCast α]
    (o : Options) (r : Rounds α) (env : Env α) (s s1 : DriverState α) (frag : Fragment α)
    (rs : RunState α) (lib : Library α) (h1 : loop_head o s = some s1) :
    (∃ ext wext,
      (iteration o r env s frag).2.trace = s1.trace ++ ext ∧
      (iteration o r env s frag).2.worker_trace = s.worker_trace ++ wext ∧
      guard_calls wext = [] ∧
      guard_calls ext =
        (if r.first_round then [(frag.name, env.test_and_push s.frags_seen frag.name)]
          else [])) ∧
    (r.first_round = true → env.test_and_push s.frags_seen frag.name = true →
      iteration o r env s frag =
        (Status.exit_1, s1.emit [Event.test_and_push frag.name true, Event.exit_1])) ∧
    ((iteration o r env s frag).1 = Status.exit_1 →
      r.first_round = true ∧ env.test_and_push s.frags_seen frag.name = true) ∧
    ((iteration o r env s frag).1 = Status.ok →
      (iteration o r env s frag).2.frags_seen =
        if r.first_round then s.frags_seen ++ [frag.name] else s.frags_seen) ∧
    (∃ ext, (final_iteration o s).2.trace = s.trace ++ ext ∧ guard_calls ext = [] ∧
      (final_iteration o s).1 ≠ Status.exit_1) ∧
    (lib_pass_start o rs lib).frags_seen = [] ∧
    (∃ ext wext,
      (lib_pass o r env rs lib).2.trace = rs.trace ++ ext ∧
      (lib_pass o r env rs lib).2.worker_trace = rs.worker_trace ++ wext ∧
      guard_calls wext = [] ∧
      (r.first_round = false →
        guard_calls ext = [] ∧ (lib_pass o r env rs lib).1 ≠ Status.exit_1) ∧
      (r.first_round = true →
        guard_calls ext <+: guard_log env [] lib.stream ∧
        ((lib_pass o r env rs lib).1 = Status.ok →
          guard_calls ext = lib.stream.map (fun frag => (frag.name, false))) ∧
        ((lib_pass o r env rs lib).1 = Status.exit_1 ↔
          ∃ name, (name, true) ∈ guard_calls ext))) := by
  obtain ⟨ext, wext, ht, hw, hwg, hg, hex, hfs⟩ := iteration_guard_some o r env s s1 frag h1
  obtain ⟨fext, hft, hfg, _, hfe⟩ := final_iteration_guard o s
  refine ⟨⟨ext, wext, ht, hw, hwg, hg⟩, iteration_exit o r env s s1 frag h1, hex.mp, hfs,
    ⟨fext, hft, hfg, hfe⟩, rfl, ?_⟩
  exact driver_loop_guard o r env lib.stream (lib_pass_start o rs lib)

/-- C11 on the stream `a`, `b`, `a` in the first round: in the iteration that
pops the second `a` the filter reports the name and the run ends with
`exit(1)` right after the call; the pass over the stream makes three calls and
ends with `exit(1)`. -/
theorem C11_duplicate_guard_witness :
    loop_head ex_options ex_state_seen = some ex_state_seen ∧
    iteration ex_options ex_rounds ex_env ex_state_seen (single_hit_fragment "a" 0 0) =
      (Status.exit_1,
        ex_state_seen.emit [Event.test_and_push "a" true, Event.exit_1]) ∧
    guard_log ex_env [] ex_lib_dup.stream = [("a", false), ("b", false), ("a", true)] ∧
    (lib_pass ex_options ex_rounds ex_env RunState.init ex_lib_dup).1 = Status.exit_1 ∧
    guard_calls (lib_pass ex_options ex_rounds ex_env RunState.init ex_lib_dup).2.trace =
      [("a", false), ("b", false), ("a", true)] ∧
    ∃ ext wext,
      (lib_pass ex_options ex_rounds ex_env RunState.init ex_lib_dup).2.trace =
        RunState.init.trace ++ ext ∧
      (lib_pass ex_options ex_rounds ex_env RunState.init ex_lib_dup).2.worker_trace =
        RunState.init.worker_trace ++ wext ∧
      guard_calls wext = [] ∧
      guard_calls ext <+: guard_log ex_env [] ex_lib_dup.stream ∧
      ((lib_pass ex_options ex_rounds ex_env RunState.init ex_lib_dup).1 = Status.exit_1 ↔
        ∃ name, (name, true) ∈ guard_calls ext) :=
  have h := C11_duplicate_guard ex_options ex_rounds ex_env ex_state_seen ex_state_seen
    (single_hit_fragment "a" 0 0) RunState.init ex_lib_dup rfl
  ⟨rfl, h.2.1 rfl (by decide), by decide, by decide, by decide,
    match h.2.2.2.2.2.2 with
    | ⟨ext, wext, ht, hw, hwg, _, hfirst⟩ =>
      ⟨ext, wext, ht, hw, hwg, (hfirst rfl).1, (hfirst rfl).2.2⟩⟩

/-- The flags the update loop leaves only depend on the targets of the hits. -/
theorem update_loop_solvable_congr {α : Type} (r : Rounds α) (k ns : Nat)
    (hits : List (FragHit α)) :
    ∀ (hits1 : List (FragHit α)) (solvable : Nat → Bool),
      hits.map (fun hit => hit.targ) = hits1.map (fun hit => hit.targ) →
      update_loop_solvable r k ns solvable hits = update_loop_solvable r k ns solvable hits1 := by
  induction hits with
  | nil =>
    intro hits1 solvable h
    cases hits1 with
    | nil => rfl
    | cons _ _ => simp at h
  | cons hit hits ih =>
    intro hits1 solvable h
    cases hits1 with
    | nil => simp at h
    | cons hit1 hits1 =>
      simp only [List.map_cons, List.cons.injEq] at h
      rw [update_loop_solvable, update_loop_solvable]
      have e : update_solvable r k ns solvable hit = update_solvable r k ns solvable hit1 := by
        unfold update_solvable
        dsimp only
        rw [h.1]
      rw [e]
      exact ih hits1 _ h.2

/-- The update loop leaves the flags as they are unless `num_solvable` is one
less than the number of hits. -/
theorem update_loop_solvable_unchanged {α : Type} (r : Rounds α) (k ns : Nat)
    (h : ns ≠ k - 1) (hits : List (FragHit α)) :
    ∀ solvable : Nat → Bool, update_loop_solvable r k ns solvable hits = solvable := by
  induction hits with
  | nil => intro solvable; rfl
  | cons hit hits ih =>
    intro solvable
    rw [update_loop_solvable]
    have : update_solvable r k ns solvable hit = solvable := by
      unfold update_solvable
      simp [h]
    rw [this, ih]

/-- In the first round, when `num_solvable` is one less than the number of
hits, the update loop sets the flag of the target of every hit. -/
theorem update_loop_solvable_set {α : Type} (r : Rounds α) (k ns : Nat)
    (hfr : r.first_round = true) (h : ns = k - 1) (hits : List (FragHit α)) :
    ∀ solvable : Nat → Bool, update_loop_solvable r k ns solvable hits =
      fun u => solvable u || decide (u ∈ hits.map (fun hit => hit.targ)) := by
  induction hits with
  | nil => intro solvable; funext u; simp [update_loop_solvable]
  | cons hit hits ih =>
    intro solvable
    rw [update_loop_solvable, ih]
    funext u
    unfold update_solvable
    simp only [hfr, h, beq_self_eq_true, Bool.and_true, Bool.true_and, List.map_cons,
      List.mem_cons]
    by_cases hs : solvable hit.targ = true
    · by_cases hu : u = hit.targ
      · subst hu; simp [hs]
      · simp [hs, hu]
    · by_cases hu : u = hit.targ
      · simp [hs, hu]
      · simp [hs, hu]

/-- The update loop never clears a flag. -/
theorem update_loop_solvable_mono {α : Type} (r : Rounds α) (k ns : Nat)
    (hits : List (FragHit α)) :
    ∀ (solvable : Nat → Bool) (t : Nat), solvable t = true →
      update_loop_solvable r k ns solvable hits t = true := by
  induction hits with
  | nil => intro solvable t h; exact h
  | cons hit hits ih =>
    intro solvable t h
    rw [update_loop_solvable]
    apply ih
    unfold update_solvable
    split
    · show (if t = hit.targ then true else solvable t) = true
      split
      · rfl
      · exact h
    · exact h

/-- A list on which a test holds of all elements but one has exactly one
element on which it fails. -/
theorem one_fails_of_countP {β : Type} (p : β → Bool) (l : List β)
    (h1 : 1 ≤ l.length) (h : l.countP p = l.length - 1) :
    ∃ a ∈ l, p a = false ∧ ∀ b ∈ l, p b = false → b = a := by
  have h2 := List.length_eq_countP_add_countP (p := p) l
  have h3 : l.countP (fun a => decide ¬ p a = true) = 1 := by omega
  rw [List.countP_eq_length_filter, List.length_eq_one] at h3
  obtain ⟨a, ha⟩ := h3
  have hmem : ∀ b, b ∈ l ∧ p b = false ↔ b = a := by
    intro b
    have : b ∈ l.filter (fun a => decide ¬ p a = true) ↔
        b ∈ l ∧ (fun a => decide ¬ p a = true) b = true := List.mem_filter
    rw [ha] at this
    simp only [List.mem_singleton, Bool.not_eq_true, decide_eq_true_eq] at this
    exact this.symm
  have ha1 := (hmem a).mpr rfl
  exact ⟨a, ha1.1, ha1.2, fun b hb hpb => (hmem b).mp ⟨hb, hpb⟩⟩

/-- The flags `process_fragment` leaves for a fragment with a hit, in terms of
the hits on entry. -/
theorem process_fragment_solvable_hits {α : Type} [Zero α] [Add α] [Sub α]
    (o : Options) (r : Rounds α) (burned_out : Bool) (env : Env α)
    (lib : Library α) (solvable : Nat → Bool) (frag : Fragment α) (h0 : frag.num_hits ≠ 0) :
    (process_fragment o r burned_out env lib solvable frag).solvable =
      update_loop_solvable r frag.num_hits (count_solvable solvable frag) solvable frag.hits := by
  obtain ⟨hn, ht⟩ := propagated_scored_targets env lib frag
  rw [process_fragment_solvable_eq, if_neg h0, hn]
  exact update_loop_solvable_congr r _ _ _ _ solvable ht

/-- C12: solvability.  For a fragment with `k >= 2` hits processed in the
first round, `s` being the number of hits whose target is solvable on entry:
when `s != k - 1`, `process_fragment` leaves every `solvable` flag as it is;
when `s == k - 1`, exactly one hit has an unsolvable target, and the flags
afterwards are those on entry with the flag of that target set.  And no call
of `process_fragment`, whatever the fragment and the round, clears a flag. -/
theorem C12_solvable_flags {α : Type} [Zero α] [Add α] [Sub α]
    (o : Options) (r : Rounds α) (burned_out : Bool) (env : Env α)
    (lib : Library α) (solvable : Nat → Bool) (frag : Fragment α) :
    (2 ≤ frag.num_hits → r.first_round = true →
      (frag.hits.countP (fun hit => solvable hit.targ) ≠ frag.num_hits - 1 →
        (process_fragment o r burned_out env lib solvable frag).solvable = solvable) ∧
      (frag.hits.countP (fun hit => solvable hit.targ) = frag.num_hits - 1 →
        ∃ hit ∈ frag.hits, solvable hit.targ = false ∧
          (∀ hit1 ∈ frag.hits, solvable hit1.targ = false → hit1 = hit) ∧
          ∀ t, (process_fragment o r burned_out env lib solvable frag).solvable t =
            if t = hit.targ then true else solvable t)) ∧
    (∀ t, solvable t = true →
      (process_fragment o r burned_out env lib solvable frag).solvable t = true) := by
  constructor
  · intro hk hfr
    have h0 : frag.num_hits ≠ 0 := by omega
    have hc : count_solvable solvable frag =
        frag.hits.countP (fun hit => solvable hit.targ) := by
      unfold count_solvable
      rw [if_pos (by omega)]
    rw [process_fragment_solvable_hits o r burned_out env lib solvable frag h0, hc]
    constructor
    · intro hne
      exact update_loop_solvable_unchanged r _ _ hne frag.hits solvable
    · intro heq
      obtain ⟨hit, hmem, hs, huniq⟩ := one_fails_of_countP (fun hit => solvable hit.targ)
        frag.hits (by unfold Fragment.num_hits at hk; omega) heq
      refine ⟨hit, hmem, hs, huniq, ?_⟩
      intro t
      rw [update_loop_solvable_set r _ _ hfr heq frag.hits solvable]
      dsimp only
      by_cases ht : t = hit.targ
      · rw [if_pos ht]
        have : t ∈ frag.hits.map (fun hit => hit.targ) :=
          List.mem_map.mpr ⟨hit, hmem, ht.symm⟩
        simp [this]
      · rw [if_neg ht]
        by_cases hin : t ∈ frag.hits.map (fun hit => hit.targ)
        · obtain ⟨hit1, hm1, e1⟩ := List.mem_map.mp hin
          have hs1 : solvable hit1.targ = true := by
            cases h : solvable hit1.targ
            · have := huniq hit1 hm1 h
              rw [this] at e1
              exact absurd e1.symm ht
            · rfl
          rw [← e1, hs1]; rfl
        · simp [hin]
  · intro t ht
    by_cases h0 : frag.num_hits = 0
    · rw [process_fragment_solvable_eq, if_pos h0]; exact ht
    · rw [process_fragment_solvable_hits o r burned_out env lib solvable frag h0]
      exact update_loop_solvable_mono r _ _ frag.hits solvable t ht

/-- C12 on a fragment with two hits, on targets 0 and 1, in the first round:
when neither target is solvable both stay unsolvable; when only target 0 is
solvable, target 1 becomes solvable and nothing else changes. -/
theorem C12_solvable_flags_witness :
    2 ≤ ex_frag2.num_hits ∧ ex_rounds.first_round = true ∧
    ex_frag2.hits.countP (fun hit => (fun _ => false : Nat → Bool) hit.targ) ≠
      ex_frag2.num_hits - 1 ∧
    (process_fragment ex_options ex_rounds false ex_env ex_lib (fun _ => false)
      ex_frag2).solvable = (fun _ => false) ∧
    ex_frag2.hits.countP (fun hit => (fun t => decide (t = 0) : Nat → Bool) hit.targ) =
      ex_frag2.num_hits - 1 ∧
    (∃ hit ∈ ex_frag2.hits, hit.targ = 1 ∧
      ∀ t, (process_fragment ex_options ex_rounds false ex_env ex_lib
          (fun t => decide (t = 0)) ex_frag2).solvable t =
        if t = hit.targ then true else decide (t = 0)) :=
  ⟨by decide, rfl, by decide,
    ((C12_solvable_flags ex_options ex_rounds false ex_env ex_lib (fun _ => false)
      ex_frag2).1 (by decide) rfl).1 (by decide),
    by decide,
    match ((C12_solvable_flags ex_options ex_rounds false ex_env ex_lib
      (fun t => decide (t = 0)) ex_frag2).1 (by decide) rfl).2 (by decide) with
    | ⟨hit, hmem, hs, _, hall⟩ =>
      ⟨hit, hmem, by
        simp only [ex_frag2, List.mem_cons, List.mem_singleton, List.not_mem_nil,
          or_false] at hmem
        rcases hmem with h | h
        · subst h; simp [ex_hit] at hs
        · subst h; rfl, hall⟩⟩

/-- The steps of a concatenation. -/
theorem steps_append {α : Type} (xs ys : List (Event α)) :
    steps (xs ++ ys) = steps xs ++ steps ys := by
  simp [steps, List.filterMap_append]

/-- A trace without step of the dispatch protocol. -/
theorem steps_nil_of {α : Type} (xs : List (Event α))
    (h : ∀ e ∈ xs, e.step = none) : steps xs = [] := by
  induction xs with
  | nil => rfl
  | cons x xs ih =>
    simp only [steps, List.filterMap_cons, h x (List.mem_cons_self _ _)]
    exact ih (fun e he => h e (List.mem_cons_of_mem _ he))

/-- The steps of creating `k` workers. -/
theorem steps_replicate_spawn {α : Type} (k : Nat) :
    steps (List.replicate k (Event.spawn_worker : Event α)) = List.replicate k Step.spawn := by
  induction k with
  | zero => rfl
  | succ k ih =>
    rw [List.replicate_succ, List.replicate_succ]
    simp only [steps, List.filterMap_cons, Event.step] at ih ⊢
    rw [ih]

/-- The steps of pushing `k` stop signals. -/
theorem steps_replicate_stop {α : Type} (k : Nat) :
    steps (List.replicate k (Event.proc_on_push none : Event α)) =
      List.replicate k Step.stop := by
  induction k with
  | zero => rfl
  | succ k ih =>
    rw [List.replicate_succ, List.replicate_succ]
    simp only [steps, List.filterMap_cons, Event.step] at ih ⊢
    rw [ih]

/-- The fragment after scoring has the name it had. -/
theorem scored_fragment_name {α : Type} [Zero α] [Add α] [Sub α]
    (env : Env α) (lib : Library α) (frag : Fragment α) :
    (scored_fragment env lib frag).name = frag.name := by
  unfold scored_fragment
  split <;> rfl

/-- The fragment `process_fragment` leaves has the name it had. -/
theorem process_fragment_name {α : Type} [Zero α] [Add α] [Sub α]
    (o : Options) (r : Rounds α) (burned_out : Bool) (env : Env α)
    (lib : Library α) (solvable : Nat → Bool) (frag : Fragment α) :
    (process_fragment o r burned_out env lib solvable frag).frag.name = frag.name := by
  unfold process_fragment
  split
  · rfl
  · exact scored_fragment_name env lib frag

/-- The only step of a call of `process_fragment` that passes the assertion is
the processing of the fragment. -/
theorem process_fragment_steps {α : Type} [Zero α] [Add α] [Sub α]
    (o : Options) (r : Rounds α) (burned_out : Bool) (env : Env α)
    (lib : Library α) (solvable : Nat → Bool) (frag : Fragment α) (h0 : frag.num_hits ≠ 0) :
    steps (process_fragment o r burned_out env lib solvable frag).trace =
      [Step.process frag.name] := by
  obtain ⟨ext, h1, h2⟩ := process_fragment_trace o r burned_out env lib solvable frag h0
  rw [h1, steps_append, steps_append]
  have e1 : steps (scoring_trace lib frag) = [] := by
    apply steps_nil_of
    intro e he
    have := scoring_trace_is_scoring lib frag e he
    cases e <;> simp_all [Event.is_scoring, Event.step]
  have e2 : steps ext = [] := by
    apply steps_nil_of
    intro e he
    have := h2 e he
    cases e <;> simp_all [Event.is_update, Event.step]
  rw [e1, e2]
  simp [steps, Event.step, scored_fragment_name]

/-- A dispatch that ends normally: on the driver thread a push to `proc_on`
when multi-threaded and burned out, otherwise the calls of `process_fragment`
and a push to `proc_out`; on a worker thread the calls of `process_fragment`
and a push to `proc_out` when multi-threaded and burned out, otherwise
nothing. -/
theorem dispatch_ok_trace {α : Type} [Zero α] [Add α] [Sub α]
    (o : Options) (r : Rounds α) (env : Env α) (s s3 : DriverState α) (frag : Fragment α)
    (h : dispatch o r env s frag = (Status.ok, s3)) :
    frag.num_hits ≠ 0 ∧
    s3.trace = s.trace ++
      (if o.num_threads != 0 && s.burned_out then [Event.proc_on_push (some frag)]
        else (process_fragment o r s.burned_out env s.lib s.solvable frag).trace ++
          [Event.proc_out_push
            (process_fragment o r s.burned_out env s.lib s.solvable frag).frag]) ∧
    s3.worker_trace = s.worker_trace ++
      (if o.num_threads != 0 && s.burned_out
        then (process_fragment o r s.burned_out env s.lib s.solvable frag).trace ++
          [Event.proc_out_push
            (process_fragment o r s.burned_out env s.lib s.solvable frag).frag]
        else []) := by
  have hst := process_fragment_status o r s.burned_out env s.lib s.solvable frag
  have h0 : frag.num_hits ≠ 0 := by
    intro h00
    unfold dispatch worker_step inline_step at h
    simp only [process_fragment_status, h00, if_true] at h
    split at h <;> simp at h
  rw [if_neg h0] at hst
  refine ⟨h0, ?_⟩
  unfold dispatch at h
  by_cases hc : (o.num_threads != 0 && s.burned_out) = true
  · rw [if_pos hc] at h
    unfold worker_step DriverState.emit at h
    dsimp only at h
    rw [if_pos hst] at h
    cases h
    rw [if_pos hc, if_pos hc]
    exact ⟨rfl, by simp [List.append_assoc]⟩
  · rw [if_neg hc] at h
    unfold inline_step DriverState.emit at h
    dsimp only at h
    rw [if_pos hst] at h
    cases h
    rw [if_neg hc, if_neg hc]
    exact ⟨by simp [List.append_assoc], by simp⟩

/-- The bookkeeping counts the fragment. -/
theorem bookkeeping_num_frags {α : Type} [One α] [Add α] [Sub α] [Mul α] [NatCast α]
    (o : Options) (r : Rounds α) (env : Env α) (s : DriverState α) :
    (bookkeeping o r env s).num_frags = s.num_frags + 1 := by
  unfold bookkeeping DriverState.emit
  dsimp only
  split <;> rfl

/-- The head of an iteration leaves `num_frags` as it is. -/
theorem loop_head_num_frags {α : Type} (o : Options) (s s1 : DriverState α)
    (h : loop_head o s = some s1) : s1.num_frags = s.num_frags := by
  unfold loop_head at h
  cases h2 : burn_out_step o (burn_in_step o s) with
  | none => rw [h2] at h; cases h
  | some s2 =>
    rw [h2] at h
    cases h
    rw [spawn_step_num_frags, burn_out_step_num_frags o _ s2 h2, burn_in_step_num_frags]

/-- The steps of the head of an iteration: the creation of the pool, if due. -/
theorem head_events_steps {α : Type} (o : Options) (s : DriverState α) :
    steps (head_events o s) =
      if head_burned_out o s && o.num_threads != 0 && s.thread_pool == 0
        then List.replicate o.num_threads Step.spawn else [] := by
  unfold head_events head_burned_out
  rw [steps_append, steps_append]
  have e1 : steps (if s.lib.n = o.burn_in then
      [Event.bias_update_start] ++ (if s.lib.mismatch_table then [Event.mm_activate] else [])
      else [] : List (Event α)) = [] := by
    apply steps_nil_of
    intro e he
    split at he
    · simp only [List.mem_append, List.mem_singleton] at he
      rcases he with h | h
      · subst h; rfl
      · split at h <;> simp at h; subst h; rfl
    · simp at he
  have e2 : steps (if s.lib.n = o.burn_out then [Event.mm_fix] else [] : List (Event α)) =
      [] := by
    split <;> rfl
  rw [e1, e2]
  split
  · simp only [List.nil_append]; exact steps_replicate_spawn _
  · rfl

/-- An iteration on a fragment that ends normally, as steps of the dispatch
protocol: the creation of the pool if due, then the dispatch of the fragment,
on the driver thread; the processing of a fragment pushed to `proc_on`, on a
worker thread.  The counters `num_frags` and `lib.n` grow by one. -/
theorem iteration_ok_steps {α : Type} [Zero α] [One α] [Add α] [Sub α] [Mul α] [NatCast α]
    (o : Options) (r : Rounds α) (env : Env α) (s s1 : DriverState α) (frag : Fragment α)
    (hi : iteration o r env s frag = (Status.ok, s1)) :
    ∃ ext wext, s1.trace = s.trace ++ ext ∧ s1.worker_trace = s.worker_trace ++ wext ∧
      steps ext = steps (head_events o s) ++
        (if o.num_threads != 0 && head_burned_out o s then [Step.to_proc_on frag.name]
          else [Step.process frag.name, Step.to_proc_out frag.name]) ∧
      steps wext =
        (if o.num_threads != 0 && head_burned_out o s
          then [Step.process frag.name, Step.to_proc_out frag.name] else []) ∧
      s1.lib.n = s.lib.n + 1 ∧ s1.num_frags = s.num_frags + 1 ∧
      s1.burned_out = head_burned_out o s ∧ s1.thread_pool = head_thread_pool o s := by
  rcases iteration_cases o r env s frag with ⟨_, h⟩ | ⟨t1, st, t2, h1, h2, hne, h⟩ |
    ⟨t1, t2, st, t3, h1, h2, h3, hne, h⟩ | ⟨t1, t2, t3, h1, h2, h3, h⟩
  · rw [h] at hi; cases hi
  · rw [h] at hi; cases hi; exact absurd rfl hne
  · rw [h] at hi; cases hi; exact absurd rfl hne
  · rw [h] at hi
    cases hi
    obtain ⟨ht, hb, hl, hs, hw, _⟩ := loop_head_spec o s t1 h1
    have hp := loop_head_thread_pool o s t1 h1
    have hnf := loop_head_num_frags o s t1 h1
    obtain ⟨dext, hd, hdp⟩ := duplicate_check_ok_trace r env t1 t2 frag h2
    have hdw := duplicate_check_worker_trace r env t1 frag
    have hdb := duplicate_check_burned_out r env t1 frag
    have hdl := duplicate_check_lib r env t1 frag
    have hds := duplicate_check_solvable r env t1 frag
    have hdn := duplicate_check_num_frags r env t1 frag
    have hdt := duplicate_check_thread_pool r env t1 frag
    rw [h2] at hdw hdb hdl hds hdn hdt
    dsimp only at hdw hdb hdl hds hdn hdt
    obtain ⟨h0, h3t, h3w⟩ := dispatch_ok_trace o r env t2 t3 frag h3
    rw [hdb, hdl, hds, hb, hl, hs] at h3t h3w
    have h3l := dispatch_lib o r env t2 frag
    have h3b := dispatch_burned_out o r env t2 frag
    have h3n := dispatch_num_frags o r env t2 frag
    have h3p := dispatch_thread_pool o r env t2 frag
    rw [h3] at h3l h3b h3n h3p
    dsimp only at h3l h3b h3n h3p
    obtain ⟨bext, hbe, hbp⟩ := bookkeeping_output o r env t3
    have sd : steps dext = [] :=
      steps_nil_of _ (fun e he => by rw [hdp e he]; rfl)
    have sb : steps bext = [] :=
      steps_nil_of _ (fun e he => by rw [hbp e he]; rfl)
    have spf := process_fragment_steps o r (head_burned_out o s) env s.lib s.solvable frag h0
    have spn := process_fragment_name o r (head_burned_out o s) env s.lib s.solvable frag
    refine ⟨head_events o s ++ dext ++
        (if o.num_threads != 0 && head_burned_out o s then [Event.proc_on_push (some frag)]
          else (process_fragment o r (head_burned_out o s) env s.lib s.solvable frag).trace ++
            [Event.proc_out_push
              (process_fragment o r (head_burned_out o s) env s.lib s.solvable frag).frag]) ++
        bext,
      (if o.num_threads != 0 && head_burned_out o s
        then (process_fragment o r (head_burned_out o s) env s.lib s.solvable frag).trace ++
          [Event.proc_out_push
            (process_fragment o r (head_burned_out o s) env s.lib s.solvable frag).frag]
        else []),
      by rw [hbe, h3t, hd, ht]; simp only [List.append_assoc],
      by rw [bookkeeping_worker_trace, h3w, hdw, hw], ?_, ?_, ?_, ?_, ?_, ?_⟩
    · simp only [steps_append, sd, sb, List.nil_append, List.append_nil]
      by_cases hc : (o.num_threads != 0 && head_burned_out o s) = true
      · rw [if_pos hc, if_pos hc]; rfl
      · rw [if_neg hc, if_neg hc, steps_append, spf]
        simp [steps, Event.step, spn]
    · by_cases hc : (o.num_threads != 0 && head_burned_out o s) = true
      · rw [if_pos hc, if_pos hc, steps_append, spf]
        simp [steps, Event.step, spn]
      · rw [if_neg hc, if_neg hc]; rfl
    · rw [bookkeeping_lib_n, h3l, hdl, hl]
    · rw [bookkeeping_num_frags, h3n, hdn, hnf]
    · rw [bookkeeping_burned_out, h3b, hdb, hb]
    · rw [bookkeeping_thread_pool, h3p, hdt, hp]

/-- The last iteration leaves `num_frags` as it is. -/
theorem final_iteration_num_frags {α : Type} (o : Options) (s : DriverState α) :
    (final_iteration o s).2.num_frags = s.num_frags := by
  unfold final_iteration
  cases h1 : loop_head o s with
  | none => exact burn_in_step_num_frags o s
  | some s1 =>
    dsimp only
    split
    · exact loop_head_num_frags o s s1 h1
    · exact loop_head_num_frags o s s1 h1

/-- In a pass in which `burned_out` tells whether `lib.n` has reached
`burn_out`, the head of an iteration creates the pool as `spawn_steps` says,
leaves a pool of size `pool_after`, and the test of line 489 is `threaded`. -/
theorem head_steps_eq {α : Type} (o : Options) (s : DriverState α)
    (hb : head_burned_out o s = decide (o.burn_out ≤ s.lib.n)) :
    steps (head_events o s) = spawn_steps o s.lib.n s.thread_pool ∧
    head_thread_pool o s = pool_after o s.lib.n s.thread_pool ∧
    (o.num_threads != 0 && head_burned_out o s) = threaded o s.lib.n := by
  have e : (head_burned_out o s && o.num_threads != 0) = threaded o s.lib.n := by
    unfold threaded
    rw [hb, Bool.and_comm]
  refine ⟨?_, ?_, ?_⟩
  · rw [head_events_steps, e]; rfl
  · unfold head_thread_pool
    rw [e]; rfl
  · rw [Bool.and_comm]; exact e

/-- The loop over the fragments, when it ends normally, as steps of the
dispatch protocol, from a state in which `burned_out` tells whether `lib.n` has
reached `burn_out`; the counters `num_frags` and `lib.n` grow by the number of
fragments. -/
theorem driver_loop_steps {α : Type} [Zero α] [One α] [Add α] [Sub α] [Mul α] [NatCast α]
    (o : Options) (r : Rounds α) (env : Env α) (stream : List (Fragment α)) :
    ∀ s : DriverState α, head_burned_out o s = decide (o.burn_out ≤ s.lib.n) →
      (driver_loop o r env stream s).1 = Status.ok →
      ∃ ext wext, (driver_loop o r env stream s).2.trace = s.trace ++ ext ∧
        (driver_loop o r env stream s).2.worker_trace = s.worker_trace ++ wext ∧
        steps ext = expected_steps o s.lib.n s.thread_pool
          (stream.map (fun frag => frag.name)) ∧
        steps wext = expected_worker o s.lib.n (stream.map (fun frag => frag.name)) ∧
        (driver_loop o r env stream s).2.num_frags = s.num_frags + stream.length ∧
        (driver_loop o r env stream s).2.lib.n = s.lib.n + stream.length := by
  induction stream with
  | nil =>
    intro s hb hok
    obtain ⟨hs, hp, hc⟩ := head_steps_eq o s hb
    rcases final_iteration_trace o s with ⟨_, h1⟩ | ⟨_, ht, hw, _, hl, _⟩
    · rw [driver_loop, h1] at hok; cases hok
    · refine ⟨_, [], by rw [driver_loop, ht, List.append_assoc],
        by rw [driver_loop, hw, List.append_nil], ?_, rfl, ?_, ?_⟩
      · rw [steps_append, hs, hc, hp]
        simp only [List.map_nil, expected_steps]
        split
        · rw [steps_replicate_stop]
        · rfl
      · rw [driver_loop]; exact final_iteration_num_frags o s
      · rw [driver_loop, hl]; rfl
  | cons frag stream ih =>
    intro s hb hok
    obtain ⟨hs, hp, hc⟩ := head_steps_eq o s hb
    rcases hi : iteration o r env s frag with ⟨st, s1⟩
    by_cases hst : st = Status.ok
    · subst hst
      rw [driver_loop_cons_ok o r env frag stream s s1 hi] at hok ⊢
      obtain ⟨ext1, wext1, ht1, hw1, hs1, hws1, hn1, hf1, hb1, hp1⟩ :=
        iteration_ok_steps o r env s s1 frag hi
      have hb2 : head_burned_out o s1 = decide (o.burn_out ≤ s1.lib.n) := by
        unfold head_burned_out
        rw [hb1, hb, hn1]
        by_cases h1 : o.burn_out ≤ s.lib.n
        · have h2 : o.burn_out ≤ s.lib.n + 1 := by omega
          simp [h1, h2]
        · by_cases h2 : s.lib.n + 1 = o.burn_out
          · have h3 : o.burn_out ≤ s.lib.n + 1 := by omega
            simp [h1, h2, h3]
          · have h3 : ¬ o.burn_out ≤ s.lib.n + 1 := by omega
            simp [h1, h2, h3]
      obtain ⟨ext2, wext2, ht2, hw2, hs2, hws2, hf2, hn2⟩ := ih s1 hb2 hok
      refine ⟨ext1 ++ ext2, wext1 ++ wext2, by rw [ht2, ht1, List.append_assoc],
        by rw [hw2, hw1, List.append_assoc], ?_, ?_, ?_, ?_⟩
      · rw [steps_append, hs1, hs2, hs, hc, hn1, hp1, hp]
        simp only [List.map_cons, expected_steps, List.append_assoc]
      · rw [steps_append, hws1, hws2, hc, hn1]
        simp only [List.map_cons, expected_worker]
      · rw [hf2, hf1, List.length_cons]; omega
      · rw [hn2, hn1, List.length_cons]; omega
    · rw [driver_loop_cons_fail o r env frag stream s s1 st hi hst] at hok
      exact absurd hok hst

/-- The multi-threaded, burned-out regime lasts once reached. -/
theorem threaded_succ (o : Options) (n : Nat) (h : threaded o n = true) :
    threaded o (n + 1) = true := by
  unfold threaded at h ⊢
  simp only [Bool.and_eq_true, decide_eq_true_eq] at h ⊢
  exact ⟨h.1, by omega⟩

/-- The pool is empty, or it has `num_threads` workers and the regime is
multi-threaded and burned out; the head of an iteration keeps it so for the
next iteration. -/
theorem pool_after_shape (o : Options) (n pool : Nat)
    (h : pool = 0 ∨ (pool = o.num_threads ∧ threaded o n = true)) :
    pool_after o n pool = 0 ∨
      (pool_after o n pool = o.num_threads ∧ threaded o (n + 1) = true) := by
  unfold pool_after
  by_cases hc : (threaded o n && pool == 0) = true
  · rw [if_pos hc]
    simp only [Bool.and_eq_true] at hc
    exact Or.inr ⟨rfl, threaded_succ o n hc.1⟩
  · rw [if_neg hc]
    rcases h with h | ⟨h1, h2⟩
    · exact Or.inl h
    · exact Or.inr ⟨h1, threaded_succ o n h2⟩

/-- The steps of `expected_steps` that handle a fragment are those of
`expected_dispatch`. -/
theorem expected_steps_dispatch (o : Options) (names : List String) :
    ∀ n pool, (expected_steps o n pool names).filter Step.is_dispatch =
      expected_dispatch o n names := by
  have hsp : ∀ n pool, (spawn_steps o n pool).filter Step.is_dispatch = [] := by
    intro n pool
    unfold spawn_steps
    split
    · rw [List.filter_eq_nil_iff]
      intro a ha
      rw [List.mem_replicate] at ha
      rw [ha.2]; simp [Step.is_dispatch]
    · rfl
  induction names with
  | nil =>
    intro n pool
    rw [expected_steps, List.filter_append, hsp]
    split
    · rw [expected_dispatch, List.nil_append, List.filter_eq_nil_iff]
      intro a ha
      rw [List.mem_replicate] at ha
      rw [ha.2]; simp [Step.is_dispatch]
    · rfl
  | cons name names ih =>
    intro n pool
    rw [expected_steps, List.filter_append, List.filter_append, hsp, ih, expected_dispatch]
    split <;> simp [Step.is_dispatch]

/-- Creating `k` workers adds `k` to the size of the pool. -/
theorem pool_ready_spawn (nt : Nat) (k : Nat) :
    ∀ (pool : Nat) (rest : List Step),
      pool_ready nt pool (List.replicate k Step.spawn ++ rest) =
        pool_ready nt (pool + k) rest := by
  induction k with
  | zero => intro pool rest; rfl
  | succ k ih =>
    intro pool rest
    rw [List.replicate_succ, List.cons_append, pool_ready, ih]
    congr 1
    omega

/-- Stop signals meet no condition on the pool. -/
theorem pool_ready_stop (nt : Nat) (k pool : Nat) :
    pool_ready nt pool (List.replicate k Step.stop) = true := by
  induction k with
  | zero => rfl
  | succ k ih => simp only [List.replicate_succ, pool_ready]; exact ih

/-- In the expected steps every push of a fragment to `proc_on` finds a pool
of exactly `num_threads` workers. -/
theorem expected_steps_pool_ready (o : Options) (names : List String) :
    ∀ n pool, (pool = 0 ∨ (pool = o.num_threads ∧ threaded o n = true)) →
      pool_ready o.num_threads pool (expected_steps o n pool names) = true := by
  induction names with
  | nil =>
    intro n pool _
    rw [expected_steps]
    unfold spawn_steps
    split
    · rw [pool_ready_spawn]
      split
      · exact pool_ready_stop _ _ _
      · rfl
    · rw [List.nil_append]
      split
      · exact pool_ready_stop _ _ _
      · rfl
  | cons name names ih =>
    intro n pool hJ
    have hJ2 := pool_after_shape o n pool hJ
    have hrec := ih (n + 1) (pool_after o n pool) hJ2
    rw [expected_steps, List.append_assoc]
    unfold spawn_steps
    by_cases hc : (threaded o n && pool == 0) = true
    · have hpa : pool_after o n pool = o.num_threads := by
        unfold pool_after; rw [if_pos hc]
      have hp0 : pool = 0 := by
        simp only [Bool.and_eq_true, beq_iff_eq] at hc; exact hc.2
      have ht : threaded o n = true := by
        simp only [Bool.and_eq_true] at hc; exact hc.1
      rw [hpa] at hrec ⊢
      rw [if_pos hc, pool_ready_spawn, if_pos ht, hp0, Nat.zero_add]
      simp only [List.singleton_append, pool_ready, beq_self_eq_true, Bool.true_and]
      exact hrec
    · have hpa : pool_after o n pool = pool := by
        unfold pool_after; rw [if_neg hc]
      rw [hpa] at hrec ⊢
      rw [if_neg hc, List.nil_append]
      by_cases ht : threaded o n = true
      · have hpn : pool = o.num_threads := by
          rcases hJ with h | ⟨h, _⟩
          · exfalso; apply hc; simp [ht, h]
          · exact h
        rw [if_pos ht]
        simp only [List.singleton_append, pool_ready, Bool.and_eq_true, beq_iff_eq]
        exact ⟨hpn, hrec⟩
      · rw [if_neg ht]
        simp only [List.cons_append, List.nil_append, pool_ready]
        exact hrec

/-- The head of an iteration adds the workers it creates to the pool. -/
theorem pool_after_count (o : Options) (n pool : Nat) :
    pool + (spawn_steps o n pool).count Step.spawn = pool_after o n pool ∧
    Step.stop ∉ spawn_steps o n pool := by
  unfold spawn_steps pool_after
  by_cases hc : (threaded o n && pool == 0) = true
  · have hp0 : pool = 0 := by
      simp only [Bool.and_eq_true, beq_iff_eq] at hc; exact hc.2
    rw [if_pos hc, if_pos hc, hp0]
    refine ⟨by simp, ?_⟩
    intro h
    rw [List.mem_replicate] at h
    cases h.2
  · rw [if_neg hc, if_neg hc]
    exact ⟨by simp, by simp⟩

/-- The expected steps end with one stop signal per worker of the pool, those
created during the pass included, and no stop signal comes earlier. -/
theorem expected_steps_stop (o : Options) (names : List String) :
    ∀ n pool, (pool = 0 ∨ (pool = o.num_threads ∧ threaded o n = true)) →
      ∃ pre, expected_steps o n pool names =
          pre ++ List.replicate (pool + pre.count Step.spawn) Step.stop ∧
        Step.stop ∉ pre := by
  induction names with
  | nil =>
    intro n pool hJ
    obtain ⟨hcnt, hns⟩ := pool_after_count o n pool
    rw [expected_steps]
    by_cases ht : threaded o n = true
    · rw [if_pos ht]
      exact ⟨spawn_steps o n pool, by rw [hcnt], hns⟩
    · rw [if_neg ht]
      have hp0 : pool = 0 := by
        rcases hJ with h | ⟨_, h⟩
        · exact h
        · exact absurd h ht
      have hsp : spawn_steps o n pool = [] := by
        unfold spawn_steps
        rw [if_neg (by simp [ht])]
      refine ⟨[], ?_, by simp⟩
      rw [hsp, hp0]; rfl
  | cons name names ih =>
    intro n pool hJ
    obtain ⟨hcnt, hns⟩ := pool_after_count o n pool
    obtain ⟨pre1, h1, hn1⟩ := ih (n + 1) (pool_after o n pool) (pool_after_shape o n pool hJ)
    rw [expected_steps, h1]
    refine ⟨spawn_steps o n pool ++
      (if threaded o n then [Step.to_proc_on name]
        else [Step.process name, Step.to_proc_out name]) ++ pre1, ?_, ?_⟩
    · have hd : (if threaded o n then [Step.to_proc_on name]
          else [Step.process name, Step.to_proc_out name]).count Step.spawn = 0 := by
        split <;> simp
      rw [List.count_append, List.count_append, hd, ← hcnt]
      simp only [List.append_assoc, Nat.add_zero, Nat.add_assoc]
    · intro h
      rcases List.mem_append.mp h with h | h
      · rcases List.mem_append.mp h with h | h
        · exact hns h
        · split at h <;> simp at h
      · exact hn1 h

/-- C13: dispatch and shutdown protocol, in steps of the protocol (creation
of a worker, processing of a fragment, push of a fragment to `proc_out` or to
`proc_on`, push of a stop signal to `proc_on`).  In an iteration on a fragment
that ends normally, `burned_out` being its value at the test of line 489: when
`num_threads != 0` and `burned_out`, the driver thread pushes the fragment to
`proc_on` and does nothing else with it, and a worker processes it and pushes
it to `proc_out`; otherwise the driver thread processes it and then pushes it
to `proc_out`, and no worker does anything.  In a pass over a library that
ends normally, every fragment of the stream is handled once on the driver
thread, in order: the fragment popped when `lib.n = m` is pushed to `proc_on`
when `num_threads != 0` and `m >= burn_out`, and is otherwise processed and
then pushed to `proc_out` (`expected_dispatch`, the pass having started with
`burned_out = lib.n >= burn_out`); the fragments pushed to `proc_on` are
processed and pushed to `proc_out` on a worker thread (`expected_worker`).  Every push of a
fragment to `proc_on` finds exactly `num_threads` workers created since the
pass started (`pool_ready`).  The steps end with as many stop signals as
workers were created in the pass, and no stop signal comes earlier.  The
counters `num_frags` and `lib.n` grow by the number of fragments.  On a
well-formed library the pass does end normally. -/
theorem C13_dispatch_protocol {α : Type} [Zero α] [One α] [Add α] [Sub α] [Mul α]
    [NatCast α] (o : Options) (r : Rounds α) (env : Env α) (rs : RunState α)
    (lib : Library α) :
    (∀ (s s1 : DriverState α) (frag : Fragment α),
      iteration o r env s frag = (Status.ok, s1) →
      ∃ ext wext, s1.trace = s.trace ++ ext ∧ s1.worker_trace = s.worker_trace ++ wext ∧
        (steps ext).filter Step.is_dispatch =
          (if o.num_threads != 0 && s1.burned_out then [Step.to_proc_on frag.name]
            else [Step.process frag.name, Step.to_proc_out frag.name]) ∧
        steps wext =
          (if o.num_threads != 0 && s1.burned_out
            then [Step.process frag.name, Step.to_proc_out frag.name] else [])) ∧
    ((lib_pass o r env rs lib).1 = Status.ok →
      ∃ ext wext,
        (lib_pass o r env rs lib).2.trace = rs.trace ++ ext ∧
        (lib_pass o r env rs lib).2.worker_trace = rs.worker_trace ++ wext ∧
        (steps ext).filter Step.is_dispatch =
          expected_dispatch o lib.n (lib.stream.map (fun frag => frag.name)) ∧
        steps wext = expected_worker o lib.n (lib.stream.map (fun frag => frag.name)) ∧
        pool_ready o.num_threads 0 (steps ext) = true ∧
        (∃ pre, steps ext = pre ++ List.replicate (pre.count Step.spawn) Step.stop ∧
          Step.stop ∉ pre) ∧
        (lib_pass o r env rs lib).2.num_frags = rs.num_frags + lib.stream.length ∧
        (lib_pass o r env rs lib).2.lib.n = lib.n + lib.stream.length) ∧
    (lib.well_formed env → (lib_pass o r env rs lib).1 = Status.ok) := by
  refine ⟨fun s s1 frag hi => ?_, fun hok => ?_, fun hw => lib_pass_ok o r env rs lib hw⟩
  · obtain ⟨ext, wext, ht, hw, hs, hws, _, _, hb, _⟩ := iteration_ok_steps o r env s s1 frag hi
    refine ⟨ext, wext, ht, hw, ?_, by rw [hws, hb]⟩
    rw [hs, hb, List.filter_append, head_events_steps]
    have e : (if head_burned_out o s && o.num_threads != 0 && s.thread_pool == 0
        then List.replicate o.num_threads Step.spawn else []).filter Step.is_dispatch = [] := by
      rw [List.filter_eq_nil_iff]
      intro a ha
      split at ha
      · rw [List.mem_replicate] at ha
        rw [ha.2]; simp [Step.is_dispatch]
      · simp at ha
    rw [e]
    split <;> simp [Step.is_dispatch]
  unfold lib_pass at hok ⊢
  have hb : head_burned_out o (lib_pass_start o rs lib) =
      decide (o.burn_out ≤ (lib_pass_start o rs lib).lib.n) := by
    show (decide (lib.n ≥ o.burn_out) || decide (lib.n = o.burn_out)) =
      decide (o.burn_out ≤ lib.n)
    by_cases h1 : o.burn_out ≤ lib.n
    · simp [h1]
    · have h2 : ¬ lib.n = o.burn_out := by omega
      simp [h1, h2]
  obtain ⟨ext, wext, ht, hw, hs, hws, hf, hn⟩ :=
    driver_loop_steps o r env lib.stream (lib_pass_start o rs lib) hb hok
  have hs0 : steps ext = expected_steps o lib.n 0 (lib.stream.map (fun frag => frag.name)) :=
    hs
  obtain ⟨pre, hpre, hstop⟩ := expected_steps_stop o
    (lib.stream.map (fun frag => frag.name)) lib.n 0 (Or.inl rfl)
  refine ⟨ext, wext, ht, hw, ?_, hws, ?_, ⟨pre, ?_, hstop⟩, hf, hn⟩
  · rw [hs0]; exact expected_steps_dispatch o _ lib.n 0
  · rw [hs0]; exact expected_steps_pool_ready o _ lib.n 0 (Or.inl rfl)
  · rw [hs0, hpre, Nat.zero_add]

/-- C13 with two worker threads, burn-out at the second fragment and the
stream `a`, `b`, `c`: `a` is processed inline and pushed to `proc_out`, the two
workers are created, `b` and `c` are pushed to `proc_on`, then two stop
signals; the workers process `b` and `c`; the counters grow by three. -/
theorem C13_dispatch_protocol_witness :
    (lib_pass ex_options_threads ex_rounds ex_env RunState.init ex_lib3).1 = Status.ok ∧
    steps (lib_pass ex_options_threads ex_rounds ex_env RunState.init ex_lib3).2.trace =
      [Step.process "a", Step.to_proc_out "a", Step.spawn, Step.spawn,
       Step.to_proc_on "b", Step.to_proc_on "c", Step.stop, Step.stop] ∧
    steps (lib_pass ex_options_threads ex_rounds ex_env RunState.init ex_lib3).2.worker_trace =
      [Step.process "b", Step.to_proc_out "b", Step.process "c", Step.to_proc_out "c"] ∧
    ∃ ext wext,
      (lib_pass ex_options_threads ex_rounds ex_env RunState.init ex_lib3).2.trace =
        RunState.init.trace ++ ext ∧
      (lib_pass ex_options_threads ex_rounds ex_env RunState.init ex_lib3).2.worker_trace =
        RunState.init.worker_trace ++ wext ∧
      (steps ext).filter Step.is_dispatch =
        [Step.process "a", Step.to_proc_out "a", Step.to_proc_on "b", Step.to_proc_on "c"] ∧
      steps wext =
        [Step.process "b", Step.to_proc_out "b", Step.process "c", Step.to_proc_out "c"] ∧
      pool_ready ex_options_threads.num_threads 0 (steps ext) = true ∧
      (∃ pre, steps ext = pre ++ List.replicate (pre.count Step.spawn) Step.stop ∧
        Step.stop ∉ pre) ∧
      (lib_pass ex_options_threads ex_rounds ex_env RunState.init ex_lib3).2.num_frags =
        (RunState.init : RunState Int).num_frags + 3 ∧
      (lib_pass ex_options_threads ex_rounds ex_env RunState.init ex_lib3).2.lib.n =
        ex_lib3.n + 3 :=
  have h := C13_dispatch_protocol ex_options_threads ex_rounds ex_env RunState.init ex_lib3
  ⟨h.2.2 ex_lib3_well_formed, by decide, by decide, h.2.1 (h.2.2 ex_lib3_well_formed)⟩

/-- The head of the loop goes through `NULL` exactly when `lib.n == burn_out`
and the library has no mismatch model. -/
theorem loop_head_none_iff {α : Type} (o : Options) (s : DriverState α) :
    loop_head o s = none ↔ (s.lib.n = o.burn_out ∧ s.lib.mismatch_table = false) := by
  unfold loop_head burn_out_step
  rw [burn_in_step_lib]
  by_cases hn : s.lib.n = o.burn_out
  · rw [if_pos hn]
    cases hm : s.lib.mismatch_table <;> simp [hn]
  · rw [if_neg hn]
    simp [hn]

/-- An iteration whose head does not go through `NULL`, on a fragment with a
hit that the filter does not report, ends normally: `lib.n` grows by one and
the name is recorded in the first round. -/
theorem iteration_ok_of_head {α : Type} [Zero α] [One α] [Add α] [Sub α] [Mul α]
    [NatCast α] (o : Options) (r : Rounds α) (env : Env α) (s s1 : DriverState α)
    (frag : Fragment α) (h1 : loop_head o s = some s1) (hh : frag.num_hits ≠ 0)
    (hg : r.first_round = true → env.test_and_push s.frags_seen frag.name = false) :
    ∃ s2, iteration o r env s frag = (Status.ok, s2) ∧ s2.lib.n = s.lib.n + 1 ∧
      s2.frags_seen = if r.first_round then s.frags_seen ++ [frag.name] else s.frags_seen := by
  obtain ⟨t2, h2, _, hfs, _, hit⟩ := iteration_pass o r env s s1 frag h1 hg
  have hd := dispatch_ok o r env t2 frag hh
  rw [if_pos hd] at hit
  have hl1 := loop_head_lib o s s1 h1
  have hl2 := duplicate_check_lib r env s1 frag
  rw [h2] at hl2
  dsimp only at hl2
  refine ⟨_, hit, ?_, ?_⟩
  · rw [bookkeeping_lib_n, dispatch_lib, hl2, hl1]
  · rw [bookkeeping_frags_seen, dispatch_frags_seen, hfs]

/-- Without a mismatch model `process_fragment` calls none of its operations:
the tests of lines 353 and 387 guard them. -/
theorem process_fragment_no_mismatch {α : Type} [Zero α] [Add α] [Sub α]
    (o : Options) (r : Rounds α) (burned_out : Bool) (env : Env α)
    (lib : Library α) (solvable : Nat → Bool) (frag : Fragment α)
    (hm : lib.mismatch_table = false) :
    ∀ e ∈ (process_fragment o r burned_out env lib solvable frag).trace,
      e.is_mismatch_call = false := by
  intro e he
  have hup : e.is_mm_update = false := by
    cases h : e.is_mm_update
    · rfl
    · have := (process_fragment_mm_update o r burned_out env lib solvable frag e he h).2.2
      rw [hm] at this
      cases this
  rw [process_fragment_trace_eq] at he
  split at he
  · simp at he
  · simp only [List.mem_append, List.mem_singleton] at he
    rcases he with (h | h) | h
    · unfold scoring_trace at h
      split at h
      · simp only [List.mem_flatMap] at h
        obtain ⟨hit, _, hmem⟩ := h
        unfold score_events at hmem
        simp only [hm, Bool.false_eq_true, if_false, List.nil_append, List.mem_append,
          List.mem_singleton] at hmem
        rcases hmem with (h | h) | h
        · split at h
          · simp only [List.mem_append] at h
            rcases h with h | h
            · split at h <;> simp at h; subst h; rfl
            · split at h <;> simp at h; subst h; rfl
          · simp at h
        · split at h <;> simp at h; subst h; rfl
        · subst h; rfl
      · simp at h
    · subst h; rfl
    · obtain ⟨hit, _, sv, hmem⟩ := mem_update_loop_events o r burned_out lib _ _ e _ _ h
      have := update_events_is_update o r burned_out lib _ _ sv hit e hmem
      cases e <;> simp_all [Event.is_update, Event.is_mismatch_call, Event.is_mm_update]

/-- Without a mismatch model, the loop over a stream that is long enough for
`lib.n` to reach `burn_out` ends with the call of `fix()` through `NULL`, in
the iteration where `lib.n == burn_out`. -/
theorem driver_loop_null {α : Type} [Zero α] [One α] [Add α] [Sub α] [Mul α] [NatCast α]
    (o : Options) (r : Rounds α) (env : Env α) (stream : List (Fragment α)) :
    ∀ s : DriverState α, s.lib.mismatch_table = false → s.lib.n ≤ o.burn_out →
      o.burn_out - s.lib.n ≤ stream.length →
      (∀ frag ∈ stream, frag.num_hits ≠ 0) →
      (r.first_round = true → guard_passes env s.frags_seen stream = true) →
      (driver_loop o r env stream s).1 = Status.null_deref ∧
      (driver_loop o r env stream s).2.lib.n = o.burn_out := by
  induction stream with
  | nil =>
    intro s hm hn hF _ _
    have hnb : s.lib.n = o.burn_out := by
      simp only [List.length_nil] at hF; omega
    have h1 := (loop_head_none_iff o s).mpr ⟨hnb, hm⟩
    rw [driver_loop]
    unfold final_iteration
    rw [h1]
    exact ⟨rfl, by dsimp only; rw [burn_in_step_lib]; exact hnb⟩
  | cons frag stream ih =>
    intro s hm hn hF hh hg
    by_cases hnb : s.lib.n = o.burn_out
    · have h1 := (loop_head_none_iff o s).mpr ⟨hnb, hm⟩
      have hit : iteration o r env s frag = (Status.null_deref, burn_in_step o s) := by
        unfold iteration; rw [h1]
      rw [driver_loop_cons_fail o r env frag stream s _ _ hit (by simp)]
      exact ⟨rfl, by dsimp only; rw [burn_in_step_lib]; exact hnb⟩
    · have h1 : ∃ s1, loop_head o s = some s1 := by
        cases h : loop_head o s with
        | none => exact absurd ((loop_head_none_iff o s).mp h).1 hnb
        | some s1 => exact ⟨s1, rfl⟩
      obtain ⟨s1, h1⟩ := h1
      have hg1 : r.first_round = true → env.test_and_push s.frags_seen frag.name = false := by
        intro hf
        have := hg hf
        simp only [guard_passes, Bool.and_eq_true, Bool.not_eq_true'] at this
        exact this.1
      obtain ⟨s2, hi, hn2, hfs2⟩ := iteration_ok_of_head o r env s s1 frag h1
        (hh frag (List.mem_cons_self _ _)) hg1
      rw [driver_loop_cons_ok o r env frag stream s s2 hi]
      have hf := iteration_frame o r env s frag
      rw [hi] at hf
      apply ih s2 (by rw [hf.2.1]; exact hm) (by rw [hn2]; omega)
        (by rw [hn2]; simp only [List.length_cons] at hF; omega)
        (fun f hf => hh f (List.mem_cons_of_mem _ hf))
      intro hfr
      have := hg hfr
      simp only [guard_passes, Bool.and_eq_true, Bool.not_eq_true'] at this
      rw [hfs2, if_pos hfr]
      exact this.2

/-- C14 does not hold of the code: the call of `fix()` on line 467 is not
guarded.  For a library without mismatch model, in a pass that starts with
`lib.n <= burn_out` over a stream long enough for `lib.n` to reach `burn_out`
(every fragment having a hit and no name being reported by the filter), the
pass ends in the iteration where `lib.n == burn_out` with the call of `fix()`
through the `NULL` pointer, instead of only setting `burned_out`.  The other
uses of the mismatch model are guarded: at `lib.n == burn_in` the driver does
not call `activate()` (line 462), and `process_fragment` calls neither
`log_likelihood` nor `update` (lines 353 and 387). -/
theorem C14_fix_called_through_null {α : Type} [Zero α] [One α] [Add α] [Sub α] [Mul α]
    [NatCast α] (o : Options) (r : Rounds α) (env : Env α) (rs : RunState α)
    (lib : Library α) (hm : lib.mismatch_table = false) (hn : lib.n ≤ o.burn_out)
    (hF : o.burn_out - lib.n ≤ lib.stream.length)
    (hh : ∀ frag ∈ lib.stream, frag.num_hits ≠ 0)
    (hg : r.first_round = true → guard_passes env [] lib.stream = true) :
    (lib_pass o r env rs lib).1 = Status.null_deref ∧
    (lib_pass o r env rs lib).2.lib.n = o.burn_out ∧
    (∀ s : DriverState α, s.lib.mismatch_table = false → s.lib.n = o.burn_out →
      burn_out_step o s = none) ∧
    (∀ s : DriverState α, s.lib.mismatch_table = false →
      (burn_in_step o s).trace =
        s.trace ++ (if s.lib.n = o.burn_in then [Event.bias_update_start] else [])) ∧
    (∀ (b : Bool) (solvable : Nat → Bool) (frag : Fragment α),
      ∀ e ∈ (process_fragment o r b env lib solvable frag).trace,
        e.is_mismatch_call = false) := by
  have h := driver_loop_null o r env lib.stream (lib_pass_start o rs lib) hm hn hF hh hg
  refine ⟨h.1, h.2, ?_, ?_, ?_⟩
  · intro s hms hns
    unfold burn_out_step
    rw [if_pos hns, hms]
    rfl
  · intro s hms
    rw [burn_in_step_trace, hms]
    split <;> simp
  · intro b solvable frag
    exact process_fragment_no_mismatch o r b env lib solvable frag hm

/-- C14 at the failing input: no mismatch model, `burn_out = 2`, `lib.n = 1`
and three fragments.  The first fragment is processed; the next iteration
starts with `lib.n == burn_out` and calls `fix()` through `NULL`. -/
theorem C14_fix_called_through_null_witness :
    ex_lib3_no_mismatch.mismatch_table = false ∧
    ex_lib3_no_mismatch.n ≤ ex_options_short.burn_out ∧
    ex_options_short.burn_out - ex_lib3_no_mismatch.n ≤ ex_lib3_no_mismatch.stream.length ∧
    (lib_pass ex_options_short ex_rounds ex_env RunState.init ex_lib3_no_mismatch).1 =
      Status.null_deref ∧
    (lib_pass ex_options_short ex_rounds ex_env RunState.init ex_lib3_no_mismatch).2.lib.n =
      ex_options_short.burn_out ∧
    (lib_pass ex_options_short ex_rounds ex_env RunState.init
      ex_lib3_no_mismatch).2.num_frags = 1 :=
  have h := C14_fix_called_through_null ex_options_short ex_rounds ex_env RunState.init
    ex_lib3_no_mismatch rfl (by decide) (by decide)
    (by
      intro frag hf
      simp only [ex_lib3_no_mismatch, ex_lib3, List.mem_cons, List.mem_singleton,
        List.not_mem_nil, or_false] at hf
      rcases hf with h | h | h <;> subst h <;> decide)
    (fun _ => by decide)
  ⟨rfl, by decide, by decide, h.1, h.2.1, by decide⟩

/-- C15 does not hold of the code for requests of fewer than two threads.  For
a request `p >= 2` the code leaves in `num_threads` what the claim says,
`p - 2`, less one when edit detection is on and `p - 2` is positive.  For
`p < 2` the code sets `num_threads = 0` and then subtracts 2 from it, which
wraps: it leaves `2^64 - 2`, or `2^64 - 3` with edit detection, where the claim
says 0; with that value the driver, once burned out, creates a pool of as many
workers (lines 471-476). -/
theorem C15_thread_count_wraps (p : Nat) (edit_detect : Bool) (hp : p < 2 ^ 64) :
    (2 ≤ p → parse_options_num_threads p edit_detect = spec_num_threads p edit_detect) ∧
    (p < 2 →
      parse_options_num_threads p edit_detect =
        2 ^ 64 - 2 - (if edit_detect then 1 else 0) ∧
      spec_num_threads p edit_detect = 0 ∧
      ∀ (α : Type) (o : Options) (s : DriverState α),
        o.num_threads = parse_options_num_threads p edit_detect →
        s.burned_out = true → s.thread_pool = 0 →
        (spawn_step o s).thread_pool = 2 ^ 64 - 2 - (if edit_detect then 1 else 0)) := by
  have hspawn : p < 2 → parse_options_num_threads p edit_detect =
      2 ^ 64 - 2 - (if edit_detect then 1 else 0) →
      ∀ (α : Type) (o : Options) (s : DriverState α),
        o.num_threads = parse_options_num_threads p edit_detect →
        s.burned_out = true → s.thread_pool = 0 →
        (spawn_step o s).thread_pool = 2 ^ 64 - 2 - (if edit_detect then 1 else 0) := by
    intro _ hv α o s ho hb hpool
    rw [spawn_step_thread_pool, hb, hpool, ho, hv]
    cases edit_detect <;> simp
  constructor
  · intro h2
    unfold parse_options_num_threads spec_num_threads
    have e1 : (p + 2 ^ 64 - 2) % 2 ^ 64 = p - 2 := by omega
    simp only [if_neg (show ¬ p < 2 by omega), e1]
    by_cases h0 : 0 < p - 2
    · cases edit_detect
      · simp only [gt_iff_lt, h0, if_true, Bool.false_eq_true, if_false, false_and]
        omega
      · simp only [gt_iff_lt, h0, if_true, true_and]
        omega
    · cases edit_detect <;> simp [h0]
  · intro h2
    have e0 : p - 2 = 0 := by omega
    have hv : parse_options_num_threads p edit_detect =
        2 ^ 64 - 2 - (if edit_detect then 1 else 0) := by
      unfold parse_options_num_threads
      simp only [if_pos h2]
      cases edit_detect <;> simp
    refine ⟨hv, ?_, hspawn h2 hv⟩
    unfold spec_num_threads
    simp only [e0]
    cases edit_detect <;> simp

/-- C15 at the failing input `-p 1` without edit detection: the code leaves
`num_threads = 2^64 - 2`, the claim says 0. -/
theorem C15_thread_count_wraps_witness :
    (1 : Nat) < 2 ^ 64 ∧
    parse_options_num_threads 1 false = 18446744073709551614 ∧
    spec_num_threads 1 false = 0 :=
  ⟨by norm_num, ((C15_thread_count_wraps 1 false (by norm_num)).2 (by norm_num)).1,
    ((C15_thread_count_wraps 1 false (by norm_num)).2 (by norm_num)).2.1⟩

/-- The calls of `update` on the mismatch model of the update loop, exactly:
in the first round, with a mismatch model and `!burned_out || edit_detect`,
one call per hit, in order, with the hit, its probability and `lib.mass_n`;
none otherwise. -/
theorem update_loop_events_mm_update {α : Type} [Add α]
    (o : Options) (r : Rounds α) (burned_out : Bool) (lib : Library α)
    (k ns : Nat) (hits : List (FragHit α)) :
    ∀ solvable : Nat → Bool,
      (update_loop_events o r burned_out lib k ns solvable hits).filterMap
          Event.mm_update_args =
        if r.first_round && ((!burned_out || o.edit_detect) && lib.mismatch_table)
          then hits.map (fun hit => (hit, hit.probability, lib.mass_n)) else [] := by
  induction hits with
  | nil => intro solvable; simp [update_loop_events]
  | cons hit hits ih =>
    intro solvable
    rw [update_loop_events, List.filterMap_append, ih]
    have h1 : (update_events o r burned_out lib k ns (solvable hit.targ) hit).filterMap
        Event.mm_update_args =
        if r.first_round && ((!burned_out || o.edit_detect) && lib.mismatch_table)
          then [(hit, hit.probability, lib.mass_n)] else [] := by
      unfold update_events
      dsimp only
      by_cases hfr : r.first_round = true
      · rw [if_pos hfr]
        simp only [List.filterMap_append, hfr, Bool.true_and]
        repeat' split
        all_goals simp_all [Event.mm_update_args]
      · rw [if_neg hfr]
        simp [hfr]
    rw [h1]
    split <;> simp

/-- The calls of `add_val` on the length model of the update loop, exactly: in
the first round with `burned_out` false, one call per PAIRED hit, in order,
with the length of the hit and its probability plus `lib.mass_n`; none
otherwise. -/
theorem update_loop_events_add_val {α : Type} [Add α]
    (o : Options) (r : Rounds α) (burned_out : Bool) (lib : Library α)
    (k ns : Nat) (hits : List (FragHit α)) :
    ∀ solvable : Nat → Bool,
      (update_loop_events o r burned_out lib k ns solvable hits).filterMap
          Event.add_val_args =
        if r.first_round && !burned_out
          then (hits.filter (fun hit => decide (hit.pair_status = PairStatus.PAIRED))).map
            (fun hit => (hit.length, hit.probability + lib.mass_n))
          else [] := by
  induction hits with
  | nil => intro solvable; simp [update_loop_events]
  | cons hit hits ih =>
    intro solvable
    rw [update_loop_events, List.filterMap_append, ih]
    have h1 : (update_events o r burned_out lib k ns (solvable hit.targ) hit).filterMap
        Event.add_val_args =
        if r.first_round && !burned_out
          then (if hit.pair_status = PairStatus.PAIRED
            then [(hit.length, hit.probability + lib.mass_n)] else [])
          else [] := by
      unfold update_events
      dsimp only
      by_cases hfr : r.first_round = true
      · rw [if_pos hfr]
        simp only [List.filterMap_append, hfr, Bool.true_and]
        repeat' split
        all_goals simp_all [Event.add_val_args]
      · rw [if_neg hfr]
        simp [hfr]
    rw [h1]
    by_cases hc : (r.first_round && !burned_out) = true
    · simp only [hc, if_true, List.filter_cons]
      by_cases hp : hit.pair_status = PairStatus.PAIRED
      · simp [hp]
      · simp [hp]
    · simp [hc]

/-- The calls of `update_observed` on the bias model of the update loop,
exactly: in the first round with `burned_out` false and a bias model, one call
per hit, in order, with the hit and its probability plus `lib.mass_n`; none
otherwise. -/
theorem update_loop_events_update_observed {α : Type} [Add α]
    (o : Options) (r : Rounds α) (burned_out : Bool) (lib : Library α)
    (k ns : Nat) (hits : List (FragHit α)) :
    ∀ solvable : Nat → Bool,
      (update_loop_events o r burned_out lib k ns solvable hits).filterMap
          Event.update_observed_args =
        if r.first_round && (!burned_out && lib.bias_table)
          then hits.map (fun hit => (hit, hit.probability + lib.mass_n)) else [] := by
  induction hits with
  | nil => intro solvable; simp [update_loop_events]
  | cons hit hits ih =>
    intro solvable
    rw [update_loop_events, List.filterMap_append, ih]
    have h1 : (update_events o r burned_out lib k ns (solvable hit.targ) hit).filterMap
        Event.update_observed_args =
        if r.first_round && (!burned_out && lib.bias_table)
          then [(hit, hit.probability + lib.mass_n)] else [] := by
      unfold update_events
      dsimp only
      by_cases hfr : r.first_round = true
      · rw [if_pos hfr]
        simp only [List.filterMap_append, hfr, Bool.true_and]
        repeat' split
        all_goals simp_all [Event.update_observed_args]
      · rw [if_neg hfr]
        simp [hfr]
    rw [h1]
    split <;> simp

/-- A projection of events that ignores the scoring queries and the call of
mass propagation sees, of a call of `process_fragment` that passes the
assertion, the calls of the update loop only. -/
theorem process_fragment_filterMap {α β : Type} [Zero α] [Add α] [Sub α]
    (o : Options) (r : Rounds α) (burned_out : Bool) (env : Env α)
    (lib : Library α) (solvable : Nat → Bool) (frag : Fragment α)
    (f : Event α → Option β)
    (hs : ∀ e : Event α, e.is_scoring = true → f e = none)
    (hr : ∀ e : Event α, e.is_rho = true → f e = none) (h0 : frag.num_hits ≠ 0) :
    (process_fragment o r burned_out env lib solvable frag).trace.filterMap f =
      (update_loop_events o r burned_out lib
        (process_fragment o r burned_out env lib solvable frag).frag.num_hits
        (count_solvable solvable frag) solvable
        (process_fragment o r burned_out env lib solvable frag).frag.hits).filterMap f := by
  have hf : (process_fragment o r burned_out env lib solvable frag).frag =
      propagated_fragment env (scored_fragment env lib frag) := by
    unfold process_fragment
    rw [if_neg h0]
  rw [hf, process_fragment_trace_eq, if_neg h0, List.filterMap_append, List.filterMap_append]
  have e1 : (scoring_trace lib frag).filterMap f = [] := by
    rw [List.filterMap_eq_nil_iff]
    intro e he
    exact hs e (scoring_trace_is_scoring lib frag e he)
  have e2 : [Event.rho_process_fragment (scored_fragment env lib frag)].filterMap f = [] := by
    rw [List.filterMap_eq_nil_iff]
    intro e he
    rw [List.mem_singleton] at he
    subst he
    exact hr _ rfl
  rw [e1, e2]
  rfl

/-- The observations `process_fragment` forwards to the models, exactly, the
hits being those of the fragment as the call leaves it (scored, then rewritten
by mass propagation).  To the mismatch model: in the first round, with a
mismatch model and `!burned_out || edit_detect`, `update` once per hit.  To the
length model: in the first round with `burned_out` false, `add_val` once per
PAIRED hit.  To the bias model: in the first round with `burned_out` false and
a bias model, `update_observed` once per hit.  Nothing otherwise. -/
theorem process_fragment_observations {α : Type} [Zero α] [Add α] [Sub α]
    (o : Options) (r : Rounds α) (burned_out : Bool) (env : Env α)
    (lib : Library α) (solvable : Nat → Bool) (frag : Fragment α) :
    (process_fragment o r burned_out env lib solvable frag).trace.filterMap
        Event.mm_update_args =
      (if r.first_round && ((!burned_out || o.edit_detect) && lib.mismatch_table)
        then (process_fragment o r burned_out env lib solvable frag).frag.hits.map
          (fun hit => (hit, hit.probability, lib.mass_n))
        else []) ∧
    (process_fragment o r burned_out env lib solvable frag).trace.filterMap
        Event.add_val_args =
      (if r.first_round && !burned_out
        then ((process_fragment o r burned_out env lib solvable frag).frag.hits.filter
            (fun hit => decide (hit.pair_status = PairStatus.PAIRED))).map
          (fun hit => (hit.length, hit.probability + lib.mass_n))
        else []) ∧
    (process_fragment o r burned_out env lib solvable frag).trace.filterMap
        Event.update_observed_args =
      (if r.first_round && (!burned_out && lib.bias_table)
        then (process_fragment o r burned_out env lib solvable frag).frag.hits.map
          (fun hit => (hit, hit.probability + lib.mass_n))
        else []) := by
  by_cases h0 : frag.num_hits = 0
  · have hh : frag.hits = [] := List.length_eq_zero.mp h0
    have ht : (process_fragment o r burned_out env lib solvable frag).trace = [] := by
      unfold process_fragment; rw [if_pos h0]
    have hf : (process_fragment o r burned_out env lib solvable frag).frag.hits = [] := by
      unfold process_fragment; rw [if_pos h0]; exact hh
    rw [ht, hf]
    refine ⟨?_, ?_, ?_⟩ <;> split <;> rfl
  · refine ⟨?_, ?_, ?_⟩
    · rw [process_fragment_filterMap o r burned_out env lib solvable frag _
        (fun e he => by cases e <;> simp_all [Event.is_scoring, Event.mm_update_args])
        (fun e he => by cases e <;> simp_all [Event.is_rho, Event.mm_update_args]) h0]
      exact update_loop_events_mm_update o r burned_out lib _ _ _ solvable
    · rw [process_fragment_filterMap o r burned_out env lib solvable frag _
        (fun e he => by cases e <;> simp_all [Event.is_scoring, Event.add_val_args])
        (fun e he => by cases e <;> simp_all [Event.is_rho, Event.add_val_args]) h0]
      exact update_loop_events_add_val o r burned_out lib _ _ _ solvable
    · rw [process_fragment_filterMap o r burned_out env lib solvable frag _
        (fun e he => by cases e <;> simp_all [Event.is_scoring, Event.update_observed_args])
        (fun e he => by cases e <;> simp_all [Event.is_rho, Event.update_observed_args]) h0]
      exact update_loop_events_update_observed o r burned_out lib _ _ _ solvable

/-- The observations of a concatenation. -/
theorem observations_append {α : Type} (xs ys : List (Event α)) :
    observations (xs ++ ys) = observations xs ++ observations ys := by
  simp [observations, List.filterMap_append]

/-- A trace without observation or fixing. -/
theorem observations_nil_of {α : Type} (xs : List (Event α))
    (h : ∀ e ∈ xs, e.observation = none) : observations xs = [] := by
  induction xs with
  | nil => rfl
  | cons x xs ih =>
    simp only [observations, List.filterMap_cons, h x (List.mem_cons_self _ _)]
    exact ih (fun e he => h e (List.mem_cons_of_mem _ he))

/-- Writing probabilities back keeps the hits but for their probabilities. -/
theorem set_probabilities_fields {α : Type} (hits : List (FragHit α)) :
    ∀ ps : List α,
      (set_probabilities hits ps).map
          (fun hit => (hit.targ, hit.left, hit.right, hit.pair_status, hit.length)) =
        hits.map (fun hit => (hit.targ, hit.left, hit.right, hit.pair_status, hit.length)) := by
  induction hits with
  | nil => intro ps; rfl
  | cons hit hits ih =>
    intro ps
    cases ps with
    | nil => rfl
    | cons p ps => simp [set_probabilities, ih ps]

/-- The fragment `process_fragment` leaves has the hits it had, in order, but
for their probabilities. -/
theorem process_fragment_fields {α : Type} [Zero α] [Add α] [Sub α]
    (o : Options) (r : Rounds α) (burned_out : Bool) (env : Env α)
    (lib : Library α) (solvable : Nat → Bool) (frag : Fragment α) :
    (process_fragment o r burned_out env lib solvable frag).frag.hits.map
        (fun hit => (hit.targ, hit.left, hit.right, hit.pair_status, hit.length)) =
      frag.hits.map
        (fun hit => (hit.targ, hit.left, hit.right, hit.pair_status, hit.length)) := by
  unfold process_fragment
  split
  · rfl
  · dsimp only
    unfold propagated_fragment
    dsimp only
    rw [set_probabilities_fields]
    unfold scored_fragment
    split
    · simp [score_hit, List.map_map, Function.comp_def]
    · rfl

/-- The observations of the update loop are those expected of its hits. -/
theorem update_loop_events_observations {α : Type} [Add α]
    (o : Options) (r : Rounds α) (burned_out : Bool) (lib : Library α)
    (k ns : Nat) (hits : List (FragHit α)) :
    ∀ solvable : Nat → Bool,
      observations (update_loop_events o r burned_out lib k ns solvable hits) =
        hits.flatMap (fun hit =>
          hit_observations o r.first_round burned_out lib.mismatch_table lib.bias_table
            hit.targ hit.pair_status hit.length) := by
  induction hits with
  | nil => intro solvable; rfl
  | cons hit hits ih =>
    intro solvable
    rw [update_loop_events, observations_append, ih, List.flatMap_cons]
    congr 1
    unfold update_events hit_observations observations
    dsimp only
    by_cases hfr : r.first_round = true
    · rw [if_pos hfr, if_pos hfr]
      simp only [List.filterMap_append]
      repeat' split
      all_goals simp_all [Event.observation]
    · rw [if_neg hfr, if_neg hfr]
      rfl

/-- The observations of a call of `process_fragment` are those expected of the
fragment. -/
theorem process_fragment_obs {α : Type} [Zero α] [Add α] [Sub α]
    (o : Options) (r : Rounds α) (burned_out : Bool) (env : Env α)
    (lib : Library α) (solvable : Nat → Bool) (frag : Fragment α) :
    observations (process_fragment o r burned_out env lib solvable frag).trace =
      fragment_observations o r.first_round burned_out lib.mismatch_table lib.bias_table
        frag := by
  have hflat : ∀ hits : List (FragHit α),
      hits.flatMap (fun hit =>
        hit_observations o r.first_round burned_out lib.mismatch_table lib.bias_table
          hit.targ hit.pair_status hit.length) =
      (hits.map (fun hit => (hit.targ, hit.left, hit.right, hit.pair_status,
        hit.length))).flatMap (fun t =>
          hit_observations o r.first_round burned_out lib.mismatch_table lib.bias_table
            t.1 t.2.2.2.1 t.2.2.2.2) := by
    intro hits
    induction hits with
    | nil => rfl
    | cons hit hits ih => simp only [List.flatMap_cons, List.map_cons, ih]
  by_cases h0 : frag.num_hits = 0
  · have hh : frag.hits = [] := List.length_eq_zero.mp h0
    unfold process_fragment fragment_observations
    rw [if_pos h0, hh]
    rfl
  · unfold observations
    rw [process_fragment_filterMap o r burned_out env lib solvable frag _
      (fun e he => by cases e <;> simp_all [Event.is_scoring, Event.observation])
      (fun e he => by cases e <;> simp_all [Event.is_rho, Event.observation]) h0]
    have := update_loop_events_observations o r burned_out lib
      (process_fragment o r burned_out env lib solvable frag).frag.num_hits
      (count_solvable solvable frag)
      (process_fragment o r burned_out env lib solvable frag).frag.hits solvable
    unfold observations at this
    rw [this, hflat, process_fragment_fields, ← hflat]
    rfl

/-- An iteration on a fragment that ends normally, exactly: on the driver
thread the events of the head of the loop, calls of `test_and_push`, the
dispatch (a push to `proc_on` when multi-threaded and burned out, otherwise the
calls of `process_fragment` and a push to `proc_out`) and calls of
`output_results`; on a worker thread the calls of `process_fragment` and a push
to `proc_out` when the fragment was pushed to `proc_on`. -/
theorem iteration_ok_trace {α : Type} [Zero α] [One α] [Add α] [Sub α] [Mul α] [NatCast α]
    (o : Options) (r : Rounds α) (env : Env α) (s s1 : DriverState α) (frag : Fragment α)
    (hi : iteration o r env s frag = (Status.ok, s1)) :
    ∃ dext bext,
      s1.trace = s.trace ++ head_events o s ++ dext ++
        (if o.num_threads != 0 && head_burned_out o s then [Event.proc_on_push (some frag)]
          else (process_fragment o r (head_burned_out o s) env s.lib s.solvable frag).trace ++
            [Event.proc_out_push
              (process_fragment o r (head_burned_out o s) env s.lib s.solvable frag).frag]) ++
        bext ∧
      s1.worker_trace = s.worker_trace ++
        (if o.num_threads != 0 && head_burned_out o s
          then (process_fragment o r (head_burned_out o s) env s.lib s.solvable frag).trace ++
            [Event.proc_out_push
              (process_fragment o r (head_burned_out o s) env s.lib s.solvable frag).frag]
          else []) ∧
      (∀ e ∈ dext, e = Event.test_and_push frag.name false) ∧
      (∀ e ∈ bext, ∃ n, e = Event.output_results n n) ∧
      s1.lib.n = s.lib.n + 1 ∧ s1.burned_out = head_burned_out o s ∧
      frag.num_hits ≠ 0 := by
  rcases iteration_cases o r env s frag with ⟨_, h⟩ | ⟨t1, st, t2, h1, h2, hne, h⟩ |
    ⟨t1, t2, st, t3, h1, h2, h3, hne, h⟩ | ⟨t1, t2, t3, h1, h2, h3, h⟩
  · rw [h] at hi; cases hi
  · rw [h] at hi; cases hi; exact absurd rfl hne
  · rw [h] at hi; cases hi; exact absurd rfl hne
  · rw [h] at hi
    cases hi
    obtain ⟨ht, hb, hl, hs, hw, _⟩ := loop_head_spec o s t1 h1
    obtain ⟨dext, hd, hdp⟩ := duplicate_check_ok_trace r env t1 t2 frag h2
    have hdw := duplicate_check_worker_trace r env t1 frag
    have hdb := duplicate_check_burned_out r env t1 frag
    have hdl := duplicate_check_lib r env t1 frag
    have hds := duplicate_check_solvable r env t1 frag
    rw [h2] at hdw hdb hdl hds
    dsimp only at hdw hdb hdl hds
    obtain ⟨h0, h3t, h3w⟩ := dispatch_ok_trace o r env t2 t3 frag h3
    rw [hdb, hdl, hds, hb, hl, hs] at h3t h3w
    have h3l := dispatch_lib o r env t2 frag
    have h3b := dispatch_burned_out o r env t2 frag
    rw [h3] at h3l h3b
    dsimp only at h3l h3b
    obtain ⟨bext, hbe, hbp⟩ := bookkeeping_output o r env t3
    refine ⟨dext, bext, by rw [hbe, h3t, hd, ht], by rw [bookkeeping_worker_trace, h3w, hdw, hw],
      hdp, fun e he => ⟨_, hbp e he⟩, ?_, ?_, h0⟩
    · rw [bookkeeping_lib_n, h3l, hdl, hl]
    · rw [bookkeeping_burned_out, h3b, hdb, hb]

/-- The observations and fixings of the head of an iteration: the fixing when
`lib.n == burn_out`. -/
theorem head_events_observations {α : Type} (o : Options) (s : DriverState α) :
    observations (head_events o s) =
      if s.lib.n = o.burn_out then [Observation.fix] else [] := by
  unfold head_events
  rw [observations_append, observations_append]
  have e1 : observations (if s.lib.n = o.burn_in then
      [Event.bias_update_start] ++ (if s.lib.mismatch_table then [Event.mm_activate] else [])
      else [] : List (Event α)) = [] := by
    apply observations_nil_of
    intro e he
    split at he
    · simp only [List.mem_append, List.mem_singleton] at he
      rcases he with h | h
      · subst h; rfl
      · split at h <;> simp at h; subst h; rfl
    · simp at he
  have e3 : observations (if (s.burned_out || decide (s.lib.n = o.burn_out)) &&
      o.num_threads != 0 && s.thread_pool == 0
      then List.replicate o.num_threads Event.spawn_worker else [] : List (Event α)) = [] := by
    apply observations_nil_of
    intro e he
    split at he
    · rw [List.mem_replicate] at he; rw [he.2]; rfl
    · simp at he
  rw [e1, e3]
  split <;> rfl

/-- The observations and fixings of the loop over the fragments, when it ends
normally, from a state in which `burned_out` tells whether `lib.n` has reached
`burn_out`: those expected on the driver thread and on the worker threads. -/
theorem driver_loop_observations {α : Type} [Zero α] [One α] [Add α] [Sub α] [Mul α]
    [NatCast α] (o : Options) (r : Rounds α) (env : Env α) (stream : List (Fragment α)) :
    ∀ s : DriverState α, head_burned_out o s = decide (o.burn_out ≤ s.lib.n) →
      (driver_loop o r env stream s).1 = Status.ok →
      ∃ ext wext, (driver_loop o r env stream s).2.trace = s.trace ++ ext ∧
        (driver_loop o r env stream s).2.worker_trace = s.worker_trace ++ wext ∧
        observations ext = expected_driver_observations o r.first_round
          s.lib.mismatch_table s.lib.bias_table s.lib.n stream ∧
        observations wext = expected_worker_observations o r.first_round
          s.lib.mismatch_table s.lib.bias_table s.lib.n stream := by
  induction stream with
  | nil =>
    intro s hb hok
    rcases final_iteration_trace o s with ⟨_, h1⟩ | ⟨_, ht, hw, _, _, _⟩
    · rw [driver_loop, h1] at hok; cases hok
    · refine ⟨_, [], by rw [driver_loop, ht, List.append_assoc],
        by rw [driver_loop, hw, List.append_nil], ?_, rfl⟩
      rw [observations_append, head_events_observations]
      have e : observations (if (o.num_threads != 0 && head_burned_out o s) = true
          then List.replicate (head_thread_pool o s) (Event.proc_on_push none)
          else [] : List (Event α)) = [] := by
        apply observations_nil_of
        intro e he
        split at he
        · rw [List.mem_replicate] at he; rw [he.2]; rfl
        · simp at he
      rw [e, List.append_nil]
      rfl
  | cons frag stream ih =>
    intro s hb hok
    obtain ⟨_, _, hc⟩ := head_steps_eq o s hb
    rcases hi : iteration o r env s frag with ⟨st, s1⟩
    by_cases hst : st = Status.ok
    · subst hst
      rw [driver_loop_cons_ok o r env frag stream s s1 hi] at hok ⊢
      obtain ⟨dext, bext, ht1, hw1, hdp, hbp, hn1, hb1, _⟩ :=
        iteration_ok_trace o r env s s1 frag hi
      have hf := iteration_frame o r env s frag
      rw [hi] at hf
      have hb2 : head_burned_out o s1 = decide (o.burn_out ≤ s1.lib.n) := by
        unfold head_burned_out
        rw [hb1, hb, hn1]
        by_cases h1 : o.burn_out ≤ s.lib.n
        · have h2 : o.burn_out ≤ s.lib.n + 1 := by omega
          simp [h1, h2]
        · by_cases h2 : s.lib.n + 1 = o.burn_out
          · have h3 : o.burn_out ≤ s.lib.n + 1 := by omega
            simp [h1, h2, h3]
          · have h3 : ¬ o.burn_out ≤ s.lib.n + 1 := by omega
            simp [h1, h2, h3]
      obtain ⟨ext2, wext2, ht2, hw2, ho2, hwo2⟩ := ih s1 hb2 hok
      have sd : observations dext = [] :=
        observations_nil_of _ (fun e he => by rw [hdp e he]; rfl)
      have sb : observations bext = [] :=
        observations_nil_of _ (fun e he => by obtain ⟨n, hn⟩ := hbp e he; rw [hn]; rfl)
      have spf := process_fragment_obs o r (head_burned_out o s) env s.lib s.solvable frag
      rw [hb] at spf
      have ho1 : observations (head_events o s ++ dext ++
          (if o.num_threads != 0 && head_burned_out o s then [Event.proc_on_push (some frag)]
            else (process_fragment o r (head_burned_out o s) env s.lib s.solvable frag).trace ++
              [Event.proc_out_push
                (process_fragment o r (head_burned_out o s) env s.lib s.solvable frag).frag]) ++
          bext) =
          (if s.lib.n = o.burn_out then [Observation.fix] else []) ++
          (if threaded o s.lib.n then []
            else fragment_observations o r.first_round (decide (o.burn_out ≤ s.lib.n))
              s.lib.mismatch_table s.lib.bias_table frag) := by
        rw [observations_append, observations_append, observations_append, sd, sb,
          head_events_observations, hc, List.append_nil, List.append_nil]
        congr 1
        by_cases hthr : threaded o s.lib.n = true
        · rw [if_pos hthr, if_pos hthr]; rfl
        · rw [if_neg hthr, if_neg hthr, observations_append, hb, spf]
          exact List.append_nil _
      have hwo1 : observations
          (if o.num_threads != 0 && head_burned_out o s
            then (process_fragment o r (head_burned_out o s) env s.lib s.solvable frag).trace ++
              [Event.proc_out_push
                (process_fragment o r (head_burned_out o s) env s.lib s.solvable frag).frag]
            else []) =
          (if threaded o s.lib.n
            then fragment_observations o r.first_round (decide (o.burn_out ≤ s.lib.n))
              s.lib.mismatch_table s.lib.bias_table frag
            else []) := by
        rw [hc]
        by_cases hthr : threaded o s.lib.n = true
        · rw [if_pos hthr, if_pos hthr, observations_append, hb, spf]
          exact List.append_nil _
        · rw [if_neg hthr, if_neg hthr]; rfl
      have hm1 : s1.lib.mismatch_table = s.lib.mismatch_table := hf.2.1
      have hbt1 : s1.lib.bias_table = s.lib.bias_table := hf.2.2.1
      refine ⟨head_events o s ++ dext ++
          (if o.num_threads != 0 && head_burned_out o s then [Event.proc_on_push (some frag)]
            else (process_fragment o r (head_burned_out o s) env s.lib s.solvable frag).trace ++
              [Event.proc_out_push
                (process_fragment o r (head_burned_out o s) env s.lib s.solvable frag).frag]) ++
          bext ++ ext2, _, by rw [ht2, ht1]; simp only [List.append_assoc],
        by rw [hw2, hw1, List.append_assoc], ?_, ?_⟩
      · rw [observations_append, ho1, ho2, hn1, hm1, hbt1, expected_driver_observations]
      · rw [observations_append, hwo1, hwo2, hn1, hm1, hbt1, expected_worker_observations]
    · rw [driver_loop_cons_fail o r env frag stream s s1 st hi hst] at hok
      exact absurd hok hst

/-- With a mismatch model, in the first round and with edit detection on,
`process_fragment` calls `update` on the mismatch model for a fragment with a
hit, whatever `burned_out` is. -/
theorem process_fragment_any_update {α : Type} [Zero α] [Add α] [Sub α]
    (o : Options) (r : Rounds α) (burned_out : Bool) (env : Env α)
    (lib : Library α) (solvable : Nat → Bool) (frag : Fragment α)
    (hed : o.edit_detect = true) (hfr : r.first_round = true)
    (hm : lib.mismatch_table = true) (h0 : frag.num_hits ≠ 0) :
    (process_fragment o r burned_out env lib solvable frag).trace.any Event.is_mm_update =
      true := by
  have h1 := (process_fragment_observations o r burned_out env lib solvable frag).1
  rw [hed, hfr, hm] at h1
  simp only [Bool.or_true, Bool.and_self, if_true] at h1
  have h2 := congrArg List.length (process_fragment_fields o r burned_out env lib solvable frag)
  simp only [List.length_map] at h2
  cases hh : (process_fragment o r burned_out env lib solvable frag).frag.hits with
  | nil =>
    rw [hh] at h2
    exact absurd h2.symm h0
  | cons hit hits =>
    rw [hh] at h1
    cases ht : (process_fragment o r burned_out env lib solvable frag).trace.filterMap
        Event.mm_update_args with
    | nil => rw [ht] at h1; simp at h1
    | cons a as =>
      have hmem : a ∈ (process_fragment o r burned_out env lib solvable frag).trace.filterMap
          Event.mm_update_args := by rw [ht]; exact List.mem_cons_self _ _
      obtain ⟨e, he, hea⟩ := List.mem_filterMap.mp hmem
      rw [List.any_eq_true]
      refine ⟨e, he, ?_⟩
      cases e <;> simp_all [Event.mm_update_args, Event.is_mm_update]

/-- With edit detection on, in the first round and without worker threads, an
`update` on the mismatch model follows the `fix()` of the driver in every loop
that ends normally and reaches `lib.n == burn_out` before its last
fragment. -/
theorem driver_loop_update_after_fix {α : Type} [Zero α] [One α] [Add α] [Sub α] [Mul α]
    [NatCast α] (o : Options) (r : Rounds α) (env : Env α)
    (hed : o.edit_detect = true) (hfr : r.first_round = true) (h0 : o.num_threads = 0)
    (stream : List (Fragment α)) :
    ∀ s : DriverState α, s.lib.mismatch_table = true → s.lib.n ≤ o.burn_out →
      o.burn_out - s.lib.n < stream.length →
      (driver_loop o r env stream s).1 = Status.ok →
      ∃ ext, (driver_loop o r env stream s).2.trace = s.trace ++ ext ∧
        update_after_fix ext = true := by
  induction stream with
  | nil => intro s _ _ hF _; simp at hF
  | cons frag stream ih =>
    intro s hm hn hF hok
    rcases hi : iteration o r env s frag with ⟨st, s1⟩
    by_cases hst : st = Status.ok
    · subst hst
      rw [driver_loop_cons_ok o r env frag stream s s1 hi] at hok ⊢
      obtain ⟨dext, bext, ht1, _, _, _, hn1, _, hh⟩ := iteration_ok_trace o r env s s1 frag hi
      have hthr : ¬ ((o.num_threads != 0 && head_burned_out o s) = true) := by simp [h0]
      rw [if_neg hthr] at ht1
      obtain ⟨ext2, ht2, hp2⟩ := driver_loop_trace_forall o r env (fun _ => True)
        (fun _ _ => trivial) (fun _ _ => trivial) stream (fun _ _ _ _ _ _ _ => trivial) s1
      by_cases hnb : s.lib.n = o.burn_out
      · refine ⟨_, by rw [ht2, ht1]; simp only [List.append_assoc]; rfl, ?_⟩
        have hfix : (head_events o s).any Event.is_mm_fix = true := by
          unfold head_events
          rw [if_pos hnb]
          simp [Event.is_mm_fix]
        have hup := process_fragment_any_update o r (head_burned_out o s) env s.lib s.solvable
          frag hed hfr hm hh
        rw [update_after_fix_append, hfix]
        simp only [List.any_append, hup, Bool.true_or, Bool.or_true, Bool.and_self]
      · have hf := iteration_frame o r env s frag
        rw [hi] at hf
        obtain ⟨ext3, ht3, hu3⟩ := ih s1 (by rw [hf.2.1]; exact hm) (by rw [hn1]; omega)
          (by rw [hn1]; simp only [List.length_cons] at hF; omega) hok
        refine ⟨_, by rw [ht3, ht1]; simp only [List.append_assoc]; rfl, ?_⟩
        rw [update_after_fix_append (head_events o s), update_after_fix_append dext]
        simp only [update_after_fix_append, hu3, Bool.or_true]
    · rw [driver_loop_cons_fail o r env frag stream s s1 st hi hst] at hok
      exact absurd hok hst

/-- When a pass over a library starts, `burned_out` tells whether `lib.n` has
reached `burn_out` (line 457), also after the head of the first iteration. -/
theorem lib_pass_start_burned_out {α : Type} (o : Options) (rs : RunState α)
    (lib : Library α) :
    head_burned_out o (lib_pass_start o rs lib) =
      decide (o.burn_out ≤ (lib_pass_start o rs lib).lib.n) := by
  show (decide (lib.n ≥ o.burn_out) || decide (lib.n = o.burn_out)) =
    decide (o.burn_out ≤ lib.n)
  by_cases h1 : o.burn_out ≤ lib.n
  · simp [h1]
  · have h2 : ¬ lib.n = o.burn_out := by omega
    simp [h1, h2]

/-- C5 (amended).  With edit detection off: `process_fragment` called with
`burned_out` set never calls `update` on the mismatch model, and in every pass
over a library no `update` on the mismatch model follows the `fix()` the
driver makes, neither on the driver thread nor on a worker thread.  With edit
detection on, in the first round: for a library with a mismatch model,
`process_fragment` called with `burned_out` set calls `update` on the mismatch
model once per hit, in order (the hits being those of the fragment, with the
probabilities left by mass propagation); and in every pass without worker
threads that ends normally and reaches `lib.n == burn_out` before its last
fragment, an `update` on the mismatch model does follow the `fix()` of the
driver. -/
theorem C5_no_update_after_fix {α : Type} [Zero α] [One α] [Add α] [Sub α] [Mul α] [NatCast α]
    (o : Options) (r : Rounds α) (env : Env α) :
    (o.edit_detect = false →
      (∀ (lib : Library α) (solvable : Nat → Bool) (frag : Fragment α),
        ∀ e ∈ (process_fragment o r true env lib solvable frag).trace,
          e.is_mm_update = false) ∧
      (∀ (s : RunState α) (lib : Library α), ∃ ext wext,
        (lib_pass o r env s lib).2.trace = s.trace ++ ext ∧
        (lib_pass o r env s lib).2.worker_trace = s.worker_trace ++ wext ∧
        update_after_fix ext = false ∧
        (∀ e ∈ wext, e.is_mm_update = false))) ∧
    (o.edit_detect = true → r.first_round = true →
      (∀ (lib : Library α) (solvable : Nat → Bool) (frag : Fragment α),
        lib.mismatch_table = true →
        (process_fragment o r true env lib solvable frag).trace.filterMap
            Event.mm_update_args =
          (process_fragment o r true env lib solvable frag).frag.hits.map
            (fun hit => (hit, hit.probability, lib.mass_n)) ∧
        (process_fragment o r true env lib solvable frag).frag.hits.map
            (fun hit => (hit.targ, hit.left, hit.right, hit.pair_status, hit.length)) =
          frag.hits.map
            (fun hit => (hit.targ, hit.left, hit.right, hit.pair_status, hit.length))) ∧
      (∀ (s : RunState α) (lib : Library α),
        o.num_threads = 0 → lib.mismatch_table = true → lib.n ≤ o.burn_out →
        o.burn_out - lib.n < lib.stream.length →
        (lib_pass o r env s lib).1 = Status.ok →
        ∃ ext, (lib_pass o r env s lib).2.trace = s.trace ++ ext ∧
          update_after_fix ext = true)) := by
  constructor
  · intro hed
    constructor
    · intro lib solvable frag e he
      cases hu : e.is_mm_update with
      | false => rfl
      | true =>
        rcases (process_fragment_mm_update o r true env lib solvable frag e he hu).2.1 with h | h
        · cases h
        · rw [hed] at h; cases h
    · intro s lib
      have h0 : fix_invariant s.trace s.worker_trace (lib_pass_start o s lib) :=
        ⟨[], [], by simp [lib_pass_start], by simp [lib_pass_start], rfl, by simp, by simp⟩
      obtain ⟨ext, wext, h1, h2, h3, _, h5⟩ :=
        driver_loop_invariant o hed r env s.trace s.worker_trace lib.stream _ h0
      exact ⟨ext, wext, h1, h2, h3, h5⟩
  · intro hed hfr
    constructor
    · intro lib solvable frag hm
      have h1 := (process_fragment_observations o r true env lib solvable frag).1
      rw [hed, hfr, hm] at h1
      exact ⟨by simpa using h1, process_fragment_fields o r true env lib solvable frag⟩
    · intro s lib h0 hm hn hF hok
      exact driver_loop_update_after_fix o r env hed hfr h0 lib.stream
        (lib_pass_start o s lib) hm hn hF hok

/-- C5 (amended) at thresholds 1 and 2 on a stream of three fragments, where
the driver does call `fix()`: with edit detection off no `update` follows it;
with edit detection on, in the first round, an `update` follows it, and a call
of `process_fragment` with `burned_out` set on a fragment with one hit makes
one call of `update`. -/
theorem C5_no_update_after_fix_witness :
    ex_options_short.edit_detect = false ∧
    (lib_pass ex_options_short ex_rounds ex_env RunState.init ex_lib3).2.trace.any
      Event.is_mm_fix = true ∧
    (∃ ext wext,
      (lib_pass ex_options_short ex_rounds ex_env RunState.init ex_lib3).2.trace =
        RunState.init.trace ++ ext ∧
      (lib_pass ex_options_short ex_rounds ex_env RunState.init ex_lib3).2.worker_trace =
        RunState.init.worker_trace ++ wext ∧
      update_after_fix ext = false ∧
      (∀ e ∈ wext, e.is_mm_update = false)) ∧
    ex_options_edit.edit_detect = true ∧ ex_rounds.first_round = true ∧
    ((process_fragment ex_options_edit ex_rounds true ex_env ex_lib (fun _ => false)
      ex_frag1).trace.filterMap Event.mm_update_args).length = 1 ∧
    (∃ ext,
      (lib_pass ex_options_edit ex_rounds ex_env RunState.init ex_lib3).2.trace =
        RunState.init.trace ++ ext ∧
      update_after_fix ext = true) :=
  have hoff := (C5_no_update_after_fix ex_options_short ex_rounds ex_env).1 rfl
  have hon := (C5_no_update_after_fix ex_options_edit ex_rounds ex_env).2 rfl rfl
  ⟨rfl, by decide, hoff.2 RunState.init ex_lib3, rfl, rfl,
    by rw [(hon.1 ex_lib (fun _ => false) ex_frag1 rfl).1]; rfl,
    hon.2 RunState.init ex_lib3 rfl rfl (by decide) (by decide)
      (lib_pass_ok ex_options_edit ex_rounds ex_env RunState.init ex_lib3 ex_lib3_well_formed)⟩

/-- C7 (amended): in a single-threaded pass over a library whose fragments
each have exactly one hit, whatever models the library carries and whatever
the round is, neither the driver nor `process_fragment` makes a scoring query
(no `log_likelihood` of the mismatch model, no `pmf` of the length model, no
`get_5_bias`, `get_3_bias` or `cached_effective_length`), and nothing runs on
a worker thread.  Observations are forwarded all the same.  In the first round
a call of `process_fragment` with `burned_out` false calls, for the hits of the
fragment in order (with the probabilities left by mass propagation): `update`
on the mismatch model once per hit when the library has one, `add_val` on the
length model once per PAIRED hit, `update_observed` on the bias model once per
hit when the library has one.  And when the pass ends normally, the
observations and the fixing in the trace of the driver thread are exactly
those of `expected_driver_observations`: for every fragment and every hit what
`hit_observations` lists, `burned_out` being `lib.n >= burn_out`. -/
theorem C7_single_hit_pass_no_scoring {α : Type} [Zero α] [One α] [Add α] [Sub α] [Mul α]
    [NatCast α] (o : Options) (r : Rounds α) (env : Env α) (s : RunState α)
    (lib : Library α) (h0 : o.num_threads = 0)
    (h1 : ∀ frag ∈ lib.stream, frag.num_hits = 1) :
    (∃ ext, (lib_pass o r env s lib).2.trace = s.trace ++ ext ∧
      (lib_pass o r env s lib).2.worker_trace = s.worker_trace ∧
      (∀ e ∈ ext, e.is_scoring = false) ∧
      ((lib_pass o r env s lib).1 = Status.ok →
        observations ext = expected_driver_observations o r.first_round
          lib.mismatch_table lib.bias_table lib.n lib.stream)) ∧
    (r.first_round = true →
      ∀ (lib1 : Library α) (solvable : Nat → Bool) (frag : Fragment α),
        (process_fragment o r false env lib1 solvable frag).trace.filterMap
            Event.mm_update_args =
          (if lib1.mismatch_table
            then (process_fragment o r false env lib1 solvable frag).frag.hits.map
              (fun hit => (hit, hit.probability, lib1.mass_n))
            else []) ∧
        (process_fragment o r false env lib1 solvable frag).trace.filterMap
            Event.add_val_args =
          ((process_fragment o r false env lib1 solvable frag).frag.hits.filter
              (fun hit => decide (hit.pair_status = PairStatus.PAIRED))).map
            (fun hit => (hit.length, hit.probability + lib1.mass_n)) ∧
        (process_fragment o r false env lib1 solvable frag).trace.filterMap
            Event.update_observed_args =
          (if lib1.bias_table
            then (process_fragment o r false env lib1 solvable frag).frag.hits.map
              (fun hit => (hit, hit.probability + lib1.mass_n))
            else []) ∧
        (process_fragment o r false env lib1 solvable frag).frag.hits.map
            (fun hit => (hit.targ, hit.left, hit.right, hit.pair_status, hit.length)) =
          frag.hits.map
            (fun hit => (hit.targ, hit.left, hit.right, hit.pair_status, hit.length))) := by
  constructor
  · obtain ⟨ext, ht, hp⟩ := driver_loop_trace_forall o r env (fun e => e.is_scoring = false)
      (fun e he => by cases e <;> simp_all [Event.is_head, Event.is_scoring])
      (fun e he => by cases e <;> simp_all [Event.is_plumbing, Event.is_scoring])
      lib.stream
      (fun frag hf b lib1 solvable e he =>
        single_hit_trace_no_scoring o r b env lib1 solvable frag (h1 frag hf) e he)
      (lib_pass_start o s lib)
    refine ⟨ext, ht, driver_loop_worker_trace o r env h0 lib.stream (lib_pass_start o s lib),
      hp, ?_⟩
    intro hok
    obtain ⟨ext1, _, ht1, _, ho1, _⟩ := driver_loop_observations o r env lib.stream
      (lib_pass_start o s lib) (lib_pass_start_burned_out o s lib) hok
    have he : ext = ext1 := by
      have h2 : (lib_pass_start o s lib).trace ++ ext =
          (lib_pass_start o s lib).trace ++ ext1 := by
        rw [← ht1]; exact ht.symm
      exact List.append_cancel_left h2
    rw [he, ho1]
    rfl
  · intro hfr lib1 solvable frag
    obtain ⟨a, b, c⟩ := process_fragment_observations o r false env lib1 solvable frag
    rw [hfr] at a b c
    refine ⟨?_, ?_, ?_, process_fragment_fields o r false env lib1 solvable frag⟩
    · rw [a]; cases lib1.mismatch_table <;> simp
    · rw [b]; simp
    · rw [c]; cases lib1.bias_table <;> simp

/-- C7 (amended) at three single-hit fragments on targets 0, 1 and 0, first
round, no worker thread, a library with all models: no scoring query, and for
each fragment `update`, `add_val` and `update_observed`. -/
theorem C7_single_hit_pass_no_scoring_witness :
    ex_options.num_threads = 0 ∧ (∀ frag ∈ ex_lib3.stream, frag.num_hits = 1) ∧
    ex_rounds.first_round = true ∧
    (lib_pass ex_options ex_rounds ex_env RunState.init ex_lib3).1 = Status.ok ∧
    (∃ ext, (lib_pass ex_options ex_rounds ex_env RunState.init ex_lib3).2.trace =
        RunState.init.trace ++ ext ∧
      (lib_pass ex_options ex_rounds ex_env RunState.init ex_lib3).2.worker_trace =
        RunState.init.worker_trace ∧
      (∀ e ∈ ext, e.is_scoring = false) ∧
      observations ext =
        [Observation.update 0, Observation.add_val 50, Observation.update_observed 0,
         Observation.update 1, Observation.add_val 50, Observation.update_observed 1,
         Observation.update 0, Observation.add_val 50, Observation.update_observed 0]) ∧
    ((process_fragment ex_options ex_rounds false ex_env ex_lib (fun _ => false)
      ex_frag1).trace.filterMap Event.mm_update_args).length = 1 :=
  have h := C7_single_hit_pass_no_scoring ex_options ex_rounds ex_env RunState.init ex_lib3
    rfl ex_lib3_single_hits
  have hok := lib_pass_ok ex_options ex_rounds ex_env RunState.init ex_lib3 ex_lib3_well_formed
  ⟨rfl, ex_lib3_single_hits, rfl, hok,
    match h.1 with
    | ⟨ext, ht, hw, hs, ho⟩ => ⟨ext, ht, hw, hs, by rw [ho hok]; decide⟩,
    by rw [(h.2 rfl ex_lib (fun _ => false) ex_frag1).1]; rfl⟩

/-- A magnitude with at most 53 significant bits is representable: rounding
leaves it unchanged. -/
theorem Dbl.nearest53_exact (m k : Nat) (hm : m < 2 ^ 53) :
    Dbl.nearest53 (m * 2 ^ k) = m * 2 ^ k := by
  unfold Dbl.nearest53
  split
  · rfl
  · rename_i h
    have ha : m * 2 ^ k ≠ 0 := by
      intro h0; rw [h0] at h; simp at h
    have hlt : Nat.log2 (m * 2 ^ k) < 53 + k := by
      rw [Nat.log2_lt ha, pow_add]
      exact Nat.mul_lt_mul_of_lt_of_le hm (le_refl _) (Nat.two_pow_pos k)
    have hs : Nat.log2 (m * 2 ^ k) - 52 ≤ k := by omega
    have hdvd : 2 ^ (Nat.log2 (m * 2 ^ k) - 52) ∣ m * 2 ^ k :=
      Dvd.dvd.mul_left (pow_dvd_pow 2 hs) m
    have hrest : m * 2 ^ k % 2 ^ (Nat.log2 (m * 2 ^ k) - 52) = 0 := Nat.mod_eq_zero_of_dvd hdvd
    have hhalf : 0 < 2 ^ (Nat.log2 (m * 2 ^ k) - 52 - 1) := Nat.two_pow_pos _
    simp only [hrest]
    rw [if_neg (by omega)]
    exact Nat.div_mul_cancel hdvd

/-- Rounding of a representable magnitude that does not overflow. -/
theorem Dbl.round_exact (m k : Nat) (hm : m < 2 ^ 53) (hk : k ≤ 2044) :
    Dbl.round ((m * 2 ^ k : Nat) : Int) = Dbl.fin ((m * 2 ^ k : Nat) : Int) ∧
    Dbl.round (-((m * 2 ^ k : Nat) : Int)) = Dbl.fin (-((m * 2 ^ k : Nat) : Int)) := by
  have hov : ¬ Dbl.overflow_units ≤ m * 2 ^ k := by
    have h1 : m * 2 ^ k < 2 ^ 53 * 2 ^ 2044 :=
      Nat.mul_lt_mul_of_lt_of_le hm (Nat.pow_le_pow_right (by norm_num) hk) (Nat.two_pow_pos _)
    have h2 : 2 ^ 53 * 2 ^ 2044 ≤ Dbl.overflow_units := by
      unfold Dbl.overflow_units; norm_num
    omega
  unfold Dbl.round
  constructor
  · rw [Int.natAbs_ofNat, if_neg hov, Dbl.nearest53_exact m k hm]
    congr 1
    rcases Nat.eq_zero_or_pos (m * 2 ^ k) with h | h
    · rw [h]; simp
    · rw [Int.sign_eq_one_of_pos (by exact_mod_cast h), one_mul]
  · rw [Int.natAbs_neg, Int.natAbs_ofNat, if_neg hov, Dbl.nearest53_exact m k hm]
    congr 1
    rcases Nat.eq_zero_or_pos (m * 2 ^ k) with h | h
    · rw [h]; simp
    · have hneg : -((m * 2 ^ k : Nat) : Int) < 0 := by
        have : (0 : Int) < ((m * 2 ^ k : Nat) : Int) := by exact_mod_cast h
        omega
      rw [Int.sign_eq_neg_one_of_neg hneg]
      simp

/-- The difference of two finite values is their rounded exact difference. -/
theorem Dbl.fin_sub_fin_round (a b : Int) :
    (Dbl.fin a - Dbl.fin b : Dbl) = Dbl.round (a - b) := by
  rw [Dbl.fin_sub_fin, Dbl.fin_add_fin, Int.sub_eq_add_neg]

/-- The product of two finite values is their rounded exact product. -/
theorem Dbl.fin_mul_fin (a b : Int) :
    (Dbl.fin a * Dbl.fin b : Dbl) = Dbl.round_scaled (a * b) 1074 := by
  show Dbl.mul (Dbl.fin a) (Dbl.fin b) = _
  rw [Dbl.mul]

/-- Rounding of `c * 2^t / 2^e` when `c` lies less than half a unit in the
last place above `q * 2^j`, `q` having 53 bits: the result is `q`, scaled. -/
theorem Dbl.nearest53_scaled_down (c t j q e : Nat) (hj : 1 ≤ j) (he : e ≤ t + j)
    (hq1 : 2 ^ 52 ≤ q) (hq2 : q < 2 ^ 53) (hlo : q * 2 ^ j ≤ c)
    (hhi : 2 * (c - q * 2 ^ j) < 2 ^ j) :
    Dbl.nearest53_scaled (c * 2 ^ t) e = q * 2 ^ (t + j - e) := by
  have hpos : 0 < 2 ^ t := Nat.two_pow_pos t
  have hjt : (2 : Nat) ^ (t + j) = 2 ^ j * 2 ^ t := by rw [pow_add, Nat.mul_comm]
  have hc2 : c < (q + 1) * 2 ^ j := by
    rw [Nat.add_mul]; omega
  have ha0 : c * 2 ^ t ≠ 0 := by
    have : 0 < c := lt_of_lt_of_le (Nat.mul_pos (lt_of_lt_of_le (Nat.two_pow_pos 52) hq1)
      (Nat.two_pow_pos j)) hlo
    exact Nat.mul_ne_zero (by omega) (by omega)
  have hlog : Nat.log2 (c * 2 ^ t) = t + j + 52 := by
    apply le_antisymm
    · rw [← Nat.lt_succ_iff, Nat.log2_lt ha0]
      calc c * 2 ^ t < (q + 1) * 2 ^ j * 2 ^ t := Nat.mul_lt_mul_of_pos_right hc2 hpos
        _ ≤ 2 ^ 53 * 2 ^ j * 2 ^ t := by
          apply Nat.mul_le_mul_right
          apply Nat.mul_le_mul_right
          omega
        _ = 2 ^ (t + j + 52).succ := by
          rw [Nat.succ_eq_add_one, show t + j + 52 + 1 = 53 + j + t by omega, pow_add, pow_add]
    · rw [Nat.le_log2 ha0]
      calc 2 ^ (t + j + 52) = 2 ^ 52 * 2 ^ j * 2 ^ t := by
            rw [show t + j + 52 = 52 + j + t by omega, pow_add, pow_add]
        _ ≤ q * 2 ^ j * 2 ^ t := by
          apply Nat.mul_le_mul_right
          apply Nat.mul_le_mul_right
          exact hq1
        _ ≤ c * 2 ^ t := Nat.mul_le_mul_right _ hlo
  have hs : max (Nat.log2 (c * 2 ^ t) - 52) e = t + j := by
    rw [hlog]; omega
  have hdecomp : c * 2 ^ t = (c - q * 2 ^ j) * 2 ^ t + q * 2 ^ (t + j) := by
    rw [hjt, ← Nat.mul_assoc, ← Nat.add_mul]
    congr 1
    omega
  have hrlt : (c - q * 2 ^ j) * 2 ^ t < 2 ^ (t + j) := by
    rw [hjt]
    apply Nat.mul_lt_mul_of_pos_right _ hpos
    omega
  have hq : c * 2 ^ t / 2 ^ (t + j) = q := by
    rw [hdecomp, Nat.add_mul_div_right _ _ (Nat.two_pow_pos _), Nat.div_eq_of_lt hrlt,
      Nat.zero_add]
  have hr : c * 2 ^ t % 2 ^ (t + j) = (c - q * 2 ^ j) * 2 ^ t := by
    rw [hdecomp, Nat.add_mul_mod_self_right, Nat.mod_eq_of_lt hrlt]
  have hhalf : (2 : Nat) ^ (t + j - 1) = 2 ^ (j - 1) * 2 ^ t := by
    rw [show t + j - 1 = (j - 1) + t by omega, pow_add]
  have hj2 : (2 : Nat) ^ j = 2 * 2 ^ (j - 1) := by
    rw [← pow_succ', show j - 1 + 1 = j by omega]
  have hrh : (c - q * 2 ^ j) * 2 ^ t < 2 ^ (j - 1) * 2 ^ t := by
    apply Nat.mul_lt_mul_of_pos_right _ hpos
    omega
  unfold Dbl.nearest53_scaled
  simp only [hs]
  rw [if_neg (by omega), hq, hr, hhalf, if_neg (by omega)]

/-- Conversion of an integer below `2^53` to `double` is exact. -/
theorem Dbl.cast_exact (n : Nat) (hn : n < 2 ^ 53) :
    ((n : Nat) : Dbl) = Dbl.fin ((n : Int) * 2 ^ 1074) := by
  show Dbl.of_nat n = _
  unfold Dbl.of_nat
  have e : ((n : Int) * 2 ^ 1074) = ((n * 2 ^ 1074 : Nat) : Int) := by push_cast; rfl
  rw [e]
  exact (Dbl.round_exact n 1074 hn (by norm_num)).1

/-- An exact difference of `m * 2^k` units, `m` having at most 53 bits, is
the result of the subtraction. -/
theorem Dbl.sub_exact (a b : Int) (m k : Nat) (hm : m < 2 ^ 53) (hk : k ≤ 2044)
    (h : a - b = ((m * 2 ^ k : Nat) : Int)) :
    (Dbl.fin a - Dbl.fin b : Dbl) = Dbl.fin ((m * 2 ^ k : Nat) : Int) := by
  rw [Dbl.fin_sub_fin_round, h]
  exact (Dbl.round_exact m k hm hk).1

/-- An exact difference of `-(m * 2^k)` units, `m` having at most 53 bits, is
the result of the subtraction. -/
theorem Dbl.sub_exact_neg (a b : Int) (m k : Nat) (hm : m < 2 ^ 53) (hk : k ≤ 2044)
    (h : a - b = -((m * 2 ^ k : Nat) : Int)) :
    (Dbl.fin a - Dbl.fin b : Dbl) = Dbl.fin (-((m * 2 ^ k : Nat) : Int)) := by
  rw [Dbl.fin_sub_fin_round, h]
  exact (Dbl.round_exact m k hm hk).2

/-- The product of two positive finite values whose exact product
`c * 2^t / 2^1074` lies less than half a unit in the last place above
`q * 2^j * 2^t / 2^1074`, `q` having 53 bits. -/
theorem Dbl.mul_down (a b : Int) (c t j q : Nat) (hab : a * b = ((c * 2 ^ t : Nat) : Int))
    (hj : 1 ≤ j) (he : 1074 ≤ t + j) (ht : t + j ≤ 3118)
    (hq1 : 2 ^ 52 ≤ q) (hq2 : q < 2 ^ 53) (hlo : q * 2 ^ j ≤ c)
    (hhi : 2 * (c - q * 2 ^ j) < 2 ^ j) :
    (Dbl.fin a * Dbl.fin b : Dbl) = Dbl.fin ((q * 2 ^ (t + j - 1074) : Nat) : Int) := by
  have hpos : 0 < c * 2 ^ t := by
    have : 0 < c := lt_of_lt_of_le (Nat.mul_pos (lt_of_lt_of_le (Nat.two_pow_pos 52) hq1)
      (Nat.two_pow_pos j)) hlo
    exact Nat.mul_pos this (Nat.two_pow_pos t)
  have hc2 : c < 2 ^ 53 * 2 ^ j := by
    have : c < (q + 1) * 2 ^ j := by rw [Nat.add_mul]; omega
    exact lt_of_lt_of_le this (Nat.mul_le_mul_right _ (by omega))
  have hov : ¬ Dbl.overflow_units * 2 ^ 1074 ≤ c * 2 ^ t := by
    have h1 : c * 2 ^ t < 2 ^ 53 * 2 ^ j * 2 ^ t :=
      Nat.mul_lt_mul_of_pos_right hc2 (Nat.two_pow_pos t)
    have h2 : 2 ^ 53 * 2 ^ j * 2 ^ t = 2 ^ (53 + (t + j)) := by
      rw [Nat.mul_assoc, ← pow_add, ← pow_add, Nat.add_comm j t]
    have h3 : (2 : Nat) ^ (53 + (t + j)) ≤ 2 ^ 3171 :=
      Nat.pow_le_pow_right (by norm_num) (by omega)
    have h4 : 2 ^ 3171 ≤ Dbl.overflow_units * 2 ^ 1074 := by
      unfold Dbl.overflow_units; norm_num
    omega
  rw [Dbl.fin_mul_fin, hab]
  unfold Dbl.round_scaled
  rw [Int.natAbs_ofNat, if_neg hov, Dbl.nearest53_scaled_down c t j q 1074 hj he hq1 hq2 hlo hhi,
    Int.sign_eq_one_of_pos (by exact_mod_cast hpos), one_mul]

/-- The increment of lines 533-534, spelled out. -/
theorem mass_increment_eq {α : Type} [One α] [Sub α] [Mul α] [NatCast α]
    (env : Env α) (ff : α) (n : Nat) :
    mass_increment env ff n = ff * env.log ((n : α) - 1) - env.log (env.pow (n : α) ff - 1) :=
  rfl

/-- The increment of lines 533-534 in `double` arithmetic for
`ff_param = 0.99999999999999` and `lib.n = 1000001`, with the values of the C
library for `log` and `pow`: the product `ff_param*log(1000000.0)` rounds to
`7777441025097554 * 2^(-49)`, one unit in the last place below
`log(pow(1000001.0, ff_param) - 1) = 7777441025097555 * 2^(-49)`, so that the
increment is `-2^(-49)`. -/
theorem libm_increment_eval :
    mass_increment libm_env libm_ff 1000001 = Dbl.fin (-(2 ^ 1025)) := by
  have hcast : ((1000001 : Nat) : Dbl) = Dbl.fin (1000001 * 2 ^ 1074) :=
    Dbl.cast_exact 1000001 (by norm_num)
  have hone : (1 : Dbl) = Dbl.fin (2 ^ 1074) := rfl
  have hsub1 : (Dbl.fin (1000001 * 2 ^ 1074) - Dbl.fin (2 ^ 1074) : Dbl) =
      Dbl.fin (1000000 * 2 ^ 1074) := by
    have e : ((1000000 * 2 ^ 1074 : Nat) : Int) = 1000000 * 2 ^ 1074 := by push_cast; ring
    rw [Dbl.sub_exact _ _ 1000000 1074 (by norm_num) (by norm_num) (by push_cast; ring), e]
  have hlog1 : libm_log (Dbl.fin (1000000 * 2 ^ 1074)) =
      Dbl.fin (7777441025097632 * 2 ^ 1025) := by
    rw [libm_log, if_pos rfl]
  have hmul : (libm_ff * Dbl.fin (7777441025097632 * 2 ^ 1025) : Dbl) =
      Dbl.fin (7777441025097554 * 2 ^ 1025) := by
    have e : ((7777441025097554 * 2 ^ (2046 + 53 - 1074) : Nat) : Int) =
        7777441025097554 * 2 ^ 1025 := by push_cast; ring
    unfold libm_ff
    rw [Dbl.mul_down _ _ (9007199254740902 * 7777441025097632) 2046 53 7777441025097554
      (by push_cast; ring) (by norm_num) (by norm_num) (by norm_num) (by norm_num)
      (by norm_num) (by norm_num) (by norm_num), e]
  have hpow : libm_pow (Dbl.fin (1000001 * 2 ^ 1074)) libm_ff =
      Dbl.fin (8589943181933406 * 2 ^ 1041) := by
    unfold libm_ff
    rw [libm_pow, if_pos ⟨rfl, rfl⟩]
  have hsub2 : (Dbl.fin (8589943181933406 * 2 ^ 1041) - Dbl.fin (2 ^ 1074) : Dbl) =
      Dbl.fin (8589934591998814 * 2 ^ 1041) := by
    have e : ((8589934591998814 * 2 ^ 1041 : Nat) : Int) = 8589934591998814 * 2 ^ 1041 := by
      push_cast; ring
    rw [Dbl.sub_exact _ _ 8589934591998814 1041 (by norm_num) (by norm_num)
      (by push_cast; ring), e]
  have hne : ¬ ((8589934591998814 * 2 ^ 1041 : Int) = 1000000 * 2 ^ 1074) := by norm_num
  have hlog2 : libm_log (Dbl.fin (8589934591998814 * 2 ^ 1041)) =
      Dbl.fin (7777441025097555 * 2 ^ 1025) := by
    rw [libm_log, if_neg hne, if_pos rfl]
  have hsub3 : (Dbl.fin (7777441025097554 * 2 ^ 1025) -
      Dbl.fin (7777441025097555 * 2 ^ 1025) : Dbl) = Dbl.fin (-(2 ^ 1025)) := by
    have e : (-((1 * 2 ^ 1025 : Nat) : Int)) = -(2 ^ 1025) := by push_cast; ring
    rw [Dbl.sub_exact_neg _ _ 1 1025 (by norm_num) (by norm_num) (by push_cast; ring), e]
  have hl : libm_env.log = libm_log := rfl
  have hp : libm_env.pow = libm_pow := rfl
  rw [mass_increment_eq, hl, hp, hcast, hone, hsub1, hlog1, hmul, hpow, hsub2, hlog2, hsub3]

/-- Adding that increment to a mass of 0 gives `-2^(-49)`. -/
theorem libm_mass_update_eval :
    (mass_update libm_env libm_ff libm_lib).mass_n = Dbl.fin (-(2 ^ 1025)) ∧
    (mass_update libm_env libm_ff libm_lib).n = 1000001 := by
  have hn : libm_lib.n + 1 = 1000001 := rfl
  have hm : libm_lib.mass_n = Dbl.fin 0 := rfl
  unfold mass_update
  dsimp only
  rw [hn, hm, libm_increment_eval, Dbl.fin_add_fin, Int.zero_add]
  have h := (Dbl.round_exact 1 1025 (by norm_num) (by norm_num)).2
  have e : (-((1 * 2 ^ 1025 : Nat) : Int)) = -(2 ^ 1025) := by push_cast; ring
  rw [e] at h
  exact ⟨h, rfl⟩

/-- Comparison of finite values. -/
theorem Dbl.lt_fin (a b : Int) : Dbl.lt (Dbl.fin a) (Dbl.fin b) = decide (a < b) := rfl

/-- The forgetting factor `0.99999999999999` lies strictly between `0.5` and
`1.0`, and is accepted by the test of line 201 of `parse_options`. -/
theorem libm_ff_range :
    Dbl.lt (Dbl.fin (2 ^ 1073)) libm_ff = true ∧ Dbl.lt libm_ff 1 = true := by
  have h1 : (1 : Dbl) = Dbl.fin (2 ^ 1074) := rfl
  unfold libm_ff
  rw [h1, Dbl.lt_fin, Dbl.lt_fin]
  exact ⟨decide_eq_true (by norm_num), decide_eq_true (by norm_num)⟩

/-- The increment computed in `double` arithmetic for `0.99999999999999` and
`lib.n = 1000001` is negative. -/
theorem libm_increment_neg :
    Dbl.lt (mass_increment libm_env libm_ff 1000001) 0 = true := by
  have h0 : (0 : Dbl) = Dbl.fin 0 := rfl
  rw [libm_increment_eval, h0, Dbl.lt_fin]
  exact decide_eq_true (by norm_num)

/-- The bookkeeping of an iteration updates the library by `mass_update`. -/
theorem bookkeeping_lib {α : Type} [One α] [Add α] [Sub α] [Mul α] [NatCast α]
    (o : Options) (r : Rounds α) (env : Env α) (s : DriverState α) :
    (bookkeeping o r env s).lib = mass_update env r.ff_param s.lib := by
  unfold bookkeeping DriverState.emit
  dsimp only
  split <;> rfl

/-- C4 (amended).  In exact real arithmetic, for `0.5 < ff < 1` and every
incremented count `n >= 2` (the count starts at 1 and is incremented before
the update), the arguments `n - 1` and `n^ff - 1` of the logarithms are
positive, the increment `ff*log(n-1) - log(n^ff - 1)` of lines 533-534 is
positive, and so the step of the driver loop that follows the dispatch of a
fragment would strictly increase `lib.mass_n`, for the first fragment as for
the others.  The code computes in `double` arithmetic, where this does not
carry over: there are a forgetting factor strictly between `0.5` and `1.0` and
a count `n >= 2` for which the computed increment is negative, the roundings
outweighing the exact increment. -/
theorem C4_mass_strictly_increases (env : Env ℝ) (ff : ℝ) (h1 : 1 / 2 < ff) (h2 : ff < 1)
    (n : Nat) (hn : 2 ≤ n) :
    0 < (n : ℝ) - 1 ∧ 0 < (n : ℝ) ^ ff - 1 ∧
    0 < mass_increment (env.with_libm Real.log (fun x y => x ^ y)) ff n ∧
    (∀ (o : Options) (r : Rounds ℝ) (s : DriverState ℝ),
      r.ff_param = ff → s.lib.n + 1 = n →
      s.lib.mass_n <
        (bookkeeping o r (env.with_libm Real.log (fun x y => x ^ y)) s).lib.mass_n ∧
      (bookkeeping o r (env.with_libm Real.log (fun x y => x ^ y)) s).lib.n = n) ∧
    (∃ (ffd : Dbl) (m : Nat),
      Dbl.lt (Dbl.fin (2 ^ 1073)) ffd = true ∧ Dbl.lt ffd 1 = true ∧ 2 ≤ m ∧
      Dbl.lt (mass_increment libm_env ffd m) 0 = true) := by
  obtain ⟨a, b, c⟩ := mass_increment_pos env ff (by linarith) h2 n hn
  refine ⟨a, b, c, ?_, ⟨libm_ff, 1000001, libm_ff_range.1, libm_ff_range.2, by norm_num,
    libm_increment_neg⟩⟩
  intro o r s hr hs
  rw [bookkeeping_lib, hr]
  unfold mass_update
  dsimp only
  rw [hs]
  exact ⟨by linarith, rfl⟩

/-- C4 (amended) at `ff = 0.85` and the first fragment of a library (`n = 2`
after the increment), in exact real arithmetic. -/
theorem C4_mass_strictly_increases_witness :
    (1 / 2 : ℝ) < 17 / 20 ∧ (17 / 20 : ℝ) < 1 ∧ 2 ≤ 2 ∧
    0 < mass_increment ((Env.const (0 : ℝ)).with_libm Real.log (fun x y => x ^ y))
      (17 / 20) 2 ∧
    (lib_pass_start ex_options RunState.init (Library.start (0 : ℝ) true true [])).lib.mass_n <
      (bookkeeping ex_options (parse_options_rounds (17 / 20) false false 0 true)
        ((Env.const (0 : ℝ)).with_libm Real.log (fun x y => x ^ y))
        (lib_pass_start ex_options RunState.init
          (Library.start (0 : ℝ) true true []))).lib.mass_n :=
  have h := C4_mass_strictly_increases (Env.const (0 : ℝ)) (17 / 20) (by norm_num)
    (by norm_num) 2 (le_refl 2)
  ⟨by norm_num, by norm_num, le_refl 2, h.2.2.1,
    (h.2.2.2.1 ex_options (parse_options_rounds (17 / 20) false false 0 true)
      (lib_pass_start ex_options RunState.init (Library.start (0 : ℝ) true true []))
      rfl rfl).1⟩

/-- C4 as stated fails in the arithmetic of the code.  With the forgetting
factor `0.99999999999999`, strictly between `0.5` and `1.0`, a library that
has counted a million fragments and the values of the C library for `log` and
`pow`, the update of lines 531-534 computes the increment `-2^(-49)` for
`lib.n = 1000001`: it is negative, and `lib.mass_n` decreases, from `0` to
`-2^(-49)`, in the step of the driver loop that follows the dispatch of a
fragment. -/
theorem C4_double_counterexample :
    Dbl.lt (Dbl.fin (2 ^ 1073)) libm_ff = true ∧ Dbl.lt libm_ff 1 = true ∧
    2 ≤ libm_lib.n + 1 ∧
    mass_increment libm_env libm_ff (libm_lib.n + 1) = Dbl.fin (-(2 ^ 1025)) ∧
    Dbl.lt (mass_increment libm_env libm_ff (libm_lib.n + 1)) 0 = true ∧
    (bookkeeping ex_options (parse_options_rounds libm_ff false false 0 true) libm_env
      (lib_pass_start ex_options RunState.init libm_lib)).lib.n = 1000001 ∧
    Dbl.lt
      (bookkeeping ex_options (parse_options_rounds libm_ff false false 0 true) libm_env
        (lib_pass_start ex_options RunState.init libm_lib)).lib.mass_n
      (lib_pass_start ex_options RunState.init libm_lib).lib.mass_n = true := by
  have hn : libm_lib.n + 1 = 1000001 := rfl
  have hl : (lib_pass_start ex_options RunState.init libm_lib).lib = libm_lib := rfl
  have hf : (parse_options_rounds libm_ff false false 0 true).ff_param = libm_ff := rfl
  have hm : libm_lib.mass_n = Dbl.fin 0 := rfl
  rw [hn, bookkeeping_lib, hl, hf, libm_mass_update_eval.1, libm_mass_update_eval.2, hm,
    Dbl.lt_fin]
  exact ⟨libm_ff_range.1, libm_ff_range.2, by norm_num, libm_increment_eval,
    libm_increment_neg, rfl, decide_eq_true (by norm_num)⟩

end Express
